import Mathlib

/-! # honk: federation core

A shallow embedding of parts of the honk ActivityPub server and of the
vendored `httpsig` package, with theorems about them.

Conventions of the embedding.

* A Go `string` and a Go `[]byte` are both a Lean `String`; one `Char` stands
  for one byte (for one rune where the source uses a regular expression).
* A Go `error` is an `Option String`: `none` is `nil`, `some msg` is an error
  whose `Error()` text is `msg`.
* Functions of the Go standard library and of third-party packages (hashes,
  base64, signature primitives, time parsing and formatting) are fields of the
  structure `Lib`; the code of the repository is translated on top of them.
* The clock (`time.Now()`) is an explicit argument `now`, in nanoseconds.
-/

namespace HonkCore

/-! ## Go `strings` helpers -/

/-- List level `strings.Split` for a one-character separator. -/
def splitL (sep : Char) : List Char → List (List Char)
  | [] => [[]]
  | c :: cs =>
    if c = sep then [] :: splitL sep cs
    else match splitL sep cs with
      | [] => [[c]]
      | p :: ps => (c :: p) :: ps

/-- Go `strings.Split(s, sep)` for a one-character separator `sep`. -/
def Split (s : String) (sep : Char) : List String :=
  (splitL sep s.data).map String.mk

/-- List level `strings.Cut` for a one-character separator: the text before
and after the first occurrence of `sep`, or `none` when there is none. -/
def cutL (sep : Char) : List Char → Option (List Char × List Char)
  | [] => none
  | c :: cs =>
    if c = sep then some ([], cs)
    else match cutL sep cs with
      | none => none
      | some (a, b) => some (c :: a, b)

/-- Go `strings.Cut(s, sep)` for a one-character separator; `none` stands for
`found = false`. -/
def Cut (s : String) (sep : Char) : Option (String × String) :=
  match cutL sep s.data with
  | none => none
  | some (a, b) => some (String.mk a, String.mk b)

/-- Go `strings.HasPrefix`. -/
def HasPrefix (s pre : String) : Bool := pre.data.isPrefixOf s.data

/-- Go `strings.HasSuffix`. -/
def HasSuffix (s suf : String) : Bool := suf.data.isSuffixOf s.data

/-- Go `strings.TrimPrefix`. -/
def TrimPrefix (s pre : String) : String :=
  if HasPrefix s pre then String.mk (s.data.drop pre.data.length) else s

/-- Go `strings.TrimSuffix`. -/
def TrimSuffix (s suf : String) : String :=
  if HasSuffix s suf then String.mk (s.data.take (s.data.length - suf.data.length)) else s

/-- Go `strings.Join`. -/
def Join : List String → String → String
  | [], _ => ""
  | [a], _ => a
  | a :: b :: rest, sep => a ++ sep ++ Join (b :: rest) sep

/-- Go `strings.ToLower`, on ASCII letters; a letter outside ASCII, which Go
lowers too, is left as it is. -/
def ToLower (s : String) : String := String.mk (s.data.map Char.toLower)

/-- Go `strings.Contains`. -/
def Contains (s sub : String) : Bool :=
  s.data.tails.any fun t => sub.data.isPrefixOf t

/-! ## Package `httpsig` -/

namespace httpsig

/-- Go `KeyType`. -/
inductive KeyType
  | None
  | RSA
  | Ed25519
  deriving DecidableEq, Repr

/-- Go `PublicKey` (field `Typ` is Go's `Type`); the key material is a number. -/
structure PublicKey where
  Typ : KeyType
  Key : Nat
  deriving DecidableEq, Repr

/-- Go `PrivateKey` (field `Typ` is Go's `Type`); the key material is a number. -/
structure PrivateKey where
  Typ : KeyType
  Key : Nat
  deriving DecidableEq, Repr

/-- The library functions `httpsig` calls: `crypto/sha256`, `crypto/sha512`,
`encoding/base64` (as used by `sb64` and `b64s`), `crypto/rsa` with SHA-256
PKCS1v15, `ed25519`, and `time` with `http.TimeFormat`. Times are in
nanoseconds. -/
structure Lib where
  sha256 : String → String
  sha512 : String → String
  sb64 : String → String
  b64s : String → String
  rsaSign : Nat → String → String
  rsaVerify : Nat → String → String → Option String
  edSign : Nat → String → String
  edVerify : Nat → String → String → Bool
  timeFormat : Int → String
  timeParse : String → Except String Int

/-- Go `PublicKey.Verify`. -/
def PublicKey.Verify (L : Lib) (pubkey : PublicKey) (msg sig : String) : Option String :=
  match pubkey.Typ with
  | KeyType.RSA => L.rsaVerify pubkey.Key msg sig
  | KeyType.Ed25519 =>
    if L.edVerify pubkey.Key msg sig then none else some "verification failed"
  | KeyType.None => some "unknown key type"

/-- Go `PrivateKey.Sign`; `none` is the panic on an unknown key type. -/
def PrivateKey.Sign (L : Lib) (privkey : PrivateKey) (msg : String) : Option String :=
  match privkey.Typ with
  | KeyType.RSA => some (L.rsaSign privkey.Key msg)
  | KeyType.Ed25519 => some (L.edSign privkey.Key msg)
  | KeyType.None => none

/-- Go `Options`. -/
structure Options where
  CheckTime : Bool
  Headers : List String
  deriving DecidableEq, Repr

/-- Go `sb64sha256`. -/
def sb64sha256 (L : Lib) (content : String) : String := L.sb64 (L.sha256 content)

/-- Go `sb64sha512`. -/
def sb64sha512 (L : Lib) (content : String) : String := L.sb64 (L.sha512 content)

/-- Go `http.Header`: the value `Get` returns for each lower-cased field name,
the empty string for an absent field. -/
abbrev Header := String → String

/-- Go `Header.Get`; field names are case-insensitive. -/
def Header.Get (hd : Header) (key : String) : String := hd (ToLower key)

/-- Go `Header.Set`. -/
def Header.Set (hd : Header) (key val : String) : Header :=
  fun k => if k = ToLower key then val else hd k

/-- The parts of Go `url.URL` that `httpsig` reads, each the result of the
method or field of that name (`Full` is the method `String()`). -/
structure URL where
  RequestURI : String
  Hostname : String
  Full : String
  Scheme : String
  Path : String
  RawQuery : String

/-- Go `http.Request`, as far as `httpsig` reads and writes it. -/
structure Request where
  Method : String
  URL : URL
  Host : String
  Header : Header

/-- One case of the `switch` in `signRequest`: the request after any header
has been set, and the value `s` that is signed for header `h`. -/
def signHeader (L : Lib) (now : Int) (content : String) (req : Request) (h : String) :
    Request × String :=
  if h = "(request-target)" then
    (req, ToLower req.Method ++ " " ++ req.URL.RequestURI)
  else if h = "date" then
    let s := req.Header.Get h
    if s = "" then
      let s := L.timeFormat now
      ({ req with Header := req.Header.Set h s }, s)
    else (req, s)
  else if h = "host" then
    let s := req.Header.Get h
    if s = "" then
      let s := req.URL.Hostname
      ({ req with Header := req.Header.Set h s }, s)
    else (req, s)
  else if h = "content-type" then
    (req, req.Header.Get h)
  else if h = "digest" then
    let s := req.Header.Get h
    if s = "" then
      let s := "SHA-256=" ++ sb64sha256 L content
      ({ req with Header := req.Header.Set h s }, s)
    else (req, s)
  else (req, "")

/-- The loop over `opts.Headers` in `signRequest`. -/
def signLoop (L : Lib) (now : Int) (content : String) :
    List String → Request → List String → Request × List String
  | [], req, stuff => (req, stuff)
  | h :: hs, req, stuff =>
    let r := signHeader L now content req h
    signLoop L now content hs r.1 (stuff ++ [h ++ ": " ++ r.2])

/-- Go `signRequest`; `none` is the panic of `Sign`. -/
def signRequest (L : Lib) (now : Int) (opts : Options) (keyname : String) (key : PrivateKey)
    (req : Request) (content : String) : Option Request :=
  let r := signLoop L now content opts.Headers req []
  let req := r.1
  let what := Join r.2 "\n"
  let algo := if key.Typ = KeyType.RSA then "rsa-sha256" else "hs2019"
  let what := if key.Typ = KeyType.RSA then L.sha256 what else what
  match key.Sign L what with
  | none => none
  | some sig =>
    let bsig := L.sb64 sig
    let sighdr := "keyId=\"" ++ keyname ++ "\",algorithm=\"" ++ algo ++ "\",headers=\""
      ++ Join opts.Headers " " ++ "\",signature=\"" ++ bsig ++ "\""
    some { req with Header := req.Header.Set "Signature" sighdr }

/-- The header list `SignRequest` chooses. -/
def signHeaders (req : Request) : List String :=
  if ToLower req.Method ≠ "get" then
    ["(request-target)", "date", "host"] ++ ["content-type", "digest"]
  else ["(request-target)", "date", "host"]

/-- Go `SignRequest`. -/
def SignRequest (L : Lib) (now : Int) (keyname : String) (key : PrivateKey)
    (req : Request) (content : String) : Option Request :=
  signRequest L now { CheckTime := false, Headers := signHeaders req } keyname key req content

/-- Go `time.Minute`, in nanoseconds. -/
def Minute : Int := 60 * 1000000000

/-- The four values `verifyDraft` scans from the `Signature` header. -/
structure DraftFields where
  keyname : String
  algo : String
  heads : String
  bsig : String
  deriving DecidableEq, Repr

/-- The loop of `verifyDraft` over `strings.Split(sighdr, ",")`. -/
def draftScan (sighdr : String) : List String → DraftFields → Except String DraftFields
  | [], f => Except.ok f
  | v :: vs, f =>
    match Cut v '=' with
    | none => Except.error ("bad scan: " ++ v ++ " from " ++ sighdr)
    | some (name, val) =>
      let val := TrimSuffix (TrimPrefix val "\"") "\""
      if name = "keyId" then draftScan sighdr vs { f with keyname := val }
      else if name = "algorithm" then draftScan sighdr vs { f with algo := val }
      else if name = "headers" then draftScan sighdr vs { f with heads := val }
      else if name = "signature" then draftScan sighdr vs { f with bsig := val }
      else Except.error ("bad sig val: " ++ name ++ " from " ++ sighdr)

/-- One case of the `switch` in the header loop of `verifyDraft`: the value
`s` for header `h`, or the error the loop returns with. -/
def draftHeader (L : Lib) (now : Int) (req : Request) (content : String) (h : String) :
    Except String String :=
  if h = "(request-target)" then
    Except.ok (ToLower req.Method ++ " " ++ req.URL.RequestURI)
  else if h = "host" then
    if req.Host = "" then Except.error "httpsig: no host header value"
    else Except.ok req.Host
  else if h = "digest" then
    let s := req.Header.Get h
    let expv := "SHA-256=" ++ sb64sha256 L content
    if s ≠ expv then Except.error ("digest header '" ++ s ++ "' did not match content")
    else Except.ok s
  else if h = "date" then
    let s := req.Header.Get h
    match L.timeParse s with
    | Except.error e => Except.error ("error parsing date header: " ++ e)
    | Except.ok d =>
      if d < now + (-30) * Minute ∨ d > now + 30 * Minute then
        Except.error ("date header '" ++ s ++ "' out of range")
      else Except.ok s
  else Except.ok (req.Header.Get h)

/-- The header loop of `verifyDraft`: `opts.Headers` and `stuff` after it, or
the error it returns with. -/
def draftLoop (L : Lib) (now : Int) (req : Request) (content : String) :
    List String → List String → List String → Except String (List String × List String)
  | [], hdrs, stuff => Except.ok (hdrs, stuff)
  | h :: hs, hdrs, stuff =>
    match draftHeader L now req content h with
    | Except.error e => Except.error e
    | Except.ok s => draftLoop L now req content hs (hdrs ++ [h]) (stuff ++ [h ++ ": " ++ s])

/-- Go `verifyDraft`. The result is `opts` after the call, the key name and the
error. On an error return `opts` is given back as it came in: `VerifyRequest`
reads it only when the error is `nil`. -/
def verifyDraft (L : Lib) (now : Int) (opts : Options) (req : Request) (content : String)
    (lookupPubkey : String → PublicKey × Option String) : Options × String × Option String :=
  let sighdr := req.Header.Get "Signature"
  if sighdr = "" then (opts, "", some "no signature header")
  else
    match draftScan sighdr (Split sighdr ',') ⟨"", "", "", ""⟩ with
    | Except.error e => (opts, "", some e)
    | Except.ok f =>
      if f.keyname = "" ∨ f.algo = "" ∨ f.heads = "" ∨ f.bsig = "" then
        (opts, "", some "missing a sig value")
      else
        match lookupPubkey f.keyname with
        | (_, some err) => (opts, f.keyname, some err)
        | (key, none) =>
          if key.Typ = KeyType.None then
            (opts, f.keyname, some ("no key for " ++ f.keyname))
          else
            match draftLoop L now req content (Split f.heads ' ') opts.Headers [] with
            | Except.error e => (opts, "", some e)
            | Except.ok (hdrs, stuff) =>
              let what := L.sha256 (Join stuff "\n")
              let sig := L.b64s f.bsig
              match key.Verify L what sig with
              | some err => ({ opts with Headers := hdrs }, f.keyname, some err)
              | none => ({ opts with Headers := hdrs }, f.keyname, none)

/-- The values `verifyRFC` scans from the `Signature-Input` header. -/
structure RFCFields where
  signame : String
  heads : String
  keyname : String
  sigparams : List String
  deriving DecidableEq, Repr

/-- The loop of `verifyRFC` over `strings.Split(siginput, ";")`. -/
def rfcScan (sighdr : String) : List String → RFCFields → Except String RFCFields
  | [], f => Except.ok f
  | v :: vs, f =>
    match Cut v '=' with
    | none => Except.error ("bad scan: " ++ v ++ " from " ++ sighdr)
    | some (name, val) =>
      let val := TrimSuffix (TrimPrefix val "\"") "\""
      if name = "keyid" then
        rfcScan sighdr vs { f with keyname := val, sigparams := f.sigparams ++ [v] }
      else if name = "alg" ∨ name = "created" ∨ name = "expires" then
        rfcScan sighdr vs { f with sigparams := f.sigparams ++ [v] }
      else
        rfcScan sighdr vs { f with signame := name, heads := val,
                                   sigparams := f.sigparams ++ [val] }

/-- One case of the `switch` in the header loop of `verifyRFC`, for a header
name `h` already stripped of its quotes. -/
def rfcHeader (L : Lib) (now : Int) (opts : Options) (req : Request) (content : String)
    (h : String) : Except String String :=
  if h = "@method" then Except.ok req.Method
  else if h = "@target-uri" then Except.ok req.URL.Full
  else if h = "@authority" then
    if req.Host = "" then Except.error "httpsig: no host header value"
    else Except.ok req.Host
  else if h = "@scheme" then Except.ok req.URL.Scheme
  else if h = "@request-target" then Except.ok req.URL.RequestURI
  else if h = "@path" then Except.ok req.URL.Path
  else if h = "@query" then Except.ok req.URL.RawQuery
  else if h = "content-digest" then
    let s := req.Header.Get h
    let expect :=
      if HasPrefix s "sha-512" then "sha-512=:" ++ sb64sha512 L content ++ ":"
      else if HasPrefix s "sha-512" then "sha-256=:" ++ sb64sha256 L content ++ ":"
      else ""
    if s ≠ expect then Except.error ("digest header '" ++ s ++ "' did not match content")
    else Except.ok s
  else if h = "digest" then
    let s := req.Header.Get h
    let expv := "SHA-256=" ++ sb64sha256 L content
    if s ≠ expv then Except.error ("digest header '" ++ s ++ "' did not match content")
    else Except.ok s
  else if h = "date" then
    let s := req.Header.Get h
    match L.timeParse s with
    | Except.error e => Except.error ("error parsing date header: " ++ e)
    | Except.ok d =>
      if opts.CheckTime ∧ (d < now + (-30) * Minute ∨ d > now + 30 * Minute) then
        Except.error ("date header '" ++ s ++ "' out of range")
      else Except.ok s
  else Except.ok (req.Header.Get h)

/-- The header loop of `verifyRFC`. -/
def rfcLoop (L : Lib) (now : Int) (opts : Options) (req : Request) (content : String) :
    List String → List String → List String → Except String (List String × List String)
  | [], hdrs, stuff => Except.ok (hdrs, stuff)
  | h :: hs, hdrs, stuff =>
    let h := TrimSuffix (TrimPrefix h "\"") "\""
    match rfcHeader L now opts req content h with
    | Except.error e => Except.error e
    | Except.ok s =>
      rfcLoop L now opts req content hs (hdrs ++ [h]) (stuff ++ ["\"" ++ h ++ "\": " ++ s])

/-- Go `verifyRFC`; the result is read as for `verifyDraft`. -/
def verifyRFC (L : Lib) (now : Int) (opts : Options) (req : Request) (content : String)
    (lookupPubkey : String → PublicKey × Option String) : Options × String × Option String :=
  let siginput := req.Header.Get "Signature-Input"
  if siginput = "" then (opts, "", some "no signature-input header")
  else
    let sighdr := req.Header.Get "Signature"
    if sighdr = "" then (opts, "", some "no signature header")
    else
      match rfcScan sighdr (Split siginput ';') ⟨"", "", "", []⟩ with
      | Except.error e => (opts, "", some e)
      | Except.ok f =>
        if f.signame = "" ∨ f.keyname = "" then (opts, "", some "missing a sig value")
        else if ¬ HasPrefix sighdr f.signame then
          (opts, "", some ("bad signature header " ++ sighdr ++ " <> " ++ f.signame))
        else
          let bsig := TrimSuffix (TrimPrefix (TrimPrefix sighdr (f.signame ++ "=")) ":") ":"
          match lookupPubkey f.keyname with
          | (_, some err) => (opts, f.keyname, some err)
          | (key, none) =>
            if key.Typ = KeyType.None then
              (opts, f.keyname, some ("no key for " ++ f.keyname))
            else
              let heads := TrimSuffix (TrimPrefix f.heads "(") ")"
              match rfcLoop L now opts req content (Split heads ' ') opts.Headers [] with
              | Except.error e => (opts, "", some e)
              | Except.ok (hdrs, stuff) =>
                let stuff := stuff ++ ["\"@signature-params\": " ++ Join f.sigparams ";"]
                let what := Join stuff "\n"
                let what := if key.Typ = KeyType.RSA then L.sha256 what else what
                let sig := L.b64s bsig
                match key.Verify L what sig with
                | some err => ({ opts with Headers := hdrs }, f.keyname, some err)
                | none => ({ opts with Headers := hdrs }, f.keyname, none)

/-- Go `verifyRequest`. -/
def verifyRequest (L : Lib) (now : Int) (opts : Options) (req : Request) (content : String)
    (lookupPubkey : String → PublicKey × Option String) : Options × String × Option String :=
  let siginput := req.Header.Get "Signature-Input"
  if siginput ≠ "" then verifyRFC L now opts req content lookupPubkey
  else verifyDraft L now opts req content lookupPubkey

/-- The four flags `VerifyRequest` computes from the covered headers. -/
structure Covered where
  digest : Bool
  host : Bool
  date : Bool
  target : Bool
  deriving DecidableEq, Repr

/-- The loop of `VerifyRequest` over `opts.Headers`. -/
def coverLoop : List String → Covered → Covered
  | [], c => c
  | h :: hs, c =>
    if h = "date" then coverLoop hs { c with date := true }
    else if h = "@authority" ∨ h = "host" then coverLoop hs { c with host := true }
    else if h = "digest" ∨ h = "content-digest" then coverLoop hs { c with digest := true }
    else if h = "@target-uri" ∨ h = "@request-target" ∨ h = "@path" ∨ h = "(request-target)" then
      coverLoop hs { c with target := true }
    else coverLoop hs c

/-- The list `missing` that `VerifyRequest` builds from the flags. -/
def missingOf (c : Covered) : List String :=
  (if ¬ c.digest then ["digest"] else []) ++
  (if ¬ c.host then ["host"] else []) ++
  (if ¬ c.date then ["date"] else []) ++
  (if ¬ c.target then ["(request-target)"] else [])

/-- Go `VerifyRequest`: the key name and the error. -/
def VerifyRequest (L : Lib) (now : Int) (req : Request) (content : String)
    (lookupPubkey : String → PublicKey × Option String) : String × Option String :=
  let opts : Options := { CheckTime := false, Headers := [] }
  match verifyRequest L now opts req content lookupPubkey with
  | (opts, keyname, none) =>
    let c := coverLoop opts.Headers
      { digest := decide (ToLower req.Method = "get"), host := false, date := false,
        target := false }
    let missing := missingOf c
    if missing.length > 0 then
      ("", some ("required httpsig headers missing (" ++ Join missing "," ++ ")"))
    else (keyname, none)
  | (_, keyname, some err) => (keyname, some err)

/-! ### A concrete library instance

`demoLib` is a small executable instance of `Lib`, used to run the model on
concrete requests: digests pad or cut the text to a fixed length, a signature
is the message tagged with the scheme and the key number, the base64 pair is an
invertible encoding without commas, and a date is a run of `m`, one for each
minute since the epoch. -/

/-- Encoding of `demoLib`: `,` becomes `yc`, any other character `c` becomes `xc`. -/
def demoEnc : List Char → List Char
  | [] => []
  | c :: cs => if c = ',' then 'y' :: 'c' :: demoEnc cs else 'x' :: c :: demoEnc cs

/-- Decoding of `demoLib`, inverse to `demoEnc`. -/
def demoDec : List Char → List Char
  | 'y' :: _ :: cs => ',' :: demoDec cs
  | 'x' :: c :: cs => c :: demoDec cs
  | _ => []

/-- Digest of `demoLib`: the text padded with `0` or cut to `n` characters. -/
def demoHash (n : Nat) (m : String) : String :=
  String.mk ((m.data ++ List.replicate n '0').take n)

/-- Signature of `demoLib`: the message after a tag and the key number in
unary. -/
def demoSign (tag : String) (k : Nat) (m : String) : String :=
  tag ++ String.mk (List.replicate k '1') ++ ":" ++ m

/-- The concrete library instance. -/
def demoLib : Lib where
  sha256 := demoHash 32
  sha512 := demoHash 64
  sb64 := fun b => String.mk (demoEnc b.data)
  b64s := fun s => String.mk (demoDec s.data)
  rsaSign := demoSign "rsa"
  rsaVerify := fun k m sig =>
    if sig = demoSign "rsa" k m then none else some "crypto/rsa: verification error"
  edSign := demoSign "ed"
  edVerify := fun k m sig => decide (sig = demoSign "ed" k m)
  timeFormat := fun t => String.mk (List.replicate (t / Minute).toNat 'm')
  timeParse := fun s =>
    if s.data.all (fun c => c == 'm') then Except.ok ((s.data.length : Int) * Minute)
    else Except.error "cannot parse"

/-- A header map from a list of lower-cased names and values. -/
def headerOf (kvs : List (String × String)) : Header :=
  fun k => match kvs.lookup k with
    | some v => v
    | none => ""

/-- The headers the claim requires, read off a list `H` of covered header names. -/
def requiredCovered (method : String) (H : List String) : Prop :=
  (ToLower method = "get" ∨ "digest" ∈ H ∨ "content-digest" ∈ H) ∧
  ("host" ∈ H ∨ "@authority" ∈ H) ∧
  "date" ∈ H ∧
  ("(request-target)" ∈ H ∨ "@request-target" ∈ H ∨ "@target-uri" ∈ H ∨ "@path" ∈ H)

/-- The names `VerifyRequest` reports for a list `H` of covered header names. -/
def missingNames (method : String) (H : List String) : List String :=
  (if ToLower method = "get" ∨ "digest" ∈ H ∨ "content-digest" ∈ H then [] else ["digest"]) ++
  (if "host" ∈ H ∨ "@authority" ∈ H then [] else ["host"]) ++
  (if "date" ∈ H then [] else ["date"]) ++
  (if "(request-target)" ∈ H ∨ "@request-target" ∈ H ∨ "@target-uri" ∈ H ∨ "@path" ∈ H
    then [] else ["(request-target)"])

end httpsig

/-! ## JSON documents (`junk.Junk`) -/

/-- A decoded JSON value, the `interface{}` stored in a `junk.Junk`. -/
inductive JVal where
  | null : JVal
  | bool (b : Bool) : JVal
  | num (n : Int) : JVal
  | str (s : String) : JVal
  | arr (xs : List JVal) : JVal
  | map (kvs : List (String × JVal)) : JVal

/-- Go `junk.Junk`, a JSON object: its keys with their values. -/
abbrev Junk := List (String × JVal)

/-- Go `Junk.GetString(key)`: the string and `ok`. -/
def Junk.GetString (j : Junk) (key : String) : String × Bool :=
  match j.lookup key with
  | some (JVal.str s) => (s, true)
  | _ => ("", false)

/-- Go `Junk.GetMap(key)`; `none` is the `nil` map returned with `ok = false`. -/
def Junk.GetMap (j : Junk) (key : String) : Option Junk :=
  match j.lookup key with
  | some (JVal.map kvs) => some kvs
  | _ => none

/-- Go `Junk.GetArray(key)`: the slice (`nil` is `[]`) and `ok`. -/
def Junk.GetArray (j : Junk) (key : String) : List JVal × Bool :=
  match j.lookup key with
  | some (JVal.arr xs) => (xs, true)
  | _ => ([], false)

/-! ## `fun.go` -/

/-- The characters the class `[^/ #)?]` of `re_urlhost` accepts. -/
def hostChar (c : Char) : Bool :=
  !(c = '/' || c = ' ' || c = '#' || c = ')' || c = '?')

/-- The leftmost match of `re_urlhost`, `https://([^/ #)?]+)`, in a text: its
first submatch, or `[]` when there is no match. -/
def originateL : List Char → List Char
  | [] => []
  | c :: cs =>
    if "https://".data.isPrefixOf (c :: cs) ∧ (((c :: cs).drop 8).takeWhile hostChar) ≠ [] then
      ((c :: cs).drop 8).takeWhile hostChar
    else originateL cs

/-- Go `originate`. -/
def originate (u : String) : String := String.mk (originateL u.data)

/-- Go `keymatch`. -/
def keymatch (keyname actor : String) : String :=
  let origin := originate actor
  if origin = originate keyname then origin else ""

/-- Go `thewholeworld`. -/
def thewholeworld : String := "https://www.w3.org/ns/activitystreams#Public"

/-- Go `tinyworld`. -/
def tinyworld : String := "as:Public"

/-- Go `loudandproud`. -/
def loudandproud (aud : List String) : Bool := aud.any fun a => a = thewholeworld

/-- The loop of `oneofakind`: the strings not yet `seen`, in order. -/
def oneofakindLoop : List String → List String → List String
  | [], _ => []
  | s :: rest, seen =>
    if s ∈ seen then oneofakindLoop rest seen
    else s :: oneofakindLoop rest (s :: seen)

/-- Go `oneofakind`: first occurrences in order, the empty string left out. -/
def oneofakind (a : List String) : List String := oneofakindLoop a [""]

/-! ## `activity.go`: accessors -/

/-- Go `firstofmany`. -/
def firstofmany (obj : Junk) (key : String) : String :=
  if (obj.GetString key).1 ≠ "" then (obj.GetString key).1
  else match (obj.GetArray key).1 with
    | JVal.str val :: _ => val
    | _ => ""

/-- Go `oneforall`. -/
def oneforall (obj : Junk) (key : String) : List JVal :=
  match obj.GetMap key with
  | some val => [JVal.map val]
  | none =>
    if (obj.GetString key).2 then [JVal.str (obj.GetString key).1]
    else (obj.GetArray key).1

/-- The loop of `extractattrto` over the `attributedTo` entries. -/
def extractattrtoLoop : List JVal → String
  | [] => ""
  | JVal.str s :: _ => s
  | JVal.map o :: rest =>
    let t := (Junk.GetString o "type").1
    let id := (Junk.GetString o "id").1
    if t = "Person" ∨ t = "" then id else extractattrtoLoop rest
  | _ :: rest => extractattrtoLoop rest

/-- Go `extractattrto`. -/
def extractattrto (obj : Junk) : String := extractattrtoLoop (oneforall obj "attributedTo")

/-- The non-empty strings of a JSON array, as the inner loop of `newphone`
collects them. -/
def stringsOf : List JVal → List String
  | [] => []
  | JVal.str who :: rest => if who ≠ "" then who :: stringsOf rest else stringsOf rest
  | _ :: rest => stringsOf rest

/-- What `newphone` appends for one of the keys `to`, `cc`, `attributedTo`. -/
def newphoneKey (obj : Junk) (addr : String) : List String :=
  (if (obj.GetString addr).1 ≠ "" then [(obj.GetString addr).1] else []) ++
    stringsOf (obj.GetArray addr).1

/-- Go `newphone`. -/
def newphone (a : List String) (obj : Junk) : List String :=
  a ++ newphoneKey obj "to" ++ newphoneKey obj "cc" ++ newphoneKey obj "attributedTo"

/-! ## Records and the record store -/

/-- Go `UserID`. -/
abbrev UserID := Int

/-- Go `Honk`, the record. The fields kept are those the control flow of
`xonksaver` and the statements below read; body text, summary, attachments,
mentions, place, time, date and display URL are not modelled. -/
structure Honk where
  ID : Nat
  UserID : UserID
  What : String
  Honker : String
  Oonker : String
  XID : String
  RID : String
  Convoy : String
  Audience : List String
  Public : Bool
  Onts : List String
  Noise : String
  deriving DecidableEq, Repr

/-- Go `Chonk`, the direct message, with the fields of `Honk` it is built from. -/
structure Chonk where
  UserID : UserID
  XID : String
  Who : String
  Target : String
  Noise : String
  deriving DecidableEq, Repr

/-- Modelled from the spec: the relational store behind `getxonk`, `savehonk`,
`updatehonk`, `deletehonk`, `savechonk` and the statements `stmtFindXonk`,
`stmtFindZonk`, `stmtSaveZonker`, whose code is not part of the sources at hand
("record CRUD, find-by-xid scoped to user; zonk insert/query"). Records are
kept in insertion order; `zonkers` rows are `(userid, name, wherefore)`. -/
structure Store where
  honks : List Honk
  zonkers : List (UserID × String × String)
  chonks : List Chonk
  nextid : Nat
  deriving DecidableEq, Repr

/-- Modelled from the spec: `getxonk(userid, xid)`, the user's record with that
xid, if any. -/
def getxonk (db : Store) (userid : UserID) (xid : String) : Option Honk :=
  db.honks.find? fun h => h.UserID = userid ∧ h.XID = xid

/-- Modelled from the spec: `deletehonk(honkid)` removes the record with that id. -/
def deletehonk (db : Store) (honkid : Nat) : Store :=
  { db with honks := db.honks.filter fun h => h.ID ≠ honkid }

/-- Modelled from the spec: `savehonk(x)` inserts the record under a fresh id. -/
def savehonk (db : Store) (x : Honk) : Store :=
  { db with honks := db.honks ++ [{ x with ID := db.nextid }], nextid := db.nextid + 1 }

/-- Modelled from the spec: `updatehonk(x)` replaces the record that has the id
of `x`. -/
def updatehonk (db : Store) (x : Honk) : Store :=
  { db with honks := db.honks.map fun h => if h.ID = x.ID then x else h }

/-- Modelled from the spec: `savechonk(ch)` inserts the direct message. -/
def savechonk (db : Store) (ch : Chonk) : Store :=
  { db with chonks := db.chonks ++ [ch] }

/-- Modelled from the spec: `stmtSaveZonker.Exec(userid, name, wherefore)`. -/
def saveZonker (db : Store) (userid : UserID) (name wherefore : String) : Store :=
  { db with zonkers := db.zonkers ++ [(userid, name, wherefore)] }

/-- Go `iszonked`, over `stmtFindZonk` (the `zonk` rows of the user). -/
def iszonked (db : Store) (userid : UserID) (xid : String) : Bool :=
  db.zonkers.any fun z => z.1 = userid ∧ z.2.1 = xid ∧ z.2.2 = "zonk"

/-- Go `eradicatexonk`. -/
def eradicatexonk (db : Store) (userid : UserID) (xid : String) : Store :=
  match getxonk db userid xid with
  | some xonk => saveZonker (deletehonk db xonk.ID) userid xid "zonk"
  | none => db

/-- Go `savexonk`; the handle lookups it starts in the background touch no
record. -/
def savexonk (db : Store) (x : Honk) : Store := savehonk db x

/-- The fields of Go `WhatAbout` that `xonksaver` reads. -/
structure WhatAbout where
  ID : UserID
  URL : String
  InlineQuotes : Bool
  deriving DecidableEq, Repr

/-- One object fetch: the URL, the value of the depth counter when it was
started, and whether it went through `GetJunkHardMode`. -/
structure Fetch where
  url : String
  depth : Nat
  hard : Bool
  deriving DecidableEq, Repr

/-- What `xonksaver` takes from its surroundings. `fetch k url` is the answer
of the network to the fetch number `k` of this run, a document with the final
URL after redirects, or `none` for an error. `rejectxonk` and `rejectorigin`
are the user's filters (`hfcs.go`). `noise typ waspage obj` is the body text
built from the object before quotes are added, `quoteLinks content qurl` the
links of `qutify` that match one of its patterns, in order. -/
structure World where
  develMode : Bool
  fetch : Nat → String → Option (Junk × String)
  rejectxonk : Junk → Honk → Bool
  rejectorigin : UserID → String → Bool → Bool
  noise : String → Bool → Junk → String
  quoteLinks : String → String → List String

/-- The variables `xonksaver2` closes over (`depth`, `currenttid`, `goingup`),
the store, and the object fetches made so far. -/
structure XState where
  depth : Nat
  currenttid : String
  goingup : Nat
  db : Store
  fetches : List Fetch
  deriving DecidableEq, Repr

/-- Go `needxonkidX`. -/
def needxonkidX (W : World) (db : Store) (user : WhatAbout) (xid : String) (isannounce : Bool) :
    Bool :=
  if ¬ HasPrefix xid "https://" then false
  else if HasPrefix xid (user.URL ++ "/") then false
  else if W.rejectorigin user.ID xid isannounce then false
  else if iszonked db user.ID xid then false
  else if (getxonk db user.ID xid).isSome then false
  else true

/-- Go `needxonkid`. -/
def needxonkid (W : World) (db : Store) (user : WhatAbout) (xid : String) : Bool :=
  needxonkidX W db user xid false

/-- Go `needbonkid`. -/
def needbonkid (W : World) (db : Store) (user : WhatAbout) (xid : String) : Bool :=
  needxonkidX W db user xid true

/-- Go `needxonk`. -/
def needxonk (W : World) (db : Store) (user : WhatAbout) (obj : Junk) (x : Honk) : Bool :=
  if W.rejectxonk obj x then false else needxonkid W db user x.XID

/-- Go `GetJunkTimeout` with a `final` pointer: refused origins fail before any
request; otherwise the fetch is recorded and the network answers. -/
def GetJunkTimeout (W : World) (user : WhatAbout) (url : String) (hard : Bool) (s : XState) :
    Option (Junk × String) × XState :=
  if W.rejectorigin user.ID url false then (none, s)
  else (W.fetch s.fetches.length url,
        { s with fetches := s.fetches ++ [{ url := url, depth := s.depth, hard := hard }] })

/-- Go `GetJunkHardMode`; the retry after a 429, 502 or timeout is part of the
one answer of the network. -/
def GetJunkHardMode (W : World) (user : WhatAbout) (url : String) (s : XState) :
    Option Junk × XState :=
  match GetJunkTimeout W user url true s with
  | (some (j, _), s) => (some j, s)
  | (none, s) => (none, s)

/-! ## `activity.go`: `xonksaver` -/

/-- The type of the closure `xonkxonkfn2`: item, origin, `isUpdate`, bonker,
`myown`, then the state, giving the record (or `nil`) and the state after. -/
abbrev XonkFn := Junk → String → Bool → String → Bool → XState → Option Honk × XState

/-- Go `maxdepth` of `xonksaver2`. -/
def maxdepth : Nat := 10

/-- Go closure `xonkxonkfn`, over the closure `rec` for `xonkxonkfn2`. -/
def xonkxonkfn (rec : XonkFn) (item : Junk) (origin : String) (isUpdate : Bool)
    (bonker : String) : XState → Option Honk × XState :=
  rec item origin isUpdate bonker false

/-- The loop of `qutify` over the links that match a quote pattern. -/
def qutifyLoop (W : World) (user : WhatAbout) (rec : XonkFn) (qurl : String) :
    List String → String → XState → String × XState
  | [], content, s => (content, s)
  | m :: ms, content, s =>
    let pfx := if m = qurl then "<p><a href=\"" ++ m ++ "\">" ++ m ++ "</a>" else ""
    match getxonk s.db user.ID m with
    | some x =>
      qutifyLoop W user rec qurl ms
        (content ++ pfx ++ "<blockquote>" ++ x.Noise ++ "</blockquote>") s
    | none =>
      match GetJunkTimeout W user m false s with
      | (none, s) => qutifyLoop W user rec qurl ms content s
      | (some (j, final), s) =>
        let content :=
          if (j.GetString "content").2 then
            content ++ pfx ++ "<blockquote>" ++ (j.GetString "content").1 ++ "</blockquote>"
          else content
        let prevdepth := s.depth
        let r := xonkxonkfn rec j (originate final) false "" { s with depth := maxdepth }
        qutifyLoop W user rec qurl ms content { r.2 with depth := prevdepth }

/-- Go closure `qutify`. -/
def qutify (W : World) (user : WhatAbout) (rec : XonkFn) (qurl content : String) (s : XState) :
    String × XState :=
  if s.depth ≥ maxdepth then (content, s)
  else qutifyLoop W user rec qurl (W.quoteLinks content qurl) content s

/-- Go closure `saveonemore`. -/
def saveonemore (W : World) (user : WhatAbout) (rec : XonkFn) (xid : String) (s : XState) :
    XState :=
  if s.depth ≥ maxdepth then s
  else match GetJunkHardMode W user xid s with
    | (none, s) => s
    | (some obj, s) => (xonkxonkfn rec obj (originate xid) false "" s).2

/-- The loop over `replies` at the end of `xonkxonkfn2`. -/
def repliesLoop (W : World) (user : WhatAbout) (rec : XonkFn) : List String → XState → XState
  | [], s => s
  | replid :: rest, s =>
    if needxonkid W s.db user replid then
      repliesLoop W user rec rest (saveonemore W user rec replid s)
    else repliesLoop W user rec rest s

/-- What `proctag` adds to `xonk.Onts` for one tag. -/
def hashtagOf (tag : Junk) : List String :=
  let tt := (tag.GetString "type").1
  let name := (tag.GetString "name").1
  if tt = "Hashtag" then
    if name = "" ∨ name = "#" then []
    else if name.data.head? ≠ some '#' then ["#" ++ name]
    else [name]
  else []

/-- The loop over `oneforall(obj, "tag")`, for the hashtags. -/
def ontsOf : List JVal → List String
  | [] => []
  | JVal.map tag :: rest => hashtagOf tag ++ ontsOf rest
  | _ :: rest => ontsOf rest

/-- The strings of a JSON array, as the loop over `replies.items` collects them. -/
def allStrings : List JVal → List String
  | [] => []
  | JVal.str s :: rest => s :: allStrings rest
  | _ :: rest => allStrings rest

/-- The list `replies` that `xonkxonkfn2` reads from the object. -/
def repliesOf (obj : Junk) : List String :=
  match obj.GetMap "replies" with
  | none => []
  | some replyobj =>
    if (Junk.GetArray replyobj "items").2 then allStrings (Junk.GetArray replyobj "items").1
    else match Junk.GetMap replyobj "first" with
      | some first => allStrings (Junk.GetArray first "items").1
      | none => []

/-- The `rid` that `xonkxonkfn2` reads from `inReplyTo`. -/
def ridOf (obj : Junk) : String :=
  if (obj.GetString "inReplyTo").2 then (obj.GetString "inReplyTo").1
  else match obj.GetMap "inReplyTo" with
    | some robj => (Junk.GetString robj "id").1
    | none => ""

/-- The `convoy` that `xonkxonkfn2` reads from `context` or `conversation`. -/
def convoyOf (obj : Junk) : String :=
  if (obj.GetString "context").1 = "" then (obj.GetString "conversation").1
  else (obj.GetString "context").1

/-- The `Honker` of the early init of `xonkxonkfn2`: `actor`, else
`extractattrto`. -/
def honkerOf (item : Junk) : String :=
  if (item.GetString "actor").1 = "" then extractattrto item else (item.GetString "actor").1

/-- The audience `xonkxonkfn2` computes for an object and its honker. -/
def audienceOf (obj : Junk) (honker : String) : List String :=
  (oneofakind (newphone [] obj ++ [honker])).map fun a => if a = tinyworld then thewholeworld else a

/-- The block of `xonkxonkfn2` that saves a new record: the parent is fetched
when the record is a public reply, the convoy is settled, and `savexonk` runs.
It is entered when `!isUpdate && (myown || needxonk(user, &xonk))`. -/
def xonkStore (W : World) (user : WhatAbout) (rec : XonkFn) (xonk : Honk) (s : XState) :
    Honk × XState :=
  let rid := xonk.RID
  let convoy := xonk.Convoy
  let s :=
    if rid ≠ "" ∧ xonk.Public then
      if needxonkid W s.db user rid then
        let s1 := saveonemore W user rec rid { s with goingup := s.goingup + 1 }
        { s1 with goingup := s1.goingup - 1 }
      else s
    else s
  let convoy :=
    if rid ≠ "" ∧ xonk.Public ∧ convoy = "" then
      match getxonk s.db user.ID rid with
      | some xx => xx.Convoy
      | none => convoy
    else convoy
  let convoy := if convoy = "" then s.currenttid else convoy
  let s := if convoy = "" then { s with currenttid := xonk.XID } else s
  let convoy := if convoy = "" then xonk.XID else convoy
  let xonk := { xonk with Convoy := convoy }
  (xonk, { s with db := savexonk s.db xonk })

/-- The end of `xonkxonkfn2`, from the test `what == "chonk"` on, for the
record `xonk` as initialised from the object `obj`. The text of a chat message
is stored as it was read: the removal of a leading `<p>` and the decryption
under `chatKeyV0` are left out. -/
def xonkSave (W : World) (user : WhatAbout) (rec : XonkFn) (obj : Junk) (isUpdate myown : Bool)
    (xonk : Honk) (replies : List String) (s : XState) : Option Honk × XState :=
  if xonk.What = "chonk" then
    let target := if firstofmany obj "to" = user.URL then xonk.Honker else firstofmany obj "to"
    let ch : Chonk :=
      { UserID := xonk.UserID, XID := xonk.XID, Who := xonk.Honker, Target := target,
        Noise := xonk.Noise }
    (none, { s with db := savechonk s.db ch })
  else
    let prev := if isUpdate then getxonk s.db user.ID xonk.XID else none
    let isUpdate := isUpdate ∧ prev.isSome
    let xonk := match prev with
      | some p => { xonk with ID := p.ID }
      | none => xonk
    let s := match prev with
      | some _ => { s with db := updatehonk s.db xonk }
      | none => s
    let r : Honk × XState :=
      if ¬ isUpdate ∧ (myown ∨ needxonk W s.db user obj xonk) then xonkStore W user rec xonk s
      else (xonk, s)
    let s := if r.2.goingup = 0 then repliesLoop W user rec replies r.2 else r.2
    (some r.1, s)

/-- The part of `xonkxonkfn2` after the `switch`, for the cases that set
`obj = item` and fall out of it: `what` is the kind the case chose and `typ`
the type of the item. -/
def xonkRecord (W : World) (user : WhatAbout) (rec : XonkFn) (item : Junk) (origin : String)
    (isUpdate : Bool) (bonker : String) (myown : Bool) (what typ : String) (waspage : Bool)
    (s : XState) : Option Honk × XState :=
  let what := if bonker ≠ "" then "bonk" else what
  let obj := item
  let xid := (obj.GetString "id").1
  if xid = "" then (none, s)
  else if originate xid ≠ origin ∧ ¬ W.develMode ∧ origin ≠ "" then (none, s)
  else
    let honker0 := honkerOf item
    if myown ∧ honker0 ≠ user.URL then (none, s)
    else if originate honker0 ≠ origin then (none, s)
    else
      let honker1 := if honker0 = "" then extractattrto obj else honker0
      let honker := if bonker ≠ "" then bonker else honker1
      let oonker0 := if bonker ≠ "" then honker1 else ""
      let oonker := if oonker0 = honker then "" else oonker0
      let audience := audienceOf obj honker
      let q := if user.InlineQuotes then
          qutify W user rec (obj.GetString "quoteUrl").1 (W.noise typ waspage obj) s
        else (W.noise typ waspage obj, s)
      let what := if typ = "Question" ∧ what = "honk" then "qonk" else what
      let xonk0 : Honk :=
        { ID := 0, UserID := user.ID, What := "", Honker := honker, Oonker := oonker, XID := xid,
          RID := "", Convoy := "", Audience := audience, Public := loudandproud audience,
          Onts := [], Noise := q.1 }
      if W.rejectxonk obj xonk0 then (none, q.2)
      else
        let s := if q.2.currenttid = "" then { q.2 with currenttid := convoyOf obj } else q.2
        let xonk : Honk :=
          { xonk0 with What := what, RID := ridOf obj, Convoy := convoyOf obj,
                       Onts := oneofakind (ontsOf (oneforall obj "tag")) }
        xonkSave W user rec obj isUpdate myown xonk (repliesOf obj) s

/-- The case `Announce` of the `switch` in `xonkxonkfn2`. -/
def xonkAnnounce (W : World) (user : WhatAbout) (rec : XonkFn) (item : Junk) (origin : String)
    (isUpdate : Bool) (s : XState) : Option Honk × XState :=
  let id := (item.GetString "id").1
  let ok := (item.GetMap "object").isSome
  let peek : Junk × String × Bool :=
    match item.GetMap "object" with
    | some obj =>
      let what := firstofmany obj "type"
      if what = "Create" ∨ what = "Update" then
        let isUpdate := isUpdate || decide (what = "Update")
        match obj.GetMap "object" with
        | some inner => (inner, (Junk.GetString inner "id").1, isUpdate)
        | none =>
          let xid := (obj.GetString "object").1
          (obj, if xid = "" then (obj.GetString "id").1 else xid, isUpdate)
      else (obj, (obj.GetString "id").1, isUpdate)
    | none => ([], (item.GetString "object").1, isUpdate)
  let obj := peek.1
  let xid := peek.2.1
  let isUpdate := peek.2.2
  if ¬ isUpdate ∧ ¬ needbonkid W s.db user xid then (none, s)
  else
    let bonker := (item.GetString "actor").1
    if originate bonker ≠ origin then (none, s)
    else
      let origin := originate xid
      if ok ∧ originate id = origin then xonkxonkfn rec obj origin isUpdate bonker s
      else
        match GetJunkHardMode W user xid s with
        | (none, s) => (none, s)
        | (some obj, s) => xonkxonkfn rec obj origin isUpdate bonker s

/-- The cases `Update` and `Create` of the `switch` in `xonkxonkfn2`. -/
def xonkCreate (W : World) (user : WhatAbout) (rec : XonkFn) (item : Junk) (origin : String)
    (isUpdate : Bool) (bonker : String) (myown : Bool) (s : XState) : Option Honk × XState :=
  match item.GetMap "object" with
  | some obj => rec obj origin isUpdate bonker myown s
  | none =>
    let xid := (item.GetString "object").1
    if originate xid ≠ origin then (none, s)
    else
      match GetJunkHardMode W user xid s with
      | (none, s) => (none, s)
      | (some obj, s) => rec obj origin isUpdate bonker myown s

/-- The cases `Read` and `Add` of the `switch` in `xonkxonkfn2`. -/
def xonkRead (W : World) (user : WhatAbout) (rec : XonkFn) (item : Junk) (s : XState) :
    Option Honk × XState :=
  if (item.GetString "object").2 then
    let xid := (item.GetString "object").1
    if ¬ needxonkid W s.db user xid then (none, s)
    else
      match GetJunkHardMode W user xid s with
      | (none, s) => (none, s)
      | (some obj, s) => xonkxonkfn rec obj (originate xid) false "" s
  else (none, s)

/-- The `xid` the case `Delete` reads: the `id` of the object when it is a
map, else the object as a string. -/
def deleteTarget (item : Junk) : String :=
  match item.GetMap "object" with
  | some obj => (Junk.GetString obj "id").1
  | none => (item.GetString "object").1

/-- The cases `Delete` and `Tombstone` once the target `xid` is read. -/
def xonkDelete (user : WhatAbout) (origin xid : String) (s : XState) : Option Honk × XState :=
  if xid = "" then (none, s)
  else if originate xid ≠ origin then (none, s)
  else (none, { s with db := eradicatexonk s.db user.ID xid })

/-- The `switch` of `xonkxonkfn2` and what follows it, after the depth counter
has been raised. The cases `Like`, `Dislike` and `default` return `nil`; the
file `dumpactivity` appends to is not modelled. -/
def xonkSwitch (W : World) (user : WhatAbout) (rec : XonkFn) (item : Junk) (origin : String)
    (isUpdate : Bool) (bonker : String) (myown : Bool) (s : XState) : Option Honk × XState :=
  let typ := firstofmany item "type"
  if typ = "Delete" then
    xonkDelete user origin (deleteTarget item) s
  else if typ = "Remove" then (none, s)
  else if typ = "Tombstone" then xonkDelete user origin (item.GetString "id").1 s
  else if typ = "Announce" then xonkAnnounce W user rec item origin isUpdate s
  else if typ = "Update" then xonkCreate W user rec item origin true bonker myown s
  else if typ = "Create" then xonkCreate W user rec item origin isUpdate bonker myown s
  else if typ = "Read" ∨ typ = "Add" then xonkRead W user rec item s
  else if typ = "Move" then
    xonkRecord W user rec item origin isUpdate bonker myown "move" typ false s
  else if typ = "Page" ∨ typ = "Audio" ∨ typ = "Video" ∨ typ = "Image" ∨ typ = "Question" ∨
      typ = "Commit" ∨ typ = "Article" ∨ typ = "Note" then
    xonkRecord W user rec item origin isUpdate bonker myown "honk" typ (decide (typ = "Page")) s
  else if typ = "Event" then
    xonkRecord W user rec item origin isUpdate bonker myown "event" typ false s
  else if typ = "ChatMessage" then
    xonkRecord W user rec item origin isUpdate "" myown "chonk" typ false s
  else (none, s)

/-- One call of the closure `xonkxonkfn2`, with `rec` for the calls it makes
to itself: the depth check, the counter raised, the body, and the deferred
decrement. -/
def xonkBody (W : World) (user : WhatAbout) (rec : XonkFn) : XonkFn :=
  fun item origin isUpdate bonker myown s =>
    if s.depth ≥ maxdepth + 5 then (none, s)
    else
      let r := xonkSwitch W user rec item origin isUpdate bonker myown
        { s with depth := s.depth + 1 }
      (r.1, { r.2 with depth := r.2.depth - 1 })

/-- Go closure `xonkxonkfn2`, by recursion on a bound for the number of nested
calls. A nested call starts at a depth counter above that of its caller and no
call runs at counter 15 or more, so 16 levels are never used up when the
counter starts at 0. -/
def xonkxonkfn2 (W : World) (user : WhatAbout) : Nat → XonkFn
  | 0 => fun _ _ _ _ _ s => (none, s)
  | n + 1 => xonkBody W user (xonkxonkfn2 W user n)

/-- Go `xonksaver2`: the closure variables start at `depth = 0`,
`currenttid = ""`, `goingup = 0`; the result is the record, the store after the
call and the object fetches made. -/
def xonksaver2 (W : World) (user : WhatAbout) (item : Junk) (origin : String) (myown : Bool)
    (db : Store) : Option Honk × Store × List Fetch :=
  let r := xonkxonkfn2 W user 16 item origin false "" myown
    { depth := 0, currenttid := "", goingup := 0, db := db, fetches := [] }
  (r.1, r.2.db, r.2.fetches)

/-- Go `xonksaver`. -/
def xonksaver (W : World) (user : WhatAbout) (item : Junk) (origin : String) (db : Store) :
    Option Honk × Store × List Fetch :=
  xonksaver2 W user item origin false db

namespace httpsig

/-! ### Concrete requests -/

/-- A key lookup that knows the one key name `keyname`, with key number 3. -/
def demoLookup (kt : KeyType) (keyname : String) : String → PublicKey × Option String :=
  fun k => if k = keyname then (⟨kt, 3⟩, none) else (⟨KeyType.None, 0⟩, some "unknown key")

/-- The URL `https://example.com/inbox`. -/
def demoURL : URL :=
  { RequestURI := "/inbox", Hostname := "example.com", Full := "https://example.com/inbox",
    Scheme := "https", Path := "/inbox", RawQuery := "" }

/-- A draft-style GET whose signature covers only `date` and does not verify. -/
def dateOnlyRequest : Request :=
  { Method := "GET", URL := demoURL, Host := "example.com",
    Header := headerOf [
      ("signature", "keyId=\"k\",algorithm=\"rsa-sha256\",headers=\"date\",signature=\"xx\""),
      ("date", "mmmmm")] }

/-- A draft-style POST that covers `content-digest` in place of `digest`, with
a `Content-Digest` value that is not the digest of any body, signed with RSA
key 3 of `demoLib`. -/
def draftContentDigestRequest : Request :=
  { Method := "POST", URL := demoURL, Host := "example.com",
    Header := headerOf [
      ("signature", "keyId=\"k\",algorithm=\"rsa-sha256\"," ++
        "headers=\"(request-target) host date content-digest\",signature=\"" ++
        demoLib.sb64 (demoLib.rsaSign 3 (demoLib.sha256
          ("(request-target): post /inbox\nhost: example.com\ndate: mmmmm\n" ++
           "content-digest: sha-256=:bogus:"))) ++ "\""),
      ("date", "mmmmm"),
      ("content-digest", "sha-256=:bogus:")] }

/-- The `Signature-Input` value of the RFC-style examples. -/
def demoSigInput (components : String) : String := "sig1=(" ++ components ++ ");keyid=\"k\""

/-- An RFC-style request of `demoLib`: the covered components, the canonical
lines for them, and the other headers; the `Signature` header is computed from
the lines with RSA key 3. -/
def rfcRequest (method components lines : String) (hdrs : List (String × String)) : Request :=
  { Method := method, URL := demoURL, Host := "example.com",
    Header := headerOf ([
      ("signature-input", demoSigInput components),
      ("signature", "sig1=:" ++ demoLib.sb64 (demoLib.rsaSign 3 (demoLib.sha256
        (lines ++ "\n\"@signature-params\": (" ++ components ++ ");keyid=\"k\""))) ++ ":")]
      ++ hdrs) }

/-- An RFC-style POST that covers `content-digest` and carries no
`Content-Digest` header. -/
def rfcNoDigestRequest : Request :=
  rfcRequest "POST" "\"@method\" \"@authority\" \"@path\" \"date\" \"content-digest\""
    "\"@method\": POST\n\"@authority\": example.com\n\"@path\": /inbox\n\"date\": mmmmm\n\"content-digest\": "
    [("date", "mmmmm")]

/-- An RFC-style POST with the `Content-Digest` header a correct signer sends
for the body `hello`: `sha-256=:` and the base64 SHA-256 digest of the body. -/
def rfcSha256Request : Request :=
  rfcRequest "POST" "\"@method\" \"@authority\" \"@path\" \"date\" \"content-digest\""
    ("\"@method\": POST\n\"@authority\": example.com\n\"@path\": /inbox\n\"date\": mmmmm\n\"content-digest\": "
      ++ "sha-256=:" ++ sb64sha256 demoLib "hello" ++ ":")
    [("date", "mmmmm"), ("content-digest", "sha-256=:" ++ sb64sha256 demoLib "hello" ++ ":")]

/-- An RFC-style GET dated one minute after the epoch. -/
def rfcStaleRequest : Request :=
  rfcRequest "GET" "\"@method\" \"@authority\" \"@path\" \"date\""
    "\"@method\": GET\n\"@authority\": example.com\n\"@path\": /inbox\n\"date\": m"
    [("date", "m")]

end httpsig

namespace httpsig

/-- An RFC-style POST with a `Content-Digest` header that holds the SHA-512
digest of the body `hello`. -/
def rfcSha512Request : Request :=
  rfcRequest "POST" "\"@method\" \"@authority\" \"@path\" \"date\" \"content-digest\""
    ("\"@method\": POST\n\"@authority\": example.com\n\"@path\": /inbox\n\"date\": mmmmm\n\"content-digest\": "
      ++ "sha-512=:" ++ sb64sha512 demoLib "hello" ++ ":")
    [("date", "mmmmm"), ("content-digest", "sha-512=:" ++ sb64sha512 demoLib "hello" ++ ":")]

/-- A draft-style GET whose signature covers only `date` and verifies under RSA
key 3 of `demoLib`. -/
def dateOnlySignedRequest : Request :=
  { Method := "GET", URL := demoURL, Host := "example.com",
    Header := headerOf [
      ("signature", "keyId=\"k\",algorithm=\"rsa-sha256\",headers=\"date\",signature=\"" ++
        demoLib.sb64 (demoLib.rsaSign 3 (demoLib.sha256 "date: mmmmm")) ++ "\""),
      ("date", "mmmmm")] }

/-- An unsigned GET of the inbox. -/
def getInbox : Request :=
  { Method := "GET", URL := demoURL, Host := "", Header := headerOf [] }

/-- An unsigned POST to the inbox, as `PostMsg` builds it. -/
def postInbox : Request :=
  { Method := "POST", URL := demoURL, Host := "",
    Header := headerOf [("content-type", "application/activity+json")] }

/-- The request as the receiving server sees it: Go's server moves the `Host`
header into `req.Host`. -/
def asReceived (req : Request) : Request := { req with Host := req.Header.Get "host" }

/-- The GET `getInbox` signed by `SignRequest` with Ed25519 key 3 of `demoLib`
at minute 5. -/
def ed25519Signed : Request :=
  match SignRequest demoLib (5 * Minute) "k" ⟨KeyType.Ed25519, 3⟩ getInbox "" with
  | some r => r
  | none => getInbox

end httpsig

/-- The fields of a record that the end of `xonkxonkfn2` leaves as they are. -/
def sameButIdConvoy (x y : Honk) : Prop :=
  x.UserID = y.UserID ∧ x.What = y.What ∧ x.Honker = y.Honker ∧ x.Oonker = y.Oonker ∧
  x.XID = y.XID ∧ x.RID = y.RID ∧ x.Audience = y.Audience ∧ x.Public = y.Public ∧
  x.Onts = y.Onts ∧ x.Noise = y.Noise

/-- The item types that `xonkxonkfn2` turns into a record of their own. -/
def recordTypes : List String :=
  ["Move", "Page", "Audio", "Video", "Image", "Question", "Commit", "Article", "Note", "Event",
   "ChatMessage"]

/-- The object `obj` of a `Create` as `xonkxonkfn2` gets hold of it: the
embedded map, or the document fetched from the `object` URL, which must
originate from `origin`. -/
def isCreateObject (W : World) (user : WhatAbout) (item : Junk) (origin : String) (obj : Junk) :
    Prop :=
  item.GetMap "object" = some obj ∨
  (item.GetMap "object" = none ∧ originate (item.GetString "object").1 = origin ∧
    W.rejectorigin user.ID (item.GetString "object").1 false = false ∧
    ∃ final, W.fetch 0 (item.GetString "object").1 = some (obj, final))

/-! ### Concrete documents -/

/-- A world without network, filters or quotes. -/
def quietWorld : World :=
  { develMode := false, fetch := fun _ _ => none, rejectxonk := fun _ _ => false,
    rejectorigin := fun _ _ _ => false, noise := fun _ _ _ => "<p>", quoteLinks := fun _ _ => [] }

/-- A local user. -/
def alice : WhatAbout := { ID := 1, URL := "https://honk.example/u/alice", InlineQuotes := false }

/-- The store with no record. -/
def emptyStore : Store := { honks := [], zonkers := [], chonks := [], nextid := 1 }

/-- A public note of `a.example` attributed to two actors, the second of
another origin. -/
def note1 : Junk :=
  [("id", JVal.str "https://a.example/notes/1"), ("type", JVal.str "Note"),
   ("attributedTo", JVal.arr [JVal.str "https://a.example/u/bob", JVal.str "https://evil.example/u/mallory"]),
   ("to", JVal.str "as:Public")]

/-- The `Create` activity that carries `note1`. -/
def create1 : Junk :=
  [("id", JVal.str "https://a.example/act/1"), ("type", JVal.str "Create"),
   ("actor", JVal.str "https://a.example/u/bob"), ("object", JVal.map note1)]

/-! ## `activity.go`: ingesting actor documents -/

/-- Modelled from the spec: the table `xonkers` behind `stmtGetXonker`,
`stmtSaveXonker` and `savexonker` ("identity-kv insert/get/delete by
`(xid, property)`"), whose code is not part of the sources at hand. A row is
`(name, info, flavor)`. -/
abbrev Xonkers := List (String × String × String)

/-- Modelled from the spec: `stmtGetXonker.QueryRow(name, flavor)`, the `info`
of the first row with that name and flavor. -/
def getXonker (db : Xonkers) (name flavor : String) : Option String :=
  (db.find? fun r => r.1 = name ∧ r.2.2 = flavor).map fun r => r.2.1

/-- Modelled from the spec: `savexonker(what, value, flav)` and
`stmtSaveXonker.Exec(name, info, flavor, when)` insert one row. -/
def savexonker (db : Xonkers) (what value flav : String) : Xonkers :=
  db ++ [(what, value, flav)]

/-- Go `chatKeyProp`. -/
def chatKeyProp : String := "chatKeyV0"

/-- The object `ingestpubkey` reads the key from: the `publicKey` map of its
argument when there is one, else the argument. -/
def keyObject (obj : Junk) : Junk :=
  match obj.GetMap "publicKey" with
  | some keyobj => keyobj
  | none => obj

/-- Go `ingestpubkey`; `decodes data` says that `httpsig.DecodeKey(data)`
returns no error. -/
def ingestpubkey (decodes : String → Bool) (origin : String) (obj : Junk) (db : Xonkers) :
    Xonkers :=
  let obj := keyObject obj
  let keyname := (Junk.GetString obj "id").1
  if (getXonker db keyname "pubkey").isSome then db
  else if ¬ (Junk.GetString obj "id").2 ∨ origin ≠ originate keyname then db
  else if ¬ (Junk.GetString obj "owner").2 then db
  else if ¬ (Junk.GetString obj "publicKeyPem").2 then db
  else if originate (Junk.GetString obj "owner").1 ≠ origin then db
  else if ¬ decodes (Junk.GetString obj "publicKeyPem").1 then db
  else savexonker db keyname (Junk.GetString obj "publicKeyPem").1 "pubkey"

/-- Go `obj.GetString("endpoints", "sharedInbox")`. -/
def sharedInboxOf (obj : Junk) : String :=
  match obj.GetMap "endpoints" with
  | some e => (Junk.GetString e "sharedInbox").1
  | none => ""

/-- Go `ingestboxes`. -/
def ingestboxes (origin : String) (obj : Junk) (db : Xonkers) : Xonkers :=
  let ident := (obj.GetString "id").1
  if ident = "" then db
  else if originate ident ≠ origin then db
  else if (getXonker db ident "boxes").isSome then db
  else
    let inbox := (obj.GetString "inbox").1
    let outbox := (obj.GetString "outbox").1
    let sbox := sharedInboxOf obj
    if inbox ≠ "" then savexonker db ident (Join [inbox, outbox, sbox] " ") "boxes"
    else db

/-- Go `ingesthandle`. -/
def ingesthandle (origin : String) (obj : Junk) (db : Xonkers) : Xonkers :=
  let xid := (obj.GetString "id").1
  if xid = "" then db
  else if originate xid ≠ origin then db
  else if (getXonker db xid "handle").isSome then db
  else
    let handle := (obj.GetString "preferredUsername").1
    if handle ≠ "" then savexonker db xid handle "handle" else db

/-- Go `allinjest`. -/
def allinjest (decodes : String → Bool) (origin : String) (obj : Junk) (db : Xonkers) :
    Xonkers :=
  let ident := (obj.GetString "id").1
  if ident = "" then db
  else if originate ident ≠ origin then db
  else
    let db := match obj.GetMap "publicKey" with
      | some keyobj => ingestpubkey decodes origin keyobj db
      | none => db
    let db := ingestboxes origin obj db
    let db := ingesthandle origin obj db
    if (obj.GetString chatKeyProp).2 then
      savexonker db ident (obj.GetString chatKeyProp).1 chatKeyProp
    else db

/-! ## `deliverator.go` -/

/-- A Go `int64` result: the value wrapped into the range of 64-bit two's
complement. -/
def wrap64 (x : Int) : Int := (x + 2 ^ 63) % 2 ^ 64 - 2 ^ 63

/-- Go `time.Hour`, in nanoseconds. -/
def Hour : Int := 60 * httpsig.Minute

/-- Go `Doover`; `When` is in nanoseconds. -/
structure Doover where
  ID : Nat
  When : Int
  Userid : UserID
  Tries : Int
  Rcpt : String
  Msgs : List String
  deriving DecidableEq, Repr

/-- A row of the table `doovers`: id, `dt` as text, tries, user, recipient and
the messages joined by NUL. -/
structure DooverRow where
  dooverid : Nat
  dt : String
  tries : Int
  userid : UserID
  rcpt : String
  msgs : String
  deriving DecidableEq, Repr

/-- Modelled from the spec: the pending-delivery table behind `stmtAddDoover`,
`stmtDeliquentCheck`, `stmtDeliquentUpdate`, `stmtLoadDoover` and
`stmtZapDoover` ("pending delivery insert, query-due, load-and-delete,
append"), whose code is not part of the sources at hand. Rows are kept in
insertion order and get consecutive ids. -/
structure Table where
  rows : List DooverRow
  nextid : Nat
  deriving DecidableEq, Repr

/-- The NUL separator `[]byte{0}`. -/
def NUL : Char := Char.ofNat 0

/-- Modelled from the spec: `stmtAddDoover.Exec(dt, tries, userid, rcpt, msgs)`
inserts a row under a fresh id. -/
def addDoover (tbl : Table) (dt : String) (tries : Int) (userid : UserID) (rcpt msgs : String) :
    Table :=
  { rows := tbl.rows ++ [{ dooverid := tbl.nextid, dt := dt, tries := tries, userid := userid,
                           rcpt := rcpt, msgs := msgs }],
    nextid := tbl.nextid + 1 }

/-- Go `notrand.Int63n(n)` for the random draw `rnd`: a number in `[0, n)`, or
`none` for the panic when `n <= 0`. Every outcome the generator can give is
the value for some `rnd`. -/
def Int63n (rnd : Nat) (n : Int) : Option Int :=
  if n ≤ 0 then none else some ((rnd : Int) % n)

/-- The delay `drift` that `sayitagain` picks for the try count `tries` before
the jitter is added, `none` when it gives up. Products are 64-bit. -/
def driftOf (tries : Int) : Option Int :=
  if tries ≤ 3 then some (wrap64 (wrap64 (tries * 5) * httpsig.Minute))
  else if tries ≤ 6 then some (wrap64 (wrap64 (tries - 3) * Hour))
  else if tries ≤ 16 then some (wrap64 (12 * Hour))
  else none

/-- Go `sayitagain`, on the table: `fmt` renders a time in `dbtimeformat`,
`now` is the clock, `rnd` the random draw. `none` is the panic of `Int63n`. -/
def sayitagain (fmt : Int → String) (now : Int) (rnd : Nat) (doover : Doover) (tbl : Table) :
    Option Table :=
  let tries := wrap64 (doover.Tries + 1)
  match driftOf tries with
  | none => some tbl
  | some drift =>
    match Int63n rnd (drift / 10) with
    | none => none
    | some j =>
      let drift := wrap64 (drift + j)
      let when := now + drift
      let data := Join doover.Msgs (String.singleton NUL)
      some (addDoover tbl (fmt when) tries doover.Userid doover.Rcpt data)

/-- Go `nearlyDead`. -/
def nearlyDead : Int := 15

/-- Go `lethaldose`, on the text of the error. -/
def lethaldose (err : String) : Int :=
  if Contains err "no such host" then nearlyDead else 0

/-- Go `letitslide`, on the text of the error. -/
def letitslide (err : String) : Bool :=
  if Contains err "http post status: 400" then true
  else if Contains err "http post status: 422" then true
  else false

/-- Go `delinquent`: whether a row for `(userid, rcpt)` was found, and the
table after the message has been appended to the first such row. -/
def delinquent (tbl : Table) (userid : UserID) (rcpt msg : String) : Bool × Table :=
  match tbl.rows.find? fun r => r.userid = userid ∧ r.rcpt = rcpt with
  | none => (false, tbl)
  | some row =>
    (true, { tbl with rows := tbl.rows.map fun r =>
      if r.dooverid = row.dooverid then
        { r with msgs := row.msgs ++ String.singleton NUL ++ msg }
      else r })

/-- What a delivery attempt meets: whether `ziggy` finds the key of the user,
the inbox `boxofboxes` resolves a recipient to, and the error of the POST
number `i` of the attempt to an inbox with a message (`none` for success). -/
structure DEnv where
  ziggy : UserID → Bool
  box : String → Option String
  post : Nat → String → String → Option String

/-- What a delivery attempt did: the messages it POSTed, in order, and the
record it handed to `sayitagain`, if any. -/
structure Attempt where
  posted : List String
  again : Option Doover
  deriving DecidableEq, Repr

/-- The loop of `deliveration` over `doover.Msgs`, from index `i` on: `msgs`
are the messages from `i` on, `doover` carries the try count so far. -/
def postLoop (E : DEnv) (inbox : String) :
    Nat → List String → Doover → List String → Attempt
  | _, [], _, posted => { posted := posted, again := none }
  | i, msg :: rest, doover, posted =>
    match E.post i inbox msg with
    | none => postLoop E inbox (i + 1) rest doover (posted ++ [msg])
    | some err =>
      let doover :=
        if lethaldose err > doover.Tries then { doover with Tries := lethaldose err }
        else doover
      if letitslide err then postLoop E inbox (i + 1) rest doover (posted ++ [msg])
      else { posted := posted ++ [msg], again := some { doover with Msgs := msg :: rest } }

/-- Go `deliveration` up to its call of `sayitagain`; `none` is the panic of
`rcpt[0]` on an empty recipient. The limiter `garage` orders attempts to one
recipient and changes nothing else. -/
def attemptOf (E : DEnv) (doover : Doover) : Option Attempt :=
  if ¬ E.ziggy doover.Userid then some { posted := [], again := none }
  else
    match doover.Rcpt.data with
    | [] => none
    | c :: cs =>
      if c = '%' then some (postLoop E (String.mk cs) 0 doover.Msgs doover [])
      else
        match E.box doover.Rcpt with
        | none =>
          some { posted := [],
                 again := some (if doover.Tries < nearlyDead then
                   { doover with Tries := nearlyDead } else doover) }
        | some inbox => some (postLoop E inbox 0 doover.Msgs doover [])

/-- Go `deliveration`, on the table. -/
def deliveration (E : DEnv) (fmt : Int → String) (now : Int) (rnd : Nat) (doover : Doover)
    (tbl : Table) : Option Table :=
  match attemptOf E doover with
  | none => none
  | some a =>
    match a.again with
    | none => some tbl
    | some d => sayitagain fmt now rnd d tbl

/-- The `Doover` that `deliverate` builds for a first attempt. -/
def freshDoover (userid : UserID) (rcpt msg : String) : Doover :=
  { ID := 0, When := 0, Userid := userid, Tries := 0, Rcpt := rcpt, Msgs := [msg] }

/-- Go `deliverate`. -/
def deliverate (E : DEnv) (fmt : Int → String) (now : Int) (rnd : Nat) (userid : UserID)
    (rcpt msg : String) (tbl : Table) : Option Table :=
  match delinquent tbl userid rcpt msg with
  | (true, tbl) => some tbl
  | (false, tbl) => deliveration E fmt now rnd (freshDoover userid rcpt msg) tbl

/-- Go `extractdoover` for the row id `id`: the record loaded and the table
with the row deleted, or `none` when `stmtLoadDoover` finds no row. The times
are not read back here. -/
def extractdoover (tbl : Table) (id : Nat) : Option (Doover × Table) :=
  match tbl.rows.find? fun r => r.dooverid = id with
  | none => none
  | some row =>
    some ({ ID := id, When := 0, Userid := row.userid, Tries := row.tries, Rcpt := row.rcpt,
            Msgs := Split row.msgs NUL },
          { tbl with rows := tbl.rows.filter fun r => r.dooverid ≠ id })

/-! ### The delivery engine as a transition system -/

/-- The pending table together with the delivery attempts that have been
started and have not yet run: the records `deliverate` and `redeliverator`
hold between leaving the mutex `dqmtx` and their call of `deliveration`. -/
structure DState where
  table : Table
  inflight : List Doover
  deriving DecidableEq, Repr

/-- The steps of the delivery engine. `enqueue` is `delinquent` as called by
`deliverate`, under the mutex; `attempt k` is `deliveration`, with whatever
`sayitagain` it ends in, for the in-flight record number `k`; `extract` is
`extractdoover`, under the mutex. -/
inductive DAction where
  | enqueue (userid : UserID) (rcpt msg : String) : DAction
  | attempt (k : Nat) (E : DEnv) (fmt : Int → String) (now : Int) (rnd : Nat) : DAction
  | extract (id : Nat) : DAction

/-- One step; `none` when the step is not possible or panics. -/
def dstep (s : DState) : DAction → Option DState
  | DAction.enqueue userid rcpt msg =>
    match delinquent s.table userid rcpt msg with
    | (true, tbl) => some { s with table := tbl }
    | (false, _) => some { s with inflight := s.inflight ++ [freshDoover userid rcpt msg] }
  | DAction.attempt k E fmt now rnd =>
    match s.inflight[k]? with
    | none => none
    | some d =>
      match deliveration E fmt now rnd d s.table with
      | none => none
      | some tbl => some { table := tbl, inflight := s.inflight.eraseIdx k }
  | DAction.extract id =>
    match extractdoover s.table id with
    | none => none
    | some (d, tbl) => some { table := tbl, inflight := s.inflight ++ [d] }

/-- A run of steps. -/
def drun : List DAction → DState → Option DState
  | [], s => some s
  | a :: as, s =>
    match dstep s a with
    | none => none
    | some s' => drun as s'

/-- The engine at start: an empty table, nothing in flight. -/
def dstart : DState := { table := { rows := [], nextid := 1 }, inflight := [] }

/-- The rows of a table for one `(userid, recipient)` pair. -/
def rowsFor (tbl : Table) (userid : UserID) (rcpt : String) : List DooverRow :=
  tbl.rows.filter fun r => r.userid = userid ∧ r.rcpt = rcpt

/-- The delay the retry schedule prescribes for try `n`, in nanoseconds:
`5*n` minutes up to 3, `n-3` hours up to 6, 12 hours up to 16. -/
def retryBase (n : Int) : Int :=
  if n ≤ 3 then 5 * n * httpsig.Minute
  else if n ≤ 6 then (n - 3) * Hour
  else 12 * Hour

/-- The POST number `i` of an attempt, of message `m`, fails with an error that
`letitslide` does not let slide. -/
def hardFail (E : DEnv) (inbox : String) (i : Nat) (m : String) : Bool :=
  match E.post i inbox m with
  | none => false
  | some err => !letitslide err

/-- The recipient `rcpt` leads `deliveration` to the inbox `inbox`: it is `%`
followed by the inbox, or it is not empty, does not start with `%`, and
`boxofboxes` resolves it. -/
def reachesInbox (E : DEnv) (rcpt inbox : String) : Prop :=
  (∃ cs, rcpt.data = '%' :: cs ∧ inbox = String.mk cs) ∨
  (∃ c cs, rcpt.data = c :: cs ∧ c ≠ '%' ∧ E.box rcpt = some inbox)

/-- The in-flight records for one `(userid, recipient)` pair. -/
def inflightFor (l : List Doover) (userid : UserID) (rcpt : String) : List Doover :=
  l.filter fun d => d.Userid = userid ∧ d.Rcpt = rcpt

/-- The rows and the in-flight records of a pair, counted together. -/
def pendingFor (s : DState) (userid : UserID) (rcpt : String) : Nat :=
  (rowsFor s.table userid rcpt).length + (inflightFor s.inflight userid rcpt).length

/-- A step that does not enqueue for a pair while an attempt for that pair is
in flight. -/
def calm (s : DState) : DAction → Bool
  | DAction.enqueue userid rcpt _ => (inflightFor s.inflight userid rcpt).isEmpty
  | _ => true

/-- A run all of whose steps are calm. -/
def calmRun : List DAction → DState → Bool
  | [], _ => true
  | a :: as, s =>
    calm s a &&
    match dstep s a with
    | none => true
    | some s' => calmRun as s'

/-- A failing environment: the key is there, every POST is refused. -/
def refusing : DEnv :=
  { ziggy := fun _ => true, box := fun _ => none,
    post := fun _ _ _ => some "connection refused" }

/-- A rendering of times for examples: the minute count in unary. -/
def minutes (t : Int) : String := String.mk (List.replicate (t / httpsig.Minute).toNat 'm')

/-- An actor document of `a.example` with a public key. -/
def actorDoc : Junk :=
  [("id", JVal.str "https://a.example/u/bob"), ("type", JVal.str "Person"),
   ("preferredUsername", JVal.str "bob"), ("inbox", JVal.str "https://a.example/u/bob/inbox"),
   ("publicKey", JVal.map [("id", JVal.str "https://a.example/u/bob#key"),
      ("owner", JVal.str "https://a.example/u/bob"), ("publicKeyPem", JVal.str "PEM")])]

/-- A `Delete` sent by `evil.example` for a note of `a.example`. -/
def forgedDelete : Junk :=
  [("type", JVal.str "Delete"), ("actor", JVal.str "https://evil.example/u/m"),
   ("object", JVal.str "https://a.example/notes/1")]

/-- A store that holds the note `https://a.example/notes/1` for user 1. -/
def storeWithNote : Store :=
  { honks := [{ ID := 1, UserID := 1, What := "honk", Honker := "https://a.example/u/bob",
                Oonker := "", XID := "https://a.example/notes/1", RID := "",
                Convoy := "https://a.example/notes/1",
                Audience := [thewholeworld, "https://a.example/u/bob"], Public := true,
                Onts := [], Noise := "<p>" }],
    zonkers := [], chonks := [], nextid := 2 }

/-- An environment in which the first POST gets status 400 and every later
POST status 500. -/
def flaky : DEnv :=
  { ziggy := fun _ => true, box := fun _ => none,
    post := fun i _ _ => if i = 0 then some "http post status: 400"
      else some "http post status: 500" }

/-- A batch of three messages for a shared inbox. -/
def batch : Doover :=
  { ID := 0, When := 0, Userid := 1, Tries := 0, Rcpt := "%https://b.example/inbox",
    Msgs := ["a", "b", "c"] }

/-- The engine after a failed first delivery and a second message for the same
recipient: one row that holds both messages. -/
def coalesced : DState :=
  { table :=
      { rows := [{ dooverid := 1, dt := "mmmmm", tries := 1, userid := 1,
                   rcpt := "%https://dead.example/inbox",
                   msgs := "a" ++ String.singleton NUL ++ "b" }],
        nextid := 2 },
    inflight := [] }

namespace httpsig

/-- The line signed for header `h`, read off the request `r` that carries the
header values. -/
def signedLine (req r : Request) (h : String) : String :=
  h ++ ": " ++ (if h = "(request-target)" then ToLower req.Method ++ " " ++ req.URL.RequestURI
    else r.Header.Get h)

/-- The POST `postInbox` with body `hello` signed by `SignRequest` with RSA key 3
of `demoLib` at minute 5. -/
def rsaSigned : Request :=
  match SignRequest demoLib (5 * Minute) "k" ⟨KeyType.RSA, 3⟩ postInbox "hello" with
  | some r => r
  | none => postInbox

end httpsig

/-- The engine after a failed first delivery of the message `a`: one row with
that message. -/
def firstFailed : DState :=
  { table :=
      { rows := [{ dooverid := 1, dt := "mmmmm", tries := 1, userid := 1,
                   rcpt := "%https://dead.example/inbox", msgs := "a" }],
        nextid := 2 },
    inflight := [] }

/-- A record for an actor whose inbox is not resolved, after three tries. -/
def unresolved : Doover :=
  { ID := 0, When := 0, Userid := 1, Tries := 3, Rcpt := "https://dead.example/u/bob",
    Msgs := ["a"] }

/-- A rendering of times for examples: the hour count in unary. -/
def hours (t : Int) : String := String.mk (List.replicate (t / Hour).toNat 'h')

/-- A record with the given try count, for examples. -/
def tried (n : Int) : Doover :=
  { ID := 0, When := 0, Userid := 1, Tries := n, Rcpt := "%https://dead.example/inbox",
    Msgs := ["a"] }

/-! ## `activity.go`: recipients -/

/-- Go `Box`. -/
structure Box where
  In : String
  Out : String
  Shared : String
  deriving DecidableEq, Repr

/-- Go `rcpts[k] = true` on a map used as a set: the keys of the map, a new key
at the end. -/
def setKey (rcpts : List String) (k : String) : List String :=
  if k ∈ rcpts then rcpts else rcpts ++ [k]

/-- One turn of the loop of `boxuprcpts` for the address `a`, together with the
goroutine it starts; `box` is `boxofboxes.Get`, `none` for `nil`. -/
def boxupOne (box : String → Option Box) (user : WhatAbout) (useshared : Bool)
    (rcpts : List String) (a : String) : List String :=
  if a = "" ∨ a = thewholeworld ∨ a = user.URL ∨ HasSuffix a "/followers" then rcpts
  else if a.data.head? = some '%' then setKey rcpts a
  else
    match box a with
    | some b =>
      if useshared ∧ b.Shared ≠ "" then setKey rcpts ("%" ++ b.Shared)
      else setKey rcpts a
    | none => setKey rcpts a

/-- Go `boxuprcpts`: the keys of the map it returns. The goroutines add their
keys under the mutex in some order; here they run in the order of the
addresses, and `boxuprcpts_perm` shows that the set of keys does not depend on
the order. -/
def boxuprcpts (box : String → Option Box) (user : WhatAbout) (addresses : List String)
    (useshared : Bool) : List String :=
  addresses.foldl (boxupOne box user useshared) []

/-- The addresses `boxuprcpts` passes over. -/
def skipped (user : WhatAbout) (a : String) : Bool :=
  a = "" || a = thewholeworld || a = user.URL || HasSuffix a "/followers"

/-- The key an address contributes to the map of `boxuprcpts`, if any. -/
def rcptOf (box : String → Option Box) (user : WhatAbout) (useshared : Bool) (a : String) :
    Option String :=
  if skipped user a then none
  else if a.data.head? = some '%' then some a
  else
    match box a with
    | some b => if useshared ∧ b.Shared ≠ "" then some ("%" ++ b.Shared) else some a
    | none => some a

/-- The shared inboxes of the addresses that are not passed over. -/
def sharedOf (box : String → Option Box) (user : WhatAbout) (addresses : List String) :
    List String :=
  (addresses.filter fun a => !skipped user a).filterMap fun a => (box a).map Box.Shared

/-- A directory of three actors, two of them behind one shared inbox. -/
def threeBoxes : String → Option Box := fun a =>
  if a = "https://a.example/u/ann" then
    some ⟨"https://a.example/u/ann/inbox", "https://a.example/u/ann/outbox",
      "https://a.example/inbox"⟩
  else if a = "https://a.example/u/bob" then
    some ⟨"https://a.example/u/bob/inbox", "https://a.example/u/bob/outbox",
      "https://a.example/inbox"⟩
  else if a = "https://b.example/u/cat" then
    some ⟨"https://b.example/u/cat/inbox", "https://b.example/u/cat/outbox",
      "https://b.example/inbox"⟩
  else none

/-- A public audience of the user `alice` with the three actors. -/
def publicAudience : List String :=
  [thewholeworld, "https://a.example/u/ann", "https://honk.example/u/alice/followers",
   "https://a.example/u/bob", "", "https://b.example/u/cat", "https://honk.example/u/alice"]

/-! ## `fun.go`: short ids -/

/-- Go `letters` of `xcelerate`. -/
def letters : String := "BCDFGHJKLMNPQRSTVWXYZbcdfghjklmnpqrstvwxyz1234567891234567891234"

/-- Go `xcelerate`: each byte `c` becomes `letters[c&63]`. Bytes are numbers
below 256. -/
def xcelerate (b : List Nat) : String :=
  String.mk (b.map fun c => letters.data.getD (c % 64) 'B')

/-- Go `sha512.New512_256()` with `io.WriteString` and `Sum(nil)`: the digest of
a text, 32 bytes long. -/
structure Sum512_256 where
  sum : String → List Nat
  size : ∀ s, (sum s).length = 32

/-- Go `shortxid`. -/
def shortxid (H : Sum512_256) (xid : String) : String := xcelerate ((H.sum xid).take 20)

/-- A digest for examples: the character codes of the text, padded with zeros
or cut to 32 bytes. -/
def demoSum : Sum512_256 where
  sum := fun s => ((s.data.map fun c : Char => c.toNat % 256) ++ List.replicate 32 0).take 32
  size := fun s => by
    rw [List.length_take, List.length_append, List.length_replicate]
    omega

/-! ## `activity.go`: the outbound builder -/

/-- Go `strings.ToUpper`, on ASCII letters. -/
def ToUpper (s : String) : String := String.mk (s.data.map Char.toUpper)

/-- Go `junk.New()`. -/
def Junk.New : Junk := []

/-- Go `j[key] = val` on a `junk.Junk`. -/
def Junk.Set (j : Junk) (key : String) (val : JVal) : Junk :=
  (j.filter fun kv => kv.1 ≠ key) ++ [(key, val)]

/-- Go `Mention`. -/
structure Mention where
  Who : String
  Where : String
  deriving DecidableEq, Repr

/-- Go `Emu`. -/
structure Emu where
  ID : String
  Name : String
  Typ : String
  deriving DecidableEq, Repr

/-- Modelled from the spec: Go `Place` ("the place fields"), as `jonkjonk` reads
it; the coordinates are numbers that are compared with zero and copied. -/
structure Place where
  Name : String
  Latitude : Int
  Longitude : Int
  Url : String
  deriving DecidableEq, Repr

/-- Modelled from the spec: Go `Time` of an event ("startTime/duration"), in
nanoseconds. -/
structure Time where
  StartTime : Int
  Duration : Int
  deriving DecidableEq, Repr

/-- The fields of Go `Donk`, the attachment, that `activatedonks` reads. -/
structure Donk where
  Name : String
  Desc : String
  Media : String
  URL : String
  deriving DecidableEq, Repr

/-- Go `Honk` as the outbound builder reads it: the record `Honk` above
together with the fields that `jonkjonk` reads and the store model does not
keep. `Date` is in nanoseconds; of a reply only the record is kept. -/
structure HonkOut extends Honk where
  Date : Int
  Precis : String
  Replies : List Honk
  Mentions : List Mention
  Place : Option Place
  Time : Option Time
  Donks : List Donk
  Link : String
  LegalName : String
  deriving DecidableEq, Repr

/-- What `jonkjonk` calls: the digest of `shortxid`, `Format(time.RFC3339)`,
`Duration.String()`, the server name of `serverURL`, and the functions
`translate`, `redoimages`, `herdofemus`, `activatedonks` and `fixupflags`
(the last is not part of the sources at hand; it returns the flag emoji and may
change the record). -/
structure JEnv where
  sum : Sum512_256
  rfc3339 : Int → String
  durationString : Int → String
  serverName : String
  translate : HonkOut → HonkOut
  redoimages : HonkOut → HonkOut
  herdofemus : String → List Emu
  fixupflags : HonkOut → List Emu × HonkOut
  activatedonks : List Donk → List Junk

/-- Go `serverURL` for a path that is already formatted. -/
def serverURL (E : JEnv) (u : String) : String := "https://" ++ E.serverName ++ u

/-- Go `tooooFancy`. -/
def tooooFancy (noise : String) : Bool := Contains noise "<img" || Contains noise "<table"

/-- The loop of `jonkjonk` over `h.Mentions`. -/
def mentionTags (ms : List Mention) : List Junk :=
  ms.map fun m =>
    ((Junk.New.Set "type" (JVal.str "Mention")).Set "name" (JVal.str m.Who)).Set "href"
      (JVal.str m.Where)

/-- The loop of `jonkjonk` over `h.Onts`; `none` is the panic of `o[1:]` on an
empty string. -/
def hashtagTags (E : JEnv) : List String → Option (List Junk)
  | [] => some []
  | o :: rest =>
    match (ToLower o).data with
    | [] => none
    | _ :: tl =>
      match hashtagTags E rest with
      | none => none
      | some ts =>
        some (((Junk.New.Set "type" (JVal.str "Hashtag")).Set "href"
          (JVal.str (serverURL E ("/o/" ++ String.mk tl)))).Set "name" (JVal.str (ToLower o)) :: ts)

/-- The two loops of `jonkjonk` over emoji: the tag of one `Emu`, with the
media type `mt` of its icon. -/
def emuTag (e : Emu) (mt : String) : Junk :=
  let i := ((Junk.New.Set "type" (JVal.str "Image")).Set "mediaType" (JVal.str mt)).Set "url"
    (JVal.str e.ID)
  (((Junk.New.Set "id" (JVal.str e.ID)).Set "type" (JVal.str "Emoji")).Set "name"
    (JVal.str e.Name)).Set "icon" (JVal.map i)

/-- The `location` that `jonkjonk` builds from `h.Place`. -/
def placeJunk (p : Place) : Junk :=
  let t := Junk.New.Set "type" (JVal.str "Place")
  let t := if p.Name ≠ "" then t.Set "name" (JVal.str p.Name) else t
  let t := if p.Latitude ≠ 0 then t.Set "latitude" (JVal.num p.Latitude) else t
  let t := if p.Longitude ≠ 0 then t.Set "longitude" (JVal.num p.Longitude) else t
  if p.Url ≠ "" then t.Set "url" (JVal.str p.Url) else t

/-- The case `update`, `event`, `honk` of the `switch` in `jonkjonk`: the
activity and the object; `none` is a panic. `to0` and `cc` are `h.Audience[0]`
and `h.Audience[1:]`. -/
def jonkObject (E : JEnv) (h : HonkOut) (dt who : String) (to0 : String) (cc : List String)
    (j : Junk) : Option (Junk × Junk) :=
  let j := j.Set "type" (JVal.str "Create")
  let jo := Junk.New.Set "id" (JVal.str h.XID)
  let jo := jo.Set "type" (JVal.str "Note")
  let j := if h.What = "update" then j.Set "type" (JVal.str "Update") else j
  let jo := if h.What = "update" then jo.Set "updated" (JVal.str dt) else jo
  let jo := jo.Set "published" (JVal.str dt)
  let jo := jo.Set "url" (JVal.str h.XID)
  let jo := jo.Set "attributedTo" (JVal.str who)
  let jo := if h.RID ≠ "" then jo.Set "inReplyTo" (JVal.str h.RID) else jo
  let jo := if h.Convoy ≠ "" then
      (jo.Set "context" (JVal.str h.Convoy)).Set "conversation" (JVal.str h.Convoy)
    else jo
  let jo := jo.Set "to" (JVal.str to0)
  let jo := if cc.length > 0 then jo.Set "cc" (JVal.arr (cc.map JVal.str)) else jo
  let jo := if ¬ h.Public then jo.Set "directMessage" (JVal.bool true) else jo
  let h := E.redoimages (E.translate h)
  let jo := if h.Precis ≠ "" then jo.Set "sensitive" (JVal.bool true) else jo
  let replies := h.Replies.map fun reply => reply.XID
  let jo := if replies.length > 0 then
      jo.Set "replies" (JVal.map (((Junk.New.Set "type" (JVal.str "Collection")).Set
        "totalItems" (JVal.num replies.length)).Set "items" (JVal.arr (replies.map JVal.str))))
    else jo
  let mentions := mentionTags h.Mentions
  match hashtagTags E h.Onts with
  | none => none
  | some hashtags =>
    let emus := (E.herdofemus h.Noise).map fun e => emuTag e e.Typ
    let ff := E.fixupflags h
    let h := ff.2
    let flags := ff.1.map fun e => emuTag e "image/png"
    let tags := mentions ++ hashtags ++ emus ++ flags
    let jo := if tags.length > 0 then jo.Set "tag" (JVal.arr (tags.map JVal.map)) else jo
    let jo := match h.Place with
      | some p => jo.Set "location" (JVal.map (placeJunk p))
      | none => jo
    let jo := match h.Time with
      | some t =>
        let jo := jo.Set "startTime" (JVal.str (E.rfc3339 t.StartTime))
        if t.Duration ≠ 0 then
          jo.Set "duration" (JVal.str ("PT" ++ ToUpper (E.durationString t.Duration)))
        else jo
      | none => jo
    let atts := E.activatedonks h.Donks
    let jo := if h.Link ≠ "" then jo.Set "type" (JVal.str "Page") else jo
    let atts := if h.Link ≠ "" then
        atts ++ [(Junk.New.Set "type" (JVal.str "Link")).Set "href" (JVal.str h.Link)]
      else atts
    let jo := if tooooFancy h.Noise then jo.Set "type" (JVal.str "Article") else jo
    let jo := if h.What = "event" then jo.Set "type" (JVal.str "Event") else jo
    let jo := if atts.length > 0 then jo.Set "attachment" (JVal.arr (atts.map JVal.map)) else jo
    let jo := if h.LegalName ≠ "" then jo.Set "name" (JVal.str h.LegalName) else jo
    let jo := if h.Precis ≠ "" then jo.Set "summary" (JVal.str h.Precis) else jo
    let jo := jo.Set "content" (JVal.str h.Noise)
    some (j.Set "object" (JVal.map jo), jo)

/-- The `switch` of `jonkjonk` on `h.What`. -/
def jonkSwitch (E : JEnv) (user : WhatAbout) (h : HonkOut) (dt who : String) (to0 : String)
    (cc : List String) (j : Junk) : Option (Junk × Option Junk) :=
  if h.What = "update" ∨ h.What = "event" ∨ h.What = "honk" then
    match jonkObject E h dt who to0 cc j with
    | none => none
    | some (j, jo) => some (j, some jo)
  else if h.What = "bonk" then
    let j := j.Set "type" (JVal.str "Announce")
    let j := if h.Convoy ≠ "" then j.Set "context" (JVal.str h.Convoy) else j
    some (j.Set "object" (JVal.str h.XID), none)
  else if h.What = "unbonk" then
    let b := Junk.New.Set "id"
      (JVal.str (user.URL ++ "/" ++ "bonk" ++ "/" ++ shortxid E.sum h.XID))
    let b := b.Set "type" (JVal.str "Announce")
    let b := b.Set "actor" (JVal.str user.URL)
    let b := if h.Convoy ≠ "" then b.Set "context" (JVal.str h.Convoy) else b
    let b := b.Set "object" (JVal.str h.XID)
    some ((j.Set "type" (JVal.str "Undo")).Set "object" (JVal.map b), none)
  else if h.What = "zonk" then
    some ((j.Set "type" (JVal.str "Delete")).Set "object" (JVal.str h.XID), none)
  else if h.What = "ack" then
    let j := (j.Set "type" (JVal.str "Read")).Set "object" (JVal.str h.XID)
    some (if h.Convoy ≠ "" then j.Set "context" (JVal.str h.Convoy) else j, none)
  else if h.What = "react" then
    let j := (j.Set "type" (JVal.str "EmojiReact")).Set "object" (JVal.str h.XID)
    let j := if h.Convoy ≠ "" then j.Set "context" (JVal.str h.Convoy) else j
    some (j.Set "content" (JVal.str h.Noise), none)
  else if h.What = "deack" then
    let b := Junk.New.Set "id"
      (JVal.str (user.URL ++ "/" ++ "ack" ++ "/" ++ shortxid E.sum h.XID))
    let b := b.Set "type" (JVal.str "Read")
    let b := b.Set "actor" (JVal.str user.URL)
    let b := b.Set "object" (JVal.str h.XID)
    let b := if h.Convoy ≠ "" then b.Set "context" (JVal.str h.Convoy) else b
    some ((j.Set "type" (JVal.str "Undo")).Set "object" (JVal.map b), none)
  else some (j, none)

/-- The record after `jonkjonk` has added the followers collection to the
audience of a public record of the user. -/
def withFollowers (user : WhatAbout) (h : HonkOut) : HonkOut :=
  if h.Public ∧ h.Honker = user.URL then
    { h with Audience := h.Audience ++ [user.URL ++ "/followers"] }
  else h

/-- The activity as `jonkjonk` has it when it enters the `switch`: `id`,
`actor`, `published`, `to` and `cc`, for `to0 = h.Audience[0]` and
`cc = h.Audience[1:]`. -/
def jonkEnvelope (E : JEnv) (user : WhatAbout) (h : HonkOut) (to0 : String) (cc : List String) :
    Junk :=
  let j := Junk.New.Set "id"
    (JVal.str (user.URL ++ "/" ++ h.What ++ "/" ++ shortxid E.sum h.XID))
  let j := j.Set "actor" (JVal.str h.Honker)
  let j := j.Set "published" (JVal.str (E.rfc3339 h.Date))
  let j := j.Set "to" (JVal.str to0)
  if cc.length > 0 then j.Set "cc" (JVal.arr (cc.map JVal.str)) else j

/-- Go `jonkjonk`: the activity and the object, `none` for the `nil` object;
the result `none` is a panic (`h.Audience[0]` on an empty audience, `o[1:]` on
an empty hashtag). The changes made to `h` on the way are not returned. -/
def jonkjonk (E : JEnv) (user : WhatAbout) (h : HonkOut) : Option (Junk × Option Junk) :=
  match (withFollowers user h).Audience with
  | [] => none
  | to0 :: cc =>
    jonkSwitch E user (withFollowers user h) (E.rfc3339 h.Date) h.Honker to0 cc
      (jonkEnvelope E user h to0 cc)

/-- An environment of `jonkjonk` for examples: nothing is translated, no emoji,
no attachments. -/
def demoJEnv : JEnv :=
  { sum := demoSum, rfc3339 := fun _ => "1970-01-01T00:00:00Z", durationString := fun _ => "",
    serverName := "honk.example", translate := fun h => h, redoimages := fun h => h,
    herdofemus := fun _ => [], fixupflags := fun h => ([], h), activatedonks := fun _ => [] }

/-- A record of the user `alice` of the kind `what`, public, with one hashtag. -/
def outHonk (what : String) : HonkOut :=
  { ID := 7, UserID := 1, What := what, Honker := "https://honk.example/u/alice", Oonker := "",
    XID := "https://honk.example/u/alice/h/1", RID := "", Convoy := "", Audience := [thewholeworld],
    Public := true, Onts := ["#Lean"], Noise := "<p>hello", Date := 0, Precis := "",
    Replies := [], Mentions := [], Place := none, Time := none, Donks := [], Link := "",
    LegalName := "" }



/-- A note addressed to the public in both spellings. -/
def noteTwice : Junk :=
  [("id", JVal.str "https://a.example/notes/2"), ("type", JVal.str "Note"),
   ("attributedTo", JVal.str "https://a.example/u/bob"),
   ("to", JVal.arr [JVal.str "as:Public", JVal.str "https://www.w3.org/ns/activitystreams#Public"])]

/-- The record `xonksaver` returns for `noteTwice`. -/
def recordTwice : Honk :=
  { ID := 0, UserID := 1, What := "honk", Honker := "https://a.example/u/bob", Oonker := "",
    XID := "https://a.example/notes/2", RID := "", Convoy := "https://a.example/notes/2",
    Audience := [thewholeworld, thewholeworld, "https://a.example/u/bob"], Public := true,
    Onts := [], Noise := "<p>" }

/-- The document that the case `Announce` hands on for an announced object
`note` found inside a `Create` or `Update`: the embedded object when the id of
the `Announce` has the origin of the object id, else what the fetch of the
object id returns. -/
def isAnnounced (W : World) (user : WhatAbout) (item note doc : Junk) : Prop :=
  (originate (item.GetString "id").1 = originate (Junk.GetString note "id").1 ∧ doc = note) ∨
  (originate (item.GetString "id").1 ≠ originate (Junk.GetString note "id").1 ∧
    W.rejectorigin user.ID (Junk.GetString note "id").1 false = false ∧
    ∃ final, W.fetch 0 (Junk.GetString note "id").1 = some (doc, final))

/-- A note of `a.example` by `bob`. -/
def note3 : Junk :=
  [("id", JVal.str "https://a.example/notes/3"), ("type", JVal.str "Note"),
   ("attributedTo", JVal.str "https://a.example/u/bob"), ("to", JVal.str "as:Public")]

/-- The `Announce` by which `bob` boosts his own note `note3`. -/
def selfBoost : Junk :=
  [("id", JVal.str "https://a.example/act/3"), ("type", JVal.str "Announce"),
   ("actor", JVal.str "https://a.example/u/bob"),
   ("object", JVal.map [("type", JVal.str "Create"), ("actor", JVal.str "https://a.example/u/bob"),
      ("object", JVal.map note3)])]

/-- The `Announce` by which `ann` of `a.example` boosts the note `note3`. -/
def annBoost : Junk :=
  [("id", JVal.str "https://a.example/act/4"), ("type", JVal.str "Announce"),
   ("actor", JVal.str "https://a.example/u/ann"),
   ("object", JVal.map [("type", JVal.str "Create"), ("actor", JVal.str "https://a.example/u/bob"),
      ("object", JVal.map note3)])]

/-- The state in which `xonkxonkfn2` settles the convoy of a new record: after
the parent of a public reply has been fetched by `saveonemore`, when it was
wanted. -/
def parentFetched (W : World) (user : WhatAbout) (rec : XonkFn) (xonk : Honk) (s : XState) :
    XState :=
  if xonk.RID ≠ "" ∧ xonk.Public then
    if needxonkid W s.db user xonk.RID then
      let s1 := saveonemore W user rec (xonk.RID) { s with goingup := s.goingup + 1 }
      { s1 with goingup := s1.goingup - 1 }
    else s
  else s

/-- The convoy that `xonkxonkfn2` settles on for a new record in the state `s`
reached after the parent has been looked for: the convoy read from the object;
else, for a public reply, the convoy of the stored parent; else the current
thread id; else the xid of the record. -/
def settledConvoy (user : WhatAbout) (xonk : Honk) (s : XState) : String :=
  let convoy :=
    if xonk.RID ≠ "" ∧ xonk.Public ∧ xonk.Convoy = "" then
      match getxonk s.db user.ID xonk.RID with
      | some xx => xx.Convoy
      | none => xonk.Convoy
    else xonk.Convoy
  let convoy := if convoy = "" then s.currenttid else convoy
  if convoy = "" then xonk.XID else convoy

/-- A record that `xonkxonkfn2` returns, as it was read from the item, before
the id and the convoy were settled: the record that `needxonk` is asked
about. -/
def asRead (item : Junk) (x : Honk) : Honk := { x with ID := 0, Convoy := convoyOf item }

/-- A public reply of `a.example` to the stored note `https://a.example/notes/1`
that carries a context of its own. -/
def replyOwnContext : Junk :=
  [("id", JVal.str "https://a.example/notes/5"), ("type", JVal.str "Note"),
   ("attributedTo", JVal.str "https://a.example/u/bob"), ("to", JVal.str "as:Public"),
   ("inReplyTo", JVal.str "https://a.example/notes/1"),
   ("context", JVal.str "https://a.example/contexts/9")]

/-- A reply of `a.example` to the stored note `https://a.example/notes/1` that
is not public and carries no context. -/
def replyPrivate : Junk :=
  [("id", JVal.str "https://a.example/notes/6"), ("type", JVal.str "Note"),
   ("attributedTo", JVal.str "https://a.example/u/bob"),
   ("to", JVal.str "https://honk.example/u/alice"),
   ("inReplyTo", JVal.str "https://a.example/notes/1")]

/-- A public reply of `a.example` to the stored note `https://a.example/notes/1`
that carries no context. -/
def replyPublic : Junk :=
  [("id", JVal.str "https://a.example/notes/7"), ("type", JVal.str "Note"),
   ("attributedTo", JVal.str "https://a.example/u/bob"), ("to", JVal.str "as:Public"),
   ("inReplyTo", JVal.str "https://a.example/notes/1")]

/-- The store `storeWithNote` with the convoy of its note set to a thread id. -/
def storeWithThread : Store :=
  { honks := [{ ID := 1, UserID := 1, What := "honk", Honker := "https://a.example/u/bob",
                Oonker := "", XID := "https://a.example/notes/1", RID := "",
                Convoy := "https://a.example/contexts/1",
                Audience := [thewholeworld, "https://a.example/u/bob"], Public := true,
                Onts := [], Noise := "<p>" }],
    zonkers := [], chonks := [], nextid := 2 }

/-- The record `xonksaver` returns for `replyPublic` with the store
`storeWithThread`. -/
def recordReply : Honk :=
  { ID := 0, UserID := 1, What := "honk", Honker := "https://a.example/u/bob", Oonker := "",
    XID := "https://a.example/notes/7", RID := "https://a.example/notes/1",
    Convoy := "https://a.example/contexts/1", Audience := [thewholeworld, "https://a.example/u/bob"],
    Public := true, Onts := [], Noise := "<p>" }

/-- A `Delete` sent by `a.example` for a note of `a.example`. -/
def ownDelete : Junk :=
  [("type", JVal.str "Delete"), ("actor", JVal.str "https://a.example/u/bob"),
   ("object", JVal.str "https://a.example/notes/1")]

/-! ## `web.go`: `postinbox` -/

/-- Go `falsenames`. -/
def falsenames : List String := ["application/ld+json", "application/activity+json"]

/-- Go `friendorfoe`. -/
def friendorfoe (ct : String) : Bool := falsenames.any fun a => HasPrefix (ToLower ct) a

/-- What `postinbox` takes from its surroundings: the library of `httpsig`, the
clock at the first and at the second call of `VerifyRequest`, `butwhatabout`
(`none` is its error), `stealthmode`, `junk.FromBytes` (`none` is its error),
`rejectactor`, the key lookup `zaggy` as it answers at first and as it answers
after `savingthrow` has dropped the stored key of that name, and the settings
`serverName` and `collectForwards`. -/
structure PEnv where
  L : httpsig.Lib
  now : Int
  again : Int
  butwhatabout : String → Option WhatAbout
  stealthmode : UserID → httpsig.Request → Bool
  FromBytes : String → Option Junk
  rejectactor : UserID → String → Bool
  zaggy : String → httpsig.PublicKey × Option String
  savingthrow : String → String → httpsig.PublicKey × Option String
  serverName : String
  collectForwards : Bool

/-- An activity and its type, as `crappola` carries them along. -/
abbrev Crap := Junk × String

/-- The step of `crappola` that looks into the object of an activity of type
`typ`. -/
def unwrapped (typ : String) (c : Crap) : Crap :=
  if c.2 = typ then
    match c.1.GetMap "object" with
    | some obj => (obj, firstofmany obj "type")
    | none => c
  else c

/-- Go `crappola`. -/
def crappola (serverName : String) (j : Junk) : Bool :=
  let t := firstofmany j "type"
  if t = "Delete" ∧ (j.GetString "actor").1 = (j.GetString "object").1 then true
  else
    let c := unwrapped "Undo" (unwrapped "Announce" (j, t))
    if c.2 = "Like" ∨ c.2 = "Dislike" ∨ c.2 = "Listen" then true
    else if c.2 = "EmojiReact" then decide (originate (c.1.GetString "object").1 ≠ serverName)
    else false

/-- The function `postinbox` hands the activity to, with the arguments that
tell the calls apart; `nothing` when it returns without a call. -/
inductive Handler where
  | nothing
  | pong (who id : String)
  | followme (who : String)
  | followyou2
  | nofollowyou2
  | xonksaver (origin : String)
  | unfollowme (who : String)
  | addreaction (obj who content : String)
  | saveandcheck (origin : String)
  | grabhonk (xid : String)
  deriving DecidableEq, Repr

/-- The answer of `postinbox`: the HTTP status (200 when the handler returns
without writing, as `net/http` then does) and the call it made. -/
structure Reply where
  status : Nat
  did : Handler
  deriving DecidableEq, Repr

/-- The two calls of `VerifyRequest` in `postinbox`: the second one, after
`savingthrow`, is made when the first failed with a key name. -/
def verifyTwice (E : PEnv) (r : httpsig.Request) (payload : String) : String × Option String :=
  let v := httpsig.VerifyRequest E.L E.now r payload E.zaggy
  if v.2.isSome ∧ v.1 ≠ "" then
    httpsig.VerifyRequest E.L E.again r payload (E.savingthrow v.1)
  else v

/-- The branch of `postinbox` for `origin == ""`. -/
def forwarded (E : PEnv) (j : Junk) (what : String) : Handler :=
  if E.collectForwards ∧ what = "Create" then
    let xid := match j.GetMap "object" with
      | some obj => (Junk.GetString obj "id").1
      | none => (j.GetString "object").1
    if xid ≠ "" then Handler.grabhonk xid else Handler.nothing
  else Handler.nothing

/-- The `switch what` of `postinbox`. -/
def dispatch (user : WhatAbout) (j : Junk) (what who origin : String) : Handler :=
  if what = "Ping" then Handler.pong who (j.GetString "id").1
  else if what = "Pong" then Handler.nothing
  else if what = "Follow" then
    if (j.GetString "object").1 ≠ user.URL then Handler.nothing else Handler.followme who
  else if what = "Accept" then Handler.followyou2
  else if what = "Reject" then Handler.nofollowyou2
  else if what = "Update" then
    match j.GetMap "object" with
    | some obj =>
      if firstofmany obj "type" = "Service" ∨ firstofmany obj "type" = "Person" ∨
          firstofmany obj "type" = "Question" then Handler.nothing
      else Handler.xonksaver origin
    | none => Handler.xonksaver origin
  else if what = "Undo" then
    match j.GetMap "object" with
    | none =>
      if (j.GetString "object").2 ∧ originate (j.GetString "object").1 = origin then
        Handler.unfollowme ""
      else Handler.nothing
    | some obj =>
      if firstofmany obj "type" = "Follow" then Handler.unfollowme who else Handler.nothing
  else if what = "EmojiReact" then
    if (j.GetString "object").2 then
      Handler.addreaction (j.GetString "object").1 who (j.GetString "content").1
    else Handler.nothing
  else Handler.saveandcheck origin

/-- Go `postinbox` for the route variable `name`, the request `r` and the bytes
`body` of its body, of which 1 MiB is read. -/
def postinbox (E : PEnv) (name : String) (r : httpsig.Request) (body : String) : Reply :=
  if ¬ friendorfoe (r.Header.Get "Content-Type") then ⟨406, Handler.nothing⟩
  else
    match E.butwhatabout name with
    | none => ⟨404, Handler.nothing⟩
    | some user =>
      if E.stealthmode user.ID r then ⟨404, Handler.nothing⟩
      else
        let payload := String.mk (body.data.take (1 * 1024 * 1024))
        match E.FromBytes payload with
        | none => ⟨200, Handler.nothing⟩
        | some j =>
          if crappola E.serverName j then ⟨200, Handler.nothing⟩
          else
            let what := firstofmany j "type"
            let who := (j.GetString "actor").1
            if E.rejectactor user.ID who then ⟨200, Handler.nothing⟩
            else
              let v := verifyTwice E r payload
              if v.2.isSome then ⟨401, Handler.nothing⟩
              else
                let origin := keymatch v.1 who
                if origin = "" then ⟨200, forwarded E j what⟩
                else ⟨200, dispatch user j what who origin⟩

/-- A request that reaches the signature check of `postinbox`: its content
type is one of ActivityStreams, the user exists and is not in stealth mode
for it, the payload parses to `j`, and neither `crappola` nor `rejectactor`
turns the activity away. -/
def reachesCheck (E : PEnv) (name : String) (r : httpsig.Request) (body : String)
    (user : WhatAbout) (j : Junk) : Prop :=
  friendorfoe (r.Header.Get "Content-Type") = true ∧
  E.butwhatabout name = some user ∧
  E.stealthmode user.ID r = false ∧
  E.FromBytes (String.mk (body.data.take (1 * 1024 * 1024))) = some j ∧
  crappola E.serverName j = false ∧
  E.rejectactor user.ID (j.GetString "actor").1 = false

/-- A text has an `https://` host: somewhere in it `https://` is followed by a
character other than `/`, space, `#`, `)` and `?`. -/
def hasHost (u : String) : Prop :=
  ∃ pre c rest, u.data = pre ++ "https://".data ++ c :: rest ∧ hostChar c = true

/-- The name of the key of `https://a.example/u/bob`. -/
def bobKey : String := "https://a.example/u/bob#main-key"

/-- The bytes of a `Follow` that names `https://b.example/u/eve` as its actor. -/
def evePost : String :=
  "\x7b\"type\":\"Follow\",\"actor\":\"https://b.example/u/eve\"," ++
    "\"object\":\"https://honk.example/u/alice\"\x7d"

/-- The document `evePost` parses to. -/
def eveFollow : Junk :=
  [("type", JVal.str "Follow"), ("actor", JVal.str "https://b.example/u/eve"),
   ("object", JVal.str "https://honk.example/u/alice")]

/-- The POST of `evePost` to the inbox, signed with the key of bob (RSA key 3 of
`demoLib`) at minute 5. -/
def eveSigned : httpsig.Request :=
  match httpsig.SignRequest httpsig.demoLib (5 * httpsig.Minute) bobKey ⟨httpsig.KeyType.RSA, 3⟩
      httpsig.postInbox evePost with
  | some r => r
  | none => httpsig.postInbox

/-- A server for the user `alice` at minute 6 that knows the key of bob, has no
filters, and parses `evePost`. -/
def inboxEnv : PEnv :=
  { L := httpsig.demoLib, now := 6 * httpsig.Minute, again := 6 * httpsig.Minute,
    butwhatabout := fun n => if n = "alice" then some alice else none,
    stealthmode := fun _ _ => false,
    FromBytes := fun s => if s = evePost then some eveFollow else none,
    rejectactor := fun _ _ => false,
    zaggy := httpsig.demoLookup httpsig.KeyType.RSA bobKey,
    savingthrow := fun _ => httpsig.demoLookup httpsig.KeyType.RSA bobKey,
    serverName := "honk.example", collectForwards := true }

/-- The same POST with its `Signature` header replaced. -/
def eveTampered : httpsig.Request :=
  { httpsig.asReceived eveSigned with
    Header := (httpsig.asReceived eveSigned).Header.Set "Signature" "keyId=\"\"" }

namespace httpsig

/-- A POST to the inbox that carries no header at all. -/
def bareInbox : Request :=
  { Method := "POST", URL := demoURL, Host := "", Header := headerOf [] }

/-- The request `SignRequest` is given, or the signed one when it returns. -/
def signedOr (L : Lib) (now : Int) (keyname : String) (key : PrivateKey) (req : Request)
    (content : String) : Request :=
  match SignRequest L now keyname key req content with
  | some r => r
  | none => req

end httpsig

/-- The string `proctag` appends for a hashtag named `name`: the name, with a
`#` put in front when it has none. -/
def ontOf (name : String) : String :=
  if name.data.head? ≠ some '#' then "#" ++ name else name

/-- A tag of type `Hashtag` named `name` among the tags of an object. -/
def hasHashtag (obj : Junk) (name : String) : Prop :=
  ∃ tag, JVal.map tag ∈ oneforall obj "tag" ∧ (Junk.GetString tag "type").1 = "Hashtag" ∧
    (Junk.GetString tag "name").1 = name

/-- A note of `a.example` tagged `#Cats`. -/
def noteCats : Junk :=
  [("id", JVal.str "https://a.example/notes/3"), ("type", JVal.str "Note"),
   ("attributedTo", JVal.str "https://a.example/u/bob"),
   ("tag", JVal.arr [JVal.map [("type", JVal.str "Hashtag"), ("name", JVal.str "#Cats")],
                     JVal.map [("type", JVal.str "Hashtag"), ("name", JVal.str "cats")]])]

/-! ## Package `gate`: `Limiter` -/

namespace gate

/-- Go `Limiter`, without its mutex and condition variable; `busy` lists the
keys that the map holds as `true`. -/
structure Limiter where
  maxout : Int
  numout : Int
  waiting : Int
  busy : List String
  deriving DecidableEq, Repr

/-- Go `NewLimiter`. -/
def NewLimiter (maxout : Int) : Limiter :=
  { maxout := maxout, numout := 0, waiting := 0, busy := [] }

/-- Where an operation stands that calls `StartKey(key)`, works, and calls
`FinishKey(key)`: before the call, inside `bell.Wait()` and not yet woken,
woken by a `Broadcast` but not yet in possession of the lock, after `StartKey`
has returned, after `FinishKey` has returned. -/
inductive Pc where
  | idle
  | asleep
  | awake
  | running
  | finished
  deriving DecidableEq, Repr

/-- An operation of the garage: its key and where it stands. -/
structure Op where
  key : String
  pc : Pc
  deriving DecidableEq, Repr

/-- The limiter and the operations that use it. -/
structure Garage where
  l : Limiter
  ops : List Op
  deriving DecidableEq, Repr

/-- The loop test of `StartKey` and what follows it under the lock: the
operation goes to sleep in `bell.Wait()`, or marks the key busy, counts itself
and returns. -/
def tryStart (l : Limiter) (key : String) : Limiter × Pc :=
  if l.numout ≥ l.maxout ∨ key ∈ l.busy then ({ l with waiting := l.waiting + 1 }, Pc.asleep)
  else ({ l with busy := setKey l.busy key, numout := l.numout + 1 }, Pc.running)

/-- Go `FinishKey` up to the `Broadcast`: the key is deleted from `busy` and
the count lowered. -/
def release (l : Limiter) (key : String) : Limiter :=
  { l with busy := l.busy.filter (fun k => k ≠ key), numout := l.numout - 1 }

/-- The effect of `bell.Broadcast()` on one operation. -/
def wake (o : Op) : Op := if o.pc = Pc.asleep then { o with pc := Pc.awake } else o

/-- The steps of the operations; each is one stretch of code under the lock. -/
inductive Act where
  | start (i : Nat)
  | resume (i : Nat)
  | finish (i : Nat)
  deriving DecidableEq, Repr

/-- One step: `start i` is the call of `StartKey` by operation `i` up to its
return or its `bell.Wait()`; `resume i` is the return of a woken operation
from `bell.Wait()` and the next turn of the loop; `finish i` is the call of
`FinishKey` by an operation whose `StartKey` has returned. A step that the
operation cannot take is `none`. -/
def step (g : Garage) : Act → Option Garage
  | Act.start i =>
    match g.ops[i]? with
    | some ⟨key, Pc.idle⟩ =>
      let r := tryStart g.l key
      some { l := r.1, ops := g.ops.set i ⟨key, r.2⟩ }
    | _ => none
  | Act.resume i =>
    match g.ops[i]? with
    | some ⟨key, Pc.awake⟩ =>
      let r := tryStart { g.l with waiting := g.l.waiting - 1 } key
      some { l := r.1, ops := g.ops.set i ⟨key, r.2⟩ }
    | _ => none
  | Act.finish i =>
    match g.ops[i]? with
    | some ⟨key, Pc.running⟩ =>
      some { l := release g.l key, ops := (g.ops.set i ⟨key, Pc.finished⟩).map wake }
    | _ => none

/-- A run of steps. -/
def run : List Act → Garage → Option Garage
  | [], g => some g
  | a :: as, g =>
    match step g a with
    | some g1 => run as g1
    | none => none

/-- The garage at the start: a new limiter and operations that have not
called `StartKey` yet, one for each entry of `keys`. -/
def opened (maxout : Int) (keys : List String) : Garage :=
  { l := NewLimiter maxout, ops := keys.map fun k => ⟨k, Pc.idle⟩ }

/-- The keys of the operations between the return of `StartKey` and the call
of `FinishKey`. -/
def holders (ops : List Op) : List String :=
  (ops.filter fun o => o.pc = Pc.running).map Op.key

/-- The number of operations that hold the key `k`. -/
def holding (ops : List Op) (k : String) : Nat :=
  (ops.filter fun o => decide (o.key = k ∧ o.pc = Pc.running)).length

/-- The state of the limiter agrees with the operations: the busy keys are the
keys held, none twice, `numout` counts them and is at most `maxout`. -/
def Sound (g : Garage) : Prop :=
  g.l.busy.Perm (holders g.ops) ∧ g.l.busy.Nodup ∧ g.l.numout = g.l.busy.length ∧
  g.l.numout ≤ g.l.maxout

/-- Three deliveries, two of them to the same inbox. -/
def threeOps : List String :=
  ["%https://a.example/inbox", "%https://a.example/inbox", "%https://b.example/inbox"]

/-- The garage after both deliveries to `a.example` and the one to `b.example`
have called `StartKey`: the second one to `a.example` sleeps. -/
def threeStarted : Garage :=
  { l := { maxout := 40, numout := 2, waiting := 1,
           busy := ["%https://a.example/inbox", "%https://b.example/inbox"] },
    ops := [⟨"%https://a.example/inbox", Pc.running⟩, ⟨"%https://a.example/inbox", Pc.asleep⟩,
            ⟨"%https://b.example/inbox", Pc.running⟩] }

end gate

/-! ## Package `gencache` -/

namespace gencache

/-- A Go map with string keys, as a list with one pair for each key. -/
abbrev Map (V : Type) := List (String × V)

/-- Go `m[key]` with the `ok` flag: `none` when the key is absent. -/
def Map.get {V : Type} (m : Map V) (key : String) : Option V := List.lookup key m

/-- Go `m[key] = v`. -/
def Map.put {V : Type} (m : Map V) (key : String) (v : V) : Map V :=
  (key, v) :: m.filter fun e => e.1 ≠ key

/-- Go `delete(m, key)`. -/
def Map.delete {V : Type} (m : Map V) (key : String) : Map V := m.filter fun e => e.1 ≠ key

/-- Go `time.Millisecond`, in nanoseconds. -/
def Millisecond : Int := 1000000

/-- Go `time.Second`, in nanoseconds. -/
def Second : Int := 1000 * Millisecond

/-- Go `entry`; the zero time of `expiry` is `none`. -/
structure Entry (V : Type) where
  value : V
  expiry : Option Int

/-- Go `entry.expired`. -/
def Entry.expired {V : Type} (ent : Entry V) (now : Int) : Bool :=
  match ent.expiry with
  | none => false
  | some t => decide (t < now)

/-- Go `Cache`, without its mutex and its default fill function. A channel of
`waiters` is named by the caller that receives from it. -/
structure Cache (V : Type) where
  cache : Map (Entry V)
  waiters : Map (List Nat)
  duration : Int
  limit : Int
  serial : Int
  needgc : Bool

/-- Where a call of `GetWith` stands: before `c.mtx.Lock()`; in `checkbusy`,
receiving from its channel; woken, before it has the lock again; in `tryfill`
with the lock released, the fill function running, `serial` being the value it
read; returned, with `none` for the pair of the zero value and `false`. -/
inductive Pc (V : Type) where
  | start
  | waiting
  | woken
  | filling (serial : Int)
  | returned (value : Option V)

/-- The cache, the clock, the number of `collect` goroutines that sleep, and
the calls of `GetWith` with their keys. -/
structure Deck (V : Type) where
  c : Cache V
  now : Int
  collectors : Nat
  callers : List (String × Pc V)

/-- The fields of Go `Options` that are numbers. -/
structure Options where
  Duration : Int
  Limit : Int
  deriving DecidableEq, Repr

/-- Go `New`, without invalidators. -/
def New (V : Type) (opts : Options) : Deck V :=
  let duration :=
    if opts.Duration > 0 ∧ opts.Duration < Millisecond then opts.Duration * Second
    else opts.Duration
  { c := { cache := [], waiters := [], duration := duration, limit := opts.Limit, serial := 0,
           needgc := false },
    now := 0, collectors := if duration > 0 then 1 else 0, callers := [] }

/-- The entries the second loop of `cleanup` keeps: it deletes the first of
every five. Go ranges over the map in no fixed order; the order of the list
stands for it. -/
def keepFour {V : Type} : Nat → Map (Entry V) → Map (Entry V)
  | _, [] => []
  | i, e :: rest => if i % 5 = 0 then keepFour (i + 1) rest else e :: keepFour (i + 1) rest

/-- Go `cleanup`. -/
def cleanup {V : Type} (c : Cache V) (now : Int) : Cache V :=
  let kept := c.cache.filter fun e => !e.2.expired now
  if c.duration > 0 ∧ kept.length < c.cache.length then { c with cache := kept }
  else { c with cache := keepFour 0 c.cache }

/-- Go `set`; the flag tells that a `collect` goroutine is started. -/
def set {V : Type} (c : Cache V) (now : Int) (key : String) (value : V) : Cache V × Bool :=
  let c := if c.limit > 0 ∧ (c.cache.length : Int) ≥ c.limit then cleanup c now else c
  let ent : Entry V :=
    { value := value, expiry := if c.duration > 0 then some (now + c.duration) else none }
  let c := { c with cache := c.cache.put key ent }
  if c.needgc then ({ c with needgc := false }, true) else (c, false)

/-- The start of the loop of `GetWith`: the entry of the key, dropped when it
has expired. -/
def peek {V : Type} (c : Cache V) (now : Int) (key : String) : Cache V × Option V :=
  match c.cache.get key with
  | some ent =>
    if c.duration > 0 ∧ ent.expired now then ({ c with cache := c.cache.delete key }, none)
    else (c, some ent.value)
  | none => (c, none)

/-- One turn of the loop of `GetWith` for caller `i`, who has the lock: it
returns the entry, or joins the waiters of a fill under way, or notes the key
as busy, reads `serial` and releases the lock to fill. -/
def turn {V : Type} (d : Deck V) (i : Nat) (key : String) : Deck V :=
  let r := peek d.c d.now key
  match r.2 with
  | some v => { d with c := r.1, callers := d.callers.set i (key, Pc.returned (some v)) }
  | none =>
    match r.1.waiters.get key with
    | some ws =>
      { d with c := { r.1 with waiters := r.1.waiters.put key (ws ++ [i]) },
               callers := d.callers.set i (key, Pc.waiting) }
    | none =>
      { d with c := { r.1 with waiters := r.1.waiters.put key [] },
               callers := d.callers.set i (key, Pc.filling r.1.serial) }

/-- The sends `done <- true` of `tryfill`: each caller that waits on one of
the channels is woken. -/
def wakeAll {V : Type} (key : String) (ws : List Nat) (callers : List (String × Pc V)) :
    List (String × Pc V) :=
  ws.foldl (fun cs j => cs.set j (key, Pc.woken)) callers

/-- The steps of the callers and of the surroundings. -/
inductive Act (V : Type) where
  | call (key : String)
  | enter (i : Nat)
  | filled (i : Nat) (value : V) (ok : Bool)
  | tick (t : Nat)
  | collect
  | Clear (key : String)
  | Flush

/-- One step. `call key` is a new call of `GetWith`. `enter i` is caller `i`,
new or woken, taking the lock and making a turn of the loop. `filled i v ok`
is the fill function of caller `i` returning `(v, ok)` and the rest of
`tryfill` under the lock, followed, when `ok` holds, by the next turn of the
loop. `tick t` lets `t` nanoseconds pass; the clock stands still while a
caller has the lock. `collect` is a `collect` goroutine waking up. `Clear` and
`Flush` are the methods of that name. A step that cannot be taken is `none`. -/
def step {V : Type} (d : Deck V) : Act V → Option (Deck V)
  | Act.call key => some { d with callers := d.callers ++ [(key, Pc.start)] }
  | Act.enter i =>
    match d.callers[i]? with
    | some (key, Pc.start) => some (turn d i key)
    | some (key, Pc.woken) => some (turn d i key)
    | _ => none
  | Act.filled i value ok =>
    match d.callers[i]? with
    | some (key, Pc.filling serial) =>
      let r := if ok = true ∧ serial = d.c.serial then set d.c d.now key value else (d.c, false)
      let ws := (r.1.waiters.get key).getD []
      let d1 : Deck V :=
        { d with c := { r.1 with waiters := r.1.waiters.delete key },
                 collectors := if r.2 then d.collectors + 1 else d.collectors,
                 callers := wakeAll key ws d.callers }
      if ok then some (turn d1 i key)
      else some { d1 with callers := d1.callers.set i (key, Pc.returned none) }
    | _ => none
  | Act.tick t => some { d with now := d.now + t }
  | Act.collect =>
    if d.collectors = 0 then none
    else some
      { d with c := { d.c with cache := d.c.cache.filter (fun e => !e.2.expired d.now),
                               needgc := true },
               collectors := d.collectors - 1 }
  | Act.Clear key =>
    some { d with c := { d.c with cache := d.c.cache.delete key,
                                  serial := if (d.c.waiters.get key).isSome then d.c.serial + 1
                                            else d.c.serial } }
  | Act.Flush => some { d with c := { d.c with cache := [], serial := d.c.serial + 1 } }

/-- A run of steps. -/
def run {V : Type} : List (Act V) → Deck V → Option (Deck V)
  | [], d => some d
  | a :: as, d =>
    match step d a with
    | some d1 => run as d1
    | none => none

/-- A caller that is neither filling nor waiting. -/
def Pc.idle {V : Type} : Pc V → Bool
  | Pc.filling _ => false
  | Pc.waiting => false
  | _ => true

/-- Caller `i` is in `tryfill` with a fill for `key` under way. -/
def fills {V : Type} (cs : List (String × Pc V)) (i : Nat) (key : String) : Prop :=
  ∃ serial, cs[i]? = some (key, Pc.filling serial)

/-- Caller `i` sits in `checkbusy`, waiting for the fill for `key` to end. -/
def waits {V : Type} (cs : List (String × Pc V)) (i : Nat) (key : String) : Prop :=
  cs[i]? = some (key, Pc.waiting)

/-- The value `GetWith` has returned to caller `i`; `none` when it has not
returned. -/
def got {V : Type} (d : Deck V) (i : Nat) : Option (Option V) :=
  match d.callers[i]? with
  | some (_, Pc.returned v) => some v
  | _ => none

/-- Single flight for the map `waiters` and the callers: no two callers fill
the same key, a key is busy exactly when a caller fills it, and the callers
that wait for a key are the ones whose channels the map holds for it. -/
def Flight {V : Type} (w : Map (List Nat)) (cs : List (String × Pc V)) : Prop :=
  (∀ i j key, fills cs i key → fills cs j key → i = j) ∧
  (∀ key, (w.get key).isSome = true ↔ ∃ i, fills cs i key) ∧
  (∀ j key, waits cs j key ↔ ∃ ws, w.get key = some ws ∧ j ∈ ws)

/-- Single flight, as a property of a state. -/
def SingleFlight {V : Type} (d : Deck V) : Prop := Flight d.c.waiters d.callers

/-- The cache holds the value `v` for `key` in an entry that expires at `T`,
and the clock has not passed `T`. -/
def Fresh {V : Type} (d : Deck V) (key : String) (v : V) (T : Int) : Prop :=
  d.c.cache.get key = some ⟨v, some T⟩ ∧ d.now ≤ T

/-- A run that leaves an entry of `key` with expiry `T` alone, from the clock
value `now` on: no `Flush`, no `Clear` of the key, and the clock does not pass
`T`. -/
def quiet {V : Type} (key : String) (T : Int) : Int → List (Act V) → Prop
  | _, [] => True
  | now, Act.tick t :: as => now + t ≤ T ∧ quiet key T (now + t) as
  | now, Act.Clear k :: as => k ≠ key ∧ quiet key T now as
  | _, Act.Flush :: _ => False
  | now, _ :: as => quiet key T now as

/-- The state in the time after a fill of `key` has stored `v` with expiry
`T`: single flight holds, the entry is there and not expired, nobody fills the
key, the cache has no size limit, and each caller of `ws` (the ones that
waited for the fill) is woken or has returned `v`. -/
def Window {V : Type} (key : String) (v : V) (T : Int) (ws : List Nat) (d : Deck V) : Prop :=
  SingleFlight d ∧ Fresh d key v T ∧ (∀ a, ¬ fills d.callers a key) ∧
  d.c.limit ≤ 0 ∧ d.c.duration > 0 ∧
  ∀ j ∈ ws, d.callers[j]? = some (key, Pc.woken) ∨
    d.callers[j]? = some (key, Pc.returned (some v))

end gencache

/-- Go `Landing`; `nil` is `none`, and no bytes for `data`. -/
structure Landing where
  data : String
  j : Option Junk
  err : Option String

/-- The fill function `fn` of `GetJunkTimeout`, for the answer of
`getsomejunk`. -/
def fn (j : Option Junk) (err : Option String) : Landing × Bool := (⟨"", j, err⟩, true)

/-- The field `Fill` of `flightdeck`, for the answer of `fetchsome`. -/
def Fill (data : String) (err : Option String) : Landing × Bool := (⟨data, none, err⟩, true)

/-- Go `flightdeck`. -/
def flightdeck : gencache.Deck Landing :=
  gencache.New Landing { Duration := gencache.Second / 4, Limit := 0 }

/-- What `GetJunkTimeout` returns for the landing that `GetWith` gave it; the
zero `Landing` has neither document nor error. -/
def landed : Option Landing → Option Junk × Option String
  | some land => (land.j, land.err)
  | none => (none, none)

/-- The error that caller `i` of `flightdeck` has got, if it has returned. -/
def gotErr (d : gencache.Deck Landing) (i : Nat) : Option (Option String) :=
  (gencache.got d i).map fun r => (landed r).2

/-- The callers of `flightdeck` that have a fill under way. -/
def filling (d : gencache.Deck Landing) : List Nat :=
  (List.range d.callers.length).filter fun i =>
    match d.callers[i]? with
    | some (_, gencache.Pc.filling _) => true
    | _ => false
/-- The URL of a note, as a key of `flightdeck`. -/
def noteURL : String := "https://a.example/notes/1"

/-- The state a run of `flightdeck` ends in, or `flightdeck` when a step of
the run cannot be taken. -/
def deckAfter (acts : List (gencache.Act Landing)) : gencache.Deck Landing :=
  match gencache.run acts flightdeck with
  | some d => d
  | none => flightdeck

/-- The landing of a fetch that failed with status 500. -/
def crashLanding : Landing := (fn none (some "http get status: 500")).1

/-- The landing of a fetch that brought an empty document. -/
def softLanding : Landing := (fn (some []) none).1

/-- One caller asks for `noteURL` and starts the fetch. -/
def oneCaller : List (gencache.Act Landing) :=
  [gencache.Act.call noteURL, gencache.Act.enter 0]

/-- Two callers ask for `noteURL`: the first starts the fetch, the second
waits for it. -/
def twoCallers : List (gencache.Act Landing) :=
  [gencache.Act.call noteURL, gencache.Act.call noteURL, gencache.Act.enter 0,
   gencache.Act.enter 1]

/-! ## `web.go`: `threadsort` -/

/-- A `*Honk` as `threadsort` sees it: the address `ptr` tells the pointers
apart, the other fields are what it reads of the record. -/
structure HonkPtr where
  ptr : Nat
  Date : Int
  XID : String
  RID : String
  Honker : String
  Oonker : String
  deriving DecidableEq, Repr

/-- Go `sameperson`. -/
def sameperson (h1 h2 : HonkPtr) : Bool :=
  let n1 := if h1.Oonker ≠ "" then h1.Oonker else h1.Honker
  let n2 := if h2.Oonker ≠ "" then h2.Oonker else h2.Honker
  decide (n1 = n2)

/-- The variables of `threadsort` that `nextlevel` works on: the map `kids`
(whose slices are sorted in place), the keys of the map `done`, the slice
`thread`, the counter `level`, and the texts appended to the `Style` of the
record at an address. -/
structure Thread where
  kids : gencache.Map (List HonkPtr)
  done : List Nat
  thread : List HonkPtr
  level : Int
  styles : List (Nat × String)
  deriving Repr

/-- Go `sort.Slice` with the comparison by `Date`: an arrangement of the slice
in order of date; the order among records of the same date is not fixed. -/
structure DateSort where
  sort : List HonkPtr → List HonkPtr
  perm : ∀ l, (sort l).Perm l
  sorted : ∀ l, (sort l).Pairwise fun a b => a.Date ≤ b.Date

/-- The map `honkx` after the first loop of `threadsort`. -/
def honkxOf (honks : List HonkPtr) : gencache.Map HonkPtr :=
  honks.foldl (fun m h => m.put h.XID h) []

/-- The map `kids` after the first loop of `threadsort`. -/
def kidsOf (honks : List HonkPtr) : gencache.Map (List HonkPtr) :=
  honks.foldl (fun m h => m.put h.RID ((m.get h.RID).getD [] ++ [h])) []

/-- Go closure `hasreply`. -/
def hasreply (kids : gencache.Map (List HonkPtr)) (p : HonkPtr) (who : String) : Bool :=
  ((kids.get p.XID).getD []).any fun h => h.Honker = who

/-- The points that the comparison of `sort.SliceStable` in `nextlevel` gives
to the child `c` of `p`. -/
def points (kids : gencache.Map (List HonkPtr)) (p c : HonkPtr) : Nat :=
  if sameperson c p then 1 else if hasreply kids c p.Honker then 2 else 0

/-- The value of `levelup` in `nextlevel` for the record `p`. -/
def levelupOf (honkx : gencache.Map HonkPtr) (kids : gencache.Map (List HonkPtr)) (level : Int)
    (p : HonkPtr) : Bool :=
  let levelup := decide (level < 4)
  let levelup :=
    if decide (p.RID = "") || (match honkx.get p.RID with
        | some pp => sameperson p pp
        | none => false) then false
    else levelup
  if level > 0 ∧ ((kids.get p.RID).getD []).length = 1 then
    match honkx.get p.RID with
    | some pp => if ((kids.get pp.RID).getD []).length = 1 then false else levelup
    | none => levelup
  else levelup

/-- The steps `done[h] = true; thread = append(thread, h)`. -/
def Thread.add (s : Thread) (h : HonkPtr) : Thread :=
  { s with done := s.done ++ [h.ptr], thread := s.thread ++ [h] }

/-- The loop `for _, h := range childs` of `nextlevel`, from index `i` on for
`n` more turns, with `rec` for the calls of `nextlevel`. The slice `childs`
shares its array with `kids[xid]`, which a call of `nextlevel` further down may
sort again, so each turn reads the element at its index from the map as it is
then. -/
def childLoop (rec : HonkPtr → Thread → Option Thread) (xid : String) :
    Nat → Nat → Thread → Option Thread
  | 0, _, s => some s
  | n + 1, i, s =>
    match ((s.kids.get xid).getD [])[i]? with
    | none => some s
    | some h =>
      if h.ptr ∈ s.done then childLoop rec xid n (i + 1) s
      else
        match rec h (s.add h) with
        | some s1 => childLoop rec xid n (i + 1) s1
        | none => none

/-- Go closure `nextlevel`, by recursion on a bound for the number of nested
calls; `none` when the bound is used up. -/
def nextlevel (honkx : gencache.Map HonkPtr) : Nat → HonkPtr → Thread → Option Thread
  | 0, _, _ => none
  | fuel + 1, p, s =>
    let levelup := levelupOf honkx s.kids s.level p
    let level := if levelup then s.level + 1 else s.level
    let s := { s with level := level, styles := s.styles ++ [(p.ptr, " level" ++ toString level)] }
    let s :=
      match s.kids.get p.XID with
      | some childs =>
        let sorted := childs.insertionSort fun a b => points s.kids p a ≥ points s.kids p b
        { s with kids := s.kids.put p.XID sorted }
      | none => s
    match childLoop (nextlevel honkx fuel) p.XID ((s.kids.get p.XID).getD []).length 0 s with
    | some s => some { s with level := if levelup then s.level - 1 else s.level }
    | none => none

/-- One of the two loops over `honks` at the end of `threadsort`; `roots` tells
the first, which takes the records without `RID` only. -/
def topLoop (honkx : gencache.Map HonkPtr) (fuel : Nat) (roots : Bool) :
    List HonkPtr → Thread → Option Thread
  | [], s => some s
  | h :: rest, s =>
    if h.ptr ∉ s.done ∧ (roots = true → h.RID = "") then
      match nextlevel honkx fuel h (s.add h) with
      | some s1 => topLoop honkx fuel roots rest s1
      | none => none
    else topLoop honkx fuel roots rest s

/-- Go `threadsort`, with the variables it ends with; `none` when the bound on
nested calls of `nextlevel`, one more than the number of records, is used up. -/
def threadrun (S : DateSort) (honks : List HonkPtr) : Option Thread :=
  let honks := S.sort honks
  let honkx := honkxOf honks
  let s : Thread := { kids := kidsOf honks, done := [], thread := [], level := 0, styles := [] }
  match topLoop honkx (honks.length + 1) true honks s with
  | some s => topLoop honkx (honks.length + 1) false honks s
  | none => none

/-- Go `threadsort`: the slice `thread` it returns. -/
def threadsort (S : DateSort) (honks : List HonkPtr) : Option (List HonkPtr) :=
  (threadrun S honks).map Thread.thread

/-- The state of `threadsort` is in order for the records `H`: `done` holds the
addresses of the records in `thread`, none twice, and the records in `thread`
and in the slices of `kids` are records of `H`. -/
def Threaded (H : List HonkPtr) (s : Thread) : Prop :=
  s.done = s.thread.map HonkPtr.ptr ∧ s.done.Nodup ∧ (∀ h ∈ s.thread, h ∈ H) ∧
  ∀ xid l, s.kids.get xid = some l → ∀ h ∈ l, h ∈ H

/-- A `sort.Slice` by date that keeps records of the same date in their order. -/
def byDate : DateSort where
  sort := fun l => l.insertionSort fun a b => a.Date ≤ b.Date
  perm := fun l => List.perm_insertionSort _ l
  sorted := fun l =>
    haveI : IsTotal HonkPtr (fun a b => a.Date ≤ b.Date) := ⟨fun a b => le_total a.Date b.Date⟩
    haveI : IsTrans HonkPtr (fun a b => a.Date ≤ b.Date) := ⟨fun _ _ _ h1 h2 => le_trans h1 h2⟩
    List.sorted_insertionSort _ l

/-- Five records: two that reply to each other, one that shares the xid of the
first and has no parent, one whose parent is missing, and a reply to the
shared xid. -/
def tangle : List HonkPtr :=
  [⟨1, 10, "x1", "x2", "ann", ""⟩, ⟨2, 20, "x2", "x1", "bob", ""⟩, ⟨3, 30, "x1", "", "cyd", ""⟩,
   ⟨4, 40, "x4", "gone", "dee", ""⟩, ⟨5, 50, "x5", "x1", "eve", ""⟩]

/-- The state `s1` comes after `s` in a run of `xonksaver`: the depth counter is
back at its value, and the fetches made in between were started at a counter
between that value and `maxdepth + 5`, those of `qutify` (the ones not made
through `GetJunkHardMode`) below `maxdepth`. -/
def Grows (s s1 : XState) : Prop :=
  s1.depth = s.depth ∧ ∃ more, s1.fetches = s.fetches ++ more ∧
    ∀ f ∈ more, s.depth ≤ f.depth ∧ f.depth ≤ maxdepth + 5 ∧ (f.hard = false → f.depth < maxdepth)

/-- The closures `rec1` and `rec2` for `xonkxonkfn2` give the same result in
every state whose depth counter is at least `k`. -/
def Agree (k : Nat) (rec1 rec2 : XonkFn) : Prop :=
  ∀ (item : Junk) (origin : String) (u : Bool) (b : String) (m : Bool) (s : XState),
    k ≤ s.depth → rec1 item origin u b m s = rec2 item origin u b m s

/-- An `Announce` of `a.example` whose object is the URL of the `Announce`
itself. -/
def annLoop : Junk :=
  [("id", JVal.str "https://a.example/act/9"), ("type", JVal.str "Announce"),
   ("actor", JVal.str "https://a.example/u/ann"),
   ("object", JVal.str "https://a.example/act/9")]

/-- A network in which every fetch is answered with `annLoop`. -/
def loopWorld : World :=
  { develMode := false, fetch := fun _ url => some (annLoop, url), rejectxonk := fun _ _ => false,
    rejectorigin := fun _ _ _ => false, noise := fun _ _ _ => "<p>", quoteLinks := fun _ _ => [] }

/-- A public note of `a.example` with the id `id`, in reply to `rid`. -/
def replyNote (id rid : String) : Junk :=
  [("id", JVal.str id), ("type", JVal.str "Note"),
   ("attributedTo", JVal.str "https://a.example/u/bob"),
   ("to", JVal.arr [JVal.str thewholeworld]),
   ("inReplyTo", JVal.str rid)]

/-- A network with two notes, each in reply to the other: the fetch of
`https://a.example/n/a` is answered with the first and every other fetch with
the second. -/
def cycleWorld : World :=
  { develMode := false,
    fetch := fun _ url =>
      if url = "https://a.example/n/a" then
        some (replyNote "https://a.example/n/a" "https://a.example/n/b", url)
      else some (replyNote "https://a.example/n/b" "https://a.example/n/a", url),
    rejectxonk := fun _ _ => false, rejectorigin := fun _ _ _ => false,
    noise := fun _ _ _ => "<p>", quoteLinks := fun _ _ => [] }

/-- The depth counters at which a list of fetches was started. -/
def depthsOf (l : List Fetch) : List Nat := l.map Fetch.depth

/-- Among the POSTs of an attempt for the messages `msgs`, numbered from `i0`,
one of the first `k + 1` failed with an error that names `no such host`, the
text `lethaldose` looks for. -/
def hostGone (E : DEnv) (inbox : String) : Nat → List String → Nat → Bool
  | _, [], _ => false
  | i0, m :: _, 0 => (E.post i0 inbox m).any fun err => Contains err "no such host"
  | i0, m :: rest, k + 1 =>
    ((E.post i0 inbox m).any fun err => Contains err "no such host") ||
      hostGone E inbox (i0 + 1) rest k

/-- An environment in which the first POST gets status 400 and every later POST
finds no host. -/
def vanished : DEnv :=
  { ziggy := fun _ => true, box := fun _ => none,
    post := fun i _ _ => if i = 0 then some "http post status: 400"
      else some "dial tcp: lookup b.example: no such host" }

/-! # Theorems -/

/-! ## Lemmas on the string helpers -/

theorem splitL_ne_nil (sep : Char) (l : List Char) : splitL sep l ≠ [] := by
  induction l with
  | nil => simp [splitL]
  | cons c cs ih =>
    unfold splitL
    split_ifs
    · simp
    · split <;> simp

theorem splitL_of_not_mem (sep : Char) (l : List Char) (h : sep ∉ l) : splitL sep l = [l] := by
  induction l with
  | nil => simp [splitL]
  | cons c cs ih =>
    simp only [List.mem_cons, not_or] at h
    unfold splitL
    rw [if_neg (fun e => h.1 e.symm), ih h.2]

theorem splitL_append (sep : Char) (l rest : List Char) (h : sep ∉ l) :
    splitL sep (l ++ sep :: rest) = l :: splitL sep rest := by
  induction l with
  | nil => simp [splitL]
  | cons c cs ih =>
    simp only [List.mem_cons, not_or] at h
    simp only [List.cons_append]
    conv_lhs => rw [splitL]
    rw [if_neg (fun e => h.1 e.symm), ih h.2]

theorem Split_of_not_mem (s : String) (sep : Char) (h : sep ∉ s.data) : Split s sep = [s] := by
  simp [Split, splitL_of_not_mem sep s.data h]

theorem Split_append (a b : String) (sep : Char) (h : sep ∉ a.data) :
    Split (a ++ String.singleton sep ++ b) sep = a :: Split b sep := by
  simp [Split, String.data_append, String.singleton, splitL_append sep a.data b.data h]

theorem cutL_append (sep : Char) (l rest : List Char) (h : sep ∉ l) :
    cutL sep (l ++ sep :: rest) = some (l, rest) := by
  induction l with
  | nil => simp [cutL]
  | cons c cs ih =>
    simp only [List.mem_cons, not_or] at h
    simp only [List.cons_append]
    conv_lhs => rw [cutL]
    rw [if_neg (fun e => h.1 e.symm), ih h.2]

theorem Cut_append (a b : String) (sep : Char) (h : sep ∉ a.data) :
    Cut (a ++ String.singleton sep ++ b) sep = some (a, b) := by
  simp [Cut, String.data_append, String.singleton, cutL_append sep a.data b.data h]

theorem TrimPrefix_append (pre t : String) : TrimPrefix (pre ++ t) pre = t := by
  simp [TrimPrefix, HasPrefix, String.data_append]

theorem TrimSuffix_append (t suf : String) : TrimSuffix (t ++ suf) suf = t := by
  simp [TrimSuffix, HasSuffix, String.data_append]

theorem trim_quotes (k : String) : TrimSuffix (TrimPrefix ("\"" ++ k ++ "\"") "\"") "\"" = k := by
  rw [String.append_assoc, TrimPrefix_append, TrimSuffix_append]


namespace httpsig

/-! ## `httpsig`: lemmas -/

theorem sighdr_assoc (K A H B : String) :
    "keyId=\"" ++ K ++ "\",algorithm=\"" ++ A ++ "\",headers=\"" ++ H ++ "\",signature=\"" ++ B ++ "\""
    = ("keyId" ++ String.singleton '=' ++ ("\"" ++ K ++ "\"")) ++ String.singleton ',' ++
      (("algorithm" ++ String.singleton '=' ++ ("\"" ++ A ++ "\"")) ++ String.singleton ',' ++
      (("headers" ++ String.singleton '=' ++ ("\"" ++ H ++ "\"")) ++ String.singleton ',' ++
      ("signature" ++ String.singleton '=' ++ ("\"" ++ B ++ "\"")))) := by
  apply String.ext
  simp [String.data_append, String.singleton]

theorem not_mem_field (name v : String) (c : Char) (h1 : c ∉ name.data) (h2 : c ∉ v.data)
    (h3 : c ≠ '=') (h4 : c ≠ '"') :
    c ∉ (name ++ String.singleton '=' ++ ("\"" ++ v ++ "\"")).data := by
  simp [String.data_append, String.singleton, h1, h2, h3, h4]

theorem draftScan_keyId (hdr v : String) (vs : List String) (f : DraftFields) :
    draftScan hdr (("keyId" ++ String.singleton '=' ++ ("\"" ++ v ++ "\"")) :: vs) f =
      draftScan hdr vs { f with keyname := v } := by
  rw [draftScan, Cut_append _ _ '=' (by decide)]
  simp only [trim_quotes, String.reduceEq, if_true, if_false]

theorem draftScan_algorithm (hdr v : String) (vs : List String) (f : DraftFields) :
    draftScan hdr (("algorithm" ++ String.singleton '=' ++ ("\"" ++ v ++ "\"")) :: vs) f =
      draftScan hdr vs { f with algo := v } := by
  rw [draftScan, Cut_append _ _ '=' (by decide)]
  simp only [trim_quotes, String.reduceEq, if_true, if_false]

theorem draftScan_headers (hdr v : String) (vs : List String) (f : DraftFields) :
    draftScan hdr (("headers" ++ String.singleton '=' ++ ("\"" ++ v ++ "\"")) :: vs) f =
      draftScan hdr vs { f with heads := v } := by
  rw [draftScan, Cut_append _ _ '=' (by decide)]
  simp only [trim_quotes, String.reduceEq, if_true, if_false]

theorem draftScan_signature (hdr v : String) (vs : List String) (f : DraftFields) :
    draftScan hdr (("signature" ++ String.singleton '=' ++ ("\"" ++ v ++ "\"")) :: vs) f =
      draftScan hdr vs { f with bsig := v } := by
  rw [draftScan, Cut_append _ _ '=' (by decide)]
  simp only [trim_quotes, String.reduceEq, if_true, if_false]

theorem draftScan_sighdr (K A H B : String) (hK : ',' ∉ K.data) (hA : ',' ∉ A.data)
    (hH : ',' ∉ H.data) (hB : ',' ∉ B.data) (hdr : String) :
    draftScan hdr (Split ("keyId=\"" ++ K ++ "\",algorithm=\"" ++ A ++ "\",headers=\"" ++ H ++
      "\",signature=\"" ++ B ++ "\"") ',') ⟨"", "", "", ""⟩ = Except.ok ⟨K, A, H, B⟩ := by
  rw [sighdr_assoc, Split_append _ _ _ (not_mem_field _ _ _ (by decide) hK (by decide) (by decide)),
    Split_append _ _ _ (not_mem_field _ _ _ (by decide) hA (by decide) (by decide)),
    Split_append _ _ _ (not_mem_field _ _ _ (by decide) hH (by decide) (by decide)),
    Split_of_not_mem _ _ (not_mem_field _ _ _ (by decide) hB (by decide) (by decide))]
  rw [draftScan_keyId, draftScan_algorithm, draftScan_headers, draftScan_signature, draftScan]


theorem coverLoop_spec (H : List String) : ∀ c : Covered,
    ((coverLoop H c).digest = true ↔ (c.digest = true ∨ "digest" ∈ H ∨ "content-digest" ∈ H)) ∧
    ((coverLoop H c).host = true ↔ (c.host = true ∨ "host" ∈ H ∨ "@authority" ∈ H)) ∧
    ((coverLoop H c).date = true ↔ (c.date = true ∨ "date" ∈ H)) ∧
    ((coverLoop H c).target = true ↔ (c.target = true ∨ "(request-target)" ∈ H ∨
      "@request-target" ∈ H ∨ "@target-uri" ∈ H ∨ "@path" ∈ H)) := by
  induction H with
  | nil => intro c; simp [coverLoop]
  | cons h hs ih =>
    intro c
    unfold coverLoop
    split_ifs with h1 h2 h3 h4
    · subst h1
      have := ih { c with date := true }
      simp_all
    · have := ih { c with host := true }
      rcases h2 with h2 | h2 <;> subst h2 <;> simp_all
    · have := ih { c with digest := true }
      rcases h3 with h3 | h3 <;> subst h3 <;> simp_all
    · have := ih { c with target := true }
      rcases h4 with h4 | h4 | h4 | h4 <;> subst h4 <;> simp_all
    · have := ih c
      simp only [not_or] at h2 h3 h4
      have e1 : ¬ "date" = h := fun e => h1 e.symm
      have e2 : ¬ "host" = h := fun e => h2.2 e.symm
      have e3 : ¬ "@authority" = h := fun e => h2.1 e.symm
      have e4 : ¬ "digest" = h := fun e => h3.1 e.symm
      have e5 : ¬ "content-digest" = h := fun e => h3.2 e.symm
      have e6 : ¬ "@target-uri" = h := fun e => h4.1 e.symm
      have e7 : ¬ "@request-target" = h := fun e => h4.2.1 e.symm
      have e8 : ¬ "@path" = h := fun e => h4.2.2.1 e.symm
      have e9 : ¬ "(request-target)" = h := fun e => h4.2.2.2 e.symm
      simp only [List.mem_cons, e1, e2, e3, e4, e5, e6, e7, e8, e9, false_or]
      exact this


theorem missingOf_coverLoop (method : String) (H : List String) :
    missingOf (coverLoop H ⟨decide (ToLower method = "get"), false, false, false⟩) =
      missingNames method H := by
  obtain ⟨h1, h2, h3, h4⟩ := coverLoop_spec H ⟨decide (ToLower method = "get"), false, false, false⟩
  simp only [decide_eq_true_eq, Bool.false_eq_true, false_or] at h1 h2 h3 h4
  unfold missingOf missingNames
  simp only [h1, h2, h3, h4, ite_not]

theorem missingNames_eq_nil (method : String) (H : List String) :
    missingNames method H = [] ↔ requiredCovered method H := by
  unfold missingNames requiredCovered
  constructor
  · intro h
    simp only [List.append_eq_nil, ite_eq_left_iff, reduceCtorEq, imp_false, not_not] at h
    tauto
  · rintro ⟨h1, h2, h3, h4⟩
    simp [h1, h2, h3, h4]

theorem VerifyRequest_eq (L : Lib) (now : Int) (req : Request) (content : String)
    (lk : String → PublicKey × Option String) :
    VerifyRequest L now req content lk =
      match (verifyRequest L now ⟨false, []⟩ req content lk).2.2 with
      | some err => ((verifyRequest L now ⟨false, []⟩ req content lk).2.1, some err)
      | none =>
        if missingNames req.Method (verifyRequest L now ⟨false, []⟩ req content lk).1.Headers = []
        then ((verifyRequest L now ⟨false, []⟩ req content lk).2.1, none)
        else ("", some ("required httpsig headers missing (" ++
          Join (missingNames req.Method
            (verifyRequest L now ⟨false, []⟩ req content lk).1.Headers) "," ++ ")")) := by
  unfold VerifyRequest
  rcases h : verifyRequest L now ⟨false, []⟩ req content lk with ⟨o, k, e⟩
  cases e with
  | some err => simp [h]
  | none =>
    simp only [h, missingOf_coverLoop]
    cases hm : missingNames req.Method o.Headers <;> simp

/-- What `VerifyRequest` returns in terms of the covered headers, in the two
directions. -/
theorem VerifyRequest_missing (L : Lib) (now : Int) (req : Request) (content : String)
    (lk : String → PublicKey × Option String) :
    ((VerifyRequest L now req content lk).2 = none →
      requiredCovered req.Method (verifyRequest L now ⟨false, []⟩ req content lk).1.Headers) ∧
    ((verifyRequest L now ⟨false, []⟩ req content lk).2.2 = none →
      ¬ requiredCovered req.Method (verifyRequest L now ⟨false, []⟩ req content lk).1.Headers →
      VerifyRequest L now req content lk =
        ("", some ("required httpsig headers missing (" ++
          Join (missingNames req.Method
            (verifyRequest L now ⟨false, []⟩ req content lk).1.Headers) "," ++ ")"))) := by
  rw [VerifyRequest_eq]
  constructor
  · intro h
    rw [← missingNames_eq_nil]
    cases he : (verifyRequest L now ⟨false, []⟩ req content lk).2.2 with
    | some err => simp [he] at h
    | none =>
      by_contra hm
      simp [he, hm] at h
  · intro he hm
    rw [← missingNames_eq_nil] at hm
    simp [he, hm]


theorem draftLoop_ok (L : Lib) (now : Int) (req : Request) (content : String) :
    ∀ (hs hdrs stuff hdrs' stuff' : List String),
    draftLoop L now req content hs hdrs stuff = Except.ok (hdrs', stuff') →
    hdrs' = hdrs ++ hs ∧ ∀ h ∈ hs, ∃ s, draftHeader L now req content h = Except.ok s := by
  intro hs
  induction hs with
  | nil =>
    intro hdrs stuff hdrs' stuff' h
    simp only [draftLoop, Except.ok.injEq, Prod.mk.injEq] at h
    simp [h.1]
  | cons a as ih =>
    intro hdrs stuff hdrs' stuff' h
    unfold draftLoop at h
    cases ha : draftHeader L now req content a with
    | error e => simp [ha] at h
    | ok s =>
      simp only [ha] at h
      obtain ⟨h1, h2⟩ := ih _ _ _ _ h
      refine ⟨by simp [h1], ?_⟩
      intro x hx
      rcases List.mem_cons.1 hx with rfl | hx
      · exact ⟨s, ha⟩
      · exact h2 x hx

theorem rfcLoop_ok (L : Lib) (now : Int) (opts : Options) (req : Request) (content : String) :
    ∀ (hs hdrs stuff hdrs' stuff' : List String),
    rfcLoop L now opts req content hs hdrs stuff = Except.ok (hdrs', stuff') →
    ∃ ts, hdrs' = hdrs ++ ts ∧ ∀ h ∈ ts, ∃ s, rfcHeader L now opts req content h = Except.ok s := by
  intro hs
  induction hs with
  | nil =>
    intro hdrs stuff hdrs' stuff' h
    simp only [rfcLoop, Except.ok.injEq, Prod.mk.injEq] at h
    exact ⟨[], by simp [h.1]⟩
  | cons a as ih =>
    intro hdrs stuff hdrs' stuff' h
    unfold rfcLoop at h
    simp only at h
    cases ha : rfcHeader L now opts req content (TrimSuffix (TrimPrefix a "\"") "\"") with
    | error e => simp [ha] at h
    | ok s =>
      simp only [ha] at h
      obtain ⟨ts, h1, h2⟩ := ih _ _ _ _ h
      refine ⟨TrimSuffix (TrimPrefix a "\"") "\"" :: ts, by simp [h1], ?_⟩
      intro x hx
      rcases List.mem_cons.1 hx with rfl | hx
      · exact ⟨s, ha⟩
      · exact h2 x hx

/-- What a successful `verifyDraft` has established. -/
theorem verifyDraft_ok (L : Lib) (now : Int) (opts : Options) (req : Request) (content : String)
    (lk : String → PublicKey × Option String) (o : Options) (k : String)
    (h : verifyDraft L now opts req content lk = (o, k, none)) :
    ∃ f hdrs stuff,
      draftScan (req.Header.Get "Signature") (Split (req.Header.Get "Signature") ',')
        ⟨"", "", "", ""⟩ = Except.ok f ∧
      (lk f.keyname).2 = none ∧
      draftLoop L now req content (Split f.heads ' ') opts.Headers [] = Except.ok (hdrs, stuff) ∧
      (lk f.keyname).1.Verify L (L.sha256 (Join stuff "\n")) (L.b64s f.bsig) = none ∧
      o.Headers = hdrs ∧ k = f.keyname := by
  unfold verifyDraft at h
  simp only at h
  by_cases h1 : req.Header.Get "Signature" = ""
  · simp [h1] at h
  · simp only [if_neg h1] at h
    cases hf : draftScan (req.Header.Get "Signature") (Split (req.Header.Get "Signature") ',')
        ⟨"", "", "", ""⟩ with
    | error e => simp [hf] at h
    | ok f =>
      simp only [hf] at h
      by_cases h2 : f.keyname = "" ∨ f.algo = "" ∨ f.heads = "" ∨ f.bsig = ""
      · simp [if_pos h2] at h
      · simp only [if_neg h2] at h
        rcases hk : lk f.keyname with ⟨key, e⟩
        simp only [hk] at h
        cases e with
        | some err => simp at h
        | none =>
          simp only at h
          by_cases h3 : key.Typ = KeyType.None
          · simp [if_pos h3] at h
          · simp only [if_neg h3] at h
            cases hl : draftLoop L now req content (Split f.heads ' ') opts.Headers [] with
            | error e => simp [hl] at h
            | ok r =>
              obtain ⟨hdrs, stuff⟩ := r
              simp only [hl] at h
              cases hv : key.Verify L (L.sha256 (Join stuff "\n")) (L.b64s f.bsig) with
              | some err => simp [hv] at h
              | none =>
                simp only [hv, Prod.mk.injEq] at h
                exact ⟨f, hdrs, stuff, rfl, by rw [hk], hl, by rw [hk]; exact hv, by rw [← h.1], h.2.1.symm⟩


/-- What a successful `verifyRFC` has established about the covered headers. -/
theorem verifyRFC_ok (L : Lib) (now : Int) (opts : Options) (req : Request) (content : String)
    (lk : String → PublicKey × Option String) (o : Options) (k : String)
    (h : verifyRFC L now opts req content lk = (o, k, none)) :
    ∃ ts, o.Headers = opts.Headers ++ ts ∧
      ∀ hd ∈ ts, ∃ s, rfcHeader L now opts req content hd = Except.ok s := by
  unfold verifyRFC at h
  simp only at h
  by_cases h0 : req.Header.Get "Signature-Input" = ""
  · simp [h0] at h
  · simp only [if_neg h0] at h
    by_cases h1 : req.Header.Get "Signature" = ""
    · simp [h1] at h
    · simp only [if_neg h1] at h
      cases hf : rfcScan (req.Header.Get "Signature") (Split (req.Header.Get "Signature-Input") ';')
          ⟨"", "", "", []⟩ with
      | error e => simp [hf] at h
      | ok f =>
        simp only [hf] at h
        by_cases h2 : f.signame = "" ∨ f.keyname = ""
        · simp [if_pos h2] at h
        · simp only [if_neg h2] at h
          by_cases h2b : ¬ HasPrefix (req.Header.Get "Signature") f.signame = true
          · rw [if_pos h2b] at h
            simp at h
          · rw [if_neg h2b] at h
            rcases hk : lk f.keyname with ⟨key, e⟩
            simp only [hk] at h
            cases e with
            | some err => simp at h
            | none =>
              simp only at h
              by_cases h3 : key.Typ = KeyType.None
              · simp [if_pos h3] at h
              · simp only [if_neg h3] at h
                cases hl : rfcLoop L now opts req content
                    (Split (TrimSuffix (TrimPrefix f.heads "(") ")") ' ') opts.Headers [] with
                | error e => simp [hl] at h
                | ok r =>
                  obtain ⟨hdrs, stuff⟩ := r
                  simp only [hl] at h
                  obtain ⟨ts, e1, e2⟩ := rfcLoop_ok L now opts req content _ _ _ _ _ hl
                  split at h
                  · simp at h
                  · simp only [Prod.mk.injEq] at h
                    exact ⟨ts, by rw [← h.1]; exact e1, e2⟩


theorem draftHeader_date (L : Lib) (now : Int) (req : Request) (content : String) :
    draftHeader L now req content "date" =
      match L.timeParse (req.Header.Get "date") with
      | Except.error e => Except.error ("error parsing date header: " ++ e)
      | Except.ok d =>
        if d < now + (-30) * Minute ∨ d > now + 30 * Minute then
          Except.error ("date header '" ++ req.Header.Get "date" ++ "' out of range")
        else Except.ok (req.Header.Get "date") := by
  unfold draftHeader
  rw [if_neg (by decide), if_neg (by decide), if_neg (by decide), if_pos rfl]

theorem rfcHeader_date (L : Lib) (now : Int) (opts : Options) (req : Request) (content : String) :
    rfcHeader L now opts req content "date" =
      match L.timeParse (req.Header.Get "date") with
      | Except.error e => Except.error ("error parsing date header: " ++ e)
      | Except.ok d =>
        if opts.CheckTime = true ∧ (d < now + (-30) * Minute ∨ d > now + 30 * Minute) then
          Except.error ("date header '" ++ req.Header.Get "date" ++ "' out of range")
        else Except.ok (req.Header.Get "date") := by
  unfold rfcHeader
  rw [if_neg (by decide), if_neg (by decide), if_neg (by decide), if_neg (by decide),
    if_neg (by decide), if_neg (by decide), if_neg (by decide), if_neg (by decide),
    if_neg (by decide), if_pos rfl]

theorem VerifyRequest_accept (L : Lib) (now : Int) (req : Request) (content : String)
    (lk : String → PublicKey × Option String)
    (h : (VerifyRequest L now req content lk).2 = none) :
    (verifyRequest L now ⟨false, []⟩ req content lk).2.2 = none ∧
    requiredCovered req.Method (verifyRequest L now ⟨false, []⟩ req content lk).1.Headers := by
  have h2 := (VerifyRequest_missing L now req content lk).1 h
  refine ⟨?_, h2⟩
  rw [VerifyRequest_eq] at h
  cases he : (verifyRequest L now ⟨false, []⟩ req content lk).2.2 with
  | some err => simp [he] at h
  | none => rfl

/-- An accepted request has a `Date` header that parses, and in the draft style one within 30 minutes of the clock. -/
theorem VerifyRequest_date_window_of_accept (L : Lib) (now : Int) (req : Request) (content : String)
    (lk : String → PublicKey × Option String)
    (h : (VerifyRequest L now req content lk).2 = none) :
    ∃ d, L.timeParse (req.Header.Get "date") = Except.ok d ∧
      (req.Header.Get "Signature-Input" = "" →
        now - 30 * Minute ≤ d ∧ d ≤ now + 30 * Minute) := by
  obtain ⟨h1, h2⟩ := VerifyRequest_accept L now req content lk h
  have hdate : "date" ∈ (verifyRequest L now ⟨false, []⟩ req content lk).1.Headers := h2.2.2.1
  rcases hv : verifyRequest L now ⟨false, []⟩ req content lk with ⟨o, k, e⟩
  rw [hv] at h1 hdate
  simp only at h1 hdate
  subst h1
  unfold verifyRequest at hv
  simp only at hv
  by_cases hsi : req.Header.Get "Signature-Input" = ""
  · rw [if_neg (by simpa using hsi)] at hv
    obtain ⟨f, hdrs, stuff, -, -, hl, -, ho, -⟩ := verifyDraft_ok L now _ req content lk o k hv
    obtain ⟨e1, e2⟩ := draftLoop_ok L now req content _ _ _ _ _ hl
    rw [ho, e1] at hdate
    simp only [List.nil_append] at hdate
    obtain ⟨s, hs⟩ := e2 _ hdate
    rw [draftHeader_date] at hs
    cases hp : L.timeParse (req.Header.Get "date") with
    | error e => simp [hp] at hs
    | ok d =>
      refine ⟨d, rfl, fun _ => ?_⟩
      simp only [hp] at hs
      split_ifs at hs with hr
      simp only [not_or, not_lt] at hr
      constructor <;> omega
  · rw [if_pos (by simpa using hsi)] at hv
    obtain ⟨ts, e1, e2⟩ := verifyRFC_ok L now _ req content lk o k hv
    rw [e1] at hdate
    simp only [List.nil_append] at hdate
    obtain ⟨s, hs⟩ := e2 _ hdate
    rw [rfcHeader_date] at hs
    cases hp : L.timeParse (req.Header.Get "date") with
    | error e => simp [hp] at hs
    | ok d => exact ⟨d, rfl, fun hc => absurd hc hsi⟩


theorem Header.get_set (hd : Header) (k v : String) : (Header.Set hd k v).Get k = v := by
  simp [Header.Get, Header.Set]

theorem signLoop_snd (L : Lib) (now : Int) (content : String) :
    ∀ (hs : List String) (req : Request) (stuff : List String),
    ∃ tl, (signLoop L now content hs req stuff).2 = stuff ++ tl ∧ tl.length = hs.length := by
  intro hs
  induction hs with
  | nil => intro req stuff; exact ⟨[], by simp [signLoop]⟩
  | cons h hs ih =>
    intro req stuff
    obtain ⟨tl, e1, e2⟩ := ih (signHeader L now content req h).1
      (stuff ++ [h ++ ": " ++ (signHeader L now content req h).2])
    refine ⟨(h ++ ": " ++ (signHeader L now content req h).2) :: tl, ?_, by simp [e2]⟩
    rw [signLoop, e1]
    simp

theorem signLoop_snd_three (L : Lib) (now : Int) (content : String) (req : Request)
    (rest : List String) :
    ∃ s1 s2 tl, (signLoop L now content ("(request-target)" :: "date" :: "host" :: rest) req []).2 =
      ("(request-target): " ++ (ToLower req.Method ++ " " ++ req.URL.RequestURI)) ::
      ("date: " ++ s1) :: ("host: " ++ s2) :: tl := by
  rw [signLoop, signLoop, signLoop]
  obtain ⟨tl, e1, -⟩ := signLoop_snd L now content rest
    (signHeader L now content (signHeader L now content
      (signHeader L now content req "(request-target)").1 "date").1 "host").1
    ([] ++ ["(request-target)" ++ ": " ++ (signHeader L now content req "(request-target)").2] ++
      ["date" ++ ": " ++ (signHeader L now content
        (signHeader L now content req "(request-target)").1 "date").2] ++
      ["host" ++ ": " ++ (signHeader L now content (signHeader L now content
        (signHeader L now content req "(request-target)").1 "date").1 "host").2])
  refine ⟨(signHeader L now content (signHeader L now content req "(request-target)").1 "date").2,
    (signHeader L now content (signHeader L now content
        (signHeader L now content req "(request-target)").1 "date").1 "host").2, tl, ?_⟩
  rw [e1]
  simp [signHeader, String.append_assoc]

theorem Join_length_ge (a b c : String) (tl : List String) (sep : String) :
    a.length + sep.length + b.length + sep.length + c.length ≤
      (Join (a :: b :: c :: tl) sep).length := by
  cases tl with
  | nil =>
    simp only [Join, String.length_append]
    omega
  | cons d ds =>
    simp only [Join, String.length_append]
    omega

theorem signed_what_length (L : Lib) (now : Int) (content : String) (req : Request) :
    33 ≤ (Join (signLoop L now content (signHeaders req) req []).2 "\n").length := by
  have key : ∀ rest, 33 ≤ (Join (signLoop L now content
      ("(request-target)" :: "date" :: "host" :: rest) req []).2 "\n").length := by
    intro rest
    obtain ⟨s1, s2, tl, e⟩ := signLoop_snd_three L now content req rest
    rw [e]
    have := Join_length_ge ("(request-target): " ++ (ToLower req.Method ++ " " ++ req.URL.RequestURI))
      ("date: " ++ s1) ("host: " ++ s2) tl "\n"
    simp only [String.length_append] at this
    have l1 : ("(request-target): " : String).length = 18 := by decide
    have l2 : (" " : String).length = 1 := by decide
    have l3 : ("\n" : String).length = 1 := by decide
    have l4 : ("date: " : String).length = 6 := by decide
    have l5 : ("host: " : String).length = 6 := by decide
    rw [l1, l2, l3, l4, l5] at this
    omega
  unfold signHeaders
  split_ifs
  · exact key _
  · exact key _


end httpsig

namespace httpsig

theorem signHeaders_no_comma (req : Request) : ',' ∉ (Join (signHeaders req) " ").data := by
  unfold signHeaders
  split_ifs <;> decide

/-- The `Signature` header `SignRequest` writes with an Ed25519 key. -/
theorem SignRequest_ed25519_header (L : Lib) (now : Int) (keyname : String) (priv : Nat)
    (req signed : Request) (content : String)
    (hs : SignRequest L now keyname ⟨KeyType.Ed25519, priv⟩ req content = some signed) :
    signed.Header.Get "Signature" =
      "keyId=\"" ++ keyname ++ "\",algorithm=\"" ++ "hs2019" ++ "\",headers=\"" ++
        Join (signHeaders req) " " ++ "\",signature=\"" ++
        L.sb64 (L.edSign priv (Join (signLoop L now content (signHeaders req) req []).2 "\n")) ++
        "\"" := by
  unfold SignRequest signRequest at hs
  simp only [PrivateKey.Sign, reduceCtorEq, if_false, Option.some.injEq] at hs
  rw [← hs]
  exact Header.get_set _ _ _

/-- Claim C1 fails for Ed25519 keys: `signRequest` signs the canonical string
itself, `verifyDraft` verifies its SHA-256 digest. For a signature scheme that
accepts a signature only for the message signed, a 32-byte digest, an
invertible base64 without commas and a key name without comma, no request that
carries the `Signature` header written by `SignRequest` with an Ed25519 key is
accepted by `VerifyRequest` in the draft style, whatever else the verifier
sees. -/
theorem SignRequest_ed25519_not_verified
    (L : Lib) (now now' : Int) (keyname : String) (priv pub : Nat)
    (req signed req' : Request) (content content' : String)
    (lk : String → PublicKey × Option String)
    (hlen : ∀ m, (L.sha256 m).length = 32)
    (hsound : ∀ m m', L.edVerify pub m (L.edSign priv m') = true → m = m')
    (hb64 : ∀ b, L.b64s (L.sb64 b) = b)
    (hcomma : ∀ b, ',' ∉ (L.sb64 b).data)
    (hkey : ',' ∉ keyname.data)
    (hlk : lk keyname = (⟨KeyType.Ed25519, pub⟩, none))
    (hs : SignRequest L now keyname ⟨KeyType.Ed25519, priv⟩ req content = some signed)
    (hsig : req'.Header.Get "Signature" = signed.Header.Get "Signature")
    (hdraft : req'.Header.Get "Signature-Input" = "") :
    (VerifyRequest L now' req' content' lk).2 ≠ none := by
  intro hacc
  obtain ⟨h1, -⟩ := VerifyRequest_accept L now' req' content' lk hacc
  rcases hv : verifyRequest L now' ⟨false, []⟩ req' content' lk with ⟨o, k, e⟩
  rw [hv] at h1
  simp only at h1
  subst h1
  unfold verifyRequest at hv
  simp only at hv
  rw [if_neg (by simpa using hdraft)] at hv
  obtain ⟨f, hdrs, stuff, hscan, -, -, hver, -, -⟩ := verifyDraft_ok L now' _ req' content' lk o k hv
  rw [hsig, SignRequest_ed25519_header L now keyname priv req signed content hs,
    draftScan_sighdr _ _ _ _ hkey (by decide) (signHeaders_no_comma req) (hcomma _)] at hscan
  simp only [Except.ok.injEq] at hscan
  subst hscan
  simp only [hlk, PublicKey.Verify, hb64] at hver
  split_ifs at hver with hed
  have := hsound _ _ hed
  have h33 := signed_what_length L now content req
  rw [← this, hlen] at h33
  omega

end httpsig

namespace httpsig

theorem demoHash_length (n : Nat) (m : String) : (demoHash n m).length = n := by
  show ((m.data ++ List.replicate n '0').take n).length = n
  rw [List.length_take, List.length_append, List.length_replicate]
  omega

theorem demoDec_demoEnc (l : List Char) : demoDec (demoEnc l) = l := by
  induction l with
  | nil => rfl
  | cons c cs ih =>
    unfold demoEnc
    split_ifs with h
    · simp [demoDec, ih, h]
    · simp [demoDec, ih]

theorem demoEnc_no_comma (l : List Char) : ',' ∉ demoEnc l := by
  induction l with
  | nil => simp [demoEnc]
  | cons c cs ih =>
    unfold demoEnc
    split_ifs with h
    · simp [ih]
    · simp [ih, Ne.symm h]

theorem demoSign_inj (tag : String) (k : Nat) (m m' : String)
    (h : demoSign tag k m = demoSign tag k m') : m = m' := by
  unfold demoSign at h
  have := congrArg String.data h
  simp only [String.data_append, List.append_assoc, List.append_cancel_left_eq] at this
  exact String.ext this

theorem ed25519Signed_eq :
    SignRequest demoLib (5 * Minute) "k" ⟨KeyType.Ed25519, 3⟩ getInbox "" = some ed25519Signed := by
  rfl

/-- Claim C1 at a GET signed with Ed25519 key 3 of `demoLib` and verified one
minute later. -/
theorem SignRequest_ed25519_not_verified_witness :
    (VerifyRequest demoLib (6 * Minute) (asReceived ed25519Signed) ""
      (demoLookup KeyType.Ed25519 "k")).2 ≠ none :=
  SignRequest_ed25519_not_verified demoLib (5 * Minute) (6 * Minute) "k" 3 3 getInbox
    ed25519Signed (asReceived ed25519Signed) "" "" (demoLookup KeyType.Ed25519 "k")
    (demoHash_length 32)
    (fun m m' h => (demoSign_inj "ed" 3 m' m (of_decide_eq_true h)).symm)
    (fun b => by simp [demoLib, demoDec_demoEnc])
    (fun b => demoEnc_no_comma b.data)
    (by decide) rfl ed25519Signed_eq rfl (by decide)

end httpsig

namespace httpsig

theorem draftHeader_digest (L : Lib) (now : Int) (req : Request) (content : String) :
    draftHeader L now req content "digest" =
      if req.Header.Get "digest" ≠ "SHA-256=" ++ sb64sha256 L content then
        Except.error ("digest header '" ++ req.Header.Get "digest" ++ "' did not match content")
      else Except.ok (req.Header.Get "digest") := by
  unfold draftHeader
  rw [if_neg (by decide), if_neg (by decide), if_pos rfl]

theorem rfcHeader_digest (L : Lib) (now : Int) (opts : Options) (req : Request)
    (content : String) :
    rfcHeader L now opts req content "digest" =
      if req.Header.Get "digest" ≠ "SHA-256=" ++ sb64sha256 L content then
        Except.error ("digest header '" ++ req.Header.Get "digest" ++ "' did not match content")
      else Except.ok (req.Header.Get "digest") := by
  unfold rfcHeader
  rw [if_neg (by decide), if_neg (by decide), if_neg (by decide), if_neg (by decide),
    if_neg (by decide), if_neg (by decide), if_neg (by decide), if_neg (by decide), if_pos rfl]

theorem rfcHeader_content_digest (L : Lib) (now : Int) (opts : Options) (req : Request)
    (content : String) (s : String)
    (h : rfcHeader L now opts req content "content-digest" = Except.ok s)
    (hp : HasPrefix (req.Header.Get "content-digest") "sha-512" = true) :
    req.Header.Get "content-digest" = "sha-512=:" ++ sb64sha512 L content ++ ":" := by
  unfold rfcHeader at h
  rw [if_neg (by decide), if_neg (by decide), if_neg (by decide), if_neg (by decide),
    if_neg (by decide), if_neg (by decide), if_neg (by decide), if_pos rfl] at h
  simp only [hp, if_true] at h
  split_ifs at h with h1
  simpa using h1

/-- The covered headers of an accepted request, and what each of them passed. -/
theorem VerifyRequest_covered (L : Lib) (now : Int) (req : Request) (content : String)
    (lk : String → PublicKey × Option String)
    (h : (VerifyRequest L now req content lk).2 = none) :
    requiredCovered req.Method (verifyRequest L now ⟨false, []⟩ req content lk).1.Headers ∧
    ∀ hd ∈ (verifyRequest L now ⟨false, []⟩ req content lk).1.Headers,
      (req.Header.Get "Signature-Input" = "" → ∃ s, draftHeader L now req content hd = Except.ok s) ∧
      (req.Header.Get "Signature-Input" ≠ "" →
        ∃ s, rfcHeader L now ⟨false, []⟩ req content hd = Except.ok s) := by
  obtain ⟨h1, h2⟩ := VerifyRequest_accept L now req content lk h
  refine ⟨h2, ?_⟩
  rcases hv : verifyRequest L now ⟨false, []⟩ req content lk with ⟨o, k, e⟩
  rw [hv] at h1
  simp only at h1
  subst h1
  unfold verifyRequest at hv
  simp only at hv
  intro hd hmem
  simp only at hmem
  by_cases hsi : req.Header.Get "Signature-Input" = ""
  · rw [if_neg (by simpa using hsi)] at hv
    obtain ⟨f, hdrs, stuff, -, -, hl, -, ho, -⟩ := verifyDraft_ok L now _ req content lk o k hv
    obtain ⟨e1, e2⟩ := draftLoop_ok L now req content _ _ _ _ _ hl
    rw [ho, e1] at hmem
    simp only [List.nil_append] at hmem
    exact ⟨fun _ => e2 _ hmem, fun hc => absurd hsi hc⟩
  · rw [if_pos (by simpa using hsi)] at hv
    obtain ⟨ts, e1, e2⟩ := verifyRFC_ok L now _ req content lk o k hv
    rw [e1] at hmem
    simp only [List.nil_append] at hmem
    exact ⟨fun hc => absurd hc hsi, fun _ => e2 _ hmem⟩

/-- Claim C3, amended: an accepted request with a method other than GET covers
`digest` or `content-digest`; when `digest` is covered, in either style, the
`Digest` header is `SHA-256=` followed by the base64 SHA-256 digest of the
body; when `content-digest` is covered in the RFC style and its value starts
with `sha-512`, it is `sha-512=:`, the base64 SHA-512 digest of the body, `:`. -/
theorem VerifyRequest_digest (L : Lib) (now : Int) (req : Request) (content : String)
    (lk : String → PublicKey × Option String)
    (hacc : (VerifyRequest L now req content lk).2 = none)
    (hm : ToLower req.Method ≠ "get") :
    ("digest" ∈ (verifyRequest L now ⟨false, []⟩ req content lk).1.Headers ∨
      "content-digest" ∈ (verifyRequest L now ⟨false, []⟩ req content lk).1.Headers) ∧
    ("digest" ∈ (verifyRequest L now ⟨false, []⟩ req content lk).1.Headers →
      req.Header.Get "digest" = "SHA-256=" ++ sb64sha256 L content) ∧
    (req.Header.Get "Signature-Input" ≠ "" →
      "content-digest" ∈ (verifyRequest L now ⟨false, []⟩ req content lk).1.Headers →
      HasPrefix (req.Header.Get "content-digest") "sha-512" = true →
      req.Header.Get "content-digest" = "sha-512=:" ++ sb64sha512 L content ++ ":") := by
  obtain ⟨hc, hall⟩ := VerifyRequest_covered L now req content lk hacc
  refine ⟨?_, ?_, ?_⟩
  · rcases hc.1 with h | h
    · exact absurd h hm
    · exact h
  · intro hd
    obtain ⟨h1, h2⟩ := hall _ hd
    by_cases hsi : req.Header.Get "Signature-Input" = ""
    · obtain ⟨s, hs⟩ := h1 hsi
      rw [draftHeader_digest] at hs
      split_ifs at hs with hne
      simpa using hne
    · obtain ⟨s, hs⟩ := h2 hsi
      rw [rfcHeader_digest] at hs
      split_ifs at hs with hne
      simpa using hne
  · intro hsi hd hp
    obtain ⟨s, hs⟩ := (hall _ hd).2 hsi
    exact rfcHeader_content_digest L now _ req content s hs hp

end httpsig

namespace httpsig

/-- Claim C2, second half, in general: whenever the signature checks of
`verifyRequest` pass and a required header is not covered, `VerifyRequest`
returns the empty key name and the error `required httpsig headers missing (...)`
that lists the missing names; and `VerifyRequest` accepts only when the covered
headers include digest or content-digest (unless the method is GET), host or
@authority, date, and a request-target component. -/
theorem VerifyRequest_required_headers (L : Lib) (now : Int) (req : Request) (content : String)
    (lk : String → PublicKey × Option String) :
    ((VerifyRequest L now req content lk).2 = none →
      requiredCovered req.Method (verifyRequest L now ⟨false, []⟩ req content lk).1.Headers) ∧
    ((verifyRequest L now ⟨false, []⟩ req content lk).2.2 = none →
      ¬ requiredCovered req.Method (verifyRequest L now ⟨false, []⟩ req content lk).1.Headers →
      VerifyRequest L now req content lk =
        ("", some ("required httpsig headers missing (" ++
          Join (missingNames req.Method
            (verifyRequest L now ⟨false, []⟩ req content lk).1.Headers) "," ++ ")"))) :=
  VerifyRequest_missing L now req content lk

/-- Claim C2 as stated fails: a draft-style GET whose signature covers only
`date` and does not verify is answered with the key name `k` and the error of
the signature check, not with an empty key name and the missing headers. -/
theorem VerifyRequest_unverified_keeps_keyname :
    (verifyRequest demoLib (5 * Minute) ⟨false, []⟩ dateOnlyRequest ""
      (demoLookup KeyType.RSA "k")).1.Headers = ["date"] ∧
    ¬ requiredCovered dateOnlyRequest.Method ["date"] ∧
    VerifyRequest demoLib (5 * Minute) dateOnlyRequest "" (demoLookup KeyType.RSA "k") =
      ("k", some "crypto/rsa: verification error") := by
  refine ⟨by decide, ?_, by decide⟩
  unfold requiredCovered
  decide

/-- Claim C2, the theorem at two requests of `demoLib`: an accepted one, and one
whose valid signature covers only `date`. -/
theorem VerifyRequest_required_headers_witness :
    requiredCovered rfcStaleRequest.Method
      (verifyRequest demoLib (120 * Minute) ⟨false, []⟩ rfcStaleRequest ""
        (demoLookup KeyType.RSA "k")).1.Headers ∧
    VerifyRequest demoLib (5 * Minute) dateOnlySignedRequest "" (demoLookup KeyType.RSA "k") =
      ("", some ("required httpsig headers missing (" ++
        Join (missingNames dateOnlySignedRequest.Method
          (verifyRequest demoLib (5 * Minute) ⟨false, []⟩ dateOnlySignedRequest ""
            (demoLookup KeyType.RSA "k")).1.Headers) "," ++ ")")) :=
  ⟨(VerifyRequest_required_headers demoLib (120 * Minute) rfcStaleRequest ""
      (demoLookup KeyType.RSA "k")).1 (by decide),
   (VerifyRequest_required_headers demoLib (5 * Minute) dateOnlySignedRequest ""
      (demoLookup KeyType.RSA "k")).2 (by decide)
      (by
        have e : (verifyRequest demoLib (5 * Minute) ⟨false, []⟩ dateOnlySignedRequest ""
          (demoLookup KeyType.RSA "k")).1.Headers = ["date"] := by decide
        rw [e]
        unfold requiredCovered
        decide)⟩

/-- Claim C3 as stated fails: an RFC-style POST whose covered `Content-Digest`
is the SHA-512 digest of the body is accepted, and that header is not the
SHA-256 digest of the body in any of its spellings. -/
theorem VerifyRequest_accepts_sha512_content_digest :
    ToLower rfcSha512Request.Method ≠ "get" ∧
    VerifyRequest demoLib (5 * Minute) rfcSha512Request "hello" (demoLookup KeyType.RSA "k") =
      ("k", none) ∧
    "content-digest" ∈ (verifyRequest demoLib (5 * Minute) ⟨false, []⟩ rfcSha512Request "hello"
      (demoLookup KeyType.RSA "k")).1.Headers ∧
    rfcSha512Request.Header.Get "content-digest" ≠ "sha-256=:" ++ sb64sha256 demoLib "hello" ++ ":" ∧
    rfcSha512Request.Header.Get "content-digest" ≠ "SHA-256=" ++ sb64sha256 demoLib "hello" ∧
    rfcSha512Request.Header.Get "content-digest" ≠ sb64sha256 demoLib "hello" := by
  decide

/-- Claim C3, the amended theorem at the RFC-style POST with a SHA-512
`Content-Digest`. -/
theorem VerifyRequest_digest_witness :
    ("digest" ∈ (verifyRequest demoLib (5 * Minute) ⟨false, []⟩ rfcSha512Request "hello"
        (demoLookup KeyType.RSA "k")).1.Headers ∨
      "content-digest" ∈ (verifyRequest demoLib (5 * Minute) ⟨false, []⟩ rfcSha512Request "hello"
        (demoLookup KeyType.RSA "k")).1.Headers) ∧
    ("digest" ∈ (verifyRequest demoLib (5 * Minute) ⟨false, []⟩ rfcSha512Request "hello"
        (demoLookup KeyType.RSA "k")).1.Headers →
      rfcSha512Request.Header.Get "digest" = "SHA-256=" ++ sb64sha256 demoLib "hello") ∧
    (rfcSha512Request.Header.Get "Signature-Input" ≠ "" →
      "content-digest" ∈ (verifyRequest demoLib (5 * Minute) ⟨false, []⟩ rfcSha512Request "hello"
        (demoLookup KeyType.RSA "k")).1.Headers →
      HasPrefix (rfcSha512Request.Header.Get "content-digest") "sha-512" = true →
      rfcSha512Request.Header.Get "content-digest" =
        "sha-512=:" ++ sb64sha512 demoLib "hello" ++ ":") :=
  VerifyRequest_digest demoLib (5 * Minute) rfcSha512Request "hello" (demoLookup KeyType.RSA "k")
    (by decide) (by decide)

/-- Three more requests, evaluated: a draft-style POST that covers
`content-digest` with a value that matches no body is accepted; an RFC-style
POST that covers `content-digest` and has no such header is accepted; an
RFC-style POST with the correct `sha-256` value is rejected. -/
theorem VerifyRequest_content_digest_unchecked :
    VerifyRequest demoLib (5 * Minute) draftContentDigestRequest "hello"
      (demoLookup KeyType.RSA "k") = ("k", none) ∧
    VerifyRequest demoLib (5 * Minute) rfcNoDigestRequest "hello"
      (demoLookup KeyType.RSA "k") = ("k", none) ∧
    (VerifyRequest demoLib (5 * Minute) rfcSha256Request "hello"
      (demoLookup KeyType.RSA "k")).2 =
      some ("digest header '" ++ rfcSha256Request.Header.Get "content-digest" ++
        "' did not match content") := by
  decide

/-- An RFC-style GET dated 119 minutes before the clock of the verifier is
accepted. -/
theorem VerifyRequest_rfc_accepts_stale_date :
    VerifyRequest demoLib (120 * Minute) rfcStaleRequest "" (demoLookup KeyType.RSA "k") =
      ("k", none) ∧
    rfcStaleRequest.Header.Get "Signature-Input" ≠ "" ∧
    demoLib.timeParse (rfcStaleRequest.Header.Get "date") = Except.ok (1 * Minute) ∧
    1 * Minute < 120 * Minute - 30 * Minute := by
  refine ⟨by decide, by decide, rfl, by decide⟩

/-- What the code keeps of claim C4: `VerifyRequest` accepts only if the `Date`
header parses, and in the draft style only if it lies within 30 minutes of the
clock; a draft-style request dated outside that window is rejected, and the
check of its `date` header gives the error `date header '...' out of range`. -/
theorem VerifyRequest_date_window (L : Lib) (now : Int) (req : Request) (content : String)
    (lk : String → PublicKey × Option String) :
    ((VerifyRequest L now req content lk).2 = none →
      ∃ d, L.timeParse (req.Header.Get "date") = Except.ok d ∧
        (req.Header.Get "Signature-Input" = "" →
          now - 30 * Minute ≤ d ∧ d ≤ now + 30 * Minute)) ∧
    (req.Header.Get "Signature-Input" = "" → ∀ d,
      L.timeParse (req.Header.Get "date") = Except.ok d →
      d < now - 30 * Minute ∨ now + 30 * Minute < d →
      (VerifyRequest L now req content lk).2 ≠ none ∧
      draftHeader L now req content "date" =
        Except.error ("date header '" ++ req.Header.Get "date" ++ "' out of range")) := by
  refine ⟨VerifyRequest_date_window_of_accept L now req content lk, ?_⟩
  intro hsi d hd hout
  constructor
  · intro hacc
    obtain ⟨d', hd', hw⟩ := VerifyRequest_date_window_of_accept L now req content lk hacc
    rw [hd] at hd'
    cases hd'
    have := hw hsi
    omega
  · rw [draftHeader_date, hd]
    simp only
    rw [if_pos]
    rcases hout with h | h
    · left; omega
    · right; omega

/-- The theorem `VerifyRequest_date_window` at an accepted draft-style request,
and at the same request read 115 minutes later. -/
theorem VerifyRequest_date_window_witness :
    (∃ d, demoLib.timeParse (draftContentDigestRequest.Header.Get "date") = Except.ok d ∧
        (draftContentDigestRequest.Header.Get "Signature-Input" = "" →
          5 * Minute - 30 * Minute ≤ d ∧ d ≤ 5 * Minute + 30 * Minute)) ∧
    ((VerifyRequest demoLib (120 * Minute) draftContentDigestRequest "hello"
        (demoLookup KeyType.RSA "k")).2 ≠ none ∧
      draftHeader demoLib (120 * Minute) draftContentDigestRequest "hello" "date" =
        Except.error ("date header '" ++ draftContentDigestRequest.Header.Get "date" ++
          "' out of range")) :=
  ⟨(VerifyRequest_date_window demoLib (5 * Minute) draftContentDigestRequest "hello"
      (demoLookup KeyType.RSA "k")).1 (by decide),
   (VerifyRequest_date_window demoLib (120 * Minute) draftContentDigestRequest "hello"
      (demoLookup KeyType.RSA "k")).2 (by decide) (5 * Minute) rfl (by decide)⟩

theorem rfcHeader_clock (L : Lib) (now now' : Int) (hs : List String) (req : Request)
    (content h : String) :
    rfcHeader L now' ⟨false, hs⟩ req content h = rfcHeader L now ⟨false, hs⟩ req content h := by
  unfold rfcHeader
  simp only [Bool.false_eq_true, false_and, if_false]

theorem rfcLoop_clock (L : Lib) (now now' : Int) (hs : List String) (req : Request)
    (content : String) :
    ∀ (l hdrs stuff : List String),
      rfcLoop L now' ⟨false, hs⟩ req content l hdrs stuff =
        rfcLoop L now ⟨false, hs⟩ req content l hdrs stuff := by
  intro l
  induction l with
  | nil => intro hdrs stuff; rfl
  | cons h t ih =>
    intro hdrs stuff
    simp only [rfcLoop, rfcHeader_clock L now now' hs, ih]

theorem verifyRFC_clock (L : Lib) (now now' : Int) (hs : List String) (req : Request)
    (content : String) (lk : String → PublicKey × Option String) :
    verifyRFC L now' ⟨false, hs⟩ req content lk = verifyRFC L now ⟨false, hs⟩ req content lk := by
  unfold verifyRFC
  simp only [rfcLoop_clock L now now' hs]

theorem VerifyRequest_rfc_clock (L : Lib) (now now' : Int) (req : Request) (content : String)
    (lk : String → PublicKey × Option String) (hsi : req.Header.Get "Signature-Input" ≠ "") :
    VerifyRequest L now' req content lk = VerifyRequest L now req content lk := by
  unfold VerifyRequest verifyRequest
  simp only [if_pos hsi, verifyRFC_clock L now now' []]

/-- Claim C4 does not hold of the code in the RFC style: for a request with a
`Signature-Input` header the answer of `VerifyRequest` does not depend on the
clock of the verifier. A request that is accepted at one time is accepted at
every other time, with the same key name, however far its `Date` header, which
parses, lies from that time: the window of 30 minutes that `verifyDraft` tests
is never tested by `verifyRFC`, whose test sits behind `opts.CheckTime`, which
`VerifyRequest` leaves off. -/
theorem VerifyRequest_rfc_window_unchecked (L : Lib) (now : Int) (req : Request)
    (content : String) (lk : String → PublicKey × Option String)
    (hsi : req.Header.Get "Signature-Input" ≠ "")
    (hacc : (VerifyRequest L now req content lk).2 = none) :
    (∀ now', VerifyRequest L now' req content lk = VerifyRequest L now req content lk) ∧
    ∃ d, L.timeParse (req.Header.Get "date") = Except.ok d ∧
      ∀ now', d < now' - 30 * Minute ∨ now' + 30 * Minute < d →
        (VerifyRequest L now' req content lk).2 = none := by
  have e := fun now' => VerifyRequest_rfc_clock L now now' req content lk hsi
  obtain ⟨d, hd, -⟩ := VerifyRequest_date_window_of_accept L now req content lk hacc
  refine ⟨e, d, hd, fun now' _ => ?_⟩
  rw [e now']
  exact hacc

/-- Claim C4 in the code, at an RFC-style GET dated minute 1 and accepted then:
it is accepted at minute 120 as well, 89 minutes after the window has closed. -/
theorem VerifyRequest_rfc_window_unchecked_witness :
    rfcStaleRequest.Header.Get "Signature-Input" ≠ "" ∧
    demoLib.timeParse (rfcStaleRequest.Header.Get "date") = Except.ok (1 * Minute) ∧
    1 * Minute < 120 * Minute - 30 * Minute ∧
    VerifyRequest demoLib (1 * Minute) rfcStaleRequest "" (demoLookup KeyType.RSA "k") =
      ("k", none) ∧
    VerifyRequest demoLib (120 * Minute) rfcStaleRequest "" (demoLookup KeyType.RSA "k") =
      ("k", none) :=
  ⟨by decide, rfl, by decide, by decide,
   ((VerifyRequest_rfc_window_unchecked demoLib (1 * Minute) rfcStaleRequest ""
      (demoLookup KeyType.RSA "k") (by decide) (by decide)).1 (120 * Minute)).trans
      (by decide)⟩

end httpsig

/-! ## `xonksaver` -/

theorem xonkRecord_reject (W : World) (user : WhatAbout) (rec : XonkFn) (item : Junk)
    (origin : String) (isUpdate : Bool) (bonker : String) (myown : Bool) (what typ : String)
    (waspage : Bool) (s : XState) (hdev : W.develMode = false) (hO : origin ≠ "")
    (h : originate (item.GetString "id").1 ≠ origin ∨ originate (honkerOf item) ≠ origin) :
    xonkRecord W user rec item origin isUpdate bonker myown what typ waspage s = (none, s) := by
  unfold xonkRecord
  simp only [hdev]
  by_cases h1 : (item.GetString "id").1 = ""
  · simp [h1]
  · rw [if_neg h1]
    by_cases h2 : originate (item.GetString "id").1 ≠ origin
    · rw [if_pos ⟨h2, by simp, hO⟩]
    · rw [if_neg (fun hh => h2 hh.1)]
      have h3 : originate (honkerOf item) ≠ origin := by tauto
      by_cases h4 : (myown = true ∧ honkerOf item ≠ user.URL)
      · rw [if_pos h4]
      · rw [if_neg h4, if_pos h3]

theorem xonkStore_fields (W : World) (user : WhatAbout) (rec : XonkFn) (xonk : Honk)
    (s : XState) : sameButIdConvoy (xonkStore W user rec xonk s).1 xonk := by
  simp [xonkStore, sameButIdConvoy]

theorem xonkSave_fields (W : World) (user : WhatAbout) (rec : XonkFn) (obj : Junk)
    (isUpdate myown : Bool) (xonk : Honk) (replies : List String) (s : XState) (x : Honk)
    (h : (xonkSave W user rec obj isUpdate myown xonk replies s).1 = some x) :
    sameButIdConvoy x xonk := by
  unfold xonkSave at h
  by_cases h1 : xonk.What = "chonk"
  · simp [h1] at h
  · rw [if_neg h1] at h
    simp only at h
    generalize (if isUpdate = true then getxonk s.db user.ID xonk.XID else none) = prev at h
    simp only [Option.some.injEq] at h
    subst h
    cases prev with
    | none =>
      simp only
      split_ifs
      · exact xonkStore_fields W user rec _ _
      · simp [sameButIdConvoy]
    | some p =>
      simp only
      split_ifs
      · have := xonkStore_fields W user rec { xonk with ID := p.ID }
          { s with db := updatehonk s.db { xonk with ID := p.ID } }
        simpa [sameButIdConvoy] using this
      · simp [sameButIdConvoy]


theorem xonkRecord_some (W : World) (user : WhatAbout) (rec : XonkFn) (item : Junk)
    (origin : String) (isUpdate : Bool) (myown : Bool) (what typ : String)
    (waspage : Bool) (s : XState) (x : Honk) (hdev : W.develMode = false) (hO : origin ≠ "")
    (h : (xonkRecord W user rec item origin isUpdate "" myown what typ waspage s).1 = some x) :
    x.XID = (item.GetString "id").1 ∧ originate (item.GetString "id").1 = origin ∧
      x.Honker = honkerOf item ∧ originate (honkerOf item) = origin := by
  by_cases hbad : originate (item.GetString "id").1 ≠ origin ∨ originate (honkerOf item) ≠ origin
  · rw [xonkRecord_reject W user rec item origin isUpdate "" myown what typ waspage s hdev hO hbad]
      at h
    simp at h
  · simp only [not_or, not_not] at hbad
    obtain ⟨hid, hhk⟩ := hbad
    have hne : honkerOf item ≠ "" := by
      intro he
      rw [he] at hhk
      exact hO (by rw [← hhk]; decide)
    have hidne : (item.GetString "id").1 ≠ "" := by
      intro he
      rw [he] at hid
      exact hO (by rw [← hid]; decide)
    unfold xonkRecord at h
    simp only at h
    rw [if_neg hidne, if_neg (fun hh => hh.1 hid)] at h
    by_cases h4 : (myown = true ∧ honkerOf item ≠ user.URL)
    · rw [if_pos h4] at h
      simp at h
    · rw [if_neg h4, if_neg (fun hh => hh hhk)] at h
      simp only [ne_eq, not_true_eq_false, if_false, if_neg hne] at h
      split_ifs at h
      all_goals first
        | (simp at h; done)
        | exact ⟨(xonkSave_fields _ _ _ _ _ _ _ _ _ _ h).2.2.2.2.1, hid,
            (xonkSave_fields _ _ _ _ _ _ _ _ _ _ h).2.2.1, hhk⟩


theorem xonkSwitch_record (W : World) (user : WhatAbout) (rec : XonkFn) (item : Junk)
    (origin : String) (isUpdate : Bool) (myown : Bool) (s : XState)
    (ht : firstofmany item "type" ∈ recordTypes) :
    ∃ what waspage, xonkSwitch W user rec item origin isUpdate "" myown s =
      xonkRecord W user rec item origin isUpdate "" myown what (firstofmany item "type") waspage s := by
  unfold xonkSwitch
  simp only [recordTypes, List.mem_cons, List.mem_singleton, List.not_mem_nil, or_false] at ht
  rcases ht with h | h | h | h | h | h | h | h | h | h | h <;> rw [h] <;>
    simp only [String.reduceEq, if_false, if_true, false_or, or_false, or_true, true_or] <;>
    exact ⟨_, _, rfl⟩

theorem xonksaver_delete (W : World) (user : WhatAbout) (item : Junk) (origin : String)
    (db : Store) (htyp : firstofmany item "type" = "Delete") :
    xonksaver W user item origin db =
      ((xonkDelete user origin (deleteTarget item)
        { depth := 1, currenttid := "", goingup := 0, db := db, fetches := [] }).1,
       (xonkDelete user origin (deleteTarget item)
        { depth := 1, currenttid := "", goingup := 0, db := db, fetches := [] }).2.db,
       (xonkDelete user origin (deleteTarget item)
        { depth := 1, currenttid := "", goingup := 0, db := db, fetches := [] }).2.fetches) := by
  simp [xonksaver, xonksaver2, xonkxonkfn2, xonkBody, xonkSwitch, htyp, maxdepth]

theorem xonksaver_tombstone (W : World) (user : WhatAbout) (item : Junk) (origin : String)
    (db : Store) (htyp : firstofmany item "type" = "Tombstone") :
    xonksaver W user item origin db =
      ((xonkDelete user origin (item.GetString "id").1
        { depth := 1, currenttid := "", goingup := 0, db := db, fetches := [] }).1,
       (xonkDelete user origin (item.GetString "id").1
        { depth := 1, currenttid := "", goingup := 0, db := db, fetches := [] }).2.db,
       (xonkDelete user origin (item.GetString "id").1
        { depth := 1, currenttid := "", goingup := 0, db := db, fetches := [] }).2.fetches) := by
  simp [xonksaver, xonksaver2, xonkxonkfn2, xonkBody, xonkSwitch, htyp, maxdepth]

theorem xonkDelete_forged (user : WhatAbout) (origin xid : String) (s : XState)
    (h : originate xid ≠ origin) : xonkDelete user origin xid s = (none, s) := by
  unfold xonkDelete
  split_ifs <;> rfl

/-- Claim C6: `xonksaver` on a `Delete` (object a string, or a map with an id)
or on a `Tombstone` whose target `X` does not originate from the origin of the
activity returns `nil`, leaves the store as it was and fetches nothing. -/
theorem xonksaver_forged_delete (W : World) (user : WhatAbout) (item : Junk) (origin : String)
    (db : Store) (X : String)
    (hX : (firstofmany item "type" = "Delete" ∧
            ((∃ obj, item.GetMap "object" = some obj ∧ (Junk.GetString obj "id").1 = X) ∨
             (item.GetMap "object" = none ∧ (item.GetString "object").1 = X))) ∨
          (firstofmany item "type" = "Tombstone" ∧ (item.GetString "id").1 = X))
    (hforged : originate X ≠ origin) :
    xonksaver W user item origin db = (none, db, []) := by
  rcases hX with ⟨ht, ⟨obj, ho, hx⟩ | ⟨ho, hx⟩⟩ | ⟨ht, hx⟩
  · have ht2 : deleteTarget item = X := by simp [deleteTarget, ho, hx]
    rw [xonksaver_delete W user item origin db ht, ht2, xonkDelete_forged user origin X _ hforged]
  · have ht2 : deleteTarget item = X := by simp [deleteTarget, ho, hx]
    rw [xonksaver_delete W user item origin db ht, ht2, xonkDelete_forged user origin X _ hforged]
  · rw [xonksaver_tombstone W user item origin db ht, hx, xonkDelete_forged user origin X _ hforged]


theorem xonkSwitch_create (W : World) (user : WhatAbout) (rec : XonkFn) (item : Junk)
    (origin : String) (isUpdate : Bool) (bonker : String) (myown : Bool) (s : XState)
    (htyp : firstofmany item "type" = "Create") :
    xonkSwitch W user rec item origin isUpdate bonker myown s =
      xonkCreate W user rec item origin isUpdate bonker myown s := by
  unfold xonkSwitch
  rw [htyp]
  simp only [String.reduceEq, if_false, if_true]

theorem xonksaver_create_record (W : World) (user : WhatAbout) (item obj : Junk)
    (origin : String) (db : Store) (htyp : firstofmany item "type" = "Create")
    (hobj : isCreateObject W user item origin obj) (hot : firstofmany obj "type" ∈ recordTypes) :
    ∃ what waspage s2, s2.db = db ∧ xonksaver W user item origin db =
      ((xonkRecord W user (xonkxonkfn2 W user 14) obj origin false "" false what
          (firstofmany obj "type") waspage s2).1,
       (xonkRecord W user (xonkxonkfn2 W user 14) obj origin false "" false what
          (firstofmany obj "type") waspage s2).2.db,
       (xonkRecord W user (xonkxonkfn2 W user 14) obj origin false "" false what
          (firstofmany obj "type") waspage s2).2.fetches) := by
  rcases hobj with hobj | ⟨hnone, horig, hrej, final, hfetch⟩
  · obtain ⟨what, waspage, e⟩ := xonkSwitch_record W user (xonkxonkfn2 W user 14) obj origin
      false false ⟨2, "", 0, db, []⟩ hot
    refine ⟨what, waspage, ⟨2, "", 0, db, []⟩, rfl, ?_⟩
    rw [← e]
    simp only [xonksaver, xonksaver2, xonkxonkfn2, xonkBody, maxdepth]
    rw [xonkSwitch_create _ _ _ _ _ _ _ _ _ htyp]
    simp [xonkCreate, hobj, xonkBody, maxdepth]
  · obtain ⟨what, waspage, e⟩ := xonkSwitch_record W user (xonkxonkfn2 W user 14) obj origin
      false false ⟨2, "", 0, db, [⟨(item.GetString "object").1, 1, true⟩]⟩ hot
    refine ⟨what, waspage, ⟨2, "", 0, db, [⟨(item.GetString "object").1, 1, true⟩]⟩, rfl, ?_⟩
    rw [← e]
    simp only [xonksaver, xonksaver2, xonkxonkfn2, xonkBody, maxdepth]
    rw [xonkSwitch_create _ _ _ _ _ _ _ _ _ htyp]
    simp [xonkCreate, hnone, horig, GetJunkHardMode, GetJunkTimeout, hrej, hfetch, xonkBody,
      maxdepth]

/-- Claim C5, amended: with devel mode off and a non-empty origin `O`, for a
`Create` whose object is of a record type, a record `x` that `xonksaver`
returns has `x.XID = object.id`, `originate(object.id) = O`, and its honker is
the `actor` of the object or else the first `attributedTo` entry, with origin
`O`; when the id or that honker has another origin, the result is `nil` and
the store is unchanged. -/
theorem xonksaver_create_origin (W : World) (user : WhatAbout) (item obj : Junk)
    (origin : String) (db : Store) (hdev : W.develMode = false) (hO : origin ≠ "")
    (htyp : firstofmany item "type" = "Create")
    (hobj : isCreateObject W user item origin obj) (hot : firstofmany obj "type" ∈ recordTypes) :
    (∀ x, (xonksaver W user item origin db).1 = some x →
      x.XID = (obj.GetString "id").1 ∧ originate (obj.GetString "id").1 = origin ∧
      x.Honker = honkerOf obj ∧ originate (honkerOf obj) = origin) ∧
    (originate (obj.GetString "id").1 ≠ origin ∨ originate (honkerOf obj) ≠ origin →
      (xonksaver W user item origin db).1 = none ∧ (xonksaver W user item origin db).2.1 = db) := by
  obtain ⟨what, waspage, s2, hs2, e⟩ :=
    xonksaver_create_record W user item obj origin db htyp hobj hot
  rw [e]
  constructor
  · intro x hx
    exact xonkRecord_some W user _ obj origin false false what _ waspage _ x hdev hO hx
  · intro hbad
    rw [xonkRecord_reject W user _ obj origin false "" false what _ waspage _ hdev hO hbad]
    exact ⟨rfl, hs2⟩

/-! ## The delivery engine -/

theorem wrap64_of_range (x : Int) (h1 : -2 ^ 63 ≤ x) (h2 : x < 2 ^ 63) : wrap64 x = x := by
  unfold wrap64
  rw [Int.emod_eq_of_lt (by omega) (by omega)]
  omega

theorem sayitagain_of_drift (fmt : Int → String) (now : Int) (rnd : Nat) (d : Doover)
    (tbl : Table) (b : Int) (hd : driftOf (wrap64 (d.Tries + 1)) = some b)
    (hb1 : 10 ≤ b) (hb2 : b < 2 ^ 62) :
    ∃ δ, b ≤ δ ∧ δ < b + b / 10 ∧
      sayitagain fmt now rnd d tbl =
        some (addDoover tbl (fmt (now + δ)) (wrap64 (d.Tries + 1)) d.Userid d.Rcpt
          (Join d.Msgs (String.singleton NUL))) := by
  have hk : 0 < b / 10 := by omega
  have hj1 : 0 ≤ (rnd : Int) % (b / 10) := Int.emod_nonneg _ (by omega)
  have hj2 : (rnd : Int) % (b / 10) < b / 10 := Int.emod_lt_of_pos _ hk
  refine ⟨b + (rnd : Int) % (b / 10), by omega, by omega, ?_⟩
  unfold sayitagain
  simp only [hd, Int63n, if_neg (not_le.mpr hk)]
  rw [wrap64_of_range _ (by omega) (by omega)]

theorem driftOf_eq (n : Int) (h1 : 1 ≤ n) (h2 : n ≤ 16) : driftOf n = some (retryBase n) := by
  unfold driftOf retryBase Hour httpsig.Minute
  interval_cases n <;> simp [wrap64]

theorem retryBase_bounds (n : Int) (h1 : 1 ≤ n) (h2 : n ≤ 16) :
    10 ≤ retryBase n ∧ retryBase n < 2 ^ 62 := by
  unfold retryBase Hour httpsig.Minute
  interval_cases n <;> simp

/-- Claim C8: for the try count `n >= 1` after the increment, `sayitagain`
stores, for `n <= 16`, one row with try count `n` at `now + d` with
`base(n) <= d < base(n) + base(n)/10`, and stores nothing for `n >= 17`. -/
theorem sayitagain_schedule (fmt : Int → String) (now : Int) (rnd : Nat) (d : Doover)
    (tbl : Table) (n : Int) (hn : n = wrap64 (d.Tries + 1)) (h1 : 1 ≤ n) :
    (n ≤ 16 → ∃ δ, retryBase n ≤ δ ∧ δ < retryBase n + retryBase n / 10 ∧
      sayitagain fmt now rnd d tbl =
        some (addDoover tbl (fmt (now + δ)) n d.Userid d.Rcpt
          (Join d.Msgs (String.singleton NUL)))) ∧
    (17 ≤ n → sayitagain fmt now rnd d tbl = some tbl) := by
  constructor
  · intro h2
    obtain ⟨hb1, hb2⟩ := retryBase_bounds n h1 h2
    have hd := driftOf_eq n h1 h2
    rw [hn] at hd hb1 hb2 ⊢
    exact sayitagain_of_drift fmt now rnd d tbl _ hd hb1 hb2
  · intro h17
    unfold sayitagain
    simp only
    rw [← hn]
    have : driftOf n = none := by
      unfold driftOf
      rw [if_neg (by omega), if_neg (by omega), if_neg (by omega)]
    rw [this]

theorem postLoop_clean (E : DEnv) (inbox : String) :
    ∀ (rest : List String) (i0 : Nat) (dv : Doover) (posted : List String),
    (∀ k m, rest[k]? = some m → hardFail E inbox (i0 + k) m = false) →
    postLoop E inbox i0 rest dv posted = { posted := posted ++ rest, again := none } := by
  intro rest
  induction rest with
  | nil => intro i0 dv posted _; simp [postLoop]
  | cons msg rest ih =>
    intro i0 dv posted h
    have h0 := h 0 msg (by simp)
    have hrest : ∀ d', postLoop E inbox (i0 + 1) rest d' (posted ++ [msg]) =
        { posted := posted ++ msg :: rest, again := none } := by
      intro d'
      rw [ih (i0 + 1) d' (posted ++ [msg])]
      · simp
      · intro k m hk
        have := h (k + 1) m (by simpa using hk)
        rw [← this]
        congr 1
        omega
    unfold postLoop
    simp only [hardFail, Nat.add_zero] at h0
    cases hp : E.post i0 inbox msg with
    | none => simp only [hrest]
    | some err =>
      simp only [hp, Bool.not_eq_false'] at h0
      simp only [h0, if_true, hrest]

theorem postLoop_first (E : DEnv) (inbox : String) :
    ∀ (rest : List String) (i0 : Nat) (dv : Doover) (posted : List String) (k : Nat) (m : String),
    rest[k]? = some m → hardFail E inbox (i0 + k) m = true →
    (∀ j m', j < k → rest[j]? = some m' → hardFail E inbox (i0 + j) m' = false) →
    (postLoop E inbox i0 rest dv posted).posted = posted ++ rest.take (k + 1) ∧
    ∃ d', (postLoop E inbox i0 rest dv posted).again = some d' ∧ d'.Msgs = rest.drop k ∧
      d'.Userid = dv.Userid ∧ d'.Rcpt = dv.Rcpt ∧ dv.Tries ≤ d'.Tries ∧
      d'.Tries ≤ max dv.Tries nearlyDead := by
  intro rest
  induction rest with
  | nil => intro i0 dv posted k m hk; simp at hk
  | cons msg rest ih =>
    intro i0 dv posted k m hk hf hbefore
    cases k with
    | zero =>
      simp only [List.getElem?_cons_zero, Option.some.injEq] at hk
      subst hk
      simp only [hardFail, Nat.add_zero] at hf
      unfold postLoop
      cases hp : E.post i0 inbox msg with
      | none => simp [hp] at hf
      | some err =>
        simp only [hp, Bool.not_eq_true'] at hf
        simp only [hf, Bool.false_eq_true, if_false]
        refine ⟨by simp, _, rfl, by simp, ?_⟩
        unfold lethaldose nearlyDead
        split_ifs <;> simp <;> omega
    | succ k =>
      have h0 := hbefore 0 msg (by omega) (by simp)
      simp only [hardFail, Nat.add_zero] at h0
      have hk' : rest[k]? = some m := by simpa using hk
      have hf' : hardFail E inbox (i0 + 1 + k) m = true := by
        rw [← hf]; congr 1; omega
      have hb' : ∀ j m', j < k → rest[j]? = some m' →
          hardFail E inbox (i0 + 1 + j) m' = false := by
        intro j m' hj hjm
        have := hbefore (j + 1) m' (by omega) (by simpa using hjm)
        rw [← this]; congr 1; omega
      have key : ∀ d1 : Doover, d1.Userid = dv.Userid → d1.Rcpt = dv.Rcpt →
          dv.Tries ≤ d1.Tries → d1.Tries ≤ max dv.Tries nearlyDead →
          (postLoop E inbox (i0 + 1) rest d1 (posted ++ [msg])).posted =
            posted ++ (msg :: rest).take (k + 1 + 1) ∧
          ∃ d', (postLoop E inbox (i0 + 1) rest d1 (posted ++ [msg])).again = some d' ∧
            d'.Msgs = (msg :: rest).drop (k + 1) ∧
            d'.Userid = dv.Userid ∧ d'.Rcpt = dv.Rcpt ∧ dv.Tries ≤ d'.Tries ∧
            d'.Tries ≤ max dv.Tries nearlyDead := by
        intro d1 e1 e2 e3 e4
        obtain ⟨p1, d', p2, p3, p4, p5, p6, p7⟩ := ih (i0 + 1) d1 (posted ++ [msg]) k m hk' hf' hb'
        refine ⟨by simp [p1], d', p2, by simp [p3], by rw [p4, e1], by rw [p5, e2], by omega, ?_⟩
        have := le_max_right dv.Tries nearlyDead
        have := le_max_right d1.Tries nearlyDead
        have := le_max_left d1.Tries nearlyDead
        rcases max_cases d1.Tries nearlyDead with ⟨hm, _⟩ | ⟨hm, _⟩ <;> omega
      unfold postLoop
      cases hp : E.post i0 inbox msg with
      | none => exact key dv rfl rfl (le_refl _) (le_max_left _ _)
      | some err =>
        simp only [hp, Bool.not_eq_false'] at h0
        simp only [h0, if_true]
        apply key
        · split_ifs <;> rfl
        · split_ifs <;> rfl
        · split_ifs with hh
          · simp only; omega
          · exact le_refl _
        · unfold lethaldose nearlyDead
          split_ifs <;> simp

theorem attemptOf_loop (E : DEnv) (d : Doover) (inbox : String) (hz : E.ziggy d.Userid = true)
    (hin : reachesInbox E d.Rcpt inbox) :
    attemptOf E d = some (postLoop E inbox 0 d.Msgs d []) := by
  unfold attemptOf
  rw [if_neg (by simp [hz])]
  rcases hin with ⟨cs, h1, h2⟩ | ⟨c, cs, h1, h2, h3⟩
  · simp [h1, h2]
  · simp [h1, h2, h3]

theorem hostGone_iff (E : DEnv) (inbox : String) :
    ∀ (rest : List String) (i0 k : Nat), hostGone E inbox i0 rest k = true ↔
      ∃ j m err, j ≤ k ∧ rest[j]? = some m ∧ E.post (i0 + j) inbox m = some err ∧
        Contains err "no such host" = true := by
  intro rest
  induction rest with
  | nil =>
    intro i0 k
    simp [hostGone]
  | cons msg rest ih =>
    intro i0 k
    have head : ((E.post i0 inbox msg).any fun err => Contains err "no such host") = true ↔
        ∃ err, E.post i0 inbox msg = some err ∧ Contains err "no such host" = true := by
      cases hp : E.post i0 inbox msg with
      | none => simp
      | some err => simp
    cases k with
    | zero =>
      simp only [hostGone, head]
      constructor
      · rintro ⟨err, h1, h2⟩
        exact ⟨0, msg, err, Nat.le_refl _, List.getElem?_cons_zero, h1, h2⟩
      · rintro ⟨j, m, err, h1, h2, h3, h4⟩
        have hj : j = 0 := by omega
        subst hj
        simp only [List.getElem?_cons_zero, Option.some.injEq] at h2
        subst h2
        exact ⟨err, h3, h4⟩
    | succ k =>
      simp only [hostGone, Bool.or_eq_true, head]
      constructor
      · rintro (⟨err, h1, h2⟩ | h)
        · exact ⟨0, msg, err, Nat.zero_le _, List.getElem?_cons_zero, h1, h2⟩
        · obtain ⟨j, m, err, h1, h2, h3, h4⟩ := (ih (i0 + 1) k).1 h
          refine ⟨j + 1, m, err, by omega, by simpa using h2, ?_, h4⟩
          rw [← h3]
          congr 1
          omega
      · rintro ⟨j, m, err, h1, h2, h3, h4⟩
        cases j with
        | zero =>
          left
          simp only [List.getElem?_cons_zero, Option.some.injEq] at h2
          subst h2
          exact ⟨err, h3, h4⟩
        | succ j =>
          right
          refine (ih (i0 + 1) k).2 ⟨j, m, err, by omega, by simpa using h2, ?_, h4⟩
          rw [← h3]
          congr 1
          omega

theorem lethaldose_bump (dv : Doover) (err : String) :
    (if lethaldose err > dv.Tries then ({ dv with Tries := lethaldose err } : Doover) else dv) =
      ⟨dv.ID, dv.When, dv.Userid,
        max dv.Tries (if Contains err "no such host" = true then 15 else 0), dv.Rcpt, dv.Msgs⟩ := by
  by_cases hc : Contains err "no such host" = true
  · have hl : lethaldose err = 15 := by unfold lethaldose nearlyDead; rw [if_pos hc]
    rw [hl, if_pos hc]
    split_ifs with h
    · rw [max_eq_right (by omega)]
    · rw [max_eq_left (by omega)]
  · have hl : lethaldose err = 0 := by unfold lethaldose; rw [if_neg hc]
    rw [hl, if_neg hc]
    split_ifs with h
    · rw [max_eq_right (by omega)]
    · rw [max_eq_left (by omega)]

theorem postLoop_tries (E : DEnv) (inbox : String) :
    ∀ (rest : List String) (i0 : Nat) (dv : Doover) (posted : List String) (k : Nat) (m : String),
    rest[k]? = some m → hardFail E inbox (i0 + k) m = true →
    (∀ j m', j < k → rest[j]? = some m' → hardFail E inbox (i0 + j) m' = false) →
    postLoop E inbox i0 rest dv posted =
      ⟨posted ++ rest.take (k + 1),
       some ⟨dv.ID, dv.When, dv.Userid,
         max dv.Tries (if hostGone E inbox i0 rest k = true then 15 else 0), dv.Rcpt,
         rest.drop k⟩⟩ := by
  intro rest
  induction rest with
  | nil => intro i0 dv posted k m hk; simp at hk
  | cons msg rest ih =>
    intro i0 dv posted k m hk hf hbefore
    cases k with
    | zero =>
      simp only [List.getElem?_cons_zero, Option.some.injEq] at hk
      subst hk
      simp only [hardFail, Nat.add_zero] at hf
      unfold postLoop
      cases hp : E.post i0 inbox msg with
      | none => simp [hp] at hf
      | some err =>
        simp only [hp, Bool.not_eq_true'] at hf
        simp only [hf, Bool.false_eq_true, if_false, lethaldose_bump, hostGone, hp,
          Option.any_some]
        simp
    | succ k =>
      have h0 := hbefore 0 msg (by omega) (by simp)
      simp only [hardFail, Nat.add_zero] at h0
      have hk' : rest[k]? = some m := by simpa using hk
      have hf' : hardFail E inbox (i0 + 1 + k) m = true := by
        rw [← hf]; congr 1; omega
      have hb' : ∀ j m', j < k → rest[j]? = some m' →
          hardFail E inbox (i0 + 1 + j) m' = false := by
        intro j m' hj hjm
        have := hbefore (j + 1) m' (by omega) (by simpa using hjm)
        rw [← this]; congr 1; omega
      unfold postLoop
      cases hp : E.post i0 inbox msg with
      | none =>
        simp only [hostGone, hp, Option.any_none, Bool.false_or]
        rw [ih (i0 + 1) dv (posted ++ [msg]) k m hk' hf' hb']
        simp
      | some err =>
        simp only [hp, Bool.not_eq_false'] at h0
        simp only [h0, if_true, lethaldose_bump, hostGone, hp, Option.any_some]
        rw [ih (i0 + 1) _ (posted ++ [msg]) k m hk' hf' hb']
        simp only [List.append_assoc, List.singleton_append, List.take_succ_cons,
          List.drop_succ_cons, Attempt.mk.injEq, Option.some.injEq, Doover.mk.injEq, true_and,
          and_true]
        by_cases hc : Contains err "no such host" = true <;>
          by_cases hg : hostGone E inbox (i0 + 1) rest k = true <;>
          simp [hc, hg, max_assoc]

theorem sayitagain_dead (fmt : Int → String) (now : Int) (rnd : Nat) (d : Doover) (tbl : Table)
    (h1 : 16 ≤ d.Tries) (h2 : d.Tries < 2 ^ 63 - 1) : sayitagain fmt now rnd d tbl = some tbl := by
  unfold sayitagain
  simp only
  rw [wrap64_of_range _ (by omega) (by omega)]
  have : driftOf (d.Tries + 1) = none := by
    unfold driftOf
    rw [if_neg (by omega), if_neg (by omega), if_neg (by omega)]
  rw [this]

theorem sayitagain_alive (fmt : Int → String) (now : Int) (rnd : Nat) (d : Doover) (tbl : Table)
    (h1 : 0 ≤ d.Tries) (h2 : d.Tries ≤ 15) :
    ∃ δ, retryBase (d.Tries + 1) ≤ δ ∧
      δ < retryBase (d.Tries + 1) + retryBase (d.Tries + 1) / 10 ∧
      sayitagain fmt now rnd d tbl =
        some (addDoover tbl (fmt (now + δ)) (d.Tries + 1) d.Userid d.Rcpt
          (Join d.Msgs (String.singleton NUL))) := by
  have hw : wrap64 (d.Tries + 1) = d.Tries + 1 := wrap64_of_range _ (by omega) (by omega)
  obtain ⟨hb1, hb2⟩ := retryBase_bounds (d.Tries + 1) (by omega) (by omega)
  have hd : driftOf (wrap64 (d.Tries + 1)) = some (retryBase (d.Tries + 1)) := by
    rw [hw]
    exact driftOf_eq (d.Tries + 1) (by omega) (by omega)
  obtain ⟨δ, p1, p2, p3⟩ := sayitagain_of_drift fmt now rnd d tbl _ hd hb1 hb2
  rw [hw] at p3
  exact ⟨δ, p1, p2, p3⟩

theorem deliveration_first_failure (E : DEnv) (fmt : Int → String) (now : Int) (rnd : Nat)
    (d : Doover) (tbl : Table) (inbox : String) (hz : E.ziggy d.Userid = true)
    (hin : reachesInbox E d.Rcpt inbox) (i : Nat) (m : String) (hi : d.Msgs[i]? = some m)
    (hf : hardFail E inbox i m = true)
    (hb : ∀ j m', j < i → d.Msgs[j]? = some m' → hardFail E inbox j m' = false) :
    ∃ t : Int,
      ((∃ j m' err, j ≤ i ∧ d.Msgs[j]? = some m' ∧ E.post j inbox m' = some err ∧
          Contains err "no such host" = true) → t = max d.Tries 15) ∧
      ((¬ ∃ j m' err, j ≤ i ∧ d.Msgs[j]? = some m' ∧ E.post j inbox m' = some err ∧
          Contains err "no such host" = true) → t = max d.Tries 0) ∧
      attemptOf E d =
        some ⟨d.Msgs.take (i + 1), some ⟨d.ID, d.When, d.Userid, t, d.Rcpt, d.Msgs.drop i⟩⟩ ∧
      deliveration E fmt now rnd d tbl =
        sayitagain fmt now rnd ⟨d.ID, d.When, d.Userid, t, d.Rcpt, d.Msgs.drop i⟩ tbl ∧
      (t ≤ 15 → ∃ δ, retryBase (t + 1) ≤ δ ∧ δ < retryBase (t + 1) + retryBase (t + 1) / 10 ∧
        deliveration E fmt now rnd d tbl =
          some (addDoover tbl (fmt (now + δ)) (t + 1) d.Userid d.Rcpt
            (Join (d.Msgs.drop i) (String.singleton NUL)))) ∧
      (16 ≤ t → t < 2 ^ 63 - 1 → deliveration E fmt now rnd d tbl = some tbl) := by
  have hl := attemptOf_loop E d inbox hz hin
  have hp := postLoop_tries E inbox d.Msgs 0 d [] i m hi (by simpa using hf) (by simpa using hb)
  simp only [List.nil_append] at hp
  have hiff := hostGone_iff E inbox d.Msgs 0 i
  simp only [Nat.zero_add] at hiff
  have ha : attemptOf E d = some ⟨d.Msgs.take (i + 1), some ⟨d.ID, d.When, d.Userid,
      max d.Tries (if hostGone E inbox 0 d.Msgs i = true then 15 else 0), d.Rcpt,
      d.Msgs.drop i⟩⟩ := by rw [hl, hp]
  have hdl : deliveration E fmt now rnd d tbl = sayitagain fmt now rnd
      ⟨d.ID, d.When, d.Userid,
        max d.Tries (if hostGone E inbox 0 d.Msgs i = true then 15 else 0), d.Rcpt,
        d.Msgs.drop i⟩ tbl := by
    unfold deliveration
    simp only [ha]
  have h0 : (0 : Int) ≤ max d.Tries (if hostGone E inbox 0 d.Msgs i = true then 15 else 0) := by
    have h1 : (0 : Int) ≤ (if hostGone E inbox 0 d.Msgs i = true then 15 else 0) := by
      split_ifs <;> omega
    exact le_trans h1 (le_max_right _ _)
  generalize hT : max d.Tries (if hostGone E inbox 0 d.Msgs i = true then 15 else 0) = t
    at ha hdl h0
  refine ⟨t, ?_, ?_, ha, hdl, ?_, ?_⟩
  · intro hex
    rw [← hT, if_pos (hiff.2 hex)]
  · intro hex
    rw [← hT, if_neg (fun h => hex (hiff.1 h))]
  · intro ht
    rw [hdl]
    exact sayitagain_alive fmt now rnd ⟨d.ID, d.When, d.Userid, t, d.Rcpt, d.Msgs.drop i⟩ tbl
      h0 ht
  · intro h16 hlt
    rw [hdl]
    exact sayitagain_dead fmt now rnd ⟨d.ID, d.When, d.Userid, t, d.Rcpt, d.Msgs.drop i⟩ tbl
      h16 hlt

/-- Claim C10: when `deliveration` reaches its POST loop and `i` is the first
index whose POST fails with an error that is not let slide, the messages
POSTed are those up to `i` and no later one, and `sayitagain` gets the record
with the messages from `i` on, in order, for the same user and recipient, and
with the try count `t`: the count before, raised to 15 when one of the errors
so far (let slide or not) names `no such host`. `sayitagain` stores that record
in a new row with the try count `t + 1` for a retry after the delay of the
schedule, or drops it when `t` is 16 or more. When there is no such index every
message is POSTed and the table is left as it was. -/
theorem deliveration_requeue (E : DEnv) (fmt : Int → String) (now : Int) (rnd : Nat)
    (d : Doover) (tbl : Table) (inbox : String) (hz : E.ziggy d.Userid = true)
    (hin : reachesInbox E d.Rcpt inbox) :
    (∀ i m, d.Msgs[i]? = some m → hardFail E inbox i m = true →
      (∀ j m', j < i → d.Msgs[j]? = some m' → hardFail E inbox j m' = false) →
      ∃ t : Int,
        ((∃ j m' err, j ≤ i ∧ d.Msgs[j]? = some m' ∧ E.post j inbox m' = some err ∧
            Contains err "no such host" = true) → t = max d.Tries 15) ∧
        ((¬ ∃ j m' err, j ≤ i ∧ d.Msgs[j]? = some m' ∧ E.post j inbox m' = some err ∧
            Contains err "no such host" = true) → t = max d.Tries 0) ∧
        attemptOf E d =
          some ⟨d.Msgs.take (i + 1), some ⟨d.ID, d.When, d.Userid, t, d.Rcpt, d.Msgs.drop i⟩⟩ ∧
        deliveration E fmt now rnd d tbl =
          sayitagain fmt now rnd ⟨d.ID, d.When, d.Userid, t, d.Rcpt, d.Msgs.drop i⟩ tbl ∧
        (t ≤ 15 → ∃ δ, retryBase (t + 1) ≤ δ ∧
          δ < retryBase (t + 1) + retryBase (t + 1) / 10 ∧
          deliveration E fmt now rnd d tbl =
            some (addDoover tbl (fmt (now + δ)) (t + 1) d.Userid d.Rcpt
              (Join (d.Msgs.drop i) (String.singleton NUL)))) ∧
        (16 ≤ t → t < 2 ^ 63 - 1 → deliveration E fmt now rnd d tbl = some tbl)) ∧
    ((∀ i m, d.Msgs[i]? = some m → hardFail E inbox i m = false) →
      attemptOf E d = some { posted := d.Msgs, again := none } ∧
      deliveration E fmt now rnd d tbl = some tbl) := by
  have hl := attemptOf_loop E d inbox hz hin
  constructor
  · intro i m hi hf hb
    exact deliveration_first_failure E fmt now rnd d tbl inbox hz hin i m hi hf hb
  · intro hc
    have := postLoop_clean E inbox d.Msgs 0 d [] (by simpa using hc)
    simp only [List.nil_append] at this
    refine ⟨by rw [hl, this], ?_⟩
    unfold deliveration
    simp only [hl, this]

theorem delinquent_rows (tbl : Table) (userid : UserID) (rcpt msg : String) (u : UserID)
    (r : String) :
    (rowsFor (delinquent tbl userid rcpt msg).2 u r).length = (rowsFor tbl u r).length := by
  unfold delinquent
  split
  · rfl
  · simp only [rowsFor, List.filter_map, List.length_map]
    congr 1
    apply List.filter_congr
    intro x _
    simp only [Function.comp]
    split_ifs <;> rfl

theorem delinquent_false (tbl : Table) (userid : UserID) (rcpt msg : String)
    (h : (delinquent tbl userid rcpt msg).1 = false) : rowsFor tbl userid rcpt = [] := by
  unfold delinquent at h
  split at h
  · rename_i hf
    rw [List.find?_eq_none] at hf
    simp only [rowsFor, List.filter_eq_nil_iff]
    exact hf
  · simp at h

theorem sayitagain_rows (fmt : Int → String) (now : Int) (rnd : Nat) (d : Doover)
    (tbl tbl' : Table) (h : sayitagain fmt now rnd d tbl = some tbl') (u : UserID) (r : String) :
    (rowsFor tbl' u r).length ≤ (rowsFor tbl u r).length +
      (if d.Userid = u ∧ d.Rcpt = r then 1 else 0) := by
  unfold sayitagain at h
  simp only at h
  split at h
  · simp only [Option.some.injEq] at h
    subst h
    omega
  · split at h
    · simp at h
    · simp only [Option.some.injEq] at h
      subst h
      simp only [rowsFor, addDoover, List.filter_append, List.length_append]
      apply Nat.add_le_add_left
      simp only [List.filter_cons, List.filter_nil]
      split_ifs <;> simp_all

theorem postLoop_again (E : DEnv) (inbox : String) :
    ∀ (rest : List String) (i0 : Nat) (dv : Doover) (posted : List String) (d' : Doover),
    (postLoop E inbox i0 rest dv posted).again = some d' →
    d'.Userid = dv.Userid ∧ d'.Rcpt = dv.Rcpt := by
  intro rest
  induction rest with
  | nil => intro i0 dv posted d' h; simp [postLoop] at h
  | cons msg rest ih =>
    intro i0 dv posted d' h
    unfold postLoop at h
    cases hp : E.post i0 inbox msg with
    | none =>
      simp only [hp] at h
      exact ih _ _ _ _ h
    | some err =>
      simp only [hp] at h
      cases hs : letitslide err with
      | true =>
        simp only [hs, if_true] at h
        have := ih _ _ _ _ h
        split_ifs at this <;> exact this
      | false =>
        simp only [hs, Bool.false_eq_true, if_false, Option.some.injEq] at h
        subst h
        split_ifs <;> exact ⟨rfl, rfl⟩

theorem attemptOf_again (E : DEnv) (d : Doover) (a : Attempt) (d' : Doover)
    (h : attemptOf E d = some a) (ha : a.again = some d') :
    d'.Userid = d.Userid ∧ d'.Rcpt = d.Rcpt := by
  unfold attemptOf at h
  by_cases h1 : E.ziggy d.Userid = true
  · rw [if_neg (by simp [h1])] at h
    cases hr : d.Rcpt.data with
    | nil => simp [hr] at h
    | cons c cs =>
      simp only [hr] at h
      by_cases h2 : c = '%'
      · rw [if_pos h2] at h
        simp only [Option.some.injEq] at h
        subst h
        exact postLoop_again E _ _ _ _ _ _ ha
      · rw [if_neg h2] at h
        cases hb : E.box d.Rcpt with
        | none =>
          simp only [hb, Option.some.injEq] at h
          subst h
          simp only [Option.some.injEq] at ha
          subst ha
          split_ifs <;> exact ⟨rfl, rfl⟩
        | some inbox =>
          simp only [hb, Option.some.injEq] at h
          subst h
          exact postLoop_again E _ _ _ _ _ _ ha
  · rw [if_pos (by simp [h1])] at h
    simp only [Option.some.injEq] at h
    subst h
    simp at ha

theorem deliveration_rows (E : DEnv) (fmt : Int → String) (now : Int) (rnd : Nat) (d : Doover)
    (tbl tbl' : Table) (h : deliveration E fmt now rnd d tbl = some tbl') (u : UserID)
    (r : String) :
    (rowsFor tbl' u r).length ≤ (rowsFor tbl u r).length +
      (if d.Userid = u ∧ d.Rcpt = r then 1 else 0) := by
  unfold deliveration at h
  cases ha : attemptOf E d with
  | none => simp [ha] at h
  | some a =>
    simp only [ha] at h
    cases hg : a.again with
    | none =>
      simp only [hg, Option.some.injEq] at h
      subst h
      omega
    | some d' =>
      simp only [hg] at h
      obtain ⟨e1, e2⟩ := attemptOf_again E d a d' ha hg
      have := sayitagain_rows fmt now rnd d' tbl tbl' h u r
      rw [e1, e2] at this
      exact this


theorem filter_eraseIdx_length {α : Type} (p : α → Bool) :
    ∀ (l : List α) (k : Nat) (d : α), l[k]? = some d →
    ((l.eraseIdx k).filter p).length + (if p d then 1 else 0) = (l.filter p).length := by
  intro l
  induction l with
  | nil => intro k d h; simp at h
  | cons x xs ih =>
    intro k d h
    cases k with
    | zero =>
      simp only [List.getElem?_cons_zero, Option.some.injEq] at h
      subst h
      simp only [List.eraseIdx_cons_zero, List.filter_cons]
      split_ifs <;> simp
    | succ k =>
      simp only [List.getElem?_cons_succ] at h
      have := ih k d h
      simp only [List.eraseIdx_cons_succ, List.filter_cons]
      cases hx : p x <;> simp only [if_true, if_false, Bool.false_eq_true, List.length_cons] <;>
        omega

theorem filter_filter_length {α : Type} (p q : α → Bool) :
    ∀ (l : List α) (x : α), x ∈ l → q x = false →
    ((l.filter q).filter p).length + (if p x then 1 else 0) ≤ (l.filter p).length := by
  intro l
  induction l with
  | nil => intro x h; simp at h
  | cons y ys ih =>
    intro x hx hq
    have hle : ((ys.filter q).filter p).length ≤ (ys.filter p).length :=
      List.Sublist.length_le (List.Sublist.filter p (List.filter_sublist ys))
    rcases List.mem_cons.1 hx with rfl | hx
    · rw [List.filter_cons, if_neg (by simp [hq]), List.filter_cons]
      cases hp : p x <;> simp only [if_true, if_false, Bool.false_eq_true, List.length_cons] <;>
        omega
    · have := ih x hx hq
      rw [List.filter_cons, List.filter_cons]
      cases hqy : q y <;> cases hpy : p y <;>
        simp only [if_true, if_false, Bool.false_eq_true, List.length_cons, List.filter_cons,
          hpy] <;> omega

theorem extractdoover_rows (tbl tbl' : Table) (id : Nat) (d : Doover)
    (h : extractdoover tbl id = some (d, tbl')) (u : UserID) (r : String) :
    (rowsFor tbl' u r).length + (if d.Userid = u ∧ d.Rcpt = r then 1 else 0) ≤
      (rowsFor tbl u r).length := by
  unfold extractdoover at h
  cases hf : tbl.rows.find? fun r => r.dooverid = id with
  | none => simp [hf] at h
  | some row =>
    simp only [hf, Option.some.injEq, Prod.mk.injEq] at h
    obtain ⟨h1, h2⟩ := h
    subst h1 h2
    have hmem : row ∈ tbl.rows := List.mem_of_find?_eq_some hf
    have hid : row.dooverid = id := by simpa using List.find?_some hf
    have := filter_filter_length (fun r' : DooverRow => decide (r'.userid = u ∧ r'.rcpt = r))
      (fun r' : DooverRow => decide (r'.dooverid ≠ id)) tbl.rows row hmem (by simp [hid])
    simpa [rowsFor] using this

/-- One calm step keeps every pair at one pending record at most. -/
theorem dstep_pending (s s' : DState) (a : DAction) (hinv : ∀ u r, pendingFor s u r ≤ 1)
    (hc : calm s a = true) (h : dstep s a = some s') : ∀ u r, pendingFor s' u r ≤ 1 := by
  intro u r
  have hur := hinv u r
  cases a with
  | enqueue userid rcpt msg =>
    simp only [calm, List.isEmpty_iff] at hc
    simp only [dstep] at h
    rcases hd : delinquent s.table userid rcpt msg with ⟨b, tbl⟩
    rw [hd] at h
    cases b with
    | true =>
      simp only [Option.some.injEq] at h
      subst h
      have := delinquent_rows s.table userid rcpt msg u r
      rw [hd] at this
      simp only at this
      simp only [pendingFor] at hur ⊢
      omega
    | false =>
      simp only [Option.some.injEq] at h
      subst h
      have h0 := delinquent_false s.table userid rcpt msg (by rw [hd])
      simp only [pendingFor, inflightFor, List.filter_append, List.length_append] at hur ⊢
      by_cases hk : userid = u ∧ rcpt = r
      · obtain ⟨rfl, rfl⟩ := hk
        simp only [inflightFor] at hc
        rw [h0, hc]
        simp [freshDoover]
      · have : (List.filter (fun d => decide (d.Userid = u ∧ d.Rcpt = r))
            [freshDoover userid rcpt msg]).length = 0 := by
          simp [freshDoover, hk]
        omega
  | attempt k E fmt now rnd =>
    simp only [dstep] at h
    cases hg : s.inflight[k]? with
    | none => simp [hg] at h
    | some d =>
      simp only [hg] at h
      cases hdl : deliveration E fmt now rnd d s.table with
      | none => simp [hdl] at h
      | some tbl =>
        simp only [hdl, Option.some.injEq] at h
        subst h
        have h1 := deliveration_rows E fmt now rnd d s.table tbl hdl u r
        have h2 := filter_eraseIdx_length (fun d : Doover => decide (d.Userid = u ∧ d.Rcpt = r))
          s.inflight k d hg
        simp only [pendingFor, inflightFor] at hur ⊢
        simp only [decide_eq_true_eq] at h2
        omega
  | extract id =>
    simp only [dstep] at h
    cases he : extractdoover s.table id with
    | none => simp [he] at h
    | some p =>
      obtain ⟨d, tbl⟩ := p
      simp only [he, Option.some.injEq] at h
      subst h
      have h1 := extractdoover_rows s.table tbl id d he u r
      simp only [pendingFor, inflightFor, List.filter_append, List.length_append] at hur ⊢
      have : (List.filter (fun d => decide (d.Userid = u ∧ d.Rcpt = r)) [d]).length =
          (if d.Userid = u ∧ d.Rcpt = r then 1 else 0) := by
        simp only [List.filter_cons, List.filter_nil]
        split_ifs <;> simp_all
      omega

theorem drun_pending : ∀ (acts : List DAction) (s s' : DState),
    (∀ u r, pendingFor s u r ≤ 1) → calmRun acts s = true → drun acts s = some s' →
    ∀ u r, pendingFor s' u r ≤ 1 := by
  intro acts
  induction acts with
  | nil =>
    intro s s' hinv _ h
    simp only [drun, Option.some.injEq] at h
    subst h
    exact hinv
  | cons a as ih =>
    intro s s' hinv hc h
    simp only [drun] at h
    simp only [calmRun, Bool.and_eq_true] at hc
    cases hs : dstep s a with
    | none => simp [hs] at h
    | some s1 =>
      simp only [hs] at h hc
      exact ih s1 s' (dstep_pending s s1 a hinv hc.1 hs) hc.2 h

/-- Where the rows stay unique: starting from the empty table, in every state
reached by steps of `delinquent`, `deliveration` and `extractdoover` such that
no message is enqueued for a pair while a delivery attempt for that pair is in
flight, there is at most one pending row for each `(userid, recipient)` pair.
Nothing in the program keeps a run to such steps. -/
theorem pending_rows_unique (acts : List DAction) (s : DState)
    (hc : calmRun acts dstart = true)
    (h : drun acts dstart = some s) (userid : UserID) (rcpt : String) :
    (rowsFor s.table userid rcpt).length ≤ 1 := by
  have := drun_pending acts dstart s (by intro u r; simp [pendingFor, dstart, rowsFor, inflightFor])
    hc h userid rcpt
  simp only [pendingFor] at this
  omega

/-- Two messages enqueued for one recipient before either first attempt has
run, both attempts failing, leave two rows for the pair. -/
theorem pending_rows_race :
    ∃ s, drun [DAction.enqueue 1 "%https://dead.example/inbox" "a",
               DAction.enqueue 1 "%https://dead.example/inbox" "b",
               DAction.attempt 0 refusing minutes 0 0,
               DAction.attempt 0 refusing minutes 0 0] dstart = some s ∧
      (rowsFor s.table 1 "%https://dead.example/inbox").length = 2 :=
  ⟨_, rfl, by decide⟩

theorem deliveration_fresh (E : DEnv) (fmt : Int → String) (now : Int) (rnd : Nat)
    (u : UserID) (rcpt inbox msg : String) (tbl : Table) (hz : E.ziggy u = true)
    (hin : reachesInbox E rcpt inbox) (hf : hardFail E inbox 0 msg = true) :
    ∃ dt tries, deliveration E fmt now rnd (freshDoover u rcpt msg) tbl =
      some (addDoover tbl dt tries u rcpt msg) := by
  obtain ⟨t, h1, h2, -, -, h5, -⟩ := deliveration_first_failure E fmt now rnd
    (freshDoover u rcpt msg) tbl inbox hz hin 0 msg rfl hf (fun j m' hj _ => absurd hj (by omega))
  have ht : t ≤ 15 := by
    by_cases hex : ∃ j m' err, j ≤ 0 ∧ (freshDoover u rcpt msg).Msgs[j]? = some m' ∧
        E.post j inbox m' = some err ∧ Contains err "no such host" = true
    · rw [h1 hex]
      exact max_le (show (0 : Int) ≤ 15 by decide) (le_refl _)
    · rw [h2 hex]
      exact max_le (show (0 : Int) ≤ 15 by decide) (by decide)
  obtain ⟨δ, -, -, h⟩ := h5 ht
  exact ⟨_, _, h⟩

/-- Claim C9 does not hold of the code: when two messages for one recipient
are handed to `deliverate` before the first attempt of either has failed, each
finds no pending row and starts an attempt of its own, outside the mutex; when
both attempts fail at their first POST with an error that is not let slide,
each `sayitagain` inserts a row, and the table holds two rows for the pair, one
with each message. -/
theorem pending_rows_doubled (E : DEnv) (fmt : Int → String) (now1 : Int) (rnd1 : Nat)
    (now2 : Int) (rnd2 : Nat) (u : UserID) (rcpt inbox a b : String)
    (hz : E.ziggy u = true) (hin : reachesInbox E rcpt inbox)
    (ha : hardFail E inbox 0 a = true) (hb : hardFail E inbox 0 b = true) :
    ∃ s, drun [DAction.enqueue u rcpt a, DAction.enqueue u rcpt b,
               DAction.attempt 0 E fmt now1 rnd1, DAction.attempt 0 E fmt now2 rnd2] dstart =
        some s ∧
      s.inflight = [] ∧ (rowsFor s.table u rcpt).length = 2 ∧
      ∃ r1 r2, s.table.rows = [r1, r2] ∧ r1.userid = u ∧ r1.rcpt = rcpt ∧ r1.msgs = a ∧
        r2.userid = u ∧ r2.rcpt = rcpt ∧ r2.msgs = b := by
  obtain ⟨dt1, tr1, h1⟩ := deliveration_fresh E fmt now1 rnd1 u rcpt inbox a ⟨[], 1⟩ hz hin ha
  obtain ⟨dt2, tr2, h2⟩ := deliveration_fresh E fmt now2 rnd2 u rcpt inbox b
    (addDoover ⟨[], 1⟩ dt1 tr1 u rcpt a) hz hin hb
  refine ⟨⟨addDoover (addDoover ⟨[], 1⟩ dt1 tr1 u rcpt a) dt2 tr2 u rcpt b, []⟩, ?_, rfl, ?_,
    _, _, rfl, rfl, rfl, rfl, rfl, rfl, rfl⟩
  · simp [drun, dstep, delinquent, dstart, h1, h2]
  · simp [rowsFor, addDoover]

/-- Claim C9 in the code, at two messages for the inbox of `dead.example`,
which refuses every POST: after both first attempts the table holds the rows 1
and 2 for the one pair. -/
theorem pending_rows_doubled_witness :
    reachesInbox refusing "%https://dead.example/inbox" "https://dead.example/inbox" ∧
    hardFail refusing "https://dead.example/inbox" 0 "a" = true ∧
    ∃ s, drun [DAction.enqueue 1 "%https://dead.example/inbox" "a",
               DAction.enqueue 1 "%https://dead.example/inbox" "b",
               DAction.attempt 0 refusing minutes 0 0,
               DAction.attempt 0 refusing minutes 0 0] dstart = some s ∧
      (rowsFor s.table 1 "%https://dead.example/inbox").length = 2 :=
  ⟨Or.inl ⟨_, rfl, rfl⟩, by decide,
   (pending_rows_doubled refusing minutes 0 0 0 0 1 "%https://dead.example/inbox"
      "https://dead.example/inbox" "a" "b" rfl (Or.inl ⟨_, rfl, rfl⟩) (by decide)
      (by decide)).imp fun _ h => ⟨h.1, h.2.2.1⟩⟩

/-! ## Ingesting actor documents -/

theorem ingestpubkey_cases (decodes : String → Bool) (origin : String) (obj : Junk)
    (db : Xonkers) :
    ingestpubkey decodes origin obj db = db ∨
    (ingestpubkey decodes origin obj db =
        db ++ [((Junk.GetString (keyObject obj) "id").1,
                (Junk.GetString (keyObject obj) "publicKeyPem").1, "pubkey")] ∧
      originate (Junk.GetString (keyObject obj) "id").1 = origin ∧
      originate (Junk.GetString (keyObject obj) "owner").1 = origin ∧
      getXonker db (Junk.GetString (keyObject obj) "id").1 "pubkey" = none) := by
  unfold ingestpubkey
  simp only
  split_ifs with h1 h2 h3 h4 h5 h6
  all_goals first
    | exact Or.inl rfl
    | (right
       simp only [not_or, not_not, ne_eq] at h1 h2 h5
       exact ⟨rfl, h2.2.symm, h5, by simpa using h1⟩)

theorem ingestboxes_rows (origin : String) (obj : Junk) (db : Xonkers) :
    ∀ row ∈ ingestboxes origin obj db, row ∈ db ∨ originate row.1 = origin := by
  intro row h
  unfold ingestboxes at h
  simp only at h
  split_ifs at h with h1 h2 h3 h4
  all_goals first
    | exact Or.inl h
    | (simp only [savexonker, List.mem_append, List.mem_singleton] at h
       rcases h with h | h
       · exact Or.inl h
       · right
         rw [h]
         simpa using h2)

theorem ingesthandle_rows (origin : String) (obj : Junk) (db : Xonkers) :
    ∀ row ∈ ingesthandle origin obj db, row ∈ db ∨ originate row.1 = origin := by
  intro row h
  unfold ingesthandle at h
  simp only at h
  split_ifs at h with h1 h2 h3 h4
  all_goals first
    | exact Or.inl h
    | (simp only [savexonker, List.mem_append, List.mem_singleton] at h
       rcases h with h | h
       · exact Or.inl h
       · right
         rw [h]
         simpa using h2)

theorem ingestpubkey_rows (decodes : String → Bool) (origin : String) (obj : Junk)
    (db : Xonkers) :
    ∀ row ∈ ingestpubkey decodes origin obj db, row ∈ db ∨ originate row.1 = origin := by
  intro row h
  rcases ingestpubkey_cases decodes origin obj db with e | ⟨e, h1, -, -⟩
  · rw [e] at h; exact Or.inl h
  · rw [e] at h
    simp only [List.mem_append, List.mem_singleton] at h
    rcases h with h | h
    · exact Or.inl h
    · right; rw [h]; exact h1

/-- Claim C7: `allinjest` leaves the identity store unchanged unless the
document has an id that originates from `origin`; every row it adds is under a
name that originates from `origin`; and `ingestpubkey` either changes nothing
or adds one `pubkey` row, under a key id whose origin and whose owner's origin
are `origin` and for which no `pubkey` row was stored. -/
theorem allinjest_same_origin (decodes : String → Bool) (origin : String) (obj : Junk)
    (db : Xonkers) :
    (¬ ((obj.GetString "id").1 ≠ "" ∧ originate (obj.GetString "id").1 = origin) →
      allinjest decodes origin obj db = db) ∧
    (∀ row ∈ allinjest decodes origin obj db, row ∈ db ∨ originate row.1 = origin) ∧
    (∀ keyobj, ingestpubkey decodes origin keyobj db = db ∨
      (ingestpubkey decodes origin keyobj db =
          db ++ [((Junk.GetString (keyObject keyobj) "id").1,
                  (Junk.GetString (keyObject keyobj) "publicKeyPem").1, "pubkey")] ∧
        originate (Junk.GetString (keyObject keyobj) "id").1 = origin ∧
        originate (Junk.GetString (keyObject keyobj) "owner").1 = origin ∧
        getXonker db (Junk.GetString (keyObject keyobj) "id").1 "pubkey" = none)) := by
  refine ⟨?_, ?_, fun keyobj => ingestpubkey_cases decodes origin keyobj db⟩
  · intro h
    unfold allinjest
    simp only
    by_cases h1 : (obj.GetString "id").1 = ""
    · rw [if_pos h1]
    · rw [if_neg h1, if_pos (fun e => h ⟨h1, e⟩)]
  · intro row h
    unfold allinjest at h
    simp only at h
    by_cases h1 : (obj.GetString "id").1 = ""
    · rw [if_pos h1] at h; exact Or.inl h
    · rw [if_neg h1] at h
      by_cases h2 : originate (obj.GetString "id").1 ≠ origin
      · rw [if_pos h2] at h; exact Or.inl h
      · rw [if_neg h2] at h
        simp only [not_not] at h2
        have key : ∀ db1 : Xonkers, (∀ row ∈ db1, row ∈ db ∨ originate row.1 = origin) →
            ∀ row ∈ (if (obj.GetString chatKeyProp).2 = true then
              savexonker (ingesthandle origin obj (ingestboxes origin obj db1))
                (obj.GetString "id").1 (obj.GetString chatKeyProp).1 chatKeyProp
              else ingesthandle origin obj (ingestboxes origin obj db1)),
            row ∈ db ∨ originate row.1 = origin := by
          intro db1 hdb1 row hrow
          have hb : ∀ row ∈ ingesthandle origin obj (ingestboxes origin obj db1),
              row ∈ db ∨ originate row.1 = origin := by
            intro row hr
            rcases ingesthandle_rows origin obj _ row hr with hr | hr
            · rcases ingestboxes_rows origin obj _ row hr with hr | hr
              · exact hdb1 row hr
              · exact Or.inr hr
            · exact Or.inr hr
          split_ifs at hrow
          · simp only [savexonker, List.mem_append, List.mem_singleton] at hrow
            rcases hrow with hrow | hrow
            · exact hb row hrow
            · right; rw [hrow]; exact h2
          · exact hb row hrow
        cases hk : obj.GetMap "publicKey" with
        | none =>
          simp only [hk] at h
          exact key db (fun row hr => Or.inl hr) row h
        | some keyobj =>
          simp only [hk] at h
          exact key _ (ingestpubkey_rows decodes origin keyobj db) row h

/-! ## Instances -/

/-- Claim C5 as stated fails: a `Create` of origin `a.example` whose note names
two actors in `attributedTo`, the second of `evil.example`, is saved. -/
theorem xonksaver_saves_unchecked_attributedTo :
    firstofmany create1 "type" = "Create" ∧
    (∃ x, (xonksaver quietWorld alice create1 "a.example" emptyStore).1 = some x ∧
      (xonksaver quietWorld alice create1 "a.example" emptyStore).2.1.honks =
        [{ x with ID := 1 }]) ∧
    "https://evil.example/u/mallory" ∈ newphoneKey note1 "attributedTo" ∧
    originate "https://evil.example/u/mallory" ≠ "a.example" := by
  refine ⟨by decide, ⟨_, rfl, by decide⟩, by decide, by decide⟩

/-- Claim C5, the amended theorem at that `Create`. -/
theorem xonksaver_create_origin_witness :
    (∀ x, (xonksaver quietWorld alice create1 "a.example" emptyStore).1 = some x →
      x.XID = (Junk.GetString note1 "id").1 ∧
      originate (Junk.GetString note1 "id").1 = "a.example" ∧
      x.Honker = honkerOf note1 ∧ originate (honkerOf note1) = "a.example") ∧
    (originate (Junk.GetString note1 "id").1 ≠ "a.example" ∨
        originate (honkerOf note1) ≠ "a.example" →
      (xonksaver quietWorld alice create1 "a.example" emptyStore).1 = none ∧
      (xonksaver quietWorld alice create1 "a.example" emptyStore).2.1 = emptyStore) :=
  xonksaver_create_origin quietWorld alice create1 note1 "a.example" emptyStore rfl
    (by decide) (by decide) (Or.inl rfl) (by decide)

/-- Claim C6 at a forged `Delete` for a note that the store holds: the note
stays and no zonk is written. -/
theorem xonksaver_forged_delete_witness :
    xonksaver quietWorld alice forgedDelete "evil.example" storeWithNote =
      (none, storeWithNote, []) :=
  xonksaver_forged_delete quietWorld alice forgedDelete "evil.example" storeWithNote
    "https://a.example/notes/1" (Or.inl ⟨by decide, Or.inr ⟨rfl, rfl⟩⟩) (by decide)

/-- Claim C7 at an actor document of `a.example` fetched from `evil.example`. -/
theorem allinjest_same_origin_witness :
    allinjest (fun _ => true) "evil.example" actorDoc [] = [] :=
  (allinjest_same_origin (fun _ => true) "evil.example" actorDoc []).1 (by decide)

/-- Claim C8 at a first failure (`n = 1`). -/
theorem sayitagain_schedule_witness :
    ((1 : Int) ≤ 16 → ∃ δ, retryBase 1 ≤ δ ∧ δ < retryBase 1 + retryBase 1 / 10 ∧
      sayitagain minutes 0 7 (freshDoover 1 "r" "m") dstart.table =
        some (addDoover dstart.table (minutes (0 + δ)) 1 (freshDoover 1 "r" "m").Userid
          (freshDoover 1 "r" "m").Rcpt
          (Join (freshDoover 1 "r" "m").Msgs (String.singleton NUL)))) ∧
    ((17 : Int) ≤ 1 → sayitagain minutes 0 7 (freshDoover 1 "r" "m") dstart.table =
      some dstart.table) :=
  sayitagain_schedule minutes 0 7 (freshDoover 1 "r" "m") dstart.table 1 (by decide) (by decide)

/-- The theorem `pending_rows_unique` at a calm run: a failed first delivery,
then a second message, which joins the row of the first. -/
theorem pending_rows_unique_witness :
    drun [DAction.enqueue 1 "%https://dead.example/inbox" "a",
          DAction.attempt 0 refusing minutes 0 0,
          DAction.enqueue 1 "%https://dead.example/inbox" "b"] dstart = some coalesced ∧
    (rowsFor coalesced.table 1 "%https://dead.example/inbox").length ≤ 1 :=
  ⟨by decide,
   pending_rows_unique
    [DAction.enqueue 1 "%https://dead.example/inbox" "a",
     DAction.attempt 0 refusing minutes 0 0,
     DAction.enqueue 1 "%https://dead.example/inbox" "b"]
    coalesced (by decide) (by decide) 1 "%https://dead.example/inbox"⟩

/-- Claim C10 at a batch of three whose first POST is let slide and whose
second finds no host: the first two messages are POSTed, the last two go to
`sayitagain` with 15 tries and are stored with try count 16. -/
theorem deliveration_requeue_witness :
    attemptOf vanished batch =
      some ⟨["a", "b"], some ⟨0, 0, 1, 15, "%https://b.example/inbox", ["b", "c"]⟩⟩ ∧
    ∃ δ, retryBase 16 ≤ δ ∧ δ < retryBase 16 + retryBase 16 / 10 ∧
      deliveration vanished hours 0 0 batch dstart.table =
        some (addDoover dstart.table (hours (0 + δ)) 16 1 "%https://b.example/inbox"
          (Join ["b", "c"] (String.singleton NUL))) := by
  obtain ⟨t, h1, -, h3, -, h5, -⟩ :=
    (deliveration_requeue vanished hours 0 0 batch dstart.table "https://b.example/inbox" rfl
      (Or.inl ⟨_, rfl, rfl⟩)).1 1 "b" rfl (by decide)
      (by
        intro j m' hj hm
        have hj0 : j = 0 := by omega
        subst hj0
        have : m' = "a" := by
          have : batch.Msgs[0]? = some "a" := rfl
          rw [this] at hm
          exact (Option.some.inj hm).symm
        subst this
        decide)
  have ht : t = 15 :=
    (h1 ⟨1, "b", "dial tcp: lookup b.example: no such host", Nat.le_refl _, rfl, rfl,
      by decide⟩).trans (by decide)
  subst ht
  exact ⟨h3, h5 (by decide)⟩

/-! ## `SignRequest` and `VerifyRequest` with an RSA key -/

namespace httpsig

theorem Header.get_set_ne (hd : Header) (k k' v : String) (h : ToLower k' ≠ ToLower k) :
    (Header.Set hd k v).Get k' = hd.Get k' := by
  simp [Header.Get, Header.Set, h]

theorem signHeader_get_ne (L : Lib) (now : Int) (content : String) (req : Request)
    (h k : String) (hne : ToLower k ≠ ToLower h) :
    (signHeader L now content req h).1.Header.Get k = req.Header.Get k := by
  unfold signHeader
  simp only
  split_ifs <;> simp [Header.get_set_ne _ _ _ _ hne]

theorem signHeader_request (L : Lib) (now : Int) (content : String) (req : Request)
    (h : String) :
    (signHeader L now content req h).1.Method = req.Method ∧
    (signHeader L now content req h).1.URL = req.URL := by
  unfold signHeader
  simp only
  split_ifs <;> simp

theorem signHeader_date (L : Lib) (now : Int) (content : String) (req : Request) :
    (signHeader L now content req "date").2 =
      (signHeader L now content req "date").1.Header.Get "date" := by
  unfold signHeader
  rw [if_neg (by decide), if_pos rfl]
  simp only
  split_ifs <;> simp [Header.get_set]

theorem signHeader_host (L : Lib) (now : Int) (content : String) (req : Request) :
    (signHeader L now content req "host").2 =
      (signHeader L now content req "host").1.Header.Get "host" := by
  unfold signHeader
  rw [if_neg (by decide), if_neg (by decide), if_pos rfl]
  simp only
  split_ifs <;> simp [Header.get_set]

theorem signHeader_content_type (L : Lib) (now : Int) (content : String) (req : Request) :
    (signHeader L now content req "content-type") = (req, req.Header.Get "content-type") := by
  unfold signHeader
  rw [if_neg (by decide), if_neg (by decide), if_neg (by decide), if_pos rfl]

theorem signHeader_digest (L : Lib) (now : Int) (content : String) (req : Request) :
    (signHeader L now content req "digest").2 =
      (signHeader L now content req "digest").1.Header.Get "digest" := by
  unfold signHeader
  rw [if_neg (by decide), if_neg (by decide), if_neg (by decide), if_neg (by decide), if_pos rfl]
  simp only
  split_ifs <;> simp [Header.get_set]

theorem signHeader_target (L : Lib) (now : Int) (content : String) (req : Request) :
    signHeader L now content req "(request-target)" =
      (req, ToLower req.Method ++ " " ++ req.URL.RequestURI) := by
  unfold signHeader
  rw [if_pos rfl]

theorem signLoop_signHeaders (L : Lib) (now : Int) (content : String) (req : Request) :
    (signLoop L now content (signHeaders req) req []).2 =
      (signHeaders req).map
        (signedLine req (signLoop L now content (signHeaders req) req []).1) := by
  unfold signHeaders
  split_ifs with hm
  · simp only [List.cons_append, List.nil_append, signLoop, signHeader_target,
      signHeader_content_type, List.map, signedLine, String.reduceEq, if_true, if_false]
    rw [signHeader_get_ne _ _ _ _ "digest" "date" (by decide),
      signHeader_get_ne _ _ _ _ "digest" "host" (by decide),
      signHeader_get_ne _ _ _ _ "digest" "content-type" (by decide),
      signHeader_get_ne _ _ _ _ "host" "date" (by decide),
      ← signHeader_date, ← signHeader_host, ← signHeader_digest]
  · simp only [List.cons_append, List.nil_append, signLoop, signHeader_target,
      List.map, signedLine, String.reduceEq, if_true, if_false]
    rw [signHeader_get_ne _ _ _ _ "host" "date" (by decide),
      ← signHeader_date, ← signHeader_host]

theorem signLoop_request (L : Lib) (now : Int) (content : String) :
    ∀ (hs : List String) (req : Request) (stuff : List String),
    (signLoop L now content hs req stuff).1.Method = req.Method ∧
    (signLoop L now content hs req stuff).1.URL = req.URL := by
  intro hs
  induction hs with
  | nil => intro req stuff; exact ⟨rfl, rfl⟩
  | cons h hs ih =>
    intro req stuff
    rw [signLoop]
    obtain ⟨e1, e2⟩ := ih (signHeader L now content req h).1
      (stuff ++ [h ++ ": " ++ (signHeader L now content req h).2])
    obtain ⟨e3, e4⟩ := signHeader_request L now content req h
    exact ⟨e1.trans e3, e2.trans e4⟩

theorem signedLine_set_signature (req r : Request) (v h : String) (hh : h ∈ signHeaders req) :
    signedLine req ⟨r.Method, r.URL, r.Host, r.Header.Set "Signature" v⟩ h =
      signedLine req r h := by
  have : h = "(request-target)" ∨ h = "date" ∨ h = "host" ∨ h = "content-type" ∨ h = "digest" := by
    unfold signHeaders at hh
    split_ifs at hh <;> simp at hh <;> tauto
  rcases this with e | e | e | e | e <;> subst e <;>
    simp only [signedLine, String.reduceEq, if_true, if_false] <;>
    rw [Header.get_set_ne _ _ _ _ (by decide)]

/-- The `Signature` header `SignRequest` writes with an RSA key, and the other
headers it leaves on the request. -/
theorem SignRequest_rsa_header (L : Lib) (now : Int) (keyname : String) (priv : Nat)
    (req signed : Request) (content : String)
    (hs : SignRequest L now keyname ⟨KeyType.RSA, priv⟩ req content = some signed) :
    signed.Header.Get "Signature" =
      "keyId=\"" ++ keyname ++ "\",algorithm=\"" ++ "rsa-sha256" ++ "\",headers=\"" ++
        Join (signHeaders req) " " ++ "\",signature=\"" ++
        L.sb64 (L.rsaSign priv (L.sha256
          (Join ((signHeaders req).map (signedLine req signed)) "\n"))) ++ "\"" := by
  unfold SignRequest signRequest at hs
  simp only [PrivateKey.Sign, if_true, Option.some.injEq] at hs
  rw [← hs, Header.get_set, signLoop_signHeaders]
  rw [List.map_congr_left (fun h hh => signedLine_set_signature req _ _ h hh)]

theorem signLoop_get_ne (L : Lib) (now : Int) (content : String) (k : String) :
    ∀ (hs : List String) (req : Request) (stuff : List String),
    (∀ h ∈ hs, ToLower k ≠ ToLower h) →
    (signLoop L now content hs req stuff).1.Header.Get k = req.Header.Get k := by
  intro hs
  induction hs with
  | nil => intro req stuff _; rfl
  | cons h hs ih =>
    intro req stuff hk
    rw [signLoop, ih _ _ (fun x hx => hk x (List.mem_cons_of_mem _ hx)),
      signHeader_get_ne _ _ _ _ _ _ (hk h (List.mem_cons_self _ _))]

theorem SignRequest_get_ne (L : Lib) (now : Int) (keyname : String) (key : PrivateKey)
    (req signed : Request) (content : String) (k : String)
    (hs : SignRequest L now keyname key req content = some signed)
    (hk : ∀ h ∈ "Signature" :: signHeaders req, ToLower k ≠ ToLower h) :
    signed.Header.Get k = req.Header.Get k := by
  unfold SignRequest signRequest at hs
  simp only at hs
  cases hsg : key.Sign L (if key.Typ = KeyType.RSA then
      L.sha256 (Join (signLoop L now content (signHeaders req) req []).2 "\n")
      else Join (signLoop L now content (signHeaders req) req []).2 "\n") with
  | none => simp [hsg] at hs
  | some sig =>
    simp only [hsg, Option.some.injEq] at hs
    rw [← hs]
    simp only
    rw [Header.get_set_ne _ _ _ _ (hk _ (List.mem_cons_self _ _)),
      signLoop_get_ne _ _ _ _ _ _ _ (fun h hh => hk h (List.mem_cons_of_mem _ hh))]

theorem SignRequest_rsa_digest (L : Lib) (now : Int) (keyname : String) (priv : Nat)
    (req signed : Request) (content : String)
    (hs : SignRequest L now keyname ⟨KeyType.RSA, priv⟩ req content = some signed)
    (hm : ToLower req.Method ≠ "get")
    (hdig : req.Header.Get "digest" = "" ∨
      req.Header.Get "digest" = "SHA-256=" ++ sb64sha256 L content) :
    signed.Header.Get "digest" = "SHA-256=" ++ sb64sha256 L content := by
  unfold SignRequest signRequest at hs
  simp only [PrivateKey.Sign, if_true, Option.some.injEq] at hs
  rw [← hs]
  simp only
  rw [Header.get_set_ne _ _ _ _ (by decide)]
  unfold signHeaders
  rw [if_pos hm]
  simp only [List.cons_append, List.nil_append, signLoop, signHeader_target,
    signHeader_content_type]
  have h1 : (signHeader L now content (signHeader L now content req "date").1 "host").1.Header.Get
      "digest" = req.Header.Get "digest" := by
    rw [signHeader_get_ne _ _ _ _ "host" "digest" (by decide),
      signHeader_get_ne _ _ _ _ "date" "digest" (by decide)]
  generalize (signHeader L now content (signHeader L now content req "date").1 "host").1 = r at h1
  rw [← h1] at hdig
  unfold signHeader
  rw [if_neg (by decide), if_neg (by decide), if_neg (by decide), if_neg (by decide), if_pos rfl]
  simp only
  split_ifs with h
  · simp [Header.get_set]
  · rcases hdig with h' | h'
    · exact absurd h' h
    · simp [h']

theorem draftLoop_signHeaders (L : Lib) (now : Int) (req signed req' : Request) (content : String)
    (d : Int)
    (hm : req'.Method = req.Method) (hu : req'.URL.RequestURI = req.URL.RequestURI)
    (hh : req'.Header = signed.Header) (hhost : req'.Host = signed.Header.Get "host")
    (hhost0 : req'.Host ≠ "")
    (hdig : ToLower req.Method ≠ "get" →
      signed.Header.Get "digest" = "SHA-256=" ++ sb64sha256 L content)
    (hdate : L.timeParse (signed.Header.Get "date") = Except.ok d)
    (hw1 : now - 30 * Minute ≤ d) (hw2 : d ≤ now + 30 * Minute) :
    draftLoop L now req' content (signHeaders req) [] [] =
      Except.ok (signHeaders req, (signHeaders req).map (signedLine req signed)) := by
  have e1 : draftHeader L now req' content "(request-target)" =
      Except.ok (ToLower req.Method ++ " " ++ req.URL.RequestURI) := by
    unfold draftHeader
    rw [if_pos rfl, hm, hu]
  have e2 : draftHeader L now req' content "date" = Except.ok (signed.Header.Get "date") := by
    rw [draftHeader_date, hh, hdate]
    simp only
    rw [if_neg (by simp only [not_or, not_lt]; constructor <;> omega)]
  have e3 : draftHeader L now req' content "host" = Except.ok (signed.Header.Get "host") := by
    unfold draftHeader
    rw [if_neg (by decide), if_pos rfl, if_neg hhost0, hhost]
  have e4 : draftHeader L now req' content "content-type" =
      Except.ok (signed.Header.Get "content-type") := by
    unfold draftHeader
    rw [if_neg (by decide), if_neg (by decide), if_neg (by decide), if_neg (by decide), hh]
  unfold signHeaders
  split_ifs with hg
  · have e5 : draftHeader L now req' content "digest" =
        Except.ok (signed.Header.Get "digest") := by
      rw [draftHeader_digest, hh]
      rw [if_neg (by simpa using hdig hg)]
    simp only [List.cons_append, List.nil_append, draftLoop, e1, e2, e3, e4, e5, List.map,
      signedLine, String.reduceEq, if_true, if_false]
  · simp only [List.cons_append, List.nil_append, draftLoop, e1, e2, e3, List.map,
      signedLine, String.reduceEq, if_true, if_false]

theorem Split_signHeaders (req : Request) :
    Split (Join (signHeaders req) " ") ' ' = signHeaders req := by
  unfold signHeaders
  split_ifs <;> decide

theorem missingNames_signHeaders (req req' : Request) (hm : req'.Method = req.Method) :
    missingNames req'.Method (signHeaders req) = [] := by
  unfold signHeaders missingNames
  rw [hm]
  split_ifs with hg <;> simp_all

theorem sighdr_ne_empty (K A H B : String) :
    "keyId=\"" ++ K ++ "\",algorithm=\"" ++ A ++ "\",headers=\"" ++ H ++
      "\",signature=\"" ++ B ++ "\"" ≠ "" := by
  intro h
  have := congrArg String.length h
  simp only [String.length_append] at this
  have l1 : ("keyId=\"" : String).length = 7 := by decide
  have l2 : ("" : String).length = 0 := by decide
  rw [l1, l2] at this
  omega

/-- A request signed by `SignRequest` with an RSA key is accepted by
`VerifyRequest` with the matching public key, when the receiver sees the method,
request URI and headers of the signed request, its `host` header as `Host`, the
same body, and a `date` header within thirty minutes of its clock. The signer is
assumed to leave `Signature-Input` unset and any preset `digest` header correct;
the key name has no comma and is not empty. -/
theorem SignRequest_rsa_verified
    (L : Lib) (now now' : Int) (keyname : String) (priv pub : Nat)
    (req signed req' : Request) (content : String)
    (lk : String → PublicKey × Option String) (d : Int)
    (hrsa : ∀ m, L.rsaVerify pub m (L.rsaSign priv m) = none)
    (hb64 : ∀ b, L.b64s (L.sb64 b) = b)
    (hcomma : ∀ b, ',' ∉ (L.sb64 b).data)
    (hsig0 : ∀ m, L.sb64 (L.rsaSign priv m) ≠ "")
    (hkey : ',' ∉ keyname.data) (hkey0 : keyname ≠ "")
    (hlk : lk keyname = (⟨KeyType.RSA, pub⟩, none))
    (hs : SignRequest L now keyname ⟨KeyType.RSA, priv⟩ req content = some signed)
    (hin : req.Header.Get "Signature-Input" = "")
    (hdig : req.Header.Get "digest" = "" ∨
      req.Header.Get "digest" = "SHA-256=" ++ sb64sha256 L content)
    (hm : req'.Method = req.Method) (hu : req'.URL.RequestURI = req.URL.RequestURI)
    (hh : req'.Header = signed.Header) (hhost : req'.Host = signed.Header.Get "host")
    (hhost0 : req'.Host ≠ "")
    (hdate : L.timeParse (signed.Header.Get "date") = Except.ok d)
    (hw1 : now' - 30 * Minute ≤ d) (hw2 : d ≤ now' + 30 * Minute) :
    VerifyRequest L now' req' content lk = (keyname, none) := by
  have hin' : req'.Header.Get "Signature-Input" = "" := by
    rw [hh, SignRequest_get_ne L now keyname _ req signed content _ hs, hin]
    intro h hmem
    have : h = "Signature" ∨ h = "(request-target)" ∨ h = "date" ∨ h = "host" ∨
        h = "content-type" ∨ h = "digest" := by
      unfold signHeaders at hmem
      split_ifs at hmem <;> simp at hmem <;> tauto
    rcases this with e | e | e | e | e | e <;> subst e <;> decide
  have hv : verifyRequest L now' ⟨false, []⟩ req' content lk =
      (⟨false, signHeaders req⟩, keyname, none) := by
    unfold verifyRequest
    simp only
    rw [if_neg (by simpa using hin')]
    unfold verifyDraft
    simp only
    rw [hh, SignRequest_rsa_header L now keyname priv req signed content hs,
      if_neg (sighdr_ne_empty _ _ _ _),
      draftScan_sighdr _ _ _ _ hkey (by decide) (signHeaders_no_comma req) (hcomma _)]
    simp only
    have hne : Join (signHeaders req) " " ≠ "" := by
      unfold signHeaders
      split_ifs <;> decide
    rw [if_neg (by simp [hkey0, hne, hsig0])]
    rw [hlk]
    simp only [reduceCtorEq, if_false]
    rw [Split_signHeaders,
      draftLoop_signHeaders L now' req signed req' content d hm hu hh hhost hhost0
        (fun hg => SignRequest_rsa_digest L now keyname priv req signed content hs hg hdig)
        hdate hw1 hw2]
    simp only [PublicKey.Verify, hb64, hrsa]
  rw [VerifyRequest_eq, hv]
  simp only
  rw [if_pos (missingNames_signHeaders req req' hm)]

theorem rsaSigned_eq :
    SignRequest demoLib (5 * Minute) "k" ⟨KeyType.RSA, 3⟩ postInbox "hello" = some rsaSigned := by
  rfl

theorem demoSign_sb64_ne_empty (tag : String) (k : Nat) (m : String) (c : Char) (cs : List Char)
    (ht : tag.data = c :: cs) : demoLib.sb64 (demoSign tag k m) ≠ "" := by
  intro h
  have := congrArg String.data h
  simp only [demoLib, demoSign, String.data_append, ht, List.cons_append, demoEnc] at this
  split_ifs at this

/-- The round trip at a POST signed with RSA key 3 of `demoLib` at minute 5 and
verified one minute later. -/
theorem SignRequest_rsa_verified_witness :
    VerifyRequest demoLib (6 * Minute) (asReceived rsaSigned) "hello"
      (demoLookup KeyType.RSA "k") = ("k", none) :=
  SignRequest_rsa_verified demoLib (5 * Minute) (6 * Minute) "k" 3 3 postInbox
    rsaSigned (asReceived rsaSigned) "hello" (demoLookup KeyType.RSA "k") (5 * Minute)
    (fun m => by simp [demoLib])
    (fun b => by simp [demoLib, demoDec_demoEnc])
    (fun b => demoEnc_no_comma b.data)
    (fun m => demoSign_sb64_ne_empty "rsa" 3 m 'r' ['s', 'a'] rfl)
    (by decide) (by decide) rfl rsaSigned_eq (by decide) (Or.inl (by decide))
    rfl rfl rfl rfl (by decide) rfl (by decide) (by decide)

end httpsig

/-! ## Coalescing of pending deliveries -/

theorem Join_append_singleton (msgs : List String) (m sep : String) (hne : msgs ≠ []) :
    Join (msgs ++ [m]) sep = Join msgs sep ++ sep ++ m := by
  induction msgs with
  | nil => exact absurd rfl hne
  | cons a rest ih =>
    cases rest with
    | nil => simp [Join]
    | cons b rest =>
      have := ih (by simp)
      simp only [List.cons_append] at this ⊢
      simp only [Join, this, String.append_assoc]

theorem Split_Join (msgs : List String) (sep : Char) (hne : msgs ≠ [])
    (h : ∀ m ∈ msgs, sep ∉ m.data) : Split (Join msgs (String.singleton sep)) sep = msgs := by
  induction msgs with
  | nil => exact absurd rfl hne
  | cons a rest ih =>
    cases rest with
    | nil => simpa [Join] using Split_of_not_mem a sep (h a (by simp))
    | cons b rest =>
      simp only [Join]
      rw [Split_append _ _ _ (h a (by simp)), ih (by simp) (fun m hm => h m (List.mem_cons_of_mem _ hm))]

theorem find?_map_same {α : Type} (p : α → Bool) (f : α → α) (hf : ∀ a, p (f a) = p a) :
    ∀ l : List α, (l.map f).find? p = (l.find? p).map f := by
  intro l
  induction l with
  | nil => rfl
  | cons a l ih =>
    simp only [List.map_cons, List.find?_cons, hf]
    cases p a
    · simpa using ih
    · rfl

theorem find?_dooverid (l : List DooverRow) (row : DooverRow) (hmem : row ∈ l)
    (hids : (l.map DooverRow.dooverid).Nodup) :
    l.find? (fun r => decide (r.dooverid = row.dooverid)) = some row := by
  induction l with
  | nil => simp at hmem
  | cons a l ih =>
    simp only [List.map_cons, List.nodup_cons, List.mem_map, not_exists, not_and] at hids
    rcases List.mem_cons.1 hmem with rfl | hm
    · simp
    · have : a.dooverid ≠ row.dooverid := fun e => hids.1 row hm e.symm
      simp only [List.find?_cons, this, decide_False]
      exact ih hm hids.2

theorem delinquent_found (tbl : Table) (userid : UserID) (rcpt msg : String) (row : DooverRow)
    (hfind : tbl.rows.find? (fun r => decide (r.userid = userid ∧ r.rcpt = rcpt)) = some row) :
    delinquent tbl userid rcpt msg =
      (true, ⟨tbl.rows.map fun r =>
        if r.dooverid = row.dooverid then
          ⟨r.dooverid, r.dt, r.tries, r.userid, r.rcpt, row.msgs ++ String.singleton NUL ++ msg⟩
        else r, tbl.nextid⟩) := by
  unfold delinquent
  rw [hfind]

theorem filter_map_same {α : Type} (p : α → Bool) (f : α → α) (hf : ∀ a, p (f a) = p a) :
    ∀ l : List α, (l.map f).filter p = (l.filter p).map f := by
  intro l
  induction l with
  | nil => rfl
  | cons a l ih =>
    simp only [List.map_cons, List.filter_cons, hf]
    cases p a
    · simpa using ih
    · simp [ih]

theorem enqueue_appends (userid : UserID) (rcpt : String) :
    ∀ (more : List String) (s : DState) (row : DooverRow) (msgs : List String),
    (s.table.rows.map DooverRow.dooverid).Nodup →
    s.table.rows.find? (fun r => decide (r.userid = userid ∧ r.rcpt = rcpt)) = some row →
    row.msgs = Join msgs (String.singleton NUL) → msgs ≠ [] →
    ∃ s' row', drun (more.map (DAction.enqueue userid rcpt)) s = some s' ∧
      s'.inflight = s.inflight ∧
      (s'.table.rows.map DooverRow.dooverid).Nodup ∧
      s'.table.rows.find? (fun r => decide (r.userid = userid ∧ r.rcpt = rcpt)) = some row' ∧
      row'.dooverid = row.dooverid ∧ row'.tries = row.tries ∧
      row'.userid = row.userid ∧ row'.rcpt = row.rcpt ∧
      row'.msgs = Join (msgs ++ more) (String.singleton NUL) ∧
      (rowsFor s'.table userid rcpt).length = (rowsFor s.table userid rcpt).length := by
  intro more
  induction more with
  | nil =>
    intro s row msgs hids hfind hrow _
    exact ⟨s, row, rfl, rfl, hids, hfind, rfl, rfl, rfl, rfl, by simpa using hrow, rfl⟩
  | cons m more ih =>
    intro s row msgs hids hfind hrow hne
    let f : DooverRow → DooverRow := fun r =>
      if r.dooverid = row.dooverid then
        ⟨r.dooverid, r.dt, r.tries, r.userid, r.rcpt, row.msgs ++ String.singleton NUL ++ m⟩
      else r
    have hfid : ∀ a, (f a).dooverid = a.dooverid := by
      intro a; simp only [f]; split_ifs <;> rfl
    have hfp : ∀ a, (fun r : DooverRow => decide (r.userid = userid ∧ r.rcpt = rcpt)) (f a) =
        (fun r : DooverRow => decide (r.userid = userid ∧ r.rcpt = rcpt)) a := by
      intro a; simp only [f]; split_ifs <;> rfl
    have hstep : dstep s (DAction.enqueue userid rcpt m) =
        some ⟨⟨s.table.rows.map f, s.table.nextid⟩, s.inflight⟩ := by
      simp only [dstep, delinquent_found s.table userid rcpt m row hfind]
    have hfrow : f row = ⟨row.dooverid, row.dt, row.tries, row.userid, row.rcpt,
        row.msgs ++ String.singleton NUL ++ m⟩ := by
      simp only [f, if_true]
    obtain ⟨s', row', h1, h2, h3, h4, h5, h6, h7, h8, h9, h10⟩ :=
      ih ⟨⟨s.table.rows.map f, s.table.nextid⟩, s.inflight⟩ (f row) (msgs ++ [m])
        (by
          have : (s.table.rows.map f).map DooverRow.dooverid =
              s.table.rows.map DooverRow.dooverid := by
            rw [List.map_map]
            exact List.map_congr_left (fun a _ => hfid a)
          simpa [this] using hids)
        (by
          show (s.table.rows.map f).find? _ = _
          rw [find?_map_same _ f hfp, hfind]
          rfl)
        (by rw [hfrow, Join_append_singleton _ _ _ hne, hrow])
        (by simp)
    refine ⟨s', row', ?_, h2, h3, h4, ?_, ?_, ?_, ?_, ?_, ?_⟩
    · simp only [List.map_cons, drun, hstep]
      exact h1
    · rw [h5, hfrow]
    · rw [h6, hfrow]
    · rw [h7, hfrow]
    · rw [h8, hfrow]
    · rw [h9]; simp
    · rw [h10]
      show ((s.table.rows.map f).filter _).length = _
      rw [filter_map_same _ f hfp, List.length_map]
      rfl

theorem filter_dooverid_length (p : DooverRow → Bool) :
    ∀ (l : List DooverRow) (x : DooverRow), x ∈ l → (l.map DooverRow.dooverid).Nodup →
    ((l.filter fun r => decide (r.dooverid ≠ x.dooverid)).filter p).length +
      (if p x then 1 else 0) = (l.filter p).length := by
  intro l
  induction l with
  | nil => intro x h; simp at h
  | cons y ys ih =>
    intro x hx hids
    simp only [List.map_cons, List.nodup_cons, List.mem_map, not_exists, not_and] at hids
    rcases List.mem_cons.1 hx with rfl | hx
    · have hall : ys.filter (fun r => decide (r.dooverid ≠ x.dooverid)) = ys := by
        rw [List.filter_eq_self]
        intro a ha
        simpa using hids.1 a ha
      rw [List.filter_cons, if_neg (by simp), hall, List.filter_cons]
      cases hp : p x <;> simp
    · have hne : y.dooverid ≠ x.dooverid := fun e => hids.1 x hx e.symm
      have := ih x hx hids.2
      rw [List.filter_cons, if_pos (by simpa using hne), List.filter_cons, List.filter_cons]
      cases hp : p y <;> simp only [if_true, if_false, Bool.false_eq_true, List.length_cons] <;>
        omega

/-- Claim C11: coalescing keeps enqueue order. When the first pending row of a
pair holds the messages `msgs` (at least one) joined by NUL, as `sayitagain`
writes them, and the messages `more` are enqueued for the pair one after
another, none of them with a NUL byte, then `delinquent` appends each to that
row, no delivery attempt is started, the pair has as many rows as before, and
`extractdoover` of the row returns `msgs ++ more` in this order and deletes
the row; in particular `Split (Join msgs NUL ++ NUL ++ m) NUL = msgs ++ [m]`. -/
theorem coalescing_keeps_order (s : DState) (userid : UserID) (rcpt : String) (row : DooverRow)
    (msgs more : List String)
    (hids : (s.table.rows.map DooverRow.dooverid).Nodup)
    (hfind : s.table.rows.find? (fun r => decide (r.userid = userid ∧ r.rcpt = rcpt)) = some row)
    (hrow : row.msgs = Join msgs (String.singleton NUL))
    (hne : msgs ≠ [])
    (hnul : ∀ m ∈ msgs ++ more, NUL ∉ m.data) :
    (∀ m, NUL ∉ m.data →
      Split (Join msgs (String.singleton NUL) ++ String.singleton NUL ++ m) NUL = msgs ++ [m]) ∧
    ∃ s' d t, drun (more.map (DAction.enqueue userid rcpt)) s = some s' ∧
      s'.inflight = s.inflight ∧
      (rowsFor s'.table userid rcpt).length = (rowsFor s.table userid rcpt).length ∧
      extractdoover s'.table row.dooverid = some (d, t) ∧
      d.Msgs = msgs ++ more ∧ d.Userid = userid ∧ d.Rcpt = rcpt ∧ d.Tries = row.tries ∧
      (rowsFor t userid rcpt).length + 1 = (rowsFor s.table userid rcpt).length := by
  constructor
  · intro m hm
    rw [← Join_append_singleton _ _ _ hne, Split_Join _ _ (by simp)]
    intro x hx
    rcases List.mem_append.1 hx with hx | hx
    · exact hnul x (List.mem_append_left _ hx)
    · rw [List.mem_singleton.1 hx]; exact hm
  · obtain ⟨s', row', h1, h2, h3, h4, h5, h6, h7, h8, h9, h10⟩ :=
      enqueue_appends userid rcpt more s row msgs hids hfind hrow hne
    have hmem : row' ∈ s'.table.rows := List.mem_of_find?_eq_some h4
    have hp := List.find?_some h4
    simp only [decide_eq_true_eq] at hp
    have hf : s'.table.rows.find? (fun r => decide (r.dooverid = row.dooverid)) = some row' := by
      rw [← h5]
      exact find?_dooverid _ _ hmem h3
    refine ⟨s', ⟨row.dooverid, 0, row'.userid, row'.tries, row'.rcpt, Split row'.msgs NUL⟩,
      ⟨s'.table.rows.filter fun r => decide (r.dooverid ≠ row.dooverid), s'.table.nextid⟩,
      h1, h2, h10, ?_, ?_, hp.1, hp.2, h6, ?_⟩
    · unfold extractdoover
      rw [hf]
    · show Split row'.msgs NUL = _
      rw [h9, Split_Join _ _ (by simp [hne]) hnul]
    · rw [← h10]
      have := filter_dooverid_length (fun r => decide (r.userid = userid ∧ r.rcpt = rcpt))
        s'.table.rows row' hmem h3
      rw [h5, if_pos (by simpa using hp)] at this
      exact this

/-- Claim C11 at three messages for a peer that refuses the first delivery:
they are held as one row and come back in enqueue order. -/
theorem coalescing_keeps_order_witness :
    drun [DAction.enqueue 1 "%https://dead.example/inbox" "a",
          DAction.attempt 0 refusing minutes 0 0,
          DAction.enqueue 1 "%https://dead.example/inbox" "b",
          DAction.enqueue 1 "%https://dead.example/inbox" "c",
          DAction.extract 1] dstart =
      some ⟨⟨[], 2⟩, [⟨1, 0, 1, 1, "%https://dead.example/inbox", ["a", "b", "c"]⟩]⟩ ∧
    drun [DAction.enqueue 1 "%https://dead.example/inbox" "a",
          DAction.attempt 0 refusing minutes 0 0] dstart = some firstFailed ∧
    ((∀ m, NUL ∉ m.data →
      Split (Join ["a"] (String.singleton NUL) ++ String.singleton NUL ++ m) NUL = ["a"] ++ [m]) ∧
    ∃ s' d t, drun (["b", "c"].map (DAction.enqueue 1 "%https://dead.example/inbox"))
        firstFailed = some s' ∧
      s'.inflight = firstFailed.inflight ∧
      (rowsFor s'.table 1 "%https://dead.example/inbox").length =
        (rowsFor firstFailed.table 1 "%https://dead.example/inbox").length ∧
      extractdoover s'.table 1 = some (d, t) ∧
      d.Msgs = ["a"] ++ ["b", "c"] ∧ d.Userid = 1 ∧ d.Rcpt = "%https://dead.example/inbox" ∧
      d.Tries = 1 ∧
      (rowsFor t 1 "%https://dead.example/inbox").length + 1 =
        (rowsFor firstFailed.table 1 "%https://dead.example/inbox").length) :=
  ⟨by decide, by decide,
   coalescing_keeps_order firstFailed 1 "%https://dead.example/inbox"
     ⟨1, "mmmmm", 1, 1, "%https://dead.example/inbox", "a"⟩ ["a"] ["b", "c"]
     (by decide) (by decide) (by decide) (by decide) (by decide)⟩

/-! ## An inbox that cannot be resolved -/

theorem attemptOf_unresolved (E : DEnv) (doover : Doover) (c : Char) (cs : List Char)
    (hz : E.ziggy doover.Userid = true) (hr : doover.Rcpt.data = c :: cs) (hc : c ≠ '%')
    (hb : E.box doover.Rcpt = none) :
    attemptOf E doover = some ⟨[], some (if doover.Tries < nearlyDead then
      ⟨doover.ID, doover.When, doover.Userid, nearlyDead, doover.Rcpt, doover.Msgs⟩
      else doover)⟩ := by
  unfold attemptOf
  rw [if_neg (by simp [hz]), hr]
  simp only [if_neg hc, hb]

/-- Claim C12 as stated fails: a record with three tries whose inbox is not
resolved is stored with try count 16 for a retry twelve hours out, not a day. -/
theorem deliveration_unresolved_half_day :
    attemptOf refusing unresolved =
      some ⟨[], some ⟨0, 0, 1, 15, "https://dead.example/u/bob", ["a"]⟩⟩ ∧
    deliveration refusing hours 0 0 unresolved dstart.table =
      some ⟨[⟨1, hours (0 + 12 * Hour), 16, 1, "https://dead.example/u/bob", "a"⟩], 2⟩ ∧
    hours (0 + 12 * Hour) = "hhhhhhhhhhhh" ∧ hours (0 + 12 * Hour) ≠ hours (0 + 24 * Hour) := by
  decide

/-- Claim C12, amended: when the key of the user is found, the recipient is not
empty, does not start with `%` and `boxofboxes` has no box for it, a record
with at most 15 tries goes to `sayitagain` with 15 tries and nothing is
POSTed; `sayitagain` stores it with try count 16, the last one of the
schedule, for a retry between 12 hours and 13.2 hours out, which is less than a
day. -/
theorem deliveration_unresolved (E : DEnv) (fmt : Int → String) (now : Int) (rnd : Nat)
    (doover : Doover) (tbl : Table) (c : Char) (cs : List Char)
    (hz : E.ziggy doover.Userid = true) (hr : doover.Rcpt.data = c :: cs) (hc : c ≠ '%')
    (hb : E.box doover.Rcpt = none) (ht : doover.Tries ≤ 15) :
    attemptOf E doover =
      some ⟨[], some ⟨doover.ID, doover.When, doover.Userid, max doover.Tries 15, doover.Rcpt,
        doover.Msgs⟩⟩ ∧
    ∃ δ, 12 * Hour ≤ δ ∧ δ < 12 * Hour + 12 * Hour / 10 ∧ δ < 24 * Hour ∧
      deliveration E fmt now rnd doover tbl =
        some (addDoover tbl (fmt (now + δ)) 16 doover.Userid doover.Rcpt
          (Join doover.Msgs (String.singleton NUL))) := by
  have ha : attemptOf E doover =
      some ⟨[], some ⟨doover.ID, doover.When, doover.Userid, 15, doover.Rcpt, doover.Msgs⟩⟩ := by
    rw [attemptOf_unresolved E doover c cs hz hr hc hb]
    by_cases h : doover.Tries < nearlyDead
    · rw [if_pos h]; rfl
    · rw [if_neg h]
      have : doover.Tries = 15 := by unfold nearlyDead at h; omega
      rw [← this]
  have hmax : max doover.Tries 15 = 15 := max_eq_right ht
  refine ⟨by rw [ha, hmax], ?_⟩
  have hd : driftOf (wrap64 ((15 : Int) + 1)) = some (12 * Hour) := by
    unfold driftOf Hour httpsig.Minute wrap64
    decide
  obtain ⟨δ, h1, h2, h3⟩ := sayitagain_of_drift fmt now rnd
    ⟨doover.ID, doover.When, doover.Userid, 15, doover.Rcpt, doover.Msgs⟩ tbl (12 * Hour) hd
    (by unfold Hour httpsig.Minute; decide) (by unfold Hour httpsig.Minute; decide)
  refine ⟨δ, h1, h2, ?_, ?_⟩
  · unfold Hour httpsig.Minute at h2 ⊢
    omega
  · unfold deliveration
    rw [ha]
    simp only
    rw [h3]
    have : wrap64 ((15 : Int) + 1) = 16 := by unfold wrap64; decide
    simp only [this]

/-- Claim C12, amended, at a record with three tries. -/
theorem deliveration_unresolved_witness :
    attemptOf refusing unresolved =
      some ⟨[], some ⟨unresolved.ID, unresolved.When, unresolved.Userid,
        max unresolved.Tries 15, unresolved.Rcpt, unresolved.Msgs⟩⟩ ∧
    ∃ δ, 12 * Hour ≤ δ ∧ δ < 12 * Hour + 12 * Hour / 10 ∧ δ < 24 * Hour ∧
      deliveration refusing hours 0 0 unresolved dstart.table =
        some (addDoover dstart.table (hours (0 + δ)) 16 unresolved.Userid unresolved.Rcpt
          (Join unresolved.Msgs (String.singleton NUL))) :=
  deliveration_unresolved refusing hours 0 0 unresolved dstart.table 'h'
    "ttps://dead.example/u/bob".data rfl rfl (by decide) rfl (by decide)

/-! ## The retry schedule from one try to the next -/

theorem sayitagain_delay (fmt : Int → String) (now : Int) (rnd : Nat) (d : Doover)
    (tbl : Table) (n : Int) (hn : wrap64 (d.Tries + 1) = n) (h1 : 1 ≤ n) (h2 : n ≤ 16) :
    sayitagain fmt now rnd d tbl =
      some (addDoover tbl (fmt (now + (retryBase n + (rnd : Int) % (retryBase n / 10)))) n
        d.Userid d.Rcpt (Join d.Msgs (String.singleton NUL))) := by
  obtain ⟨hb1, hb2⟩ := retryBase_bounds n h1 h2
  have hk : 0 < retryBase n / 10 := by omega
  have hj1 : 0 ≤ (rnd : Int) % (retryBase n / 10) := Int.emod_nonneg _ (by omega)
  have hj2 : (rnd : Int) % (retryBase n / 10) < retryBase n / 10 := Int.emod_lt_of_pos _ hk
  unfold sayitagain
  simp only [hn, driftOf_eq n h1 h2, Int63n, if_neg (not_le.mpr hk)]
  rw [wrap64_of_range _ (by omega) (by omega)]

theorem retryBase_step (m n : Int) (h1 : 1 ≤ m) (h2 : m < n) (h3 : n ≤ 16) (h6 : m ≤ 6) :
    retryBase m + retryBase m / 10 ≤ retryBase n := by
  unfold retryBase Hour httpsig.Minute
  interval_cases m <;> interval_cases n <;> simp

theorem retryBase_mono (m n : Int) (h1 : 1 ≤ m) (h2 : m < n) (h3 : n ≤ 16) :
    retryBase m ≤ retryBase n := by
  have hm : m ≤ 15 := by omega
  unfold retryBase Hour httpsig.Minute
  interval_cases m <;> interval_cases n <;> simp

theorem retryBase_flat (n : Int) (h1 : 7 ≤ n) : retryBase n = 12 * Hour := by
  unfold retryBase
  rw [if_neg (by omega), if_neg (by omega)]

/-- Claim C13 as stated fails: with a jitter of one hour drawn at try 7 and a
jitter of zero drawn at try 8, the retry of try 7 is 13 hours out and the retry
of try 8 only 12 hours. -/
theorem sayitagain_jitter_not_monotone :
    sayitagain hours 0 3600000000000 (tried 6) dstart.table =
      some ⟨[⟨1, hours (0 + 13 * Hour), 7, 1, "%https://dead.example/inbox", "a"⟩], 2⟩ ∧
    sayitagain hours 0 0 (tried 7) dstart.table =
      some ⟨[⟨1, hours (0 + 12 * Hour), 8, 1, "%https://dead.example/inbox", "a"⟩], 2⟩ ∧
    (7 : Int) < 8 ∧ 0 + 12 * Hour < 0 + 13 * Hour ∧
    hours (0 + 13 * Hour) = "hhhhhhhhhhhhh" ∧ hours (0 + 12 * Hour) = "hhhhhhhhhhhh" := by
  decide

/-- Claim C13, amended: for try counts `1 <= m < n <= 16` (counted after the
increment) the delay before the jitter is non-decreasing, `base(m) <= base(n)`.
With the jitter, the delay `dm` of try `m` drawn with `rm` and the delay `dn`
of try `n` drawn with `rn` satisfy `dm < dn` whenever `m <= 6`, whatever is
drawn; for `7 <= m` both lie in the same window from 12 hours to 13.2 hours and
either may be the larger. From try 17 on nothing is stored. -/
theorem sayitagain_monotone (m n : Int) (rm rn : Nat) (h1 : 1 ≤ m) (h2 : m < n) (h3 : n ≤ 16) :
    ∃ dm dn : Int,
      (∀ (fmt : Int → String) (now : Int) (d : Doover) (tbl : Table),
        wrap64 (d.Tries + 1) = m →
        sayitagain fmt now rm d tbl =
          some (addDoover tbl (fmt (now + dm)) m d.Userid d.Rcpt
            (Join d.Msgs (String.singleton NUL)))) ∧
      (∀ (fmt : Int → String) (now : Int) (d : Doover) (tbl : Table),
        wrap64 (d.Tries + 1) = n →
        sayitagain fmt now rn d tbl =
          some (addDoover tbl (fmt (now + dn)) n d.Userid d.Rcpt
            (Join d.Msgs (String.singleton NUL)))) ∧
      retryBase m ≤ retryBase n ∧
      (m ≤ 6 → dm < dn) ∧
      (7 ≤ m → 12 * Hour ≤ dm ∧ dm < 12 * Hour + 12 * Hour / 10 ∧
        12 * Hour ≤ dn ∧ dn < 12 * Hour + 12 * Hour / 10) ∧
      (∀ (fmt : Int → String) (now : Int) (rnd : Nat) (d : Doover) (tbl : Table),
        17 ≤ wrap64 (d.Tries + 1) → sayitagain fmt now rnd d tbl = some tbl) := by
  obtain ⟨hm1, hm2⟩ := retryBase_bounds m h1 (by omega)
  obtain ⟨hn1, hn2⟩ := retryBase_bounds n (by omega) h3
  have jm1 : 0 ≤ (rm : Int) % (retryBase m / 10) := Int.emod_nonneg _ (by omega)
  have jm2 : (rm : Int) % (retryBase m / 10) < retryBase m / 10 :=
    Int.emod_lt_of_pos _ (by omega)
  have jn1 : 0 ≤ (rn : Int) % (retryBase n / 10) := Int.emod_nonneg _ (by omega)
  have jn2 : (rn : Int) % (retryBase n / 10) < retryBase n / 10 :=
    Int.emod_lt_of_pos _ (by omega)
  refine ⟨retryBase m + (rm : Int) % (retryBase m / 10),
    retryBase n + (rn : Int) % (retryBase n / 10), ?_, ?_, retryBase_mono m n h1 h2 h3, ?_, ?_, ?_⟩
  · intro fmt now d tbl hd
    exact sayitagain_delay fmt now rm d tbl m hd h1 (by omega)
  · intro fmt now d tbl hd
    exact sayitagain_delay fmt now rn d tbl n hd (by omega) h3
  · intro h6
    have := retryBase_step m n h1 h2 h3 h6
    omega
  · intro h7
    rw [retryBase_flat m h7, retryBase_flat n (by omega)] at *
    exact ⟨by omega, by omega, by omega, by omega⟩
  · intro fmt now rnd d tbl h17
    unfold sayitagain
    simp only
    have : driftOf (wrap64 (d.Tries + 1)) = none := by
      unfold driftOf
      rw [if_neg (by omega), if_neg (by omega), if_neg (by omega)]
    rw [this]

/-- Claim C13, amended, at the tries 3 and 4. -/
theorem sayitagain_monotone_witness :
    ∃ dm dn : Int,
      (∀ (fmt : Int → String) (now : Int) (d : Doover) (tbl : Table),
        wrap64 (d.Tries + 1) = 3 →
        sayitagain fmt now 11 d tbl =
          some (addDoover tbl (fmt (now + dm)) 3 d.Userid d.Rcpt
            (Join d.Msgs (String.singleton NUL)))) ∧
      (∀ (fmt : Int → String) (now : Int) (d : Doover) (tbl : Table),
        wrap64 (d.Tries + 1) = 4 →
        sayitagain fmt now 0 d tbl =
          some (addDoover tbl (fmt (now + dn)) 4 d.Userid d.Rcpt
            (Join d.Msgs (String.singleton NUL)))) ∧
      retryBase 3 ≤ retryBase 4 ∧
      ((3 : Int) ≤ 6 → dm < dn) ∧
      ((7 : Int) ≤ 3 → 12 * Hour ≤ dm ∧ dm < 12 * Hour + 12 * Hour / 10 ∧
        12 * Hour ≤ dn ∧ dn < 12 * Hour + 12 * Hour / 10) ∧
      (∀ (fmt : Int → String) (now : Int) (rnd : Nat) (d : Doover) (tbl : Table),
        17 ≤ wrap64 (d.Tries + 1) → sayitagain fmt now rnd d tbl = some tbl) :=
  sayitagain_monotone 3 4 11 0 (by decide) (by decide) (by decide)

/-! ## Recipients of a delivery -/

theorem mem_setKey (rcpts : List String) (k x : String) :
    x ∈ setKey rcpts k ↔ x ∈ rcpts ∨ x = k := by
  unfold setKey
  split_ifs with h
  · constructor
    · exact Or.inl
    · rintro (h' | rfl)
      · exact h'
      · exact h
  · simp

theorem nodup_setKey (rcpts : List String) (k : String) (h : rcpts.Nodup) :
    (setKey rcpts k).Nodup := by
  unfold setKey
  split_ifs with hk
  · exact h
  · rw [List.nodup_append]
    exact ⟨h, List.nodup_singleton k, by
      intro a ha hb
      rw [List.mem_singleton] at hb
      subst hb
      exact hk ha⟩

theorem skipped_iff (user : WhatAbout) (a : String) :
    skipped user a = true ↔
      (a = "" ∨ a = thewholeworld ∨ a = user.URL ∨ HasSuffix a "/followers" = true) := by
  simp [skipped, or_assoc]

theorem boxupOne_eq (box : String → Option Box) (user : WhatAbout) (useshared : Bool)
    (rcpts : List String) (a : String) :
    boxupOne box user useshared rcpts a =
      match rcptOf box user useshared a with
      | none => rcpts
      | some k => setKey rcpts k := by
  unfold boxupOne rcptOf
  by_cases h1 : skipped user a = true
  · rw [if_pos ((skipped_iff user a).1 h1), if_pos h1]
  · rw [if_neg (fun h => h1 ((skipped_iff user a).2 h)), if_neg h1]
    by_cases h2 : a.data.head? = some '%'
    · rw [if_pos h2, if_pos h2]
    · rw [if_neg h2, if_neg h2]
      cases box a with
      | none => rfl
      | some b =>
        simp only
        split_ifs <;> rfl

theorem mem_boxup_foldl (box : String → Option Box) (user : WhatAbout) (useshared : Bool)
    (x : String) : ∀ (l acc : List String),
    x ∈ l.foldl (boxupOne box user useshared) acc ↔
      x ∈ acc ∨ ∃ a ∈ l, rcptOf box user useshared a = some x := by
  intro l
  induction l with
  | nil => intro acc; simp
  | cons a l ih =>
    intro acc
    rw [List.foldl_cons, ih, boxupOne_eq]
    cases h : rcptOf box user useshared a with
    | none => simp [h]
    | some k =>
      simp only [mem_setKey, List.mem_cons, exists_eq_or_imp, h, Option.some.injEq]
      constructor
      · rintro ((h1 | h1) | h1)
        · exact Or.inl h1
        · exact Or.inr (Or.inl h1.symm)
        · exact Or.inr (Or.inr h1)
      · rintro (h1 | h1 | h1)
        · exact Or.inl (Or.inl h1)
        · exact Or.inl (Or.inr h1.symm)
        · exact Or.inr h1

theorem nodup_boxup_foldl (box : String → Option Box) (user : WhatAbout) (useshared : Bool) :
    ∀ (l acc : List String), acc.Nodup → (l.foldl (boxupOne box user useshared) acc).Nodup := by
  intro l
  induction l with
  | nil => intro acc h; exact h
  | cons a l ih =>
    intro acc h
    rw [List.foldl_cons]
    apply ih
    rw [boxupOne_eq]
    cases rcptOf box user useshared a with
    | none => exact h
    | some k => exact nodup_setKey _ _ h

theorem mem_boxuprcpts (box : String → Option Box) (user : WhatAbout) (addresses : List String)
    (useshared : Bool) (x : String) :
    x ∈ boxuprcpts box user addresses useshared ↔
      ∃ a ∈ addresses, rcptOf box user useshared a = some x := by
  unfold boxuprcpts
  rw [mem_boxup_foldl]
  simp

theorem nodup_boxuprcpts (box : String → Option Box) (user : WhatAbout) (addresses : List String)
    (useshared : Bool) : (boxuprcpts box user addresses useshared).Nodup :=
  nodup_boxup_foldl box user useshared addresses [] List.nodup_nil

/-- The set of keys `boxuprcpts` returns does not depend on the order in which
the addresses are handled. -/
theorem boxuprcpts_perm (box : String → Option Box) (user : WhatAbout) (l l' : List String)
    (useshared : Bool) (h : l.Perm l') :
    (boxuprcpts box user l useshared).Perm (boxuprcpts box user l' useshared) := by
  rw [List.perm_ext_iff_of_nodup (nodup_boxuprcpts _ _ _ _) (nodup_boxuprcpts _ _ _ _)]
  intro x
  rw [mem_boxuprcpts, mem_boxuprcpts]
  constructor
  · rintro ⟨a, ha, e⟩
    exact ⟨a, h.mem_iff.1 ha, e⟩
  · rintro ⟨a, ha, e⟩
    exact ⟨a, h.mem_iff.2 ha, e⟩

theorem boxup_foldl_skipped (box : String → Option Box) (user : WhatAbout) (useshared : Bool) :
    ∀ (l acc : List String),
    l.foldl (boxupOne box user useshared) acc =
      (l.filter fun a => !skipped user a).foldl (boxupOne box user useshared) acc := by
  intro l
  induction l with
  | nil => intro acc; rfl
  | cons a l ih =>
    intro acc
    rw [List.foldl_cons, List.filter_cons]
    by_cases h : skipped user a = true
    · have : boxupOne box user useshared acc a = acc := by
        rw [boxupOne_eq]
        simp [rcptOf, h]
      rw [this, if_neg (by simp [h]), ih]
    · rw [if_pos (by simpa using h), List.foldl_cons, ih]

theorem rcptOf_shared (box : String → Option Box) (user : WhatAbout) (a : String) (b : Box)
    (hs : skipped user a = false) (hp : a.data.head? ≠ some '%') (hb : box a = some b)
    (hsh : b.Shared ≠ "") : rcptOf box user true a = some ("%" ++ b.Shared) := by
  unfold rcptOf
  rw [if_neg (by simp [hs]), if_neg hp, hb]
  simp [hsh]

theorem percent_injective : Function.Injective fun S : String => "%" ++ S := by
  intro a b h
  have := congrArg String.data h
  simp only [String.data_append, List.append_cancel_left_eq] at this
  exact String.ext this

/-- Claim C14: with `useshared` set, for an audience each of whose entries is
passed over (empty, the public constant, the URL of the user, or ending in
`/followers`) or is an actor, not written with a leading `%`, whose box is
resolved with a non-empty shared inbox, the keys of the map `boxuprcpts`
returns are exactly the `%S` for the shared inboxes `S` of the actors, each
once: as many recipients as distinct shared inboxes, no actor of the audience
among them, and the entries passed over change nothing. -/
theorem boxuprcpts_shared (box : String → Option Box) (user : WhatAbout) (aud : List String)
    (h : ∀ a ∈ aud, skipped user a = true ∨
      (a.data.head? ≠ some '%' ∧ ∃ b, box a = some b ∧ b.Shared ≠ "")) :
    (∀ x, x ∈ boxuprcpts box user aud true ↔ ∃ S ∈ sharedOf box user aud, x = "%" ++ S) ∧
    (boxuprcpts box user aud true).Nodup ∧
    (boxuprcpts box user aud true).length = (sharedOf box user aud).dedup.length ∧
    (∀ a ∈ aud, skipped user a = false → a ∉ boxuprcpts box user aud true) ∧
    boxuprcpts box user aud true =
      boxuprcpts box user (aud.filter fun a => !skipped user a) true := by
  have hmem : ∀ x, x ∈ boxuprcpts box user aud true ↔
      ∃ S ∈ sharedOf box user aud, x = "%" ++ S := by
    intro x
    rw [mem_boxuprcpts]
    unfold sharedOf
    simp only [List.mem_filterMap, List.mem_filter, Bool.not_eq_eq_eq_not, Bool.not_true,
      Option.map_eq_some']
    constructor
    · rintro ⟨a, ha, e⟩
      rcases h a ha with hs | ⟨hp, b, hb, hsh⟩
      · simp [rcptOf, hs] at e
      · have hs : skipped user a = false := by
          cases hsk : skipped user a
          · rfl
          · simp [rcptOf, hsk] at e
        rw [rcptOf_shared box user a b hs hp hb hsh] at e
        exact ⟨b.Shared, ⟨a, ⟨ha, hs⟩, b, hb, rfl⟩, (Option.some.inj e).symm⟩
    · rintro ⟨S, ⟨a, ⟨ha, hs⟩, b, hb, rfl⟩, rfl⟩
      rcases h a ha with hs' | ⟨hp, b', hb', hsh⟩
      · rw [hs] at hs'; exact absurd hs' (by decide)
      · rw [hb] at hb'
        cases hb'
        exact ⟨a, ha, rcptOf_shared box user a b hs hp hb hsh⟩
  refine ⟨hmem, nodup_boxuprcpts _ _ _ _, ?_, ?_, ?_⟩
  · have hperm : (boxuprcpts box user aud true).Perm
        ((sharedOf box user aud).dedup.map fun S => "%" ++ S) := by
      rw [List.perm_ext_iff_of_nodup (nodup_boxuprcpts _ _ _ _)
        ((List.nodup_dedup _).map percent_injective)]
      intro x
      rw [hmem]
      simp only [List.mem_map, List.mem_dedup]
      constructor
      · rintro ⟨S, hS, rfl⟩; exact ⟨S, hS, rfl⟩
      · rintro ⟨S, hS, rfl⟩; exact ⟨S, hS, rfl⟩
    rw [hperm.length_eq, List.length_map]
  · intro a ha hs hin
    obtain ⟨S, -, e⟩ := (hmem a).1 hin
    rcases h a ha with hs' | ⟨hp, -⟩
    · rw [hs] at hs'; exact absurd hs' (by decide)
    · apply hp
      rw [e]
      rfl
  · exact boxup_foldl_skipped box user true aud []

/-- Claim C14 at a public audience with three actors behind two shared
inboxes. -/
theorem boxuprcpts_shared_witness :
    boxuprcpts threeBoxes alice publicAudience true =
      ["%https://a.example/inbox", "%https://b.example/inbox"] ∧
    ((∀ x, x ∈ boxuprcpts threeBoxes alice publicAudience true ↔
      ∃ S ∈ sharedOf threeBoxes alice publicAudience, x = "%" ++ S) ∧
    (boxuprcpts threeBoxes alice publicAudience true).Nodup ∧
    (boxuprcpts threeBoxes alice publicAudience true).length =
      (sharedOf threeBoxes alice publicAudience).dedup.length ∧
    (∀ a ∈ publicAudience, skipped alice a = false →
      a ∉ boxuprcpts threeBoxes alice publicAudience true) ∧
    boxuprcpts threeBoxes alice publicAudience true =
      boxuprcpts threeBoxes alice (publicAudience.filter fun a => !skipped alice a) true) :=
  ⟨by decide, boxuprcpts_shared threeBoxes alice publicAudience (by decide)⟩

/-! ## The outbound builder -/

theorem lookup_Set_same (j : Junk) (key : String) (v : JVal) :
    (j.Set key v).lookup key = some v := by
  unfold Junk.Set
  induction j with
  | nil => simp [List.lookup]
  | cons kv j ih =>
    by_cases h : kv.1 = key
    · simpa [List.filter_cons, h] using ih
    · have h' : (key == kv.1) = false := by
        simpa using fun e : key = kv.1 => h e.symm
      simpa [List.filter_cons, h, List.lookup, h'] using ih

theorem lookup_Set_ne (j : Junk) (key k : String) (v : JVal) (hne : k ≠ key) :
    (j.Set key v).lookup k = j.lookup k := by
  unfold Junk.Set
  induction j with
  | nil =>
    have : (k == key) = false := by simpa using hne
    simp [List.lookup, this]
  | cons kv j ih =>
    obtain ⟨a, b⟩ := kv
    by_cases h : a = key
    · subst h
      have h' : (k == a) = false := by simpa using hne
      simpa [List.filter_cons, List.lookup, h'] using ih
    · by_cases hk : k = a
      · simp [List.filter_cons, h, List.lookup, hk]
      · have h' : (k == a) = false := by simpa using hk
        simpa [List.filter_cons, h, List.lookup, h'] using ih

theorem GetString_Set_same (j : Junk) (key s : String) :
    (j.Set key (JVal.str s)).GetString key = (s, true) := by
  unfold Junk.GetString
  rw [lookup_Set_same]

theorem GetString_Set_ne (j : Junk) (key k : String) (v : JVal) (hne : k ≠ key) :
    (j.Set key v).GetString k = j.GetString k := by
  unfold Junk.GetString
  rw [lookup_Set_ne j key k v hne]

theorem GetMap_Set_same (j : Junk) (key : String) (m : Junk) :
    (j.Set key (JVal.map m)).GetMap key = some m := by
  unfold Junk.GetMap
  rw [lookup_Set_same]

theorem GetMap_Set_str (j : Junk) (key s : String) :
    (j.Set key (JVal.str s)).GetMap key = none := by
  unfold Junk.GetMap
  rw [lookup_Set_same]

theorem GetMap_Set_ne (j : Junk) (key k : String) (v : JVal) (hne : k ≠ key) :
    (j.Set key v).GetMap k = j.GetMap k := by
  unfold Junk.GetMap
  rw [lookup_Set_ne j key k v hne]

theorem letters_length : letters.data.length = 64 := by decide

theorem shortxid_length (H : Sum512_256) (xid : String) : (shortxid H xid).length = 20 := by
  show ((List.take 20 (H.sum xid)).map _).length = 20
  rw [List.length_map, List.length_take, H.size]
  rfl

theorem shortxid_letters (H : Sum512_256) (xid : String) :
    ∀ c ∈ (shortxid H xid).data, c ∈ letters.data := by
  intro c hc
  change c ∈ (List.take 20 (H.sum xid)).map (fun c => letters.data.getD (c % 64) 'B') at hc
  rw [List.mem_map] at hc
  obtain ⟨b, -, rfl⟩ := hc
  have hlt : b % 64 < letters.data.length := by
    rw [letters_length]
    exact Nat.mod_lt _ (by decide)
  rw [List.getD_eq_getElem _ _ hlt]
  exact List.getElem_mem _

theorem shortxid_bytes (H : Sum512_256) (xid : String) (i : Nat) (hi : i < 20) :
    ∃ b, (H.sum xid)[i]? = some b ∧
      (shortxid H xid).data[i]? = some (letters.data.getD (b % 64) 'B') := by
  have hlen : i < (H.sum xid).length := by rw [H.size]; omega
  refine ⟨(H.sum xid)[i], List.getElem?_eq_getElem hlen, ?_⟩
  change ((List.take 20 (H.sum xid)).map _)[i]? = _
  rw [List.getElem?_map, List.getElem?_take_of_lt hi, List.getElem?_eq_getElem hlen]
  rfl

theorem hashtagTags_some (E : JEnv) : ∀ (l : List String), (∀ o ∈ l, o ≠ "") →
    ∃ ts, hashtagTags E l = some ts := by
  intro l
  induction l with
  | nil => intro _; exact ⟨[], rfl⟩
  | cons o rest ih =>
    intro h
    obtain ⟨ts, hts⟩ := ih (fun x hx => h x (List.mem_cons_of_mem _ hx))
    have ho : o ≠ "" := h o (List.mem_cons_self _ _)
    have hd : o.data ≠ [] := fun e => ho (String.ext e)
    unfold hashtagTags
    cases hl : (ToLower o).data with
    | nil =>
      exfalso
      have : (o.data.map Char.toLower) = [] := hl
      exact hd (List.map_eq_nil_iff.1 this)
    | cons c tl =>
      simp only [hts]
      exact ⟨_, rfl⟩

theorem withFollowers_fields (user : WhatAbout) (h : HonkOut) :
    (withFollowers user h).What = h.What ∧ (withFollowers user h).XID = h.XID ∧
    (withFollowers user h).Noise = h.Noise ∧ (withFollowers user h).Convoy = h.Convoy := by
  unfold withFollowers
  split_ifs <;> exact ⟨rfl, rfl, rfl, rfl⟩

theorem jonkObject_some (E : JEnv) (h : HonkOut) (dt who to0 : String) (cc : List String)
    (j : Junk) (honts : ∀ o ∈ (E.redoimages (E.translate h)).Onts, o ≠ "") :
    ∃ jo, jonkObject E h dt who to0 cc j =
      some ((if h.What = "update" then (j.Set "type" (JVal.str "Create")).Set "type"
          (JVal.str "Update") else j.Set "type" (JVal.str "Create")).Set "object" (JVal.map jo),
        jo) := by
  obtain ⟨ts, hts⟩ := hashtagTags_some E _ honts
  unfold jonkObject
  simp only [hts]
  exact ⟨_, rfl⟩

theorem jonkEnvelope_id (E : JEnv) (user : WhatAbout) (h : HonkOut) (to0 : String)
    (cc : List String) :
    (jonkEnvelope E user h to0 cc).GetString "id" =
      (user.URL ++ "/" ++ h.What ++ "/" ++ shortxid E.sum h.XID, true) := by
  unfold jonkEnvelope
  split_ifs <;>
    simp only [GetString_Set_ne _ _ _ _ (show "id" ≠ "cc" by decide),
      GetString_Set_ne _ _ _ _ (show "id" ≠ "to" by decide),
      GetString_Set_ne _ _ _ _ (show "id" ≠ "published" by decide),
      GetString_Set_ne _ _ _ _ (show "id" ≠ "actor" by decide), GetString_Set_same]

theorem jonkEnvelope_lookup (E : JEnv) (user : WhatAbout) (h : HonkOut) (to0 : String)
    (cc : List String) (k : String) (h1 : k ≠ "id") (h2 : k ≠ "actor") (h3 : k ≠ "published")
    (h4 : k ≠ "to") (h5 : k ≠ "cc") :
    (jonkEnvelope E user h to0 cc).lookup k = none := by
  unfold jonkEnvelope
  split_ifs <;>
    simp only [lookup_Set_ne _ _ _ _ h5, lookup_Set_ne _ _ _ _ h4, lookup_Set_ne _ _ _ _ h3,
      lookup_Set_ne _ _ _ _ h2, lookup_Set_ne _ _ _ _ h1] <;> rfl

theorem jonkjonk_switch (E : JEnv) (user : WhatAbout) (h : HonkOut)
    (haud : (withFollowers user h).Audience ≠ []) :
    ∃ to0 cc, (withFollowers user h).Audience = to0 :: cc ∧
      jonkjonk E user h =
        jonkSwitch E user (withFollowers user h) (E.rfc3339 h.Date) h.Honker to0 cc
          (jonkEnvelope E user h to0 cc) := by
  cases ha : (withFollowers user h).Audience with
  | nil => exact absurd ha haud
  | cons to0 cc =>
    refine ⟨to0, cc, rfl, ?_⟩
    unfold jonkjonk
    simp only [ha]

/-- What the `switch` of `jonkjonk` does to the activity `j`, kind by kind. -/
theorem jonkSwitch_spec (E : JEnv) (user : WhatAbout) (h : HonkOut) (dt who to0 : String)
    (cc : List String) (j : Junk)
    (honts : h.What = "update" ∨ h.What = "event" ∨ h.What = "honk" →
      ∀ o ∈ (E.redoimages (E.translate h)).Onts, o ≠ "") :
    ∃ j' jo, jonkSwitch E user h dt who to0 cc j = some (j', jo) ∧
      j'.GetString "id" = j.GetString "id" ∧
      (h.What = "honk" ∨ h.What = "event" →
        j'.GetString "type" = ("Create", true) ∧ ∃ o, jo = some o ∧ j'.GetMap "object" = some o) ∧
      (h.What = "update" →
        j'.GetString "type" = ("Update", true) ∧ ∃ o, jo = some o ∧ j'.GetMap "object" = some o) ∧
      (h.What = "bonk" →
        j'.GetString "type" = ("Announce", true) ∧ j'.GetString "object" = (h.XID, true) ∧
        jo = none) ∧
      (h.What = "zonk" →
        j'.GetString "type" = ("Delete", true) ∧ j'.GetString "object" = (h.XID, true) ∧
        jo = none) ∧
      (h.What = "ack" →
        j'.GetString "type" = ("Read", true) ∧ j'.GetString "object" = (h.XID, true) ∧
        jo = none) ∧
      (h.What = "react" →
        j'.GetString "type" = ("EmojiReact", true) ∧ j'.GetString "object" = (h.XID, true) ∧
        j'.GetString "content" = (h.Noise, true) ∧ jo = none) ∧
      (h.What = "unbonk" →
        j'.GetString "type" = ("Undo", true) ∧ jo = none ∧
        ∃ b, j'.GetMap "object" = some b ∧ b.GetString "type" = ("Announce", true) ∧
          b.GetString "object" = (h.XID, true)) ∧
      (h.What = "deack" →
        j'.GetString "type" = ("Undo", true) ∧ jo = none ∧
        ∃ b, j'.GetMap "object" = some b ∧ b.GetString "type" = ("Read", true) ∧
          b.GetString "object" = (h.XID, true)) ∧
      (jo.isSome = true ↔ h.What = "update" ∨ h.What = "event" ∨ h.What = "honk") := by
  unfold jonkSwitch
  by_cases hr : h.What = "update" ∨ h.What = "event" ∨ h.What = "honk"
  · rw [if_pos hr]
    obtain ⟨jo, hjo⟩ := jonkObject_some E h dt who to0 cc j (honts hr)
    rw [hjo]
    refine ⟨_, some jo, rfl, ?_, ?_, ?_, ?_, ?_, ?_, ?_, ?_, ?_, ?_⟩
    · split_ifs <;>
        simp only [GetString_Set_ne _ _ _ _ (show "id" ≠ "object" by decide),
          GetString_Set_ne _ _ _ _ (show "id" ≠ "type" by decide)]
    · intro e
      have hu : ¬ h.What = "update" := by
        rcases e with e | e <;> rw [e] <;> decide
      rw [if_neg hu, GetString_Set_ne _ _ _ _ (show "type" ≠ "object" by decide),
        GetString_Set_same, GetMap_Set_same]
      exact ⟨rfl, jo, rfl, rfl⟩
    · intro e
      rw [if_pos e, GetString_Set_ne _ _ _ _ (show "type" ≠ "object" by decide),
        GetString_Set_same, GetMap_Set_same]
      exact ⟨rfl, jo, rfl, rfl⟩
    all_goals first
      | (intro e; rw [e] at hr; exact absurd hr (by decide))
      | exact ⟨fun _ => hr, fun _ => rfl⟩
  · rw [if_neg hr]
    simp only [not_or] at hr
    obtain ⟨hr1, hr2, hr3⟩ := hr
    by_cases hw : h.What = "bonk"
    · rw [if_pos hw]
      refine ⟨_, none, rfl, ?_, ?_, ?_, ?_, ?_, ?_, ?_, ?_, ?_, ?_⟩
      · split_ifs <;>
          simp only [GetString_Set_ne _ _ _ _ (show "id" ≠ "object" by decide),
            GetString_Set_ne _ _ _ _ (show "id" ≠ "context" by decide),
            GetString_Set_ne _ _ _ _ (show "id" ≠ "type" by decide)]
      rotate_left 2
      · intro _
        refine ⟨?_, GetString_Set_same _ _ _, rfl⟩
        split_ifs <;>
          simp only [GetString_Set_ne _ _ _ _ (show "type" ≠ "object" by decide),
            GetString_Set_ne _ _ _ _ (show "type" ≠ "context" by decide), GetString_Set_same]
      all_goals first
        | (intro e; rw [hw] at e; exact absurd e (by decide))
        | (rw [hw]; decide)
    · rw [if_neg hw]
      by_cases hw2 : h.What = "unbonk"
      · rw [if_pos hw2]
        refine ⟨_, none, rfl, ?_, ?_, ?_, ?_, ?_, ?_, ?_, ?_, ?_, ?_⟩
        · simp only [GetString_Set_ne _ _ _ _ (show "id" ≠ "object" by decide),
            GetString_Set_ne _ _ _ _ (show "id" ≠ "type" by decide)]
        rotate_left 6
        · intro _
          refine ⟨?_, rfl, _, GetMap_Set_same _ _ _, ?_, GetString_Set_same _ _ _⟩
          · simp only [GetString_Set_ne _ _ _ _ (show "type" ≠ "object" by decide),
              GetString_Set_same]
          · split_ifs <;>
              simp only [GetString_Set_ne _ _ _ _ (show "type" ≠ "object" by decide),
                GetString_Set_ne _ _ _ _ (show "type" ≠ "context" by decide),
                GetString_Set_ne _ _ _ _ (show "type" ≠ "actor" by decide), GetString_Set_same]
        all_goals first
          | (intro e; rw [hw2] at e; exact absurd e (by decide))
          | (rw [hw2]; decide)
      · rw [if_neg hw2]
        by_cases hw3 : h.What = "zonk"
        · rw [if_pos hw3]
          refine ⟨_, none, rfl, ?_, ?_, ?_, ?_, ?_, ?_, ?_, ?_, ?_, ?_⟩
          · simp only [GetString_Set_ne _ _ _ _ (show "id" ≠ "object" by decide),
              GetString_Set_ne _ _ _ _ (show "id" ≠ "type" by decide)]
          rotate_left 3
          · intro _
            refine ⟨?_, GetString_Set_same _ _ _, rfl⟩
            simp only [GetString_Set_ne _ _ _ _ (show "type" ≠ "object" by decide),
              GetString_Set_same]
          all_goals first
            | (intro e; rw [hw3] at e; exact absurd e (by decide))
            | (rw [hw3]; decide)
        · rw [if_neg hw3]
          by_cases hw4 : h.What = "ack"
          · rw [if_pos hw4]
            refine ⟨_, none, rfl, ?_, ?_, ?_, ?_, ?_, ?_, ?_, ?_, ?_, ?_⟩
            · split_ifs <;>
                simp only [GetString_Set_ne _ _ _ _ (show "id" ≠ "object" by decide),
                  GetString_Set_ne _ _ _ _ (show "id" ≠ "context" by decide),
                  GetString_Set_ne _ _ _ _ (show "id" ≠ "type" by decide)]
            rotate_left 4
            · intro _
              refine ⟨?_, ?_, rfl⟩
              · split_ifs <;>
                  simp only [GetString_Set_ne _ _ _ _ (show "type" ≠ "object" by decide),
                    GetString_Set_ne _ _ _ _ (show "type" ≠ "context" by decide),
                    GetString_Set_same]
              · split_ifs <;>
                  simp only [GetString_Set_ne _ _ _ _ (show "object" ≠ "context" by decide),
                    GetString_Set_same]
            all_goals first
              | (intro e; rw [hw4] at e; exact absurd e (by decide))
              | (rw [hw4]; decide)
          · rw [if_neg hw4]
            by_cases hw5 : h.What = "react"
            · rw [if_pos hw5]
              refine ⟨_, none, rfl, ?_, ?_, ?_, ?_, ?_, ?_, ?_, ?_, ?_, ?_⟩
              · split_ifs <;>
                  simp only [GetString_Set_ne _ _ _ _ (show "id" ≠ "object" by decide),
                    GetString_Set_ne _ _ _ _ (show "id" ≠ "context" by decide),
                    GetString_Set_ne _ _ _ _ (show "id" ≠ "content" by decide),
                    GetString_Set_ne _ _ _ _ (show "id" ≠ "type" by decide)]
              rotate_left 5
              · intro _
                refine ⟨?_, ?_, GetString_Set_same _ _ _, rfl⟩
                · split_ifs <;>
                    simp only [GetString_Set_ne _ _ _ _ (show "type" ≠ "object" by decide),
                      GetString_Set_ne _ _ _ _ (show "type" ≠ "context" by decide),
                      GetString_Set_ne _ _ _ _ (show "type" ≠ "content" by decide),
                      GetString_Set_same]
                · split_ifs <;>
                    simp only [GetString_Set_ne _ _ _ _ (show "object" ≠ "context" by decide),
                      GetString_Set_ne _ _ _ _ (show "object" ≠ "content" by decide),
                      GetString_Set_same]
              all_goals first
                | (intro e; rw [hw5] at e; exact absurd e (by decide))
                | (rw [hw5]; decide)
            · rw [if_neg hw5]
              by_cases hw6 : h.What = "deack"
              · rw [if_pos hw6]
                refine ⟨_, none, rfl, ?_, ?_, ?_, ?_, ?_, ?_, ?_, ?_, ?_, ?_⟩
                · simp only [GetString_Set_ne _ _ _ _ (show "id" ≠ "object" by decide),
                    GetString_Set_ne _ _ _ _ (show "id" ≠ "type" by decide)]
                rotate_left 7
                · intro _
                  refine ⟨?_, rfl, _, GetMap_Set_same _ _ _, ?_, ?_⟩
                  · simp only [GetString_Set_ne _ _ _ _ (show "type" ≠ "object" by decide),
                      GetString_Set_same]
                  · split_ifs <;>
                      simp only [GetString_Set_ne _ _ _ _ (show "type" ≠ "object" by decide),
                        GetString_Set_ne _ _ _ _ (show "type" ≠ "context" by decide),
                        GetString_Set_ne _ _ _ _ (show "type" ≠ "actor" by decide),
                        GetString_Set_same]
                  · split_ifs <;>
                      simp only [GetString_Set_ne _ _ _ _ (show "object" ≠ "context" by decide),
                        GetString_Set_same]
                all_goals first
                  | (intro e; rw [hw6] at e; exact absurd e (by decide))
                  | (rw [hw6]; decide)
              · rw [if_neg hw6]
                refine ⟨_, none, rfl, rfl, ?_, ?_, ?_, ?_, ?_, ?_, ?_, ?_, ?_⟩
                · rintro (e | e)
                  · exact absurd e hr3
                  · exact absurd e hr2
                · exact fun e => absurd e hr1
                · exact fun e => absurd e hw
                · exact fun e => absurd e hw3
                · exact fun e => absurd e hw4
                · exact fun e => absurd e hw5
                · exact fun e => absurd e hw2
                · exact fun e => absurd e hw6
                · constructor
                  · intro e; exact absurd e (by decide)
                  · rintro (e | e | e)
                    · exact absurd e hr1
                    · exact absurd e hr2
                    · exact absurd e hr3

/-- Claim C19: for a record whose audience, after the followers collection has
been added, is not empty (and whose hashtags are not empty when an object is
built), `jonkjonk` returns an activity whose `id` is
`user.URL + "/" + h.What + "/" + shortxid(h.XID)`. The short id is `xcelerate`
of the first 20 bytes of the SHA-512/256 digest of the xid: it is 20 characters
long, character `i` is the letter at index `b mod 64` for byte `i` of the
digest, every character is one of the 64 letters, and records with the same
xid have the same short id. -/
theorem jonkjonk_id (E : JEnv) (user : WhatAbout) (h : HonkOut)
    (haud : (withFollowers user h).Audience ≠ [])
    (honts : h.What = "update" ∨ h.What = "event" ∨ h.What = "honk" →
      ∀ o ∈ (E.redoimages (E.translate (withFollowers user h))).Onts, o ≠ "") :
    (∃ j jo, jonkjonk E user h = some (j, jo) ∧
      j.GetString "id" = (user.URL ++ "/" ++ h.What ++ "/" ++ shortxid E.sum h.XID, true)) ∧
    shortxid E.sum h.XID = xcelerate ((E.sum.sum h.XID).take 20) ∧
    (shortxid E.sum h.XID).length = 20 ∧
    letters.data.length = 64 ∧
    (∀ i, i < 20 → ∃ b, (E.sum.sum h.XID)[i]? = some b ∧
      (shortxid E.sum h.XID).data[i]? = some (letters.data.getD (b % 64) 'B')) ∧
    (∀ c ∈ (shortxid E.sum h.XID).data, c ∈ letters.data) ∧
    (∀ h' : HonkOut, h'.XID = h.XID → shortxid E.sum h'.XID = shortxid E.sum h.XID) := by
  refine ⟨?_, rfl, shortxid_length _ _, letters_length, fun i hi => shortxid_bytes _ _ i hi,
    shortxid_letters _ _, fun h' e => by rw [e]⟩
  obtain ⟨to0, cc, -, hsw⟩ := jonkjonk_switch E user h haud
  obtain ⟨hW, -, -, -⟩ := withFollowers_fields user h
  obtain ⟨j', jo, he, hid, -⟩ := jonkSwitch_spec E user (withFollowers user h) (E.rfc3339 h.Date)
    h.Honker to0 cc (jonkEnvelope E user h to0 cc) (by rw [hW]; exact honts)
  exact ⟨j', jo, by rw [hsw, he], by rw [hid, jonkEnvelope_id]⟩

/-- Claim C19 at a public note of `alice`. -/
theorem jonkjonk_id_witness :
    shortxid demoSum "https://honk.example/u/alice/h/1" = "y2271866y6525v6q473v" ∧
    ((∃ j jo, jonkjonk demoJEnv alice (outHonk "honk") = some (j, jo) ∧
      j.GetString "id" = (alice.URL ++ "/" ++ (outHonk "honk").What ++ "/" ++
        shortxid demoJEnv.sum (outHonk "honk").XID, true)) ∧
    shortxid demoJEnv.sum (outHonk "honk").XID =
      xcelerate ((demoJEnv.sum.sum (outHonk "honk").XID).take 20) ∧
    (shortxid demoJEnv.sum (outHonk "honk").XID).length = 20 ∧
    letters.data.length = 64 ∧
    (∀ i, i < 20 → ∃ b, (demoJEnv.sum.sum (outHonk "honk").XID)[i]? = some b ∧
      (shortxid demoJEnv.sum (outHonk "honk").XID).data[i]? =
        some (letters.data.getD (b % 64) 'B')) ∧
    (∀ c ∈ (shortxid demoJEnv.sum (outHonk "honk").XID).data, c ∈ letters.data) ∧
    (∀ h' : HonkOut, h'.XID = (outHonk "honk").XID →
      shortxid demoJEnv.sum h'.XID = shortxid demoJEnv.sum (outHonk "honk").XID)) :=
  ⟨by decide, jonkjonk_id demoJEnv alice (outHonk "honk") (by decide) (by decide)⟩

/-- Claim C20: for a record whose audience, after the followers collection has
been added, is not empty (and whose hashtags are not empty when an object is
built), `jonkjonk` returns an activity and an object (`nil` or not) with:
`honk` and `event` give type `Create`, `update` gives `Update`, each with the
object returned as the `object` of the activity; `bonk` gives `Announce`,
`zonk` gives `Delete`, `ack` gives `Read`, each with `object = h.XID`; `react`
gives `EmojiReact` with `object = h.XID` and `content = h.Noise`; `unbonk` and
`deack` give `Undo` whose object is an `Announce`, for `deack` a `Read`, of
`h.XID`; the object returned is not `nil` exactly for `honk`, `event` and
`update`. -/
theorem jonkjonk_kinds (E : JEnv) (user : WhatAbout) (h : HonkOut)
    (haud : (withFollowers user h).Audience ≠ [])
    (honts : h.What = "update" ∨ h.What = "event" ∨ h.What = "honk" →
      ∀ o ∈ (E.redoimages (E.translate (withFollowers user h))).Onts, o ≠ "") :
    ∃ j jo, jonkjonk E user h = some (j, jo) ∧
      (h.What = "honk" ∨ h.What = "event" →
        j.GetString "type" = ("Create", true) ∧ ∃ o, jo = some o ∧ j.GetMap "object" = some o) ∧
      (h.What = "update" →
        j.GetString "type" = ("Update", true) ∧ ∃ o, jo = some o ∧ j.GetMap "object" = some o) ∧
      (h.What = "bonk" →
        j.GetString "type" = ("Announce", true) ∧ j.GetString "object" = (h.XID, true) ∧
        jo = none) ∧
      (h.What = "zonk" →
        j.GetString "type" = ("Delete", true) ∧ j.GetString "object" = (h.XID, true) ∧
        jo = none) ∧
      (h.What = "ack" →
        j.GetString "type" = ("Read", true) ∧ j.GetString "object" = (h.XID, true) ∧
        jo = none) ∧
      (h.What = "react" →
        j.GetString "type" = ("EmojiReact", true) ∧ j.GetString "object" = (h.XID, true) ∧
        j.GetString "content" = (h.Noise, true) ∧ jo = none) ∧
      (h.What = "unbonk" →
        j.GetString "type" = ("Undo", true) ∧ jo = none ∧
        ∃ b, j.GetMap "object" = some b ∧ b.GetString "type" = ("Announce", true) ∧
          b.GetString "object" = (h.XID, true)) ∧
      (h.What = "deack" →
        j.GetString "type" = ("Undo", true) ∧ jo = none ∧
        ∃ b, j.GetMap "object" = some b ∧ b.GetString "type" = ("Read", true) ∧
          b.GetString "object" = (h.XID, true)) ∧
      (jo.isSome = true ↔ h.What = "update" ∨ h.What = "event" ∨ h.What = "honk") := by
  obtain ⟨to0, cc, -, hsw⟩ := jonkjonk_switch E user h haud
  obtain ⟨hW, hX, hN, -⟩ := withFollowers_fields user h
  obtain ⟨j', jo, he, -, hrest⟩ := jonkSwitch_spec E user (withFollowers user h)
    (E.rfc3339 h.Date) h.Honker to0 cc (jonkEnvelope E user h to0 cc) (by rw [hW]; exact honts)
  rw [hW, hX, hN] at hrest
  exact ⟨j', jo, by rw [hsw, he], hrest⟩

/-- Claim C20 at a boost by `alice`. -/
theorem jonkjonk_kinds_witness :
    (jonkjonk demoJEnv alice (outHonk "bonk")).map
        (fun r => (r.1.GetString "type", r.1.GetString "object", r.2.isSome)) =
      some (("Announce", true), ("https://honk.example/u/alice/h/1", true), false) ∧
    (jonkjonk demoJEnv alice (outHonk "honk")).map
        (fun r => (r.1.GetString "type", (r.1.GetMap "object").isSome, r.2.isSome)) =
      some (("Create", true), true, true) ∧
    ∃ j jo, jonkjonk demoJEnv alice (outHonk "bonk") = some (j, jo) ∧
      ((outHonk "bonk").What = "honk" ∨ (outHonk "bonk").What = "event" →
        j.GetString "type" = ("Create", true) ∧ ∃ o, jo = some o ∧ j.GetMap "object" = some o) ∧
      ((outHonk "bonk").What = "update" →
        j.GetString "type" = ("Update", true) ∧ ∃ o, jo = some o ∧ j.GetMap "object" = some o) ∧
      ((outHonk "bonk").What = "bonk" →
        j.GetString "type" = ("Announce", true) ∧
        j.GetString "object" = ((outHonk "bonk").XID, true) ∧ jo = none) ∧
      ((outHonk "bonk").What = "zonk" →
        j.GetString "type" = ("Delete", true) ∧
        j.GetString "object" = ((outHonk "bonk").XID, true) ∧ jo = none) ∧
      ((outHonk "bonk").What = "ack" →
        j.GetString "type" = ("Read", true) ∧
        j.GetString "object" = ((outHonk "bonk").XID, true) ∧ jo = none) ∧
      ((outHonk "bonk").What = "react" →
        j.GetString "type" = ("EmojiReact", true) ∧
        j.GetString "object" = ((outHonk "bonk").XID, true) ∧
        j.GetString "content" = ((outHonk "bonk").Noise, true) ∧ jo = none) ∧
      ((outHonk "bonk").What = "unbonk" →
        j.GetString "type" = ("Undo", true) ∧ jo = none ∧
        ∃ b, j.GetMap "object" = some b ∧ b.GetString "type" = ("Announce", true) ∧
          b.GetString "object" = ((outHonk "bonk").XID, true)) ∧
      ((outHonk "bonk").What = "deack" →
        j.GetString "type" = ("Undo", true) ∧ jo = none ∧
        ∃ b, j.GetMap "object" = some b ∧ b.GetString "type" = ("Read", true) ∧
          b.GetString "object" = ((outHonk "bonk").XID, true)) ∧
      (jo.isSome = true ↔ (outHonk "bonk").What = "update" ∨ (outHonk "bonk").What = "event" ∨
        (outHonk "bonk").What = "honk") :=
  ⟨by decide, by decide,
   jonkjonk_kinds demoJEnv alice (outHonk "bonk") (by decide) (by decide)⟩

/-! ## The audience of a record -/

/-- The fields of a record that `xonkxonkfn2` returns for an item that falls
out of the `switch`. -/
theorem xonkRecord_fields (W : World) (user : WhatAbout) (rec : XonkFn) (item : Junk)
    (origin : String) (isUpdate : Bool) (bonker : String) (myown : Bool) (what typ : String)
    (waspage : Bool) (s : XState) (x : Honk)
    (h : (xonkRecord W user rec item origin isUpdate bonker myown what typ waspage s).1 = some x) :
    x.XID = (item.GetString "id").1 ∧ x.XID ≠ "" ∧ originate (honkerOf item) = origin ∧
    x.Honker = (if bonker ≠ "" then bonker
      else if honkerOf item = "" then extractattrto item else honkerOf item) ∧
    x.Oonker = (if (if bonker ≠ "" then
          (if honkerOf item = "" then extractattrto item else honkerOf item) else "") = x.Honker
        then ""
        else if bonker ≠ "" then
          (if honkerOf item = "" then extractattrto item else honkerOf item) else "") ∧
    x.What = (if typ = "Question" ∧ (if bonker ≠ "" then "bonk" else what) = "honk" then "qonk"
      else if bonker ≠ "" then "bonk" else what) ∧
    x.Audience = audienceOf item x.Honker ∧ x.Public = loudandproud x.Audience ∧
    x.RID = ridOf item ∧ x.UserID = user.ID := by
  unfold xonkRecord at h
  simp only at h
  by_cases h1 : (item.GetString "id").1 = ""
  · rw [if_pos h1] at h
    simp at h
  · rw [if_neg h1] at h
    by_cases h2 : originate (item.GetString "id").1 ≠ origin ∧ ¬ W.develMode = true ∧ origin ≠ ""
    · rw [if_pos h2] at h
      simp at h
    · rw [if_neg h2] at h
      by_cases h3 : myown = true ∧ honkerOf item ≠ user.URL
      · rw [if_pos h3] at h
        simp at h
      · rw [if_neg h3] at h
        by_cases h4 : originate (honkerOf item) ≠ origin
        · rw [if_pos h4] at h
          simp at h
        · rw [if_neg h4] at h
          simp only [not_not] at h4
          generalize (if honkerOf item = "" then extractattrto item else honkerOf item) =
            honker1 at h ⊢
          generalize (if bonker ≠ "" then bonker else honker1) = honker at h ⊢
          generalize (if bonker ≠ "" then honker1 else "") = oonker0 at h ⊢
          generalize (if typ = "Question" ∧ (if bonker ≠ "" then "bonk" else what) = "honk"
            then "qonk" else if bonker ≠ "" then "bonk" else what) = what1 at h ⊢
          generalize (if user.InlineQuotes = true then
              qutify W user rec (item.GetString "quoteUrl").1 (W.noise typ waspage item) s
            else (W.noise typ waspage item, s)) = q at h
          generalize ho : (if oonker0 = honker then "" else oonker0) = oonker at h
          generalize (if q.2.currenttid = "" then
              ({ q.2 with currenttid := convoyOf item } : XState) else q.2) = s1 at h
          split_ifs at h with h5
          obtain ⟨e1, e2, e3, e4, e5, e6, e7, e8, -, -⟩ :=
            xonkSave_fields _ _ _ _ _ _ _ _ _ _ h
          simp only at e1 e2 e3 e4 e5 e6 e7 e8
          refine ⟨e5, by rw [e5]; exact h1, h4, e3, ?_, e2, ?_, ?_, e6, e1⟩
          · rw [e4, e3, ho]
          · rw [e7, e3]
          · rw [e8, e7]

theorem xonksaver_record (W : World) (user : WhatAbout) (item : Junk) (origin : String)
    (db : Store) (ht : firstofmany item "type" ∈ recordTypes) :
    ∃ what waspage, (xonksaver W user item origin db).1 =
      (xonkRecord W user (xonkxonkfn2 W user 15) item origin false "" false what
        (firstofmany item "type") waspage ⟨1, "", 0, db, []⟩).1 := by
  obtain ⟨what, waspage, e⟩ := xonkSwitch_record W user (xonkxonkfn2 W user 15) item origin
    false false ⟨1, "", 0, db, []⟩ ht
  refine ⟨what, waspage, ?_⟩
  rw [← e]
  simp [xonksaver, xonksaver2, xonkxonkfn2, xonkBody, maxdepth]

theorem mem_oneofakindLoop (x : String) : ∀ (a seen : List String),
    x ∈ oneofakindLoop a seen ↔ x ∈ a ∧ x ∉ seen := by
  intro a
  induction a with
  | nil => intro seen; simp [oneofakindLoop]
  | cons s rest ih =>
    intro seen
    unfold oneofakindLoop
    by_cases hs : s ∈ seen
    · rw [if_pos hs, ih, List.mem_cons]
      constructor
      · rintro ⟨h1, h2⟩; exact ⟨Or.inr h1, h2⟩
      · rintro ⟨h1 | h1, h2⟩
        · rw [h1] at h2; exact absurd hs h2
        · exact ⟨h1, h2⟩
    · rw [if_neg hs, List.mem_cons, ih, List.mem_cons, List.mem_cons]
      constructor
      · rintro (h1 | ⟨h1, h2⟩)
        · rw [h1]; exact ⟨Or.inl rfl, hs⟩
        · exact ⟨Or.inr h1, fun h3 => h2 (Or.inr h3)⟩
      · rintro ⟨h1 | h1, h2⟩
        · exact Or.inl h1
        · by_cases hx : x = s
          · exact Or.inl hx
          · exact Or.inr ⟨h1, fun h3 => h3.elim hx h2⟩

theorem nodup_oneofakindLoop : ∀ (a seen : List String), (oneofakindLoop a seen).Nodup := by
  intro a
  induction a with
  | nil => intro seen; simp [oneofakindLoop]
  | cons s rest ih =>
    intro seen
    unfold oneofakindLoop
    by_cases hs : s ∈ seen
    · rw [if_pos hs]; exact ih seen
    · rw [if_neg hs, List.nodup_cons]
      refine ⟨?_, ih _⟩
      rw [mem_oneofakindLoop]
      simp

/-- The loop of `oneofakind` keeps a string at its first occurrence: a string
added at the end is kept when it has not occurred before. -/
theorem oneofakindLoop_append (x : String) : ∀ (a seen : List String),
    oneofakindLoop (a ++ [x]) seen =
      oneofakindLoop a seen ++ (if x ∈ a ∨ x ∈ seen then [] else [x]) := by
  intro a
  induction a with
  | nil =>
    intro seen
    simp only [List.nil_append, oneofakindLoop, List.not_mem_nil, false_or]
  | cons s rest ih =>
    intro seen
    simp only [List.cons_append]
    unfold oneofakindLoop
    by_cases hs : s ∈ seen
    · rw [if_pos hs, if_pos hs, ih]
      by_cases hx : x = s
      · subst hx
        simp [hs]
      · simp [hx]
    · rw [if_neg hs, if_neg hs, ih, List.cons_append]
      congr 2
      by_cases hx : x = s
      · subst hx
        simp
      · simp [hx]

theorem mem_oneofakind (a : List String) (x : String) :
    x ∈ oneofakind a ↔ x ∈ a ∧ x ≠ "" := by
  unfold oneofakind
  rw [mem_oneofakindLoop]
  simp

theorem nodup_oneofakind (a : List String) : (oneofakind a).Nodup :=
  nodup_oneofakindLoop a [""]

theorem tinyworld_ne : tinyworld ≠ thewholeworld := by decide

theorem tinyworld_not_mem_audienceOf (obj : Junk) (honker : String) :
    tinyworld ∉ audienceOf obj honker := by
  unfold audienceOf
  rw [List.mem_map]
  rintro ⟨a, -, e⟩
  split_ifs at e with h
  · exact tinyworld_ne e.symm
  · exact h e

theorem loudandproud_iff (aud : List String) :
    loudandproud aud = true ↔ thewholeworld ∈ aud := by
  unfold loudandproud
  simp only [List.any_eq_true, decide_eq_true_eq]
  constructor
  · rintro ⟨a, ha, rfl⟩; exact ha
  · intro h; exact ⟨_, h, rfl⟩

theorem mem_audienceOf (obj : Junk) (honker x : String) :
    x ∈ audienceOf obj honker ↔
      (x ∈ newphone [] obj ++ [honker] ∧ x ≠ "" ∧ x ≠ tinyworld) ∨
      (x = thewholeworld ∧ tinyworld ∈ newphone [] obj ++ [honker]) := by
  unfold audienceOf
  rw [List.mem_map]
  constructor
  · rintro ⟨a, ha, e⟩
    rw [mem_oneofakind] at ha
    split_ifs at e with h
    · exact Or.inr ⟨e.symm, h ▸ ha.1⟩
    · exact Or.inl ⟨e ▸ ha.1, e ▸ ha.2, e ▸ h⟩
  · rintro (⟨h1, h2, h3⟩ | ⟨h1, h2⟩)
    · exact ⟨x, (mem_oneofakind _ _).2 ⟨h1, h2⟩, by rw [if_neg h3]⟩
    · exact ⟨tinyworld, (mem_oneofakind _ _).2 ⟨h2, by decide⟩, by rw [if_pos rfl, h1]⟩

/-- The audience has no duplicate unless both spellings of the public address
occur among the addresses. -/
theorem nodup_audienceOf (obj : Junk) (honker : String)
    (h : ¬ (tinyworld ∈ newphone [] obj ++ [honker] ∧
      thewholeworld ∈ newphone [] obj ++ [honker])) :
    (audienceOf obj honker).Nodup := by
  unfold audienceOf
  apply List.Nodup.map_on _ (nodup_oneofakind _)
  intro a ha b hb e
  rw [mem_oneofakind] at ha hb
  by_cases h1 : a = tinyworld <;> by_cases h2 : b = tinyworld
  · rw [h1, h2]
  · rw [if_pos h1, if_neg h2] at e
    exact absurd ⟨h1 ▸ ha.1, e ▸ hb.1⟩ h
  · rw [if_neg h1, if_pos h2] at e
    exact absurd ⟨h2 ▸ hb.1, e ▸ ha.1⟩ h
  · rw [if_neg h1, if_neg h2] at e
    exact e

theorem dup_audienceOf (obj : Junk) (honker : String)
    (h1 : tinyworld ∈ newphone [] obj ++ [honker])
    (h2 : thewholeworld ∈ newphone [] obj ++ [honker]) :
    ¬ (audienceOf obj honker).Nodup := by
  unfold audienceOf
  intro hn
  have hinj := List.inj_on_of_nodup_map hn
  have := hinj ((mem_oneofakind _ _).2 ⟨h1, by decide⟩) ((mem_oneofakind _ _).2 ⟨h2, by decide⟩)
    (by rw [if_pos rfl, if_neg (Ne.symm tinyworld_ne)])
  exact tinyworld_ne this

/-- The audience of a record that `xonksaver` returns for an item of a record
type: the addresses of `to`, `cc` and `attributedTo` followed by the honker,
without the empty string, each kept at its first occurrence, then `as:Public`
replaced by the public constant. It has no `as:Public`, `Public` tells whether
it has the public constant, and it has no duplicate unless both spellings of
the public address occur among the addresses. -/
theorem xonksaver_audience (W : World) (user : WhatAbout) (item : Junk) (origin : String)
    (db : Store) (x : Honk) (ht : firstofmany item "type" ∈ recordTypes)
    (hx : (xonksaver W user item origin db).1 = some x) :
    x.Audience = (oneofakind (newphone [] item ++ [x.Honker])).map
      (fun a => if a = tinyworld then thewholeworld else a) ∧
    tinyworld ∉ x.Audience ∧
    (x.Public = true ↔ thewholeworld ∈ x.Audience) ∧
    (∀ a, a ∈ x.Audience ↔
      (a ∈ newphone [] item ++ [x.Honker] ∧ a ≠ "" ∧ a ≠ tinyworld) ∨
      (a = thewholeworld ∧ tinyworld ∈ newphone [] item ++ [x.Honker])) ∧
    (¬ (tinyworld ∈ newphone [] item ++ [x.Honker] ∧
        thewholeworld ∈ newphone [] item ++ [x.Honker]) → x.Audience.Nodup) := by
  obtain ⟨what, waspage, e⟩ := xonksaver_record W user item origin db ht
  rw [e] at hx
  obtain ⟨-, -, -, -, -, -, ha, hp, -, -⟩ := xonkRecord_fields _ _ _ _ _ _ _ _ _ _ _ _ _ hx
  refine ⟨ha, ?_, ?_, ?_, ?_⟩
  · rw [ha]; exact tinyworld_not_mem_audienceOf _ _
  · rw [hp]; exact loudandproud_iff _
  · intro a; rw [ha]; exact mem_audienceOf _ _ _
  · intro h; rw [ha]; exact nodup_audienceOf _ _ h

/-- Claim C17 fails on an object that names the public in both spellings,
`as:Public` and the public constant: `xonkxonkfn2` removes duplicates before it
replaces `as:Public`, so the record that `xonksaver` returns has the public
constant twice in its audience. -/
theorem xonksaver_audience_twice (W : World) (user : WhatAbout) (item : Junk) (origin : String)
    (db : Store) (x : Honk) (ht : firstofmany item "type" ∈ recordTypes)
    (hx : (xonksaver W user item origin db).1 = some x)
    (h1 : tinyworld ∈ newphone [] item) (h2 : thewholeworld ∈ newphone [] item) :
    x.Audience = (oneofakind (newphone [] item ++ [x.Honker])).map
      (fun a => if a = tinyworld then thewholeworld else a) ∧
    ¬ x.Audience.Nodup := by
  obtain ⟨what, waspage, e⟩ := xonksaver_record W user item origin db ht
  rw [e] at hx
  obtain ⟨-, -, -, -, -, -, ha, -, -, -⟩ := xonkRecord_fields _ _ _ _ _ _ _ _ _ _ _ _ _ hx
  refine ⟨ha, ?_⟩
  rw [ha]
  exact dup_audienceOf _ _ (List.mem_append_left _ h1) (List.mem_append_left _ h2)

/-- Claim C17 at a note addressed to `as:Public` and to the public constant:
the record is saved with the public constant twice. -/
theorem xonksaver_audience_twice_witness :
    (xonksaver quietWorld alice noteTwice "a.example" emptyStore).1 = some recordTwice ∧
    (xonksaver quietWorld alice noteTwice "a.example" emptyStore).2.1.honks =
      [{ recordTwice with ID := 1 }] ∧
    recordTwice.Audience = [thewholeworld, thewholeworld, "https://a.example/u/bob"] ∧
    (recordTwice.Audience =
      (oneofakind (newphone [] noteTwice ++ [recordTwice.Honker])).map
        (fun a => if a = tinyworld then thewholeworld else a) ∧
    ¬ recordTwice.Audience.Nodup) :=
  ⟨by decide, by decide, rfl,
   xonksaver_audience_twice quietWorld alice noteTwice "a.example" emptyStore recordTwice
     (by decide) (by decide) (by decide) (by decide)⟩

/-! ## `Announce` -/

theorem honkerOf_or_attrto (item : Junk) :
    (if honkerOf item = "" then extractattrto item else honkerOf item) = honkerOf item := by
  by_cases h : honkerOf item = ""
  · rw [if_pos h]
    unfold honkerOf at h ⊢
    split_ifs at h ⊢ with h1
    · rfl
    · exact absurd h h1
  · rw [if_neg h]

theorem xonkSwitch_bonk (W : World) (user : WhatAbout) (rec : XonkFn) (item : Junk)
    (origin : String) (isUpdate : Bool) (bonker : String) (myown : Bool) (s : XState)
    (ht : firstofmany item "type" ∈ recordTypes) (hc : firstofmany item "type" ≠ "ChatMessage") :
    ∃ what waspage, xonkSwitch W user rec item origin isUpdate bonker myown s =
      xonkRecord W user rec item origin isUpdate bonker myown what (firstofmany item "type")
        waspage s := by
  unfold xonkSwitch
  simp only [recordTypes, List.mem_cons, List.mem_singleton, List.not_mem_nil, or_false] at ht
  rcases ht with h | h | h | h | h | h | h | h | h | h | h
  all_goals first
    | exact absurd h hc
    | (rw [h]
       simp only [String.reduceEq, if_false, if_true, false_or, or_false, or_true, true_or]
       exact ⟨_, _, rfl⟩)

theorem xonksaver_announce (W : World) (user : WhatAbout) (item : Junk) (origin : String)
    (db : Store) (htyp : firstofmany item "type" = "Announce") :
    (xonksaver W user item origin db).1 =
      (xonkAnnounce W user (xonkxonkfn2 W user 15) item origin false ⟨1, "", 0, db, []⟩).1 := by
  simp [xonksaver, xonksaver2, xonkxonkfn2, xonkBody, xonkSwitch, htyp, maxdepth]

theorem xonkAnnounce_doc (W : World) (user : WhatAbout) (rec : XonkFn) (item c note doc : Junk)
    (origin : String) (s : XState)
    (hc : item.GetMap "object" = some c) (hct : firstofmany c "type" = "Create")
    (hn : c.GetMap "object" = some note) (hdoc : isAnnounced W user item note doc)
    (hs : s.fetches = []) :
    (xonkAnnounce W user rec item origin false s).1 = none ∨
    (originate (item.GetString "actor").1 = origin ∧
      needbonkid W s.db user (Junk.GetString note "id").1 = true ∧
      ∃ s', s'.depth = s.depth ∧ xonkAnnounce W user rec item origin false s =
        rec doc (originate (Junk.GetString note "id").1) false (item.GetString "actor").1
          false s') := by
  unfold xonkAnnounce
  simp only [hc, hct, hn, true_or, if_true, Option.isSome_some, true_and, Bool.false_or,
    String.reduceEq, decide_False, Bool.false_eq_true, not_false_eq_true, xonkxonkfn]
  by_cases h1 : needbonkid W s.db user (Junk.GetString note "id").1 = true
  · rw [if_neg (by simpa using h1)]
    by_cases h2 : originate (item.GetString "actor").1 = origin
    · rw [if_neg (by simpa using h2)]
      right
      refine ⟨h2, h1, ?_⟩
      rcases hdoc with ⟨h3, h4⟩ | ⟨h3, h4, final, h5⟩
      · rw [if_pos h3, h4]
        exact ⟨s, rfl, rfl⟩
      · rw [if_neg h3]
        simp only [GetJunkHardMode, GetJunkTimeout, h4, hs, List.length_nil, h5,
          Bool.false_eq_true, if_false]
        exact ⟨⟨s.depth, s.currenttid, s.goingup, s.db,
          [] ++ [⟨(Junk.GetString note "id").1, s.depth, true⟩]⟩, rfl, rfl⟩
    · rw [if_pos (by simpa using h2)]
      exact Or.inl rfl
  · rw [if_pos (by simpa using h1)]
    exact Or.inl rfl

theorem xonkBody_fst (W : World) (user : WhatAbout) (rec : XonkFn) (item : Junk)
    (origin : String) (isUpdate : Bool) (bonker : String) (myown : Bool) (s : XState)
    (hd : s.depth < maxdepth + 5) :
    (xonkBody W user rec item origin isUpdate bonker myown s).1 =
      (xonkSwitch W user rec item origin isUpdate bonker myown
        ⟨s.depth + 1, s.currenttid, s.goingup, s.db, s.fetches⟩).1 := by
  unfold xonkBody
  simp only
  rw [if_neg (by omega)]

/-- Claim C15 as stated fails: when `bob` boosts his own note, the record has
`bob` as honker and no oonker. -/
theorem xonksaver_self_boost :
    (xonksaver quietWorld alice selfBoost "a.example" emptyStore).1 =
      some ⟨0, 1, "bonk", "https://a.example/u/bob", "", "https://a.example/notes/3", "",
        "https://a.example/notes/3", [thewholeworld, "https://a.example/u/bob"], true, [],
        "<p>"⟩ ∧
    honkerOf note3 = "https://a.example/u/bob" ∧
    originate (honkerOf note3) = originate (Junk.GetString note3 "id").1 ∧
    originate (Junk.GetString selfBoost "actor").1 = "a.example" := by
  decide

/-- Claim C15, amended: for an `Announce` from the actor `B`, not empty, whose
object is a `Create` that embeds an object with id `X`, let `doc` be the
document `xonkxonkfn2` hands on: the embedded object when the id of the
`Announce` has the origin of `X`, else the document fetched from `X`. When
`doc` is of a record type other than `ChatMessage`, a record that `xonksaver`
returns has the id of `doc` as xid (`X` for the embedded object), honker `B`
with the origin of the activity, kind `bonk`, and as oonker the honker `A` that
`doc` names (`actor`, else the first `attributedTo`), whose origin is that of
`X`, or no oonker when `A = B`. -/
theorem xonksaver_announce_unwrap (W : World) (user : WhatAbout) (item c note doc : Junk)
    (origin : String) (db : Store) (B : String)
    (htyp : firstofmany item "type" = "Announce")
    (hc : item.GetMap "object" = some c) (hct : firstofmany c "type" = "Create")
    (hn : c.GetMap "object" = some note) (hdoc : isAnnounced W user item note doc)
    (hdt : firstofmany doc "type" ∈ recordTypes) (hnc : firstofmany doc "type" ≠ "ChatMessage")
    (hB : (item.GetString "actor").1 = B) (hBne : B ≠ "") :
    ∀ x, (xonksaver W user item origin db).1 = some x →
      originate B = origin ∧
      x.XID = (Junk.GetString doc "id").1 ∧
      (originate (item.GetString "id").1 = originate (Junk.GetString note "id").1 →
        x.XID = (Junk.GetString note "id").1) ∧
      x.Honker = B ∧
      x.Oonker = (if honkerOf doc = B then "" else honkerOf doc) ∧
      originate (honkerOf doc) = originate (Junk.GetString note "id").1 ∧
      x.What = "bonk" := by
  intro x hx
  rw [xonksaver_announce W user item origin db htyp] at hx
  rcases xonkAnnounce_doc W user (xonkxonkfn2 W user 15) item c note doc origin
    ⟨1, "", 0, db, []⟩ hc hct hn hdoc rfl with h | ⟨h1, -, s', hd, h2⟩
  · rw [h] at hx
    exact absurd hx (by simp)
  · rw [h2, hB] at hx
    rw [hB] at h1
    have hx2 : (xonkBody W user (xonkxonkfn2 W user 14) doc
        (originate (Junk.GetString note "id").1) false B false s').1 = some x := hx
    rw [xonkBody_fst _ _ _ _ _ _ _ _ _ (by rw [hd]; show 1 < maxdepth + 5; decide)] at hx2
    obtain ⟨what, waspage, e⟩ := xonkSwitch_bonk W user (xonkxonkfn2 W user 14) doc
      (originate (Junk.GetString note "id").1) false B false
      ⟨s'.depth + 1, s'.currenttid, s'.goingup, s'.db, s'.fetches⟩ hdt hnc
    rw [e] at hx2
    obtain ⟨f1, -, f3, f4, f5, f6, -, -, -, -⟩ := xonkRecord_fields _ _ _ _ _ _ _ _ _ _ _ _ _ hx2
    rw [if_pos hBne] at f4
    rw [if_pos hBne, honkerOf_or_attrto, f4] at f5
    have f6' : x.What = "bonk" := by
      rw [f6, if_pos hBne, if_neg (by simp)]
    refine ⟨h1, f1, ?_, f4, ?_, f3, f6'⟩
    · intro horig
      rcases hdoc with ⟨-, h4⟩ | ⟨h3, -⟩
      · rw [f1, h4]
      · exact absurd horig h3
    · rw [f5]

/-- Claim C15, amended, at a boost of the note of `bob` by `ann`. -/
theorem xonksaver_announce_unwrap_witness :
    (xonksaver quietWorld alice annBoost "a.example" emptyStore).1 =
      some ⟨0, 1, "bonk", "https://a.example/u/ann", "https://a.example/u/bob",
        "https://a.example/notes/3", "", "https://a.example/notes/3",
        [thewholeworld, "https://a.example/u/bob", "https://a.example/u/ann"], true, [], "<p>"⟩ ∧
    ∀ x, (xonksaver quietWorld alice annBoost "a.example" emptyStore).1 = some x →
      originate "https://a.example/u/ann" = "a.example" ∧
      x.XID = (Junk.GetString note3 "id").1 ∧
      (originate (Junk.GetString annBoost "id").1 = originate (Junk.GetString note3 "id").1 →
        x.XID = (Junk.GetString note3 "id").1) ∧
      x.Honker = "https://a.example/u/ann" ∧
      x.Oonker = (if honkerOf note3 = "https://a.example/u/ann" then "" else honkerOf note3) ∧
      originate (honkerOf note3) = originate (Junk.GetString note3 "id").1 ∧
      x.What = "bonk" :=
  ⟨by decide,
   xonksaver_announce_unwrap quietWorld alice annBoost
     [("type", JVal.str "Create"), ("actor", JVal.str "https://a.example/u/bob"),
      ("object", JVal.map note3)] note3 note3 "a.example" emptyStore "https://a.example/u/ann"
     (by decide) rfl (by decide) rfl (Or.inl ⟨by decide, rfl⟩) (by decide) (by decide) rfl
     (by decide)⟩

/-! ## The convoy of a record -/

theorem xonkStore_convoy (W : World) (user : WhatAbout) (rec : XonkFn) (xonk : Honk)
    (s : XState) :
    (xonkStore W user rec xonk s).1.Convoy =
      settledConvoy user xonk (parentFetched W user rec xonk s) := by
  unfold xonkStore parentFetched settledConvoy
  rfl

theorem xonkStore_saved (W : World) (user : WhatAbout) (rec : XonkFn) (xonk : Honk)
    (s : XState) :
    (xonkStore W user rec xonk s).2.db =
      savexonk (parentFetched W user rec xonk s).db (xonkStore W user rec xonk s).1 := by
  unfold xonkStore parentFetched
  simp only
  split_ifs <;> rfl

theorem settledConvoy_own (user : WhatAbout) (xonk : Honk) (s : XState)
    (h : xonk.Convoy ≠ "") : settledConvoy user xonk s = xonk.Convoy := by
  unfold settledConvoy
  simp only [h, and_false, if_false]

theorem settledConvoy_parent (user : WhatAbout) (xonk : Honk) (s : XState) (xx : Honk)
    (h : xonk.Convoy = "") (hr : xonk.RID ≠ "") (hp : xonk.Public = true)
    (hg : getxonk s.db user.ID xonk.RID = some xx) (hc : xx.Convoy ≠ "") :
    settledConvoy user xonk s = xx.Convoy := by
  unfold settledConvoy
  simp only [h, hr, hp, hg, hc, ne_eq, not_false_eq_true, and_self, if_true, if_false]

theorem settledConvoy_root (user : WhatAbout) (xonk : Honk) (s : XState)
    (h : xonk.Convoy = "")
    (hr : xonk.RID = "" ∨ xonk.Public = false ∨ getxonk s.db user.ID xonk.RID = none ∨
      ∃ xx, getxonk s.db user.ID xonk.RID = some xx ∧ xx.Convoy = "") :
    settledConvoy user xonk s = if s.currenttid = "" then xonk.XID else s.currenttid := by
  unfold settledConvoy
  have key : (if xonk.RID ≠ "" ∧ xonk.Public = true ∧ xonk.Convoy = "" then
      (match getxonk s.db user.ID xonk.RID with
        | some xx => xx.Convoy
        | none => xonk.Convoy)
      else xonk.Convoy) = "" := by
    rcases hr with hr | hr | hr | ⟨xx, hr, hx⟩
    · rw [if_neg (fun hh => hh.1 hr)]; exact h
    · rw [if_neg (fun hh => by rw [hr] at hh; exact absurd hh.2.1 (by decide))]; exact h
    · rw [hr]; split_ifs <;> exact h
    · rw [hr]; split_ifs
      · exact hx
      · exact h
  simp only [key, if_true]

theorem xonkSave_own (W : World) (user : WhatAbout) (rec : XonkFn) (obj : Junk)
    (isUpdate myown : Bool) (xonk : Honk) (replies : List String) (s : XState) (x : Honk)
    (h : (xonkSave W user rec obj isUpdate myown xonk replies s).1 = some x)
    (hc : xonk.Convoy ≠ "") : x.Convoy = xonk.Convoy := by
  unfold xonkSave at h
  by_cases h1 : xonk.What = "chonk"
  · simp [h1] at h
  · rw [if_neg h1] at h
    simp only at h
    generalize (if isUpdate = true then getxonk s.db user.ID xonk.XID else none) = prev at h
    simp only [Option.some.injEq] at h
    subst h
    cases prev with
    | none =>
      simp only
      split_ifs
      · exact xonkStore_convoy W user rec xonk s ▸ settledConvoy_own user xonk _ hc
      · rfl
    | some p =>
      simp only
      split_ifs
      · have := xonkStore_convoy W user rec { xonk with ID := p.ID }
          { s with db := updatehonk s.db { xonk with ID := p.ID } }
        rw [this]
        exact settledConvoy_own user _ _ hc
      · rfl

theorem xonkSave_new (W : World) (user : WhatAbout) (rec : XonkFn) (obj : Junk)
    (myown : Bool) (xonk : Honk) (replies : List String) (s : XState) (x : Honk)
    (h : (xonkSave W user rec obj false myown xonk replies s).1 = some x)
    (hn : myown = true ∨ needxonk W s.db user obj xonk = true) :
    x = (xonkStore W user rec xonk s).1 := by
  unfold xonkSave at h
  by_cases h1 : xonk.What = "chonk"
  · simp [h1] at h
  · rw [if_neg h1] at h
    simp only [Bool.false_eq_true, if_false, false_and, not_false_eq_true, true_and,
      Option.isSome_none] at h
    rw [if_pos hn] at h
    exact (Option.some.inj h).symm

/-- A record that `xonkxonkfn2` returns for an item that falls out of the
`switch` comes from the end of the function, entered with the record as read
from the item. -/
theorem xonkRecord_save (W : World) (user : WhatAbout) (rec : XonkFn) (item : Junk)
    (origin : String) (isUpdate : Bool) (bonker : String) (myown : Bool) (what typ : String)
    (waspage : Bool) (s : XState) (x : Honk)
    (h : (xonkRecord W user rec item origin isUpdate bonker myown what typ waspage s).1 = some x) :
    ∃ xonk s', (xonkSave W user rec item isUpdate myown xonk (repliesOf item) s').1 = some x ∧
      xonk.ID = 0 ∧ xonk.Convoy = convoyOf item ∧ xonk.RID = ridOf item ∧
      (user.InlineQuotes = false →
        s' = if s.currenttid = "" then
          ⟨s.depth, convoyOf item, s.goingup, s.db, s.fetches⟩ else s) := by
  unfold xonkRecord at h
  simp only at h
  by_cases h1 : (item.GetString "id").1 = ""
  · rw [if_pos h1] at h
    simp at h
  · rw [if_neg h1] at h
    by_cases h2 : originate (item.GetString "id").1 ≠ origin ∧ ¬ W.develMode = true ∧ origin ≠ ""
    · rw [if_pos h2] at h
      simp at h
    · rw [if_neg h2] at h
      by_cases h3 : myown = true ∧ honkerOf item ≠ user.URL
      · rw [if_pos h3] at h
        simp at h
      · rw [if_neg h3] at h
        by_cases h4 : originate (honkerOf item) ≠ origin
        · rw [if_pos h4] at h
          simp at h
        · rw [if_neg h4] at h
          generalize (if honkerOf item = "" then extractattrto item else honkerOf item) =
            honker1 at h
          generalize (if bonker ≠ "" then bonker else honker1) = honker at h
          generalize (if bonker ≠ "" then honker1 else "") = oonker0 at h
          generalize (if typ = "Question" ∧ (if bonker ≠ "" then "bonk" else what) = "honk"
            then "qonk" else if bonker ≠ "" then "bonk" else what) = what1 at h
          generalize hq : (if user.InlineQuotes = true then
              qutify W user rec (item.GetString "quoteUrl").1 (W.noise typ waspage item) s
            else (W.noise typ waspage item, s)) = q at h
          generalize (if oonker0 = honker then "" else oonker0) = oonker at h
          generalize hs1 : (if q.2.currenttid = "" then
              ({ q.2 with currenttid := convoyOf item } : XState) else q.2) = s1 at h
          split_ifs at h with h5
          refine ⟨_, s1, h, rfl, rfl, rfl, ?_⟩
          intro hiq
          rw [hiq] at hq
          simp only [Bool.false_eq_true, if_false] at hq
          rw [← hs1, ← hq]

theorem needxonkidX_have (W : World) (db : Store) (user : WhatAbout) (xid : String) (b : Bool)
    (xx : Honk) (h : getxonk db user.ID xid = some xx) : needxonkidX W db user xid b = false := by
  unfold needxonkidX
  rw [h]
  split_ifs <;> first | rfl | simp_all

theorem parentFetched_have (W : World) (user : WhatAbout) (rec : XonkFn) (xonk : Honk)
    (s : XState) (h : xonk.RID = "" ∨ xonk.Public = false ∨
      ∃ xx, getxonk s.db user.ID xonk.RID = some xx) :
    parentFetched W user rec xonk s = s := by
  unfold parentFetched
  rcases h with h | h | ⟨xx, h⟩
  · rw [if_neg (fun hh => hh.1 h)]
  · rw [if_neg (fun hh => by rw [h] at hh; exact absurd hh.2 (by decide))]
  · have : needxonkid W s.db user xonk.RID = false := needxonkidX_have W s.db user _ false xx h
    simp only [this, Bool.false_eq_true, if_false, ite_self]

/-- Claim C16 as stated fails, twice: a public reply to a stored note that
carries a context of its own is saved with that context, not with the convoy of
the note; and a reply to the same note that is not public and carries no
context is saved with its own xid as convoy. -/
theorem xonksaver_convoy_not_inherited :
    (getxonk storeWithThread alice.ID "https://a.example/notes/1").map Honk.Convoy =
      some "https://a.example/contexts/1" ∧
    (xonksaver quietWorld alice replyOwnContext "a.example" storeWithThread).2.1.honks.map
        (fun r => (r.XID, r.RID, r.Convoy)) =
      [("https://a.example/notes/1", "", "https://a.example/contexts/1"),
       ("https://a.example/notes/5", "https://a.example/notes/1",
        "https://a.example/contexts/9")] ∧
    (xonksaver quietWorld alice replyPrivate "a.example" storeWithThread).2.1.honks.map
        (fun r => (r.XID, r.RID, r.Convoy, r.Public)) =
      [("https://a.example/notes/1", "", "https://a.example/contexts/1", true),
       ("https://a.example/notes/6", "https://a.example/notes/1",
        "https://a.example/notes/6", false)] := by
  decide

/-- Claim C16, amended: a record `x` that `xonksaver` returns for an item of a
record type has the context (else the conversation) of the item as convoy when
the item carries one, whatever the convoy of its parent. When the item carries
none, quotes are not inlined and the record is wanted (`needxonk`), so that it
is saved as a new record: a public reply whose parent is in the store with a
convoy gets the convoy of the parent; a record that is no reply, or is not
public, or whose stored parent has no convoy, gets its own xid. -/
theorem xonksaver_convoy (W : World) (user : WhatAbout) (item : Junk) (origin : String)
    (db : Store) (x : Honk) (ht : firstofmany item "type" ∈ recordTypes)
    (hx : (xonksaver W user item origin db).1 = some x) :
    (convoyOf item ≠ "" → x.Convoy = convoyOf item) ∧
    (convoyOf item = "" → user.InlineQuotes = false →
      needxonk W db user item (asRead item x) = true →
      x.RID = ridOf item ∧
      (x.RID = "" ∨ x.Public = false → x.Convoy = x.XID) ∧
      (∀ xx, x.RID ≠ "" → x.Public = true → getxonk db user.ID x.RID = some xx →
        (xx.Convoy ≠ "" → x.Convoy = xx.Convoy) ∧ (xx.Convoy = "" → x.Convoy = x.XID))) := by
  obtain ⟨what, waspage, e⟩ := xonksaver_record W user item origin db ht
  rw [e] at hx
  obtain ⟨xonk, s', hsave, hid, hcv, hrid, hs'⟩ := xonkRecord_save _ _ _ _ _ _ _ _ _ _ _ _ _ hx
  obtain ⟨e1, e2, e3, e4, e5, e6, e7, e8, e9, e10⟩ := xonkSave_fields _ _ _ _ _ _ _ _ _ _ hsave
  constructor
  · intro hne
    rw [xonkSave_own _ _ _ _ _ _ _ _ _ _ hsave (by rw [hcv]; exact hne), hcv]
  · intro hc hq hneed
    have hxonk : xonk = asRead item x := by
      cases xonk
      cases x
      simp only [asRead] at *
      subst hid hcv e1 e2 e3 e4 e5 e6 e7 e8 e9 e10
      rfl
    have hs2 : s' = ⟨1, "", 0, db, []⟩ := by
      rw [hs' hq, if_pos rfl, hc]
    subst hs2
    have hx2 := xonkSave_new _ _ _ _ _ _ _ _ _ hsave (Or.inr (by rw [hxonk]; exact hneed))
    have hconv : x.Convoy = settledConvoy user xonk
        (parentFetched W user (xonkxonkfn2 W user 15) xonk ⟨1, "", 0, db, []⟩) := by
      rw [← xonkStore_convoy, ← hx2]
    have hcx : xonk.Convoy = "" := by rw [hcv, hc]
    refine ⟨by rw [e6, hrid], ?_, ?_⟩
    · intro hroot
      rw [e6, e8] at hroot
      rw [hconv, parentFetched_have _ _ _ _ _ (by tauto),
        settledConvoy_root _ _ _ hcx (by tauto), if_pos rfl, e5]
    · intro xx hr hp hg
      rw [e6] at hr hg
      rw [e8] at hp
      rw [hconv, parentFetched_have _ _ _ _ _ (Or.inr (Or.inr ⟨xx, hg⟩))]
      constructor
      · intro hxc
        exact settledConvoy_parent _ _ _ xx hcx hr hp hg hxc
      · intro hxc
        rw [settledConvoy_root _ _ _ hcx (Or.inr (Or.inr (Or.inr ⟨xx, hg, hxc⟩))), if_pos rfl, e5]

/-- Claim C16, amended, at a public reply without context to a stored note: it
is saved with the convoy of the note. -/
theorem xonksaver_convoy_witness :
    (xonksaver quietWorld alice replyPublic "a.example" storeWithThread).1 = some recordReply ∧
    (xonksaver quietWorld alice replyPublic "a.example" storeWithThread).2.1.honks.map
        (fun r => (r.XID, r.RID, r.Convoy)) =
      [("https://a.example/notes/1", "", "https://a.example/contexts/1"),
       ("https://a.example/notes/7", "https://a.example/notes/1",
        "https://a.example/contexts/1")] ∧
    ((convoyOf replyPublic ≠ "" → recordReply.Convoy = convoyOf replyPublic) ∧
    (convoyOf replyPublic = "" → alice.InlineQuotes = false →
      needxonk quietWorld storeWithThread alice replyPublic (asRead replyPublic recordReply) =
        true →
      recordReply.RID = ridOf replyPublic ∧
      (recordReply.RID = "" ∨ recordReply.Public = false →
        recordReply.Convoy = recordReply.XID) ∧
      (∀ xx, recordReply.RID ≠ "" → recordReply.Public = true →
        getxonk storeWithThread alice.ID recordReply.RID = some xx →
        (xx.Convoy ≠ "" → recordReply.Convoy = xx.Convoy) ∧
        (xx.Convoy = "" → recordReply.Convoy = recordReply.XID)))) :=
  ⟨by decide, by decide,
   xonksaver_convoy quietWorld alice replyPublic "a.example" storeWithThread recordReply
     (by decide) (by decide)⟩

/-! ## `Delete` and `Tombstone` -/

theorem originate_empty : originate "" = "" := by decide

theorem xonkDelete_own (user : WhatAbout) (origin xid : String) (s : XState)
    (hne : xid ≠ "") (h : originate xid = origin) :
    xonkDelete user origin xid s =
      (none, ⟨s.depth, s.currenttid, s.goingup, eradicatexonk s.db user.ID xid, s.fetches⟩) := by
  unfold xonkDelete
  rw [if_neg hne, if_neg (by simpa using h)]

theorem iszonked_saveZonker (db : Store) (userid : UserID) (xid : String) :
    iszonked (saveZonker db userid xid "zonk") userid xid = true := by
  simp [iszonked, saveZonker]

theorem needxonkidX_zonked (W : World) (db : Store) (user : WhatAbout) (xid : String)
    (b : Bool) (h : iszonked db user.ID xid = true) : needxonkidX W db user xid b = false := by
  unfold needxonkidX
  split_ifs <;> rfl

/-! ## Zonks are kept -/

theorem GetJunkTimeout_db (W : World) (user : WhatAbout) (url : String) (hard : Bool)
    (s : XState) : (GetJunkTimeout W user url hard s).2.db = s.db := by
  unfold GetJunkTimeout
  split_ifs <;> rfl

theorem GetJunkHardMode_db (W : World) (user : WhatAbout) (url : String) (s : XState) :
    (GetJunkHardMode W user url s).2.db = s.db := by
  unfold GetJunkHardMode
  have := GetJunkTimeout_db W user url true s
  rcases h : GetJunkTimeout W user url true s with ⟨_ | ⟨j, f⟩, s'⟩
  · rw [h] at this; exact this
  · rw [h] at this; exact this

theorem saveonemore_zonkers (W : World) (user : WhatAbout) (rec : XonkFn)
    (hrec : ∀ item origin u b m s, s.db.zonkers <+: (rec item origin u b m s).2.db.zonkers)
    (xid : String) (s : XState) :
    s.db.zonkers <+: (saveonemore W user rec xid s).db.zonkers := by
  unfold saveonemore
  split_ifs
  · exact List.prefix_refl _
  · have := GetJunkHardMode_db W user xid s
    rcases h : GetJunkHardMode W user xid s with ⟨_ | obj, s'⟩
    · rw [h] at this
      simp only
      rw [this]
    · rw [h] at this
      simp only [xonkxonkfn]
      rw [← this]
      exact hrec _ _ _ _ _ _

theorem eradicatexonk_zonkers (db : Store) (userid : UserID) (xid : String) :
    db.zonkers <+: (eradicatexonk db userid xid).zonkers := by
  unfold eradicatexonk
  cases getxonk db userid xid with
  | none => exact List.prefix_refl _
  | some x => exact List.prefix_append _ _

theorem qutifyLoop_zonkers (W : World) (user : WhatAbout) (rec : XonkFn)
    (hrec : ∀ item origin u b m s, s.db.zonkers <+: (rec item origin u b m s).2.db.zonkers)
    (qurl : String) (ms : List String) :
    ∀ (content : String) (s : XState),
      s.db.zonkers <+: (qutifyLoop W user rec qurl ms content s).2.db.zonkers := by
  induction ms with
  | nil => intro content s; exact List.prefix_refl _
  | cons m ms ih =>
    intro content s
    unfold qutifyLoop
    simp only
    cases hx : getxonk s.db user.ID m with
    | some x => exact ih _ _
    | none =>
      have hdb := GetJunkTimeout_db W user m false s
      rcases hg : GetJunkTimeout W user m false s with ⟨_ | ⟨j, final⟩, s'⟩
      · rw [hg] at hdb
        simp only
        refine List.IsPrefix.trans ?_ (ih _ _)
        rw [hdb]
      · rw [hg] at hdb
        simp only
        refine List.IsPrefix.trans ?_ (ih _ _)
        simp only [xonkxonkfn]
        refine List.IsPrefix.trans ?_ (hrec _ _ _ _ _ _)
        show s.db.zonkers <+: s'.db.zonkers
        rw [hdb]

theorem qutify_zonkers (W : World) (user : WhatAbout) (rec : XonkFn)
    (hrec : ∀ item origin u b m s, s.db.zonkers <+: (rec item origin u b m s).2.db.zonkers)
    (qurl content : String) (s : XState) :
    s.db.zonkers <+: (qutify W user rec qurl content s).2.db.zonkers := by
  unfold qutify
  split_ifs
  · exact List.prefix_refl _
  · exact qutifyLoop_zonkers W user rec hrec _ _ _ _

theorem repliesLoop_zonkers (W : World) (user : WhatAbout) (rec : XonkFn)
    (hrec : ∀ item origin u b m s, s.db.zonkers <+: (rec item origin u b m s).2.db.zonkers)
    (l : List String) :
    ∀ s : XState, s.db.zonkers <+: (repliesLoop W user rec l s).db.zonkers := by
  induction l with
  | nil => intro s; exact List.prefix_refl _
  | cons r rest ih =>
    intro s
    unfold repliesLoop
    split_ifs
    · exact List.IsPrefix.trans (saveonemore_zonkers W user rec hrec r s) (ih _)
    · exact ih _

theorem parentFetched_zonkers (W : World) (user : WhatAbout) (rec : XonkFn)
    (hrec : ∀ item origin u b m s, s.db.zonkers <+: (rec item origin u b m s).2.db.zonkers)
    (xonk : Honk) (s : XState) :
    s.db.zonkers <+: (parentFetched W user rec xonk s).db.zonkers := by
  unfold parentFetched
  split_ifs
  · exact saveonemore_zonkers W user rec hrec xonk.RID ⟨s.depth, s.currenttid, s.goingup + 1, s.db, s.fetches⟩
  · exact List.prefix_refl _
  · exact List.prefix_refl _

theorem xonkStore_zonkers (W : World) (user : WhatAbout) (rec : XonkFn)
    (hrec : ∀ item origin u b m s, s.db.zonkers <+: (rec item origin u b m s).2.db.zonkers)
    (xonk : Honk) (s : XState) :
    s.db.zonkers <+: (xonkStore W user rec xonk s).2.db.zonkers := by
  rw [xonkStore_saved]
  exact parentFetched_zonkers W user rec hrec xonk s

theorem xonkSave_tail_zonkers (W : World) (user : WhatAbout) (rec : XonkFn)
    (hrec : ∀ item origin u b m s, s.db.zonkers <+: (rec item origin u b m s).2.db.zonkers)
    (c : Prop) [Decidable c] (x : Honk) (replies : List String) (s0 s : XState)
    (h : s0.db.zonkers <+: s.db.zonkers) (r : Honk × XState)
    (hr : r = if c then xonkStore W user rec x s else (x, s)) :
    s0.db.zonkers <+:
      (if r.2.goingup = 0 then repliesLoop W user rec replies r.2 else r.2).db.zonkers := by
  have h1 : s0.db.zonkers <+: r.2.db.zonkers := by
    rw [hr]
    split_ifs
    · exact List.IsPrefix.trans h (xonkStore_zonkers W user rec hrec x s)
    · exact h
  split_ifs
  · exact List.IsPrefix.trans h1 (repliesLoop_zonkers W user rec hrec _ _)
  · exact h1

theorem xonkSave_zonkers (W : World) (user : WhatAbout) (rec : XonkFn)
    (hrec : ∀ item origin u b m s, s.db.zonkers <+: (rec item origin u b m s).2.db.zonkers)
    (obj : Junk) (isUpdate myown : Bool) (xonk : Honk) (replies : List String) (s : XState) :
    s.db.zonkers <+: (xonkSave W user rec obj isUpdate myown xonk replies s).2.db.zonkers := by
  unfold xonkSave
  by_cases hc : xonk.What = "chonk"
  · rw [if_pos hc]
    exact List.prefix_refl _
  · rw [if_neg hc]
    simp only
    generalize hprev : (if isUpdate = true then getxonk s.db user.ID xonk.XID else none) = prev
    cases prev with
    | none =>
      exact xonkSave_tail_zonkers W user rec hrec _ xonk replies s s (List.prefix_refl _) _ rfl
    | some p =>
      exact xonkSave_tail_zonkers W user rec hrec _ _ replies s
        ⟨s.depth, s.currenttid, s.goingup, updatehonk s.db _, s.fetches⟩ (List.prefix_refl _) _ rfl

theorem fetched_db (W : World) (user : WhatAbout) (url : String) (s : XState)
    (r : Option Junk) (s1 : XState) (h : GetJunkHardMode W user url s = (r, s1)) :
    s1.db = s.db := by
  have := GetJunkHardMode_db W user url s
  rw [h] at this
  exact this

theorem xonkRecord_zonkers (W : World) (user : WhatAbout) (rec : XonkFn)
    (hrec : ∀ item origin u b m s, s.db.zonkers <+: (rec item origin u b m s).2.db.zonkers)
    (item : Junk) (origin : String) (isUpdate : Bool) (bonker : String) (myown : Bool)
    (what typ : String) (waspage : Bool) (s : XState) :
    s.db.zonkers <+:
      (xonkRecord W user rec item origin isUpdate bonker myown what typ waspage s).2.db.zonkers := by
  unfold xonkRecord
  simp only
  by_cases h1 : (item.GetString "id").1 = ""
  · rw [if_pos h1]
  · rw [if_neg h1]
    by_cases h2 : originate (item.GetString "id").1 ≠ origin ∧ ¬ W.develMode = true ∧ origin ≠ ""
    · rw [if_pos h2]
    · rw [if_neg h2]
      by_cases h3 : myown = true ∧ honkerOf item ≠ user.URL
      · rw [if_pos h3]
      · rw [if_neg h3]
        by_cases h4 : originate (honkerOf item) ≠ origin
        · rw [if_pos h4]
        · rw [if_neg h4]
          generalize (if honkerOf item = "" then extractattrto item else honkerOf item) =
            honker1
          generalize (if bonker ≠ "" then bonker else honker1) = honker
          generalize (if bonker ≠ "" then honker1 else "") = oonker0
          generalize (if typ = "Question" ∧ (if bonker ≠ "" then "bonk" else what) = "honk"
            then "qonk" else if bonker ≠ "" then "bonk" else what) = what1
          generalize hq : (if user.InlineQuotes = true then
              qutify W user rec (item.GetString "quoteUrl").1 (W.noise typ waspage item) s
            else (W.noise typ waspage item, s)) = q
          have hq1 : s.db.zonkers <+: q.2.db.zonkers := by
            rw [← hq]
            split_ifs
            · exact qutify_zonkers W user rec hrec _ _ _
            · exact List.prefix_refl _
          generalize (if oonker0 = honker then "" else oonker0) = oonker
          generalize hs1 : (if q.2.currenttid = "" then
              ({ q.2 with currenttid := convoyOf item } : XState) else q.2) = s1
          have hs2 : q.2.db.zonkers = s1.db.zonkers := by
            rw [← hs1]
            split_ifs <;> rfl
          split_ifs
          · exact hq1
          · exact List.IsPrefix.trans hq1 (hs2 ▸ xonkSave_zonkers W user rec hrec _ _ _ _ _ _)

theorem xonkAnnounce_zonkers (W : World) (user : WhatAbout) (rec : XonkFn)
    (hrec : ∀ item origin u b m s, s.db.zonkers <+: (rec item origin u b m s).2.db.zonkers)
    (item : Junk) (origin : String) (isUpdate : Bool) (s : XState) :
    s.db.zonkers <+: (xonkAnnounce W user rec item origin isUpdate s).2.db.zonkers := by
  unfold xonkAnnounce
  simp only [xonkxonkfn]
  split_ifs
  · exact List.prefix_refl _
  · exact List.prefix_refl _
  · exact hrec _ _ _ _ _ _
  · split
    · next s1 heq =>
      rw [fetched_db W user _ s _ s1 heq]
    · next obj s1 heq =>
      refine List.IsPrefix.trans ?_ (hrec _ _ _ _ _ _)
      rw [fetched_db W user _ s _ s1 heq]

theorem xonkCreate_zonkers (W : World) (user : WhatAbout) (rec : XonkFn)
    (hrec : ∀ item origin u b m s, s.db.zonkers <+: (rec item origin u b m s).2.db.zonkers)
    (item : Junk) (origin : String) (isUpdate : Bool) (bonker : String) (myown : Bool)
    (s : XState) :
    s.db.zonkers <+: (xonkCreate W user rec item origin isUpdate bonker myown s).2.db.zonkers := by
  unfold xonkCreate
  cases item.GetMap "object" with
  | some obj => exact hrec _ _ _ _ _ _
  | none =>
    simp only
    split_ifs
    · exact List.prefix_refl _
    · split
      · next s1 heq =>
        rw [fetched_db W user _ s _ s1 heq]
      · next obj s1 heq =>
        refine List.IsPrefix.trans ?_ (hrec _ _ _ _ _ _)
        rw [fetched_db W user _ s _ s1 heq]

theorem xonkRead_zonkers (W : World) (user : WhatAbout) (rec : XonkFn)
    (hrec : ∀ item origin u b m s, s.db.zonkers <+: (rec item origin u b m s).2.db.zonkers)
    (item : Junk) (s : XState) :
    s.db.zonkers <+: (xonkRead W user rec item s).2.db.zonkers := by
  unfold xonkRead
  simp only [xonkxonkfn]
  split_ifs
  · split
    · next s1 heq =>
      rw [fetched_db W user _ s _ s1 heq]
    · next obj s1 heq =>
      refine List.IsPrefix.trans ?_ (hrec _ _ _ _ _ _)
      rw [fetched_db W user _ s _ s1 heq]
  · exact List.prefix_refl _
  · exact List.prefix_refl _

theorem xonkDelete_zonkers (user : WhatAbout) (origin xid : String) (s : XState) :
    s.db.zonkers <+: (xonkDelete user origin xid s).2.db.zonkers := by
  unfold xonkDelete
  split_ifs
  · exact List.prefix_refl _
  · exact List.prefix_refl _
  · exact eradicatexonk_zonkers _ _ _

theorem xonkSwitch_zonkers (W : World) (user : WhatAbout) (rec : XonkFn)
    (hrec : ∀ item origin u b m s, s.db.zonkers <+: (rec item origin u b m s).2.db.zonkers)
    (item : Junk) (origin : String) (isUpdate : Bool) (bonker : String) (myown : Bool)
    (s : XState) :
    s.db.zonkers <+: (xonkSwitch W user rec item origin isUpdate bonker myown s).2.db.zonkers := by
  unfold xonkSwitch
  generalize firstofmany item "type" = typ
  by_cases c1 : typ = "Delete"
  · rw [if_pos c1]
    exact xonkDelete_zonkers _ _ _ _
  rw [if_neg c1]
  by_cases c2 : typ = "Remove"
  · rw [if_pos c2]
  rw [if_neg c2]
  by_cases c3 : typ = "Tombstone"
  · rw [if_pos c3]
    exact xonkDelete_zonkers _ _ _ _
  rw [if_neg c3]
  by_cases c4 : typ = "Announce"
  · rw [if_pos c4]
    exact xonkAnnounce_zonkers W user rec hrec _ _ _ _
  rw [if_neg c4]
  by_cases c5 : typ = "Update"
  · rw [if_pos c5]
    exact xonkCreate_zonkers W user rec hrec _ _ _ _ _ _
  rw [if_neg c5]
  by_cases c6 : typ = "Create"
  · rw [if_pos c6]
    exact xonkCreate_zonkers W user rec hrec _ _ _ _ _ _
  rw [if_neg c6]
  by_cases c7 : typ = "Read" ∨ typ = "Add"
  · rw [if_pos c7]
    exact xonkRead_zonkers W user rec hrec _ _
  rw [if_neg c7]
  by_cases c8 : typ = "Move"
  · rw [if_pos c8]
    exact xonkRecord_zonkers W user rec hrec _ _ _ _ _ _ _ _ _
  rw [if_neg c8]
  by_cases c9 : typ = "Page" ∨ typ = "Audio" ∨ typ = "Video" ∨ typ = "Image" ∨
      typ = "Question" ∨ typ = "Commit" ∨ typ = "Article" ∨ typ = "Note"
  · rw [if_pos c9]
    exact xonkRecord_zonkers W user rec hrec _ _ _ _ _ _ _ _ _
  rw [if_neg c9]
  by_cases c10 : typ = "Event"
  · rw [if_pos c10]
    exact xonkRecord_zonkers W user rec hrec _ _ _ _ _ _ _ _ _
  rw [if_neg c10]
  by_cases c11 : typ = "ChatMessage"
  · rw [if_pos c11]
    exact xonkRecord_zonkers W user rec hrec _ _ _ _ _ _ _ _ _
  rw [if_neg c11]

theorem xonkBody_zonkers (W : World) (user : WhatAbout) (rec : XonkFn)
    (hrec : ∀ item origin u b m s, s.db.zonkers <+: (rec item origin u b m s).2.db.zonkers)
    (item : Junk) (origin : String) (isUpdate : Bool) (bonker : String) (myown : Bool)
    (s : XState) :
    s.db.zonkers <+: (xonkBody W user rec item origin isUpdate bonker myown s).2.db.zonkers := by
  unfold xonkBody
  simp only
  split_ifs
  · exact List.prefix_refl _
  · exact xonkSwitch_zonkers W user rec hrec item origin isUpdate bonker myown
      ⟨s.depth + 1, s.currenttid, s.goingup, s.db, s.fetches⟩

theorem xonkxonkfn2_zonkers (W : World) (user : WhatAbout) (n : Nat) :
    ∀ (item : Junk) (origin : String) (u : Bool) (b : String) (m : Bool) (s : XState),
      s.db.zonkers <+: (xonkxonkfn2 W user n item origin u b m s).2.db.zonkers := by
  induction n with
  | zero => intro item origin u b m s; exact List.prefix_refl _
  | succ n ih =>
    intro item origin u b m s
    exact xonkBody_zonkers W user _ ih item origin u b m s

theorem xonksaver2_zonkers (W : World) (user : WhatAbout) (item : Junk) (origin : String)
    (myown : Bool) (db : Store) :
    db.zonkers <+: (xonksaver2 W user item origin myown db).2.1.zonkers :=
  xonkxonkfn2_zonkers W user 16 item origin false "" myown ⟨0, "", 0, db, []⟩

theorem iszonked_mono (db db2 : Store) (userid : UserID) (xid : String)
    (h : db.zonkers <+: db2.zonkers) (hz : iszonked db userid xid = true) :
    iszonked db2 userid xid = true := by
  unfold iszonked at hz ⊢
  rw [List.any_eq_true] at hz ⊢
  obtain ⟨z, hz1, hz2⟩ := hz
  exact ⟨z, h.subset hz1, hz2⟩

theorem xonksaver_keeps_zonk (W : World) (user : WhatAbout) (item : Junk) (origin : String)
    (db : Store) (userid : UserID) (xid : String) (hz : iszonked db userid xid = true) :
    iszonked (xonksaver W user item origin db).2.1 userid xid = true :=
  iszonked_mono db _ userid xid (xonksaver2_zonkers W user item origin false db) hz

/-- Claim C18 as stated fails: a `Delete` of matching origin for a note that
the user has no copy of writes no zonk, and the note is still wanted
afterwards. -/
theorem xonksaver_delete_unknown_writes_no_zonk :
    xonksaver quietWorld alice ownDelete "a.example" emptyStore = (none, emptyStore, []) ∧
    originate "https://a.example/notes/1" = "a.example" ∧
    iszonked (xonksaver quietWorld alice ownDelete "a.example" emptyStore).2.1 alice.ID
      "https://a.example/notes/1" = false ∧
    needxonkid quietWorld (xonksaver quietWorld alice ownDelete "a.example" emptyStore).2.1 alice
      "https://a.example/notes/1" = true := by
  decide

/-- Claim C18, amended: `xonksaver` on a `Delete` (object a string, or a map
with an id) or on a `Tombstone` whose target `X` originates from the non-empty
origin of the activity returns `nil`, fetches nothing and leaves the store
`eradicatexonk` gives. When the user has a copy of `X`, that record is deleted
and the zonk `(userid, X, "zonk")` is written, so that `iszonked` holds and
`needxonkidX` refuses `X` in the store that results, and both still hold in
the store left by any later run of `xonksaver` for that user; when the user
has no copy, the store is unchanged and no zonk is written. -/
theorem xonksaver_delete_zonk (W : World) (user : WhatAbout) (item : Junk) (origin : String)
    (db : Store) (X : String) (hO : origin ≠ "")
    (hX : (firstofmany item "type" = "Delete" ∧
            ((∃ obj, item.GetMap "object" = some obj ∧ (Junk.GetString obj "id").1 = X) ∨
             (item.GetMap "object" = none ∧ (item.GetString "object").1 = X))) ∨
          (firstofmany item "type" = "Tombstone" ∧ (item.GetString "id").1 = X))
    (hown : originate X = origin) :
    xonksaver W user item origin db = (none, eradicatexonk db user.ID X, []) ∧
    (∀ c, getxonk db user.ID X = some c →
      eradicatexonk db user.ID X = saveZonker (deletehonk db c.ID) user.ID X "zonk" ∧
      (eradicatexonk db user.ID X).honks = db.honks.filter (fun r => r.ID ≠ c.ID) ∧
      c ∉ (eradicatexonk db user.ID X).honks ∧
      (eradicatexonk db user.ID X).zonkers = db.zonkers ++ [(user.ID, X, "zonk")] ∧
      iszonked (eradicatexonk db user.ID X) user.ID X = true ∧
      (∀ b, needxonkidX W (eradicatexonk db user.ID X) user X b = false) ∧
      ∀ (item2 : Junk) (origin2 : String) (b : Bool),
        iszonked (xonksaver W user item2 origin2 (eradicatexonk db user.ID X)).2.1 user.ID X =
          true ∧
        needxonkidX W (xonksaver W user item2 origin2 (eradicatexonk db user.ID X)).2.1 user X
          b = false) ∧
    (getxonk db user.ID X = none → eradicatexonk db user.ID X = db) := by
  have hne : X ≠ "" := by
    intro e
    rw [e, originate_empty] at hown
    exact hO hown.symm
  refine ⟨?_, ?_, ?_⟩
  · rcases hX with ⟨ht, ⟨obj, ho, hx⟩ | ⟨ho, hx⟩⟩ | ⟨ht, hx⟩
    · have ht2 : deleteTarget item = X := by simp [deleteTarget, ho, hx]
      rw [xonksaver_delete W user item origin db ht, ht2, xonkDelete_own user origin X _ hne hown]
    · have ht2 : deleteTarget item = X := by simp [deleteTarget, ho, hx]
      rw [xonksaver_delete W user item origin db ht, ht2, xonkDelete_own user origin X _ hne hown]
    · rw [xonksaver_tombstone W user item origin db ht, hx,
        xonkDelete_own user origin X _ hne hown]
  · intro c hc
    have he : eradicatexonk db user.ID X = saveZonker (deletehonk db c.ID) user.ID X "zonk" := by
      unfold eradicatexonk
      rw [hc]
    have hz : iszonked (eradicatexonk db user.ID X) user.ID X = true := by
      rw [he]
      exact iszonked_saveZonker _ _ _
    refine ⟨he, by rw [he]; rfl, ?_, by rw [he]; rfl, hz,
      fun b => needxonkidX_zonked W _ user X b hz, fun item2 origin2 b =>
        ⟨xonksaver_keeps_zonk W user item2 origin2 _ user.ID X hz,
         needxonkidX_zonked W _ user X b
           (xonksaver_keeps_zonk W user item2 origin2 _ user.ID X hz)⟩⟩
    rw [he]
    show c ∉ db.honks.filter _
    simp
  · intro hc
    unfold eradicatexonk
    rw [hc]

/-- Claim C18, amended, at a `Delete` for a note that the store holds. -/
theorem xonksaver_delete_zonk_witness :
    xonksaver quietWorld alice ownDelete "a.example" storeWithNote =
      (none, ⟨[], [(1, "https://a.example/notes/1", "zonk")], [], 2⟩, []) ∧
    (xonksaver quietWorld alice ownDelete "a.example" storeWithNote =
      (none, eradicatexonk storeWithNote alice.ID "https://a.example/notes/1", []) ∧
    (∀ c, getxonk storeWithNote alice.ID "https://a.example/notes/1" = some c →
      eradicatexonk storeWithNote alice.ID "https://a.example/notes/1" =
        saveZonker (deletehonk storeWithNote c.ID) alice.ID "https://a.example/notes/1" "zonk" ∧
      (eradicatexonk storeWithNote alice.ID "https://a.example/notes/1").honks =
        storeWithNote.honks.filter (fun r => r.ID ≠ c.ID) ∧
      c ∉ (eradicatexonk storeWithNote alice.ID "https://a.example/notes/1").honks ∧
      (eradicatexonk storeWithNote alice.ID "https://a.example/notes/1").zonkers =
        storeWithNote.zonkers ++ [(alice.ID, "https://a.example/notes/1", "zonk")] ∧
      iszonked (eradicatexonk storeWithNote alice.ID "https://a.example/notes/1") alice.ID
        "https://a.example/notes/1" = true ∧
      (∀ b, needxonkidX quietWorld
        (eradicatexonk storeWithNote alice.ID "https://a.example/notes/1") alice
        "https://a.example/notes/1" b = false) ∧
      ∀ (item2 : Junk) (origin2 : String) (b : Bool),
        iszonked (xonksaver quietWorld alice item2 origin2
          (eradicatexonk storeWithNote alice.ID "https://a.example/notes/1")).2.1 alice.ID
          "https://a.example/notes/1" = true ∧
        needxonkidX quietWorld (xonksaver quietWorld alice item2 origin2
          (eradicatexonk storeWithNote alice.ID "https://a.example/notes/1")).2.1 alice
          "https://a.example/notes/1" b = false) ∧
    (getxonk storeWithNote alice.ID "https://a.example/notes/1" = none →
      eradicatexonk storeWithNote alice.ID "https://a.example/notes/1" = storeWithNote)) :=
  ⟨by decide,
   xonksaver_delete_zonk quietWorld alice ownDelete "a.example" storeWithNote
     "https://a.example/notes/1" (by decide) (Or.inl ⟨by decide, Or.inr ⟨rfl, rfl⟩⟩)
     (by decide)⟩

/-! ## The inbox -/

theorem postinbox_checked (E : PEnv) (name : String) (r : httpsig.Request) (body : String)
    (user : WhatAbout) (j : Junk) (h : reachesCheck E name r body user j) :
    postinbox E name r body =
      if (verifyTwice E r (String.mk (body.data.take (1 * 1024 * 1024)))).2.isSome then
        ⟨401, Handler.nothing⟩
      else if keymatch (verifyTwice E r (String.mk (body.data.take (1 * 1024 * 1024)))).1
          (j.GetString "actor").1 = "" then
        ⟨200, forwarded E j (firstofmany j "type")⟩
      else ⟨200, dispatch user j (firstofmany j "type") (j.GetString "actor").1
        (keymatch (verifyTwice E r (String.mk (body.data.take (1 * 1024 * 1024)))).1
          (j.GetString "actor").1)⟩ := by
  obtain ⟨h1, h2, h3, h4, h5, h6⟩ := h
  unfold postinbox
  simp only [h1, h2, h3, h4, h5, h6, not_true_eq_false, if_false, Bool.false_eq_true]

theorem take_mebibyte (s : String) (h : s.data.length ≤ 1 * 1024 * 1024) :
    String.mk (s.data.take (1 * 1024 * 1024)) = s := by
  rw [List.take_of_length_le h]

theorem verifyTwice_fails (E : PEnv) (r : httpsig.Request) (payload : String) :
    (verifyTwice E r payload).2.isSome = true ↔
      (httpsig.VerifyRequest E.L E.now r payload E.zaggy).2.isSome = true ∧
      ((httpsig.VerifyRequest E.L E.now r payload E.zaggy).1 = "" ∨
       (httpsig.VerifyRequest E.L E.again r payload
          (E.savingthrow (httpsig.VerifyRequest E.L E.now r payload E.zaggy).1)).2.isSome =
         true) := by
  unfold verifyTwice
  simp only
  split_ifs with h
  · constructor
    · intro h2; exact ⟨h.1, Or.inr h2⟩
    · rintro ⟨_, h2 | h2⟩
      · exact absurd h2 h.2
      · exact h2
  · constructor
    · intro h2
      refine ⟨h2, Or.inl ?_⟩
      by_contra h3
      exact h ⟨h2, h3⟩
    · intro h2; exact h2.1

theorem verifyTwice_first (E : PEnv) (r : httpsig.Request) (payload : String) (k : String)
    (h : httpsig.VerifyRequest E.L E.now r payload E.zaggy = (k, none)) :
    verifyTwice E r payload = (k, none) := by
  unfold verifyTwice
  simp [h]

theorem forwarded_cases (E : PEnv) (j : Junk) (what : String) :
    (forwarded E j what = Handler.nothing ∨ ∃ xid, forwarded E j what = Handler.grabhonk xid) ∧
    (what ≠ "Create" ∨ E.collectForwards = false → forwarded E j what = Handler.nothing) := by
  unfold forwarded
  constructor
  · simp only
    split_ifs
    · exact Or.inr ⟨_, rfl⟩
    · exact Or.inl rfl
    · exact Or.inl rfl
  · intro h
    rw [if_neg]
    rintro ⟨h1, h2⟩
    rcases h with h | h
    · exact h h2
    · rw [h] at h1; exact absurd h1 (by decide)

theorem originateL_eq_nil (l : List Char) :
    originateL l = [] ↔
      ¬ ∃ pre c rest, l = pre ++ "https://".data ++ c :: rest ∧ hostChar c = true := by
  induction l with
  | nil =>
    simp only [originateL, true_iff]
    rintro ⟨pre, c, rest, h, -⟩
    have := congrArg List.length h
    simp at this
    omega
  | cons a l ih =>
    rw [originateL]
    by_cases hc : "https://".data.isPrefixOf (a :: l) = true ∧
        (((a :: l).drop 8).takeWhile hostChar) ≠ []
    · rw [if_pos hc]
      constructor
      · intro h; exact absurd h hc.2
      · intro h
        exfalso
        apply h
        obtain ⟨hp, hn⟩ := hc
        rw [List.isPrefixOf_iff_prefix] at hp
        obtain ⟨t, ht⟩ := hp
        have hd : (a :: l).drop 8 = t := by
          rw [← ht]
          exact List.drop_left' (by decide)
        rw [hd] at hn
        cases t with
        | nil => simp at hn
        | cons c rest =>
          refine ⟨[], c, rest, by rw [← ht]; rfl, ?_⟩
          by_contra hh
          apply hn
          rw [List.takeWhile_cons]
          simp [hh]
    · rw [if_neg hc, ih]
      constructor
      · intro h ⟨pre, c, rest, e, hh⟩
        cases pre with
        | nil =>
          apply hc
          rw [e]
          refine ⟨?_, ?_⟩
          · rw [List.isPrefixOf_iff_prefix]
            exact ⟨c :: rest, by simp⟩
          · have : ([] ++ "https://".data ++ c :: rest).drop 8 = c :: rest :=
              List.drop_left' (by decide)
            rw [this, List.takeWhile_cons, hh]
            simp
        | cons p pre =>
          apply h
          refine ⟨pre, c, rest, ?_, hh⟩
          simp only [List.cons_append, List.cons.injEq] at e
          exact e.2
      · intro h ⟨pre, c, rest, e, hh⟩
        exact h ⟨a :: pre, c, rest, by rw [e]; rfl, hh⟩

theorem originate_eq_empty (u : String) : originate u = "" ↔ ¬ hasHost u := by
  unfold originate hasHost
  rw [← originateL_eq_nil]
  constructor
  · intro h
    have := congrArg String.data h
    simpa using this
  · intro h
    rw [h]

theorem keymatch_ne_empty (keyname actor : String) :
    keymatch keyname actor ≠ "" ↔ originate keyname = originate actor ∧ originate actor ≠ "" := by
  unfold keymatch
  simp only
  split_ifs with h
  · exact ⟨fun h2 => ⟨h.symm, h2⟩, fun h2 => h2.2⟩
  · exact ⟨fun h2 => absurd rfl h2, fun h2 => absurd h2.1.symm h⟩

theorem keymatch_eq (keyname actor : String) (h : keymatch keyname actor ≠ "") :
    keymatch keyname actor = originate actor ∧ keymatch keyname actor = originate keyname := by
  have h2 := (keymatch_ne_empty keyname actor).1 h
  unfold keymatch
  simp only
  rw [if_pos h2.1.symm]
  exact ⟨rfl, h2.1.symm⟩

theorem postinbox_forged (E : PEnv) (name : String) (r : httpsig.Request) (body : String)
    (user : WhatAbout) (j : Junk) (h : reachesCheck E name r body user j)
    (hv : (verifyTwice E r (String.mk (body.data.take (1 * 1024 * 1024)))).2.isSome = true) :
    postinbox E name r body = ⟨401, Handler.nothing⟩ := by
  rw [postinbox_checked E name r body user j h, if_pos hv]

theorem postinbox_mismatch (E : PEnv) (name : String) (r : httpsig.Request) (body : String)
    (user : WhatAbout) (j : Junk) (h : reachesCheck E name r body user j)
    (hv : (verifyTwice E r (String.mk (body.data.take (1 * 1024 * 1024)))).2 = none)
    (hk : keymatch (verifyTwice E r (String.mk (body.data.take (1 * 1024 * 1024)))).1
      (j.GetString "actor").1 = "") :
    postinbox E name r body = ⟨200, forwarded E j (firstofmany j "type")⟩ := by
  rw [postinbox_checked E name r body user j h, if_neg (by simp [hv]), if_pos hk]

theorem postinbox_matched (E : PEnv) (name : String) (r : httpsig.Request) (body : String)
    (user : WhatAbout) (j : Junk) (h : reachesCheck E name r body user j)
    (hv : (verifyTwice E r (String.mk (body.data.take (1 * 1024 * 1024)))).2 = none)
    (hk : keymatch (verifyTwice E r (String.mk (body.data.take (1 * 1024 * 1024)))).1
      (j.GetString "actor").1 ≠ "") :
    postinbox E name r body = ⟨200, dispatch user j (firstofmany j "type") (j.GetString "actor").1
      (originate (j.GetString "actor").1)⟩ := by
  rw [postinbox_checked E name r body user j h, if_neg (by simp [hv]), if_neg hk,
    (keymatch_eq _ _ hk).1]

theorem eveSigned_eq :
    httpsig.SignRequest httpsig.demoLib (5 * httpsig.Minute) bobKey ⟨httpsig.KeyType.RSA, 3⟩
      httpsig.postInbox evePost = some eveSigned := by
  rfl

theorem eveSigned_verified :
    httpsig.VerifyRequest httpsig.demoLib (6 * httpsig.Minute) (httpsig.asReceived eveSigned)
      evePost (httpsig.demoLookup httpsig.KeyType.RSA bobKey) = (bobKey, none) :=
  httpsig.SignRequest_rsa_verified httpsig.demoLib (5 * httpsig.Minute) (6 * httpsig.Minute)
    bobKey 3 3 httpsig.postInbox eveSigned (httpsig.asReceived eveSigned) evePost
    (httpsig.demoLookup httpsig.KeyType.RSA bobKey) (5 * httpsig.Minute)
    (fun m => by simp [httpsig.demoLib])
    (fun b => by simp [httpsig.demoLib, httpsig.demoDec_demoEnc])
    (fun b => httpsig.demoEnc_no_comma b.data)
    (fun m => httpsig.demoSign_sb64_ne_empty "rsa" 3 m 'r' ['s', 'a'] rfl)
    (by decide) (by decide) rfl eveSigned_eq (by decide) (Or.inl (by decide))
    rfl rfl rfl rfl (by decide) rfl (by decide) (by decide)

theorem eve_reachesCheck :
    reachesCheck inboxEnv "alice" (httpsig.asReceived eveSigned) evePost alice eveFollow := by
  refine ⟨by decide, by decide, rfl, ?_, by decide, rfl⟩
  rw [take_mebibyte _ (by decide)]
  show (if evePost = evePost then some eveFollow else none) = some eveFollow
  exact if_pos rfl

theorem eveTampered_reachesCheck :
    reachesCheck inboxEnv "alice" eveTampered evePost alice eveFollow := by
  refine ⟨by decide, by decide, rfl, ?_, by decide, rfl⟩
  rw [take_mebibyte _ (by decide)]
  show (if evePost = evePost then some eveFollow else none) = some eveFollow
  exact if_pos rfl

theorem eveTampered_fails :
    (verifyTwice inboxEnv eveTampered evePost).2.isSome = true := by
  decide

/-- Claim C24 as stated fails: a `Follow` whose signature verifies under the
key of `https://a.example/u/bob` while its actor is `https://b.example/u/eve`
passes the checks before the signature, `keymatch` returns the empty string,
and `postinbox` returns without writing an answer, which is status 200, not
401. -/
theorem postinbox_mismatch_not_401 :
    reachesCheck inboxEnv "alice" (httpsig.asReceived eveSigned) evePost alice eveFollow ∧
    verifyTwice inboxEnv (httpsig.asReceived eveSigned) evePost = (bobKey, none) ∧
    keymatch bobKey (Junk.GetString eveFollow "actor").1 = "" ∧
    firstofmany eveFollow "type" ≠ "Create" ∧
    postinbox inboxEnv "alice" (httpsig.asReceived eveSigned) evePost = ⟨200, Handler.nothing⟩ := by
  have hv : verifyTwice inboxEnv (httpsig.asReceived eveSigned) evePost = (bobKey, none) :=
    verifyTwice_first inboxEnv _ _ _ eveSigned_verified
  have hk : keymatch bobKey (Junk.GetString eveFollow "actor").1 = "" := by decide
  refine ⟨eve_reachesCheck, hv, hk, by decide, ?_⟩
  rw [postinbox_mismatch inboxEnv "alice" _ evePost alice eveFollow eve_reachesCheck
    (by rw [take_mebibyte _ (by decide), hv]) (by rw [take_mebibyte _ (by decide), hv]; exact hk)]
  decide

/-- Claim C24, amended: for a POST that reaches the signature check of
`postinbox` (ActivityStreams content type, known user, not in stealth mode,
payload parsed, not turned away by `crappola` or `rejectactor`): when the
signature fails verification, that is the first `VerifyRequest` fails and
either names no key or fails again after `savingthrow`, the answer is 401 and
nothing is called; when the signature verifies and `keymatch` returns the empty
string, no answer is written (status 200), the `switch` is not reached, and the
one call that can follow is `grabhonk` on the object of a `Create` when
`collectForwards` is set. -/
theorem postinbox_forgery (E : PEnv) (name : String) (r : httpsig.Request) (body : String)
    (user : WhatAbout) (j : Junk) (h : reachesCheck E name r body user j) :
    ((verifyTwice E r (String.mk (body.data.take (1 * 1024 * 1024)))).2.isSome = true ↔
      (httpsig.VerifyRequest E.L E.now r (String.mk (body.data.take (1 * 1024 * 1024)))
        E.zaggy).2.isSome = true ∧
      ((httpsig.VerifyRequest E.L E.now r (String.mk (body.data.take (1 * 1024 * 1024)))
          E.zaggy).1 = "" ∨
       (httpsig.VerifyRequest E.L E.again r (String.mk (body.data.take (1 * 1024 * 1024)))
          (E.savingthrow (httpsig.VerifyRequest E.L E.now r
            (String.mk (body.data.take (1 * 1024 * 1024))) E.zaggy).1)).2.isSome = true)) ∧
    ((verifyTwice E r (String.mk (body.data.take (1 * 1024 * 1024)))).2.isSome = true →
      postinbox E name r body = ⟨401, Handler.nothing⟩) ∧
    ((verifyTwice E r (String.mk (body.data.take (1 * 1024 * 1024)))).2 = none →
      keymatch (verifyTwice E r (String.mk (body.data.take (1 * 1024 * 1024)))).1
        (j.GetString "actor").1 = "" →
      postinbox E name r body = ⟨200, forwarded E j (firstofmany j "type")⟩ ∧
      (forwarded E j (firstofmany j "type") = Handler.nothing ∨
        ∃ xid, forwarded E j (firstofmany j "type") = Handler.grabhonk xid) ∧
      (firstofmany j "type" ≠ "Create" ∨ E.collectForwards = false →
        postinbox E name r body = ⟨200, Handler.nothing⟩)) := by
  refine ⟨verifyTwice_fails E r _, postinbox_forged E name r body user j h, ?_⟩
  intro hv hk
  have hp := postinbox_mismatch E name r body user j h hv hk
  refine ⟨hp, (forwarded_cases E j _).1, ?_⟩
  intro hc
  rw [hp, (forwarded_cases E j _).2 hc]

/-- Claim C24, amended, at a POST whose `Signature` header was replaced: the
answer is 401. -/
theorem postinbox_forgery_witness :
    reachesCheck inboxEnv "alice" eveTampered evePost alice eveFollow ∧
    (verifyTwice inboxEnv eveTampered evePost).2.isSome = true ∧
    postinbox inboxEnv "alice" eveTampered evePost = ⟨401, Handler.nothing⟩ :=
  ⟨eveTampered_reachesCheck, eveTampered_fails,
   (postinbox_forgery inboxEnv "alice" eveTampered evePost alice eveFollow
      eveTampered_reachesCheck).2.1
     (by rw [take_mebibyte _ (by decide)]; exact eveTampered_fails)⟩

/-- Claim C30: `keymatch(keyname, actor)` is not empty exactly when
`originate(keyname)` and `originate(actor)` are equal and not empty, and it is
then that origin; it is empty when one of the two has no `https://` host or the
hosts differ. In `postinbox`, after a verified signature, the empty string ends
the handler before the `switch` (only the branch for forwarded `Create`s is
run), while a non-empty one is the origin the `switch` works with. -/
theorem keymatch_origin (keyname actor : String) :
    (keymatch keyname actor ≠ "" ↔
      originate keyname = originate actor ∧ originate actor ≠ "") ∧
    (keymatch keyname actor ≠ "" →
      keymatch keyname actor = originate actor ∧ keymatch keyname actor = originate keyname) ∧
    (¬ hasHost keyname ∨ ¬ hasHost actor ∨ originate keyname ≠ originate actor →
      keymatch keyname actor = "") ∧
    (∀ (E : PEnv) (name : String) (r : httpsig.Request) (body : String) (user : WhatAbout)
        (j : Junk),
      reachesCheck E name r body user j →
      verifyTwice E r (String.mk (body.data.take (1 * 1024 * 1024))) = (keyname, none) →
      (j.GetString "actor").1 = actor →
      (keymatch keyname actor = "" →
        postinbox E name r body = ⟨200, forwarded E j (firstofmany j "type")⟩) ∧
      (keymatch keyname actor ≠ "" →
        postinbox E name r body =
          ⟨200, dispatch user j (firstofmany j "type") actor (originate actor)⟩)) := by
  refine ⟨keymatch_ne_empty keyname actor, keymatch_eq keyname actor, ?_, ?_⟩
  · intro h
    by_contra hne
    obtain ⟨h1, h2⟩ := (keymatch_ne_empty keyname actor).1 hne
    rcases h with h | h | h
    · exact h2 (h1 ▸ (originate_eq_empty keyname).2 h)
    · exact h2 ((originate_eq_empty actor).2 h)
    · exact h h1
  · intro E name r body user j hr hv ha
    subst ha
    constructor
    · intro hk
      exact postinbox_mismatch E name r body user j hr (by rw [hv]) (by rw [hv]; exact hk)
    · intro hk
      exact postinbox_matched E name r body user j hr (by rw [hv]) (by rw [hv]; exact hk)

/-- Claim C30 at the key of `https://a.example/u/bob`: with bob as the actor the
result is `a.example`, with `https://b.example/u/eve` it is empty. -/
theorem keymatch_origin_witness :
    keymatch bobKey "https://a.example/u/bob" = "a.example" ∧
    keymatch bobKey "https://b.example/u/eve" = "" :=
  ⟨((keymatch_origin bobKey "https://a.example/u/bob").2.1 (by decide)).1.trans (by decide),
   (keymatch_origin bobKey "https://b.example/u/eve").2.2.1 (Or.inr (Or.inr (by decide)))⟩

namespace httpsig

theorem signLoop_post (L : Lib) (now : Int) (content : String) (req : Request)
    (hm : ToLower req.Method ≠ "get") :
    (signLoop L now content (signHeaders req) req []).1 =
      (signHeader L now content
        (signHeader L now content (signHeader L now content req "date").1 "host").1 "digest").1 := by
  unfold signHeaders
  rw [if_pos hm]
  simp only [List.cons_append, List.nil_append, signLoop, signHeader_target,
    signHeader_content_type]

theorem signHeader_date_value (L : Lib) (now : Int) (content : String) (req : Request) :
    (signHeader L now content req "date").1.Header.Get "date" =
      if req.Header.Get "date" = "" then L.timeFormat now else req.Header.Get "date" := by
  unfold signHeader
  rw [if_neg (by decide), if_pos rfl]
  simp only
  split_ifs <;> simp [Header.get_set]

theorem signHeader_host_value (L : Lib) (now : Int) (content : String) (req : Request) :
    (signHeader L now content req "host").1.Header.Get "host" =
      if req.Header.Get "host" = "" then req.URL.Hostname else req.Header.Get "host" := by
  unfold signHeader
  rw [if_neg (by decide), if_neg (by decide), if_pos rfl]
  simp only
  split_ifs <;> simp [Header.get_set]

theorem signHeader_digest_value (L : Lib) (now : Int) (content : String) (req : Request) :
    (signHeader L now content req "digest").1.Header.Get "digest" =
      if req.Header.Get "digest" = "" then "SHA-256=" ++ sb64sha256 L content
      else req.Header.Get "digest" := by
  unfold signHeader
  rw [if_neg (by decide), if_neg (by decide), if_neg (by decide), if_neg (by decide), if_pos rfl]
  simp only
  split_ifs <;> simp [Header.get_set]

theorem SignRequest_header (L : Lib) (now : Int) (keyname : String) (key : PrivateKey)
    (req signed : Request) (content : String)
    (hs : SignRequest L now keyname key req content = some signed) :
    signed.Method = req.Method ∧ signed.URL = req.URL ∧
    ∀ k, ToLower k ≠ "signature" →
      signed.Header.Get k = (signLoop L now content (signHeaders req) req []).1.Header.Get k := by
  unfold SignRequest signRequest at hs
  simp only at hs
  cases hsg : key.Sign L (if key.Typ = KeyType.RSA then
      L.sha256 (Join (signLoop L now content (signHeaders req) req []).2 "\n")
      else Join (signLoop L now content (signHeaders req) req []).2 "\n") with
  | none => simp [hsg] at hs
  | some sig =>
    simp only [hsg, Option.some.injEq] at hs
    rw [← hs]
    refine ⟨(signLoop_request L now content _ req []).1, (signLoop_request L now content _ req []).2,
      ?_⟩
    intro k hk
    exact Header.get_set_ne _ _ _ _ hk

theorem sha256_header_ne_empty (x : String) : "SHA-256=" ++ x ≠ "" := by
  intro h
  have := congrArg String.length h
  simp only [String.length_append] at this
  have l1 : ("SHA-256=" : String).length = 8 := by decide
  have l2 : ("" : String).length = 0 := by decide
  rw [l1, l2] at this
  omega

/-- Claim C21 as stated fails: a POST without a `Content-Type` header, signed
by `SignRequest`, still has none afterwards, while `Date`, `Host` and `Digest`
have been set. -/
theorem SignRequest_leaves_content_type_unset :
    bareInbox.Header.Get "Content-Type" = "" ∧
    ToLower bareInbox.Method ≠ "get" ∧
    (SignRequest demoLib (5 * Minute) "k" ⟨KeyType.RSA, 3⟩ bareInbox "hello").isSome = true ∧
    (signedOr demoLib (5 * Minute) "k" ⟨KeyType.RSA, 3⟩ bareInbox "hello").Header.Get
      "Content-Type" = "" ∧
    (signedOr demoLib (5 * Minute) "k" ⟨KeyType.RSA, 3⟩ bareInbox "hello").Header.Get
      "Host" = "example.com" ∧
    (signedOr demoLib (5 * Minute) "k" ⟨KeyType.RSA, 3⟩ bareInbox "hello").Header.Get
      "Date" = "mmmmm" := by
  decide

/-- Claim C21, amended: after `SignRequest` on a request whose method is not
GET, a `Date`, `Host` or `Digest` header that was absent has been set (`Date`
to the formatted clock, `Host` to the host name of the URL, `Digest` to
`SHA-256=` followed by the base64 SHA-256 of the body) and one that was present
keeps its value, so `Digest` is not empty, `Date` is not empty when the
formatted clock is not, and `Host` is empty only when the URL has no host name
either; `Content-Type` is read and signed but never set, so it is as before;
method, URL and every header other than `Date`, `Host`, `Digest` and
`Signature` are unchanged. -/
theorem SignRequest_sets_headers (L : Lib) (now : Int) (keyname : String) (key : PrivateKey)
    (req signed : Request) (content : String)
    (hs : SignRequest L now keyname key req content = some signed)
    (hm : ToLower req.Method ≠ "get") :
    signed.Header.Get "Date" =
      (if req.Header.Get "Date" = "" then L.timeFormat now else req.Header.Get "Date") ∧
    signed.Header.Get "Host" =
      (if req.Header.Get "Host" = "" then req.URL.Hostname else req.Header.Get "Host") ∧
    signed.Header.Get "Digest" =
      (if req.Header.Get "Digest" = "" then "SHA-256=" ++ sb64sha256 L content
       else req.Header.Get "Digest") ∧
    signed.Header.Get "Content-Type" = req.Header.Get "Content-Type" ∧
    signed.Header.Get "Digest" ≠ "" ∧
    (L.timeFormat now ≠ "" → signed.Header.Get "Date" ≠ "") ∧
    (signed.Header.Get "Host" = "" ↔ req.Header.Get "Host" = "" ∧ req.URL.Hostname = "") ∧
    signed.Method = req.Method ∧ signed.URL = req.URL ∧
    ∀ k, ToLower k ≠ "date" → ToLower k ≠ "host" → ToLower k ≠ "digest" →
      ToLower k ≠ "signature" → signed.Header.Get k = req.Header.Get k := by
  obtain ⟨e1, e2, e3⟩ := SignRequest_header L now keyname key req signed content hs
  have hdate : signed.Header.Get "Date" =
      (if req.Header.Get "Date" = "" then L.timeFormat now else req.Header.Get "Date") := by
    rw [e3 "Date" (by decide), signLoop_post L now content req hm,
      signHeader_get_ne _ _ _ _ "digest" "Date" (by decide),
      signHeader_get_ne _ _ _ _ "host" "Date" (by decide)]
    exact signHeader_date_value L now content req
  have hhost : signed.Header.Get "Host" =
      (if req.Header.Get "Host" = "" then req.URL.Hostname else req.Header.Get "Host") := by
    rw [e3 "Host" (by decide), signLoop_post L now content req hm,
      signHeader_get_ne _ _ _ _ "digest" "Host" (by decide)]
    have h1 := signHeader_host_value L now content (signHeader L now content req "date").1
    have h2 : (signHeader L now content req "date").1.Header.Get "host" = req.Header.Get "host" :=
      signHeader_get_ne _ _ _ _ "date" "host" (by decide)
    rw [h2, (signHeader_request L now content req "date").2] at h1
    exact h1
  have hdig : signed.Header.Get "Digest" =
      (if req.Header.Get "Digest" = "" then "SHA-256=" ++ sb64sha256 L content
       else req.Header.Get "Digest") := by
    rw [e3 "Digest" (by decide), signLoop_post L now content req hm]
    have h1 := signHeader_digest_value L now content
      (signHeader L now content (signHeader L now content req "date").1 "host").1
    have h2 : (signHeader L now content (signHeader L now content req "date").1
        "host").1.Header.Get "digest" = req.Header.Get "digest" := by
      rw [signHeader_get_ne _ _ _ _ "host" "digest" (by decide),
        signHeader_get_ne _ _ _ _ "date" "digest" (by decide)]
    rw [h2] at h1
    exact h1
  refine ⟨hdate, hhost, hdig, ?_, ?_, ?_, ?_, e1, e2, ?_⟩
  · rw [e3 "Content-Type" (by decide), signLoop_post L now content req hm,
      signHeader_get_ne _ _ _ _ "digest" "Content-Type" (by decide),
      signHeader_get_ne _ _ _ _ "host" "Content-Type" (by decide),
      signHeader_get_ne _ _ _ _ "date" "Content-Type" (by decide)]
  · rw [hdig]
    split_ifs with h
    · exact sha256_header_ne_empty _
    · exact h
  · intro ht
    rw [hdate]
    split_ifs with h
    · exact ht
    · exact h
  · rw [hhost]
    split_ifs with h
    · exact ⟨fun h2 => ⟨h, h2⟩, fun h2 => h2.2⟩
    · exact ⟨fun h2 => absurd h2 h, fun h2 => absurd h2.1 h⟩
  · intro k k1 k2 k3 k4
    rw [e3 k k4, signLoop_post L now content req hm,
      signHeader_get_ne _ _ _ _ "digest" k k3,
      signHeader_get_ne _ _ _ _ "host" k k2,
      signHeader_get_ne _ _ _ _ "date" k k1]

/-- Claim C21, amended, at the POST `bareInbox` signed with RSA key 3 of
`demoLib` at minute 5. -/
theorem SignRequest_sets_headers_witness :
    SignRequest demoLib (5 * Minute) "k" ⟨KeyType.RSA, 3⟩ bareInbox "hello" =
      some (signedOr demoLib (5 * Minute) "k" ⟨KeyType.RSA, 3⟩ bareInbox "hello") ∧
    ToLower bareInbox.Method ≠ "get" ∧
    (signedOr demoLib (5 * Minute) "k" ⟨KeyType.RSA, 3⟩ bareInbox "hello").Header.Get
      "Digest" ≠ "" ∧
    (signedOr demoLib (5 * Minute) "k" ⟨KeyType.RSA, 3⟩ bareInbox "hello").Header.Get
      "Content-Type" = bareInbox.Header.Get "Content-Type" :=
  ⟨rfl, by decide,
   (SignRequest_sets_headers demoLib (5 * Minute) "k" ⟨KeyType.RSA, 3⟩ bareInbox
      (signedOr demoLib (5 * Minute) "k" ⟨KeyType.RSA, 3⟩ bareInbox "hello") "hello"
      rfl (by decide)).2.2.2.2.1,
   (SignRequest_sets_headers demoLib (5 * Minute) "k" ⟨KeyType.RSA, 3⟩ bareInbox
      (signedOr demoLib (5 * Minute) "k" ⟨KeyType.RSA, 3⟩ bareInbox "hello") "hello"
      rfl (by decide)).2.2.2.1⟩

end httpsig

/-! ## Hashtags -/

theorem xonkRecord_onts (W : World) (user : WhatAbout) (rec : XonkFn) (item : Junk)
    (origin : String) (isUpdate : Bool) (bonker : String) (myown : Bool) (what typ : String)
    (waspage : Bool) (s : XState) (x : Honk)
    (h : (xonkRecord W user rec item origin isUpdate bonker myown what typ waspage s).1 = some x) :
    x.Onts = oneofakind (ontsOf (oneforall item "tag")) := by
  unfold xonkRecord at h
  simp only at h
  by_cases h1 : (item.GetString "id").1 = ""
  · rw [if_pos h1] at h
    simp at h
  · rw [if_neg h1] at h
    by_cases h2 : originate (item.GetString "id").1 ≠ origin ∧ ¬ W.develMode = true ∧ origin ≠ ""
    · rw [if_pos h2] at h
      simp at h
    · rw [if_neg h2] at h
      by_cases h3 : myown = true ∧ honkerOf item ≠ user.URL
      · rw [if_pos h3] at h
        simp at h
      · rw [if_neg h3] at h
        by_cases h4 : originate (honkerOf item) ≠ origin
        · rw [if_pos h4] at h
          simp at h
        · rw [if_neg h4] at h
          generalize (if honkerOf item = "" then extractattrto item else honkerOf item) =
            honker1 at h
          generalize (if bonker ≠ "" then bonker else honker1) = honker at h
          generalize (if bonker ≠ "" then honker1 else "") = oonker0 at h
          generalize (if typ = "Question" ∧ (if bonker ≠ "" then "bonk" else what) = "honk"
            then "qonk" else if bonker ≠ "" then "bonk" else what) = what1 at h
          generalize (if user.InlineQuotes = true then
              qutify W user rec (item.GetString "quoteUrl").1 (W.noise typ waspage item) s
            else (W.noise typ waspage item, s)) = q at h
          generalize (if oonker0 = honker then "" else oonker0) = oonker at h
          generalize (if q.2.currenttid = "" then
              ({ q.2 with currenttid := convoyOf item } : XState) else q.2) = s1 at h
          split_ifs at h with h5
          obtain ⟨-, -, -, -, -, -, -, -, e9, -⟩ := xonkSave_fields _ _ _ _ _ _ _ _ _ _ h
          exact e9

theorem hashtagOf_eq (tag : Junk) (h1 : (Junk.GetString tag "type").1 = "Hashtag")
    (h2 : (Junk.GetString tag "name").1 ≠ "") (h3 : (Junk.GetString tag "name").1 ≠ "#") :
    hashtagOf tag = [ontOf (Junk.GetString tag "name").1] := by
  unfold hashtagOf ontOf
  simp only [h1, if_true]
  rw [if_neg (by tauto)]
  split_ifs <;> rfl

theorem hashtagOf_mem (tag : Junk) (o : String) (h : o ∈ hashtagOf tag) :
    (Junk.GetString tag "type").1 = "Hashtag" ∧ (Junk.GetString tag "name").1 ≠ "" ∧
    (Junk.GetString tag "name").1 ≠ "#" ∧ o = ontOf (Junk.GetString tag "name").1 := by
  unfold hashtagOf at h
  simp only at h
  by_cases h1 : (Junk.GetString tag "type").1 = "Hashtag"
  · rw [if_pos h1] at h
    by_cases h2 : (Junk.GetString tag "name").1 = "" ∨ (Junk.GetString tag "name").1 = "#"
    · rw [if_pos h2] at h
      simp at h
    · rw [if_neg h2] at h
      refine ⟨h1, fun e => h2 (Or.inl e), fun e => h2 (Or.inr e), ?_⟩
      unfold ontOf
      split_ifs at h ⊢ <;> simpa using h
  · rw [if_neg h1] at h
    simp at h

theorem mem_ontsOf (o : String) : ∀ l : List JVal,
    o ∈ ontsOf l ↔ ∃ tag, JVal.map tag ∈ l ∧ o ∈ hashtagOf tag := by
  intro l
  induction l with
  | nil => simp [ontsOf]
  | cons v rest ih =>
    cases v with
    | map tag =>
      rw [ontsOf, List.mem_append, ih]
      constructor
      · rintro (h | ⟨t, h1, h2⟩)
        · exact ⟨tag, List.mem_cons_self _ _, h⟩
        · exact ⟨t, List.mem_cons_of_mem _ h1, h2⟩
      · rintro ⟨t, h1, h2⟩
        rcases List.mem_cons.1 h1 with e | h1
        · injection e with e
          subst e
          exact Or.inl h2
        · exact Or.inr ⟨t, h1, h2⟩
    | _ =>
      rw [ontsOf, ih]
      · constructor
        · rintro ⟨t, h1, h2⟩
          exact ⟨t, List.mem_cons_of_mem _ h1, h2⟩
        · rintro ⟨t, h1, h2⟩
          rcases List.mem_cons.1 h1 with e | h1
          · cases e
          · exact ⟨t, h1, h2⟩
      · intro t e
        cases e

theorem ontOf_head (name : String) : (ontOf name).data.head? = some '#' := by
  unfold ontOf
  split_ifs with h1
  · rfl
  · simpa using h1

theorem ontOf_ne_empty (name : String) : ontOf name ≠ "" := by
  intro e
  have := ontOf_head name
  rw [e] at this
  simp at this

theorem xonkRecord_hashtags (W : World) (user : WhatAbout) (rec : XonkFn) (item : Junk)
    (origin : String) (isUpdate : Bool) (bonker : String) (myown : Bool) (what typ : String)
    (waspage : Bool) (s : XState) (x : Honk)
    (h : (xonkRecord W user rec item origin isUpdate bonker myown what typ waspage s).1 = some x) :
    x.Onts = oneofakind (ontsOf (oneforall item "tag")) ∧
    x.Onts.Nodup ∧
    (∀ o, o ∈ x.Onts ↔ ∃ name, hasHashtag item name ∧ name ≠ "" ∧ name ≠ "#" ∧ o = ontOf name) ∧
    (∀ o ∈ x.Onts, o.data.head? = some '#') := by
  have e := xonkRecord_onts W user rec item origin isUpdate bonker myown what typ waspage s x h
  have hm : ∀ o, o ∈ x.Onts ↔
      ∃ name, hasHashtag item name ∧ name ≠ "" ∧ name ≠ "#" ∧ o = ontOf name := by
    intro o
    rw [e, mem_oneofakind, mem_ontsOf]
    constructor
    · rintro ⟨⟨tag, h1, h2⟩, -⟩
      obtain ⟨a, b, c, d⟩ := hashtagOf_mem tag o h2
      exact ⟨_, ⟨tag, h1, a, rfl⟩, b, c, d⟩
    · rintro ⟨name, ⟨tag, h1, a, b⟩, c, d, f⟩
      subst b
      refine ⟨⟨tag, h1, ?_⟩, ?_⟩
      · rw [hashtagOf_eq tag a c d, f]
        exact List.mem_singleton_self _
      · rw [f]
        exact ontOf_ne_empty _
  refine ⟨e, e ▸ nodup_oneofakind _, hm, ?_⟩
  intro o ho
  obtain ⟨name, -, -, -, f⟩ := (hm o).1 ho
  rw [f]
  exact ontOf_head name

/-- Claim C25 as stated fails: the note `noteCats` carries the hashtags `#Cats`
and `cats`; the record that `xonksaver` returns and saves has the ontologies
`#Cats` and `#cats`, the first of which is not in lower case. -/
theorem xonksaver_hashtag_case_kept :
    ∃ x, (xonksaver quietWorld alice noteCats "a.example" emptyStore).1 = some x ∧
      x.Onts = ["#Cats", "#cats"] ∧ x.Onts ≠ x.Onts.map ToLower ∧
      (xonksaver quietWorld alice noteCats "a.example" emptyStore).2.1.honks =
        [{ x with ID := 1 }] := by
  refine ⟨_, rfl, by decide, by decide, by decide⟩

/-- Claim C25, amended: in a record that `xonksaver` returns for an object of a
record type, the ontologies are the names of the object's `Hashtag` tags that
are neither empty nor `#`, each as it was received (not lower-cased) with a `#`
put in front when it does not start with one, in order of first occurrence and
without repetition; every ontology of the record begins with `#`. -/
theorem xonksaver_hashtags (W : World) (user : WhatAbout) (item : Junk) (origin : String)
    (db : Store) (x : Honk) (ht : firstofmany item "type" ∈ recordTypes)
    (hx : (xonksaver W user item origin db).1 = some x) :
    x.Onts = oneofakind (ontsOf (oneforall item "tag")) ∧
    x.Onts.Nodup ∧
    (∀ o, o ∈ x.Onts ↔ ∃ name, hasHashtag item name ∧ name ≠ "" ∧ name ≠ "#" ∧ o = ontOf name) ∧
    (∀ o ∈ x.Onts, o.data.head? = some '#') := by
  obtain ⟨what, waspage, e⟩ := xonksaver_record W user item origin db ht
  rw [e] at hx
  exact xonkRecord_hashtags W user _ item origin false "" false what _ waspage _ x hx

/-- Claim C25, amended, at the note `noteCats`. -/
theorem xonksaver_hashtags_witness :
    firstofmany noteCats "type" ∈ recordTypes ∧
    ∃ x, (xonksaver quietWorld alice noteCats "a.example" emptyStore).1 = some x ∧
      x.Onts = ["#Cats", "#cats"] ∧ ∀ o ∈ x.Onts, o.data.head? = some '#' :=
  ⟨by decide, _, rfl, by decide,
    (xonksaver_hashtags quietWorld alice noteCats "a.example" emptyStore _ (by decide) rfl).2.2.2⟩

/-! ## The limiter of the garage -/

namespace gate

theorem split_at_index {α : Type} : ∀ (l : List α) (i : Nat) (o : α), l[i]? = some o →
    ∃ l1 l2, l = l1 ++ o :: l2 ∧ ∀ n, l.set i n = l1 ++ n :: l2 := by
  intro l
  induction l with
  | nil => intro i o h; simp at h
  | cons a l ih =>
    intro i o h
    cases i with
    | zero =>
      simp only [List.getElem?_cons_zero, Option.some.injEq] at h
      subst h
      exact ⟨[], l, rfl, fun n => rfl⟩
    | succ i =>
      simp only [List.getElem?_cons_succ] at h
      obtain ⟨l1, l2, e, hs⟩ := ih i o h
      refine ⟨a :: l1, l2, by rw [e]; rfl, fun n => ?_⟩
      simp only [List.set_cons_succ, hs, List.cons_append]

theorem holders_append (a b : List Op) : holders (a ++ b) = holders a ++ holders b := by
  simp [holders]

theorem holders_cons (o : Op) (l : List Op) :
    holders (o :: l) = if o.pc = Pc.running then o.key :: holders l else holders l := by
  unfold holders
  by_cases h : o.pc = Pc.running
  · simp [h]
  · simp [h]

theorem holders_wake (l : List Op) : holders (l.map wake) = holders l := by
  induction l with
  | nil => rfl
  | cons o l ih =>
    rw [List.map_cons, holders_cons, holders_cons, ih]
    unfold wake
    by_cases h : o.pc = Pc.asleep
    · simp [h]
    · simp [h]

theorem holding_eq_count (ops : List Op) (k : String) :
    holding ops k = (holders ops).count k := by
  induction ops with
  | nil => rfl
  | cons o l ih =>
    rw [holders_cons]
    simp only [holding, Bool.decide_and] at ih ⊢
    by_cases h : o.pc = Pc.running
    · by_cases hk : o.key = k
      · simp [h, hk, ih]
      · simp [h, hk, ih, List.count_cons]
    · simp [h, ih]

theorem tryStart_sound (l : Limiter) (ops : List Op) (i : Nat) (key : String) (pc : Pc)
    (hpc : pc ≠ Pc.running) (hi : ops[i]? = some ⟨key, pc⟩) (hs : Sound ⟨l, ops⟩) :
    Sound ⟨(tryStart l key).1, ops.set i ⟨key, (tryStart l key).2⟩⟩ := by
  obtain ⟨l1, l2, e, hset⟩ := split_at_index ops i _ hi
  obtain ⟨h1, h2, h3, h4⟩ := hs
  simp only at h1 h2 h3 h4
  have hh : holders ops = holders l1 ++ holders l2 := by
    rw [e, holders_append, holders_cons, if_neg hpc]
  unfold tryStart
  by_cases hb : l.numout ≥ l.maxout ∨ key ∈ l.busy
  · rw [if_pos hb]
    refine ⟨?_, h2, h3, h4⟩
    show l.busy.Perm (holders (ops.set i ⟨key, Pc.asleep⟩))
    rw [hset, holders_append, holders_cons, if_neg (by simp), ← hh]
    exact h1
  · rw [if_neg hb]
    have hk : key ∉ l.busy := fun h => hb (Or.inr h)
    have hn : ¬ l.numout ≥ l.maxout := fun h => hb (Or.inl h)
    have hsk : setKey l.busy key = l.busy ++ [key] := by
      unfold setKey
      rw [if_neg hk]
    refine ⟨?_, ?_, ?_, ?_⟩
    · show (setKey l.busy key).Perm (holders (ops.set i ⟨key, Pc.running⟩))
      rw [hset, holders_append, holders_cons, if_pos rfl, hsk]
      refine (List.perm_append_singleton key l.busy).trans ?_
      refine List.Perm.trans ?_ List.perm_middle.symm
      rw [← hh]
      exact List.Perm.cons key h1
    · show (setKey l.busy key).Nodup
      rw [hsk]
      exact List.Nodup.append h2 (List.nodup_singleton key) (by simpa using hk)
    · show l.numout + 1 = ((setKey l.busy key).length : Int)
      rw [hsk, List.length_append, h3]
      simp
    · show l.numout + 1 ≤ l.maxout
      omega

theorem finish_sound (l : Limiter) (ops : List Op) (i : Nat) (key : String)
    (hi : ops[i]? = some ⟨key, Pc.running⟩) (hs : Sound ⟨l, ops⟩) :
    Sound ⟨release l key, (ops.set i ⟨key, Pc.finished⟩).map wake⟩ := by
  obtain ⟨l1, l2, e, hset⟩ := split_at_index ops i _ hi
  obtain ⟨h1, h2, h3, h4⟩ := hs
  simp only at h1 h2 h3 h4
  have hh : holders ops = holders l1 ++ key :: holders l2 := by
    rw [e, holders_append, holders_cons, if_pos rfl]
  have hp : l.busy.Perm (key :: (holders l1 ++ holders l2)) := by
    rw [hh] at h1
    exact h1.trans List.perm_middle
  have hnd : (key :: (holders l1 ++ holders l2)).Nodup := hp.nodup_iff.1 h2
  have hk : key ∉ holders l1 ++ holders l2 := (List.nodup_cons.1 hnd).1
  have hf : (l.busy.filter (fun k => k ≠ key)).Perm (holders l1 ++ holders l2) := by
    refine (hp.filter _).trans ?_
    rw [List.filter_cons_of_neg (by simp)]
    rw [List.filter_eq_self.2]
    intro a ha
    have : a ≠ key := fun e2 => hk (e2 ▸ ha)
    simpa using this
  refine ⟨?_, ?_, ?_, ?_⟩
  · show (l.busy.filter (fun k => k ≠ key)).Perm _
    rw [holders_wake, hset, holders_append, holders_cons, if_neg (by simp)]
    exact hf
  · exact h2.filter _
  · show l.numout - 1 = ((l.busy.filter (fun k => k ≠ key)).length : Int)
    rw [hf.length_eq, h3, hp.length_eq]
    simp
  · show l.numout - 1 ≤ l.maxout
    omega

theorem step_sound (g g1 : Garage) (a : Act) (h : step g a = some g1) (hs : Sound g) :
    Sound g1 := by
  cases a with
  | start i =>
    unfold step at h
    cases ho : g.ops[i]? with
    | none => simp [ho] at h
    | some o =>
      obtain ⟨key, pc⟩ := o
      cases pc <;> simp [ho] at h
      subst h
      exact tryStart_sound g.l g.ops i key Pc.idle (by decide) ho hs
  | resume i =>
    unfold step at h
    cases ho : g.ops[i]? with
    | none => simp [ho] at h
    | some o =>
      obtain ⟨key, pc⟩ := o
      cases pc <;> simp [ho] at h
      subst h
      exact tryStart_sound ⟨g.l.maxout, g.l.numout, g.l.waiting - 1, g.l.busy⟩ g.ops i key
        Pc.awake (by decide) ho hs
  | finish i =>
    unfold step at h
    cases ho : g.ops[i]? with
    | none => simp [ho] at h
    | some o =>
      obtain ⟨key, pc⟩ := o
      cases pc <;> simp only [ho, reduceCtorEq, Option.some.injEq] at h
      subst h
      exact finish_sound g.l g.ops i key ho hs

theorem run_sound : ∀ (acts : List Act) (g g1 : Garage), run acts g = some g1 → Sound g →
    Sound g1 := by
  intro acts
  induction acts with
  | nil =>
    intro g g1 h hs
    simp only [run, Option.some.injEq] at h
    exact h ▸ hs
  | cons a as ih =>
    intro g g1 h hs
    rw [run] at h
    cases hst : step g a with
    | none => simp [hst] at h
    | some g2 =>
      rw [hst] at h
      exact ih g2 g1 h (step_sound g g2 a hst hs)

theorem opened_sound (maxout : Int) (keys : List String) (h : 0 ≤ maxout) :
    Sound (opened maxout keys) := by
  have hh : holders (keys.map fun k => (⟨k, Pc.idle⟩ : Op)) = [] := by
    induction keys with
    | nil => rfl
    | cons k ks ih => rw [List.map_cons, holders_cons, if_neg (by simp), ih]
  refine ⟨?_, List.nodup_nil, rfl, h⟩
  show ([] : List String).Perm (holders (keys.map fun k => (⟨k, Pc.idle⟩ : Op)))
  rw [hh]

theorem tryStart_maxout (l : Limiter) (key : String) : (tryStart l key).1.maxout = l.maxout := by
  unfold tryStart
  split_ifs <;> rfl

theorem step_maxout (g g1 : Garage) (a : Act) (h : step g a = some g1) :
    g1.l.maxout = g.l.maxout := by
  cases a with
  | start i =>
    unfold step at h
    cases ho : g.ops[i]? with
    | none => simp [ho] at h
    | some o =>
      obtain ⟨key, pc⟩ := o
      cases pc <;> simp only [ho, reduceCtorEq, Option.some.injEq] at h
      subst h
      exact tryStart_maxout _ _
  | resume i =>
    unfold step at h
    cases ho : g.ops[i]? with
    | none => simp [ho] at h
    | some o =>
      obtain ⟨key, pc⟩ := o
      cases pc <;> simp only [ho, reduceCtorEq, Option.some.injEq] at h
      subst h
      exact tryStart_maxout _ _
  | finish i =>
    unfold step at h
    cases ho : g.ops[i]? with
    | none => simp [ho] at h
    | some o =>
      obtain ⟨key, pc⟩ := o
      cases pc <;> simp only [ho, reduceCtorEq, Option.some.injEq] at h
      subst h
      rfl

theorem run_maxout : ∀ (acts : List Act) (g g1 : Garage), run acts g = some g1 →
    g1.l.maxout = g.l.maxout := by
  intro acts
  induction acts with
  | nil =>
    intro g g1 h
    simp only [run, Option.some.injEq] at h
    rw [h]
  | cons a as ih =>
    intro g g1 h
    rw [run] at h
    cases hst : step g a with
    | none => simp [hst] at h
    | some g2 =>
      rw [hst] at h
      rw [ih g2 g1 h, step_maxout g g2 a hst]

/-- Claim C23: in every state that the operations of a limiter with
`maxout ≥ 0` (40 for the garage) reach from the start by `StartKey` and
`FinishKey`, no key is held by two operations, and the number of operations
between `StartKey` and `FinishKey` is `numout`, is the number of busy keys
(which are the keys held, none twice) and is at most `maxout`. -/
theorem limiter_invariant (maxout : Int) (keys : List String) (acts : List Act) (g : Garage)
    (hm : 0 ≤ maxout) (h : run acts (opened maxout keys) = some g) :
    (∀ k, holding g.ops k ≤ 1) ∧
    ((g.ops.filter fun o => o.pc = Pc.running).length : Int) = g.l.numout ∧
    g.l.numout = g.l.busy.length ∧
    g.l.numout ≤ g.l.maxout ∧ g.l.maxout = maxout ∧
    g.l.busy.Nodup ∧ g.l.busy.Perm (holders g.ops) := by
  obtain ⟨h1, h2, h3, h4⟩ := run_sound acts _ g h (opened_sound maxout keys hm)
  refine ⟨?_, ?_, h3, h4, run_maxout acts _ g h, h2, h1⟩
  · intro k
    rw [holding_eq_count, ← h1.count_eq]
    exact List.nodup_iff_count_le_one.1 h2 k
  · rw [h3, h1.length_eq]
    simp [holders]

/-- Claim C23 at the garage with three deliveries, two of them to one inbox:
after all three have called `StartKey`, one delivery to each inbox is under
way and the other one sleeps. -/
theorem limiter_invariant_witness :
    (0 : Int) ≤ 40 ∧
    run [Act.start 0, Act.start 1, Act.start 2] (opened 40 threeOps) = some threeStarted ∧
    (∀ k, holding threeStarted.ops k ≤ 1) ∧ threeStarted.l.numout ≤ 40 :=
  ⟨by decide, by decide,
   (limiter_invariant 40 threeOps [Act.start 0, Act.start 1, Act.start 2] threeStarted
      (by decide) (by decide)).1,
   (limiter_invariant 40 threeOps [Act.start 0, Act.start 1, Act.start 2] threeStarted
      (by decide) (by decide)).2.2.2.1⟩

end gate

/-! ## The fetch cache -/

namespace gencache

theorem Map.get_filter_ne {V : Type} (m : Map V) (key k : String) :
    Map.get (m.filter fun e => e.1 ≠ key) k = if k = key then none else Map.get m k := by
  induction m with
  | nil => simp [Map.get]
  | cons e m ih =>
    obtain ⟨a, v⟩ := e
    unfold Map.get at ih ⊢
    by_cases ha : a = key
    · rw [List.filter_cons_of_neg (by simp [ha]), ih]
      by_cases hk : k = key
      · simp [hk]
      · have : (k == a) = false := by simp [ha, hk]
        simp [hk, List.lookup_cons, this]
    · rw [List.filter_cons_of_pos (by simp [ha])]
      by_cases hk : k = a
      · subst hk
        simp [List.lookup_cons, ha]
      · have : (k == a) = false := by simp [hk]
        simp only [List.lookup_cons, this, ih]

theorem Map.get_put {V : Type} (m : Map V) (key k : String) (v : V) :
    (m.put key v).get k = if k = key then some v else m.get k := by
  unfold Map.put
  by_cases hk : k = key
  · subst hk
    simp [Map.get, List.lookup_cons]
  · have : (k == key) = false := by simp [hk]
    have h2 := Map.get_filter_ne m key k
    rw [if_neg hk] at h2
    rw [if_neg hk, ← h2]
    simp only [Map.get, List.lookup_cons, this]

theorem Map.get_delete {V : Type} (m : Map V) (key k : String) :
    (m.delete key).get k = if k = key then none else m.get k :=
  Map.get_filter_ne m key k

theorem wakeAll_length {V : Type} (key : String) (ws : List Nat) :
    ∀ cs : List (String × Pc V), (wakeAll key ws cs).length = cs.length := by
  induction ws with
  | nil => intro cs; rfl
  | cons w ws ih =>
    intro cs
    unfold wakeAll at ih ⊢
    rw [List.foldl_cons, ih, List.length_set]

theorem wakeAll_get {V : Type} (key : String) (ws : List Nat) :
    ∀ (cs : List (String × Pc V)) (j : Nat),
      (wakeAll key ws cs)[j]? =
        if j ∈ ws ∧ j < cs.length then some (key, Pc.woken) else cs[j]? := by
  induction ws with
  | nil => intro cs j; simp [wakeAll]
  | cons w ws ih =>
    intro cs j
    unfold wakeAll at ih ⊢
    rw [List.foldl_cons, ih, List.length_set, List.getElem?_set]
    by_cases hj : j < cs.length
    · by_cases h1 : j ∈ ws
      · simp [h1, hj]
      · by_cases h2 : w = j
        · subst h2
          simp [h1, hj]
        · have : j ≠ w := fun e => h2 e.symm
          simp [h1, h2, this]
    · have : cs[j]? = none := by
        rw [List.getElem?_eq_none_iff]
        omega
      by_cases h2 : w = j
      · subst h2
        simp [hj, this]
      · simp [hj, h2]

end gencache
namespace gencache

theorem get_set_of_some {α : Type} (cs : List α) (i j : Nat) (x a : α) (h : cs[i]? = some x) :
    (cs.set i a)[j]? = if j = i then some a else cs[j]? := by
  have hi : i < cs.length := by
    by_contra hn
    rw [List.getElem?_eq_none_iff.2 (by omega)] at h
    cases h
  rw [List.getElem?_set]
  by_cases e : i = j
  · subst e
    simp [hi]
  · have : j ≠ i := fun e2 => e e2.symm
    simp [e, this]

theorem fills_not_idle {V : Type} (cs : List (String × Pc V)) (i : Nat) (key key0 : String)
    (pc : Pc V) (h : cs[i]? = some (key0, pc)) (hp : pc.idle = true) : ¬ fills cs i key := by
  rintro ⟨s, hs⟩
  rw [h] at hs
  injection hs with hs
  injection hs with _ hs
  subst hs
  cases hp

theorem waits_not_idle {V : Type} (cs : List (String × Pc V)) (i : Nat) (key key0 : String)
    (pc : Pc V) (h : cs[i]? = some (key0, pc)) (hp : pc.idle = true) : ¬ waits cs i key := by
  intro hs
  unfold waits at hs
  rw [h] at hs
  injection hs with hs
  injection hs with _ hs
  subst hs
  cases hp

theorem fills_set_idle {V : Type} (cs : List (String × Pc V)) (i j : Nat) (key key0 key1 : String)
    (pc pc1 : Pc V) (h : cs[i]? = some (key0, pc)) (hp : pc.idle = true)
    (hp1 : pc1.idle = true) :
    fills (cs.set i (key1, pc1)) j key ↔ fills cs j key := by
  unfold fills
  rw [get_set_of_some cs i j _ _ h]
  by_cases e : j = i
  · subst e
    rw [if_pos rfl, h]
    constructor
    · rintro ⟨s, hs⟩
      injection hs with hs
      injection hs with _ hs
      subst hs
      cases hp1
    · rintro ⟨s, hs⟩
      injection hs with hs
      injection hs with _ hs
      subst hs
      cases hp
  · rw [if_neg e]

theorem waits_set_idle {V : Type} (cs : List (String × Pc V)) (i j : Nat) (key key0 key1 : String)
    (pc pc1 : Pc V) (h : cs[i]? = some (key0, pc)) (hp : pc.idle = true)
    (hp1 : pc1.idle = true) :
    waits (cs.set i (key1, pc1)) j key ↔ waits cs j key := by
  unfold waits
  rw [get_set_of_some cs i j _ _ h]
  by_cases e : j = i
  · subst e
    rw [if_pos rfl, h]
    constructor
    · intro hs
      injection hs with hs
      injection hs with _ hs
      subst hs
      cases hp1
    · intro hs
      injection hs with hs
      injection hs with _ hs
      subst hs
      cases hp
  · rw [if_neg e]

theorem flight_idle {V : Type} (w : Map (List Nat)) (cs : List (String × Pc V)) (i : Nat)
    (key0 key1 : String) (pc pc1 : Pc V) (h : cs[i]? = some (key0, pc)) (hp : pc.idle = true)
    (hp1 : pc1.idle = true) (hf : Flight w cs) : Flight w (cs.set i (key1, pc1)) := by
  obtain ⟨h1, h2, h3⟩ := hf
  refine ⟨?_, ?_, ?_⟩
  · intro a b key ha hb
    rw [fills_set_idle cs i a key key0 key1 pc pc1 h hp hp1] at ha
    rw [fills_set_idle cs i b key key0 key1 pc pc1 h hp hp1] at hb
    exact h1 a b key ha hb
  · intro key
    rw [h2 key]
    exact exists_congr fun a => (fills_set_idle cs i a key key0 key1 pc pc1 h hp hp1).symm
  · intro j key
    rw [waits_set_idle cs i j key key0 key1 pc pc1 h hp hp1]
    exact h3 j key

theorem flight_call {V : Type} (w : Map (List Nat)) (cs : List (String × Pc V)) (key : String)
    (hf : Flight w cs) : Flight w (cs ++ [(key, Pc.start)]) := by
  have hg : ∀ j, (cs ++ [(key, (Pc.start : Pc V))])[j]? =
      if j = cs.length then some (key, Pc.start) else cs[j]? := by
    intro j
    by_cases hj : j < cs.length
    · rw [List.getElem?_append_left hj, if_neg (by omega)]
    · rw [List.getElem?_append_right (by omega)]
      by_cases e : j = cs.length
      · subst e
        simp
      · rw [if_neg e, List.getElem?_eq_none_iff.2 (by simp; omega),
          List.getElem?_eq_none_iff.2 (by omega)]
  have hfl : ∀ j k, fills (cs ++ [(key, (Pc.start : Pc V))]) j k ↔ fills cs j k := by
    intro j k
    unfold fills
    rw [hg]
    by_cases e : j = cs.length
    · rw [if_pos e, List.getElem?_eq_none_iff.2 (by omega)]
      constructor
      · rintro ⟨s, hs⟩
        injection hs with hs
        injection hs with _ hs
        cases hs
      · rintro ⟨s, hs⟩
        cases hs
    · rw [if_neg e]
  have hw : ∀ j k, waits (cs ++ [(key, (Pc.start : Pc V))]) j k ↔ waits cs j k := by
    intro j k
    unfold waits
    rw [hg]
    by_cases e : j = cs.length
    · rw [if_pos e, List.getElem?_eq_none_iff.2 (by omega)]
      constructor
      · intro hs
        injection hs with hs
        injection hs with _ hs
        cases hs
      · intro hs
        cases hs
    · rw [if_neg e]
  obtain ⟨h1, h2, h3⟩ := hf
  refine ⟨?_, ?_, ?_⟩
  · intro a b k ha hb
    exact h1 a b k ((hfl a k).1 ha) ((hfl b k).1 hb)
  · intro k
    rw [h2 k]
    exact exists_congr fun a => (hfl a k).symm
  · intro j k
    rw [hw j k]
    exact h3 j k

theorem fills_set_waiting {V : Type} (cs : List (String × Pc V)) (i j : Nat)
    (key key0 key1 : String) (pc : Pc V) (h : cs[i]? = some (key0, pc)) (hp : pc.idle = true) :
    fills (cs.set i (key1, Pc.waiting)) j key ↔ fills cs j key := by
  unfold fills
  rw [get_set_of_some cs i j _ _ h]
  by_cases e : j = i
  · subst e
    rw [if_pos rfl, h]
    constructor
    · rintro ⟨s, hs⟩
      injection hs with hs
      injection hs with _ hs
      cases hs
    · rintro ⟨s, hs⟩
      injection hs with hs
      injection hs with _ hs
      subst hs
      cases hp
  · rw [if_neg e]

theorem flight_wait {V : Type} (w : Map (List Nat)) (cs : List (String × Pc V)) (i : Nat)
    (key0 key : String) (pc : Pc V) (ws : List Nat) (h : cs[i]? = some (key0, pc))
    (hp : pc.idle = true) (hw : w.get key = some ws) (hf : Flight w cs) :
    Flight (w.put key (ws ++ [i])) (cs.set i (key, Pc.waiting)) := by
  obtain ⟨h1, h2, h3⟩ := hf
  refine ⟨?_, ?_, ?_⟩
  · intro a b k ha hb
    rw [fills_set_waiting cs i a k key0 key pc h hp] at ha
    rw [fills_set_waiting cs i b k key0 key pc h hp] at hb
    exact h1 a b k ha hb
  · intro k
    rw [Map.get_put]
    have : (∃ a, fills (cs.set i (key, Pc.waiting)) a k) ↔ ∃ a, fills cs a k :=
      exists_congr fun a => fills_set_waiting cs i a k key0 key pc h hp
    rw [this, ← h2 k]
    by_cases e : k = key
    · subst e
      simp [hw]
    · rw [if_neg e]
  · intro j k
    unfold waits
    rw [get_set_of_some cs i j _ _ h, Map.get_put]
    by_cases e : j = i
    · subst e
      rw [if_pos rfl]
      by_cases ek : k = key
      · subst ek
        simp
      · rw [if_neg ek]
        constructor
        · intro hs
          injection hs with hs
          injection hs with hs _
          exact absurd hs.symm ek
        · rintro ⟨ws2, e1, e2⟩
          exact absurd ((h3 j k).2 ⟨ws2, e1, e2⟩) (waits_not_idle cs j k key0 pc h hp)
    · rw [if_neg e]
      by_cases ek : k = key
      · subst ek
        rw [if_pos rfl]
        have := h3 j k
        unfold waits at this
        rw [this]
        constructor
        · rintro ⟨ws2, e1, e2⟩
          rw [hw] at e1
          injection e1 with e1
          subst e1
          exact ⟨_, rfl, List.mem_append_left _ e2⟩
        · rintro ⟨ws2, e1, e2⟩
          injection e1 with e1
          subst e1
          rcases List.mem_append.1 e2 with e2 | e2
          · exact ⟨ws, hw, e2⟩
          · exact absurd (List.mem_singleton.1 e2) e
      · rw [if_neg ek]
        exact h3 j k

theorem flight_fill {V : Type} (w : Map (List Nat)) (cs : List (String × Pc V)) (i : Nat)
    (key0 key : String) (pc : Pc V) (s : Int) (h : cs[i]? = some (key0, pc))
    (hp : pc.idle = true) (hw : w.get key = none) (hf : Flight w cs) :
    Flight (w.put key []) (cs.set i (key, Pc.filling s)) := by
  obtain ⟨h1, h2, h3⟩ := hf
  have hnone : ∀ a, ¬ fills cs a key := by
    intro a ha
    have := (h2 key).2 ⟨a, ha⟩
    rw [hw] at this
    cases this
  have hfl : ∀ a k, fills (cs.set i (key, Pc.filling s)) a k ↔
      (a = i ∧ k = key) ∨ (a ≠ i ∧ fills cs a k) := by
    intro a k
    unfold fills
    rw [get_set_of_some cs i a _ _ h]
    by_cases e : a = i
    · subst e
      rw [if_pos rfl]
      constructor
      · rintro ⟨s2, hs⟩
        injection hs with hs
        injection hs with hs _
        exact Or.inl ⟨rfl, hs.symm⟩
      · rintro (⟨-, e2⟩ | ⟨e2, -⟩)
        · subst e2
          exact ⟨s, rfl⟩
        · exact absurd rfl e2
    · rw [if_neg e]
      constructor
      · intro hs
        exact Or.inr ⟨e, hs⟩
      · rintro (⟨e2, -⟩ | ⟨-, hs⟩)
        · exact absurd e2 e
        · exact hs
  refine ⟨?_, ?_, ?_⟩
  · intro a b k ha hb
    rcases (hfl a k).1 ha with ⟨ea, ek⟩ | ⟨ea, fa⟩
    · rcases (hfl b k).1 hb with ⟨eb, -⟩ | ⟨-, fb⟩
      · rw [ea, eb]
      · subst ek
        exact absurd fb (hnone b)
    · rcases (hfl b k).1 hb with ⟨eb, ek⟩ | ⟨-, fb⟩
      · subst ek
        exact absurd fa (hnone a)
      · exact h1 a b k fa fb
  · intro k
    rw [Map.get_put]
    by_cases e : k = key
    · subst e
      rw [if_pos rfl]
      simp only [Option.isSome_some, true_iff]
      exact ⟨i, (hfl i k).2 (Or.inl ⟨rfl, rfl⟩)⟩
    · rw [if_neg e, h2 k]
      constructor
      · rintro ⟨a, ha⟩
        have hai : a ≠ i := fun e2 => fills_not_idle cs i k key0 pc h hp (e2 ▸ ha)
        exact ⟨a, (hfl a k).2 (Or.inr ⟨hai, ha⟩)⟩
      · rintro ⟨a, ha⟩
        rcases (hfl a k).1 ha with ⟨-, ek⟩ | ⟨-, fa⟩
        · exact absurd ek e
        · exact ⟨a, fa⟩
  · intro j k
    unfold waits
    rw [get_set_of_some cs i j _ _ h, Map.get_put]
    by_cases e : j = i
    · subst e
      rw [if_pos rfl]
      constructor
      · intro hs
        injection hs with hs
        injection hs with _ hs
        cases hs
      · rintro ⟨ws2, e1, e2⟩
        by_cases ek : k = key
        · rw [if_pos ek] at e1
          injection e1 with e1
          subst e1
          cases e2
        · rw [if_neg ek] at e1
          exact absurd ((h3 j k).2 ⟨ws2, e1, e2⟩) (waits_not_idle cs j k key0 pc h hp)
    · rw [if_neg e]
      by_cases ek : k = key
      · subst ek
        rw [if_pos rfl]
        have := h3 j k
        unfold waits at this
        rw [this, hw]
        constructor
        · rintro ⟨ws2, e1, -⟩
          cases e1
        · rintro ⟨ws2, e1, e2⟩
          injection e1 with e1
          subst e1
          cases e2
      · rw [if_neg ek]
        exact h3 j k

theorem flight_release {V : Type} (w : Map (List Nat)) (cs : List (String × Pc V)) (i : Nat)
    (key : String) (s : Int) (pc0 : Pc V) (h : cs[i]? = some (key, Pc.filling s))
    (hp : pc0.idle = true) (hf : Flight w cs) :
    Flight (w.delete key) ((wakeAll key ((w.get key).getD []) cs).set i (key, pc0)) := by
  obtain ⟨h1, h2, h3⟩ := hf
  have hi : i < cs.length := by
    by_contra hn
    rw [List.getElem?_eq_none_iff.2 (by omega)] at h
    cases h
  obtain ⟨ws, hws⟩ : ∃ ws, w.get key = some ws := by
    have := (h2 key).2 ⟨i, s, h⟩
    exact Option.isSome_iff_exists.1 this
  rw [hws, Option.getD_some]
  have hwait : ∀ j, j ∈ ws ↔ waits cs j key := by
    intro j
    rw [h3 j key]
    constructor
    · intro hj
      exact ⟨ws, hws, hj⟩
    · rintro ⟨ws2, e1, e2⟩
      rw [hws] at e1
      injection e1 with e1
      subst e1
      exact e2
  have hiw : ∃ x, (wakeAll key ws cs)[i]? = some x := by
    have : i < (wakeAll key ws cs).length := by rw [wakeAll_length]; exact hi
    exact ⟨_, List.getElem?_eq_getElem this⟩
  obtain ⟨x, hx⟩ := hiw
  have hg : ∀ j, ((wakeAll key ws cs).set i (key, pc0))[j]? =
      if j = i then some (key, pc0)
      else if j ∈ ws then some (key, Pc.woken) else cs[j]? := by
    intro j
    rw [get_set_of_some _ i j _ _ hx, wakeAll_get]
    by_cases e : j = i
    · rw [if_pos e, if_pos e]
    · rw [if_neg e, if_neg e]
      by_cases hj : j ∈ ws
      · have hjl : j < cs.length := by
          by_contra hn
          have hj2 := (hwait j).1 hj
          unfold waits at hj2
          rw [List.getElem?_eq_none_iff.2 (by omega)] at hj2
          cases hj2
        rw [if_pos ⟨hj, hjl⟩, if_pos hj]
      · rw [if_neg (fun hh => hj hh.1), if_neg hj]
  have hfl : ∀ a k, fills ((wakeAll key ws cs).set i (key, pc0)) a k ↔ a ≠ i ∧ fills cs a k := by
    intro a k
    unfold fills
    rw [hg]
    by_cases e : a = i
    · rw [if_pos e]
      constructor
      · rintro ⟨s2, hs⟩
        injection hs with hs
        injection hs with _ hs
        subst hs
        cases hp
      · rintro ⟨e2, -⟩
        exact absurd e e2
    · rw [if_neg e]
      by_cases hj0 : a ∈ ws
      · rw [if_pos hj0]
        have hj := (hwait a).1 hj0
        unfold waits at hj
        rw [hj]
        constructor
        · rintro ⟨s2, hs⟩
          injection hs with hs
          injection hs with _ hs
          cases hs
        · rintro ⟨-, s2, hs⟩
          injection hs with hs
          injection hs with _ hs
          cases hs
      · rw [if_neg hj0]
        exact ⟨fun hs => ⟨e, hs⟩, fun hs => hs.2⟩
  refine ⟨?_, ?_, ?_⟩
  · intro a b k ha hb
    exact h1 a b k ((hfl a k).1 ha).2 ((hfl b k).1 hb).2
  · intro k
    rw [Map.get_delete]
    by_cases e : k = key
    · subst e
      rw [if_pos rfl]
      simp only [Option.isSome_none, Bool.false_eq_true, false_iff]
      rintro ⟨a, ha⟩
      obtain ⟨hai, hfa⟩ := (hfl a k).1 ha
      exact hai (h1 a i k hfa ⟨s, h⟩)
    · rw [if_neg e, h2 k]
      constructor
      · rintro ⟨a, ha⟩
        refine ⟨a, (hfl a k).2 ⟨?_, ha⟩⟩
        intro e2
        subst e2
        obtain ⟨s2, hs2⟩ := ha
        rw [h] at hs2
        injection hs2 with hs2
        injection hs2 with hs2 _
        exact e hs2.symm
      · rintro ⟨a, ha⟩
        exact ⟨a, ((hfl a k).1 ha).2⟩
  · intro j k
    rw [Map.get_delete]
    unfold waits
    rw [hg]
    by_cases e : j = i
    · rw [if_pos e]
      constructor
      · intro hs
        injection hs with hs
        injection hs with _ hs
        subst hs
        cases hp
      · rintro ⟨ws2, e1, e2⟩
        by_cases ek : k = key
        · rw [if_pos ek] at e1
          cases e1
        · rw [if_neg ek] at e1
          have := (h3 j k).2 ⟨ws2, e1, e2⟩
          unfold waits at this
          rw [e, h] at this
          injection this with this
          injection this with _ this
          cases this
    · rw [if_neg e]
      by_cases hj0 : j ∈ ws
      · rw [if_pos hj0]
        have hj := (hwait j).1 hj0
        constructor
        · intro hs
          injection hs with hs
          injection hs with _ hs
          cases hs
        · rintro ⟨ws2, e1, e2⟩
          by_cases ek : k = key
          · rw [if_pos ek] at e1
            cases e1
          · rw [if_neg ek] at e1
            have := (h3 j k).2 ⟨ws2, e1, e2⟩
            unfold waits at this hj
            rw [hj] at this
            injection this with this
            injection this with this _
            exact absurd this.symm ek
      · rw [if_neg hj0]
        by_cases ek : k = key
        · subst ek
          rw [if_pos rfl]
          constructor
          · intro hs
            exact absurd ((hwait j).2 hs) hj0
          · rintro ⟨ws2, e1, -⟩
            cases e1
        · rw [if_neg ek]
          exact h3 j k

theorem turn_flight {V : Type} (d : Deck V) (i : Nat) (key0 key : String) (pc : Pc V)
    (h : d.callers[i]? = some (key0, pc)) (hp : pc.idle = true) (hf : SingleFlight d) :
    SingleFlight (turn d i key) := by
  unfold turn
  have hw : (peek d.c d.now key).1.waiters = d.c.waiters := by
    unfold peek
    cases d.c.cache.get key with
    | none => rfl
    | some ent =>
      simp only
      split_ifs <;> rfl
  cases hv : (peek d.c d.now key).2 with
  | some v =>
    simp only [hv]
    show Flight (peek d.c d.now key).1.waiters _
    rw [hw]
    exact flight_idle _ _ i key0 key pc _ h hp rfl hf
  | none =>
    simp only [hv]
    rw [hw]
    cases hg : d.c.waiters.get key with
    | some ws =>
      simp only [hg]
      exact flight_wait _ _ i key0 key pc ws h hp hg hf
    | none =>
      simp only [hg]
      exact flight_fill _ _ i key0 key pc _ h hp hg hf

theorem set_waiters {V : Type} (c : Cache V) (now : Int) (key : String) (v : V) :
    (set c now key v).1.waiters = c.waiters := by
  unfold set cleanup
  simp only
  split_ifs <;> rfl

theorem turn_set {V : Type} (d : Deck V) (i : Nat) (key : String) (x : String × Pc V) :
    turn ⟨d.c, d.now, d.collectors, d.callers.set i x⟩ i key = turn d i key := by
  unfold turn
  simp only [List.set_set]

theorem filled_flight {V : Type} (d : Deck V) (i : Nat) (key : String) (serial : Int) (c1 : Cache V)
    (n : Nat) (pc0 : Pc V) (h : d.callers[i]? = some (key, Pc.filling serial))
    (hc : c1.waiters = d.c.waiters) (hp : pc0.idle = true) (hf : SingleFlight d) :
    SingleFlight ⟨{ c1 with waiters := c1.waiters.delete key }, d.now, n,
      (wakeAll key ((c1.waiters.get key).getD []) d.callers).set i (key, pc0)⟩ := by
  show Flight (c1.waiters.delete key) _
  rw [hc]
  exact flight_release _ _ i key serial pc0 h hp hf

theorem deck_step_flight {V : Type} (d d1 : Deck V) (a : Act V) (h : step d a = some d1)
    (hf : SingleFlight d) : SingleFlight d1 := by
  cases a with
  | call key =>
    simp only [step, Option.some.injEq] at h
    subst h
    exact flight_call _ _ key hf
  | enter i =>
    unfold step at h
    cases hc : d.callers[i]? with
    | none => simp [hc] at h
    | some x =>
      obtain ⟨key, pc⟩ := x
      cases pc <;> simp only [hc, reduceCtorEq, Option.some.injEq] at h
      · subst h
        exact turn_flight d i key key _ hc rfl hf
      · subst h
        exact turn_flight d i key key _ hc rfl hf
  | filled i value ok =>
    unfold step at h
    cases hc : d.callers[i]? with
    | none => simp [hc] at h
    | some x =>
      obtain ⟨key, pc⟩ := x
      cases pc <;> simp only [hc, reduceCtorEq, Option.some.injEq] at h
      rename_i serial
      have hw : (if ok = true ∧ serial = d.c.serial then set d.c d.now key value
          else (d.c, false)).1.waiters = d.c.waiters := by
        split_ifs
        · exact set_waiters _ _ _ _
        · rfl
      generalize (if ok = true ∧ serial = d.c.serial then set d.c d.now key value
          else (d.c, false)) = r at h hw
      have hi : i < (wakeAll key ((r.1.waiters.get key).getD []) d.callers).length := by
        rw [wakeAll_length]
        by_contra hn
        rw [List.getElem?_eq_none_iff.2 (by omega)] at hc
        cases hc
      cases ok with
      | true =>
        simp only [if_true, Option.some.injEq] at h
        subst h
        rw [← turn_set _ i key (key, Pc.start)]
        refine turn_flight _ i key key Pc.start ?_ rfl ?_
        · simp only
          rw [List.getElem?_set_self hi]
        · exact filled_flight d i key serial r.1 _ Pc.start hc hw rfl hf
      | false =>
        simp only [Bool.false_eq_true, if_false, Option.some.injEq] at h
        subst h
        exact filled_flight d i key serial r.1 _ (Pc.returned none) hc hw rfl hf
  | tick t =>
    simp only [step, Option.some.injEq] at h
    subst h
    exact hf
  | collect =>
    unfold step at h
    split_ifs at h
    simp only [Option.some.injEq] at h
    subst h
    exact hf
  | Clear key =>
    simp only [step, Option.some.injEq] at h
    subst h
    exact hf
  | Flush =>
    simp only [step, Option.some.injEq] at h
    subst h
    exact hf

theorem deck_run_flight {V : Type} : ∀ (acts : List (Act V)) (d d1 : Deck V),
    run acts d = some d1 → SingleFlight d → SingleFlight d1 := by
  intro acts
  induction acts with
  | nil =>
    intro d d1 h hf
    simp only [run, Option.some.injEq] at h
    exact h ▸ hf
  | cons a as ih =>
    intro d d1 h hf
    rw [run] at h
    cases hst : step d a with
    | none => simp [hst] at h
    | some d2 =>
      rw [hst] at h
      exact ih d2 d1 h (deck_step_flight d d2 a hst hf)

theorem New_flight (V : Type) (opts : Options) : SingleFlight (New V opts) := by
  refine ⟨?_, ?_, ?_⟩
  · rintro i j key ⟨s, hs⟩
    simp [New] at hs
  · intro key
    constructor
    · intro h
      simp [New, Map.get] at h
    · rintro ⟨i, s, hs⟩
      simp [New] at hs
  · intro j key
    constructor
    · intro h
      unfold waits at h
      simp [New] at h
    · rintro ⟨ws, h, -⟩
      simp [New, Map.get] at h

end gencache
namespace gencache

theorem Map.get_filter_keep {V : Type} (p : String × V → Bool) (m : Map V) (key : String) (v : V)
    (h : Map.get m key = some v) (hp : p (key, v) = true) :
    Map.get (m.filter p) key = some v := by
  induction m with
  | nil => simp [Map.get] at h
  | cons e m ih =>
    obtain ⟨a, x⟩ := e
    unfold Map.get at h ih ⊢
    by_cases hk : key = a
    · subst hk
      simp only [List.lookup_cons, beq_self_eq_true, Option.some.injEq] at h
      subst h
      rw [List.filter_cons_of_pos hp]
      simp [List.lookup_cons]
    · have hb : (key == a) = false := by simp [hk]
      simp only [List.lookup_cons, hb] at h
      by_cases hpa : p (a, x) = true
      · rw [List.filter_cons_of_pos hpa]
        simp only [List.lookup_cons, hb]
        exact ih h
      · rw [List.filter_cons_of_neg hpa]
        exact ih h

theorem peek_fresh {V : Type} (d : Deck V) (key : String) (v : V) (T : Int)
    (h : Fresh d key v T) : peek d.c d.now key = (d.c, some v) := by
  unfold peek
  rw [h.1]
  simp only
  rw [if_neg]
  rintro ⟨-, he⟩
  simp only [Entry.expired, decide_eq_true_eq] at he
  exact absurd h.2 (by omega)

theorem peek_other {V : Type} (c : Cache V) (now : Int) (key k : String) (hk : k ≠ key) :
    (peek c now k).1.cache.get key = c.cache.get key ∧
    (peek c now k).1.waiters = c.waiters ∧ (peek c now k).1.limit = c.limit ∧
    (peek c now k).1.duration = c.duration := by
  unfold peek
  cases c.cache.get k with
  | none => exact ⟨rfl, rfl, rfl, rfl⟩
  | some ent =>
    simp only
    split_ifs
    · refine ⟨?_, rfl, rfl, rfl⟩
      show (c.cache.delete k).get key = _
      rw [Map.get_delete, if_neg (fun e => hk e.symm)]
    · exact ⟨rfl, rfl, rfl, rfl⟩

theorem turn_hit {V : Type} (d : Deck V) (i : Nat) (key : String) (v : V) (T : Int)
    (h : Fresh d key v T) :
    turn d i key = ⟨d.c, d.now, d.collectors, d.callers.set i (key, Pc.returned (some v))⟩ := by
  unfold turn
  rw [peek_fresh d key v T h]

theorem turn_shape {V : Type} (d : Deck V) (i : Nat) (k : String) :
    ∃ w pc, turn d i k =
      ⟨⟨(peek d.c d.now k).1.cache, w, (peek d.c d.now k).1.duration,
        (peek d.c d.now k).1.limit, (peek d.c d.now k).1.serial, (peek d.c d.now k).1.needgc⟩,
       d.now, d.collectors, d.callers.set i (k, pc)⟩ := by
  unfold turn
  simp only
  cases hv : (peek d.c d.now k).2 with
  | some v => exact ⟨(peek d.c d.now k).1.waiters, Pc.returned (some v), rfl⟩
  | none =>
    cases hg : (peek d.c d.now k).1.waiters.get k with
    | some ws =>
      exact ⟨(peek d.c d.now k).1.waiters.put k (ws ++ [i]), Pc.waiting, rfl⟩
    | none =>
      exact ⟨(peek d.c d.now k).1.waiters.put k [], Pc.filling (peek d.c d.now k).1.serial, rfl⟩

theorem turn_frame {V : Type} (d : Deck V) (i : Nat) (key k : String) :
    (turn d i k).now = d.now ∧ (turn d i k).c.limit = d.c.limit ∧
    (turn d i k).c.duration = d.c.duration ∧
    (k ≠ key → (turn d i k).c.cache.get key = d.c.cache.get key) ∧
    (∀ j, j ≠ i → (turn d i k).callers[j]? = d.callers[j]?) ∧
    (∀ x, d.callers[i]? = some x → ∃ pc, (turn d i k).callers[i]? = some (k, pc)) := by
  have hp : (peek d.c d.now k).1.limit = d.c.limit ∧
      (peek d.c d.now k).1.duration = d.c.duration ∧
      (k ≠ key → (peek d.c d.now k).1.cache.get key = d.c.cache.get key) := by
    unfold peek
    cases d.c.cache.get k with
    | none => exact ⟨rfl, rfl, fun _ => rfl⟩
    | some ent =>
      simp only
      split_ifs
      · refine ⟨rfl, rfl, fun hk => ?_⟩
        show (d.c.cache.delete k).get key = _
        rw [Map.get_delete, if_neg (fun e => hk e.symm)]
      · exact ⟨rfl, rfl, fun _ => rfl⟩
  obtain ⟨w, pc, e⟩ := turn_shape d i k
  rw [e]
  refine ⟨rfl, hp.1, hp.2.1, hp.2.2, ?_, ?_⟩
  · intro j hj
    show (d.callers.set i (k, pc))[j]? = _
    rw [List.getElem?_set, if_neg (fun e => hj e.symm)]
  · intro x hx
    refine ⟨pc, ?_⟩
    show (d.callers.set i (k, pc))[i]? = _
    rw [get_set_of_some _ i i x _ hx, if_pos rfl]

theorem set_frame {V : Type} (c : Cache V) (now : Int) (key k : String) (v : V)
    (hl : c.limit ≤ 0) (hk : k ≠ key) :
    (set c now k v).1.cache.get key = c.cache.get key ∧
    (set c now k v).1.limit = c.limit ∧ (set c now k v).1.duration = c.duration := by
  have hno : ¬ (c.limit > 0 ∧ (c.cache.length : Int) ≥ c.limit) := fun h => by omega
  unfold set
  simp only [hno, if_false]
  split_ifs
  all_goals
    refine ⟨?_, rfl, rfl⟩
    show (c.cache.put k _).get key = _
    rw [Map.get_put, if_neg (fun e => hk e.symm)]

theorem window_frame {V : Type} (key : String) (v : V) (T : Int) (ws : List Nat) (d d1 : Deck V)
    (hw : Window key v T ws d) (hf : SingleFlight d1)
    (hc : d1.c.cache.get key = d.c.cache.get key) (hn : d1.now = d.now)
    (hl : d1.c.limit = d.c.limit) (hd : d1.c.duration = d.c.duration)
    (hcs : ∀ j : Nat, d1.callers[j]? = d.callers[j]? ∨
      (∃ (k : String) (pc : Pc V), k ≠ key ∧ d1.callers[j]? = some (k, pc) ∧
        ∀ pc0 : Pc V, d.callers[j]? ≠ some (key, pc0)) ∨
      (d.callers[j]? = none ∧ ∃ k : String, d1.callers[j]? = some (k, Pc.start))) :
    Window key v T ws d1 := by
  obtain ⟨_, w2, w3, w4, w5, w6⟩ := hw
  refine ⟨hf, ⟨by rw [hc]; exact w2.1, by rw [hn]; exact w2.2⟩, ?_, by rw [hl]; exact w4,
    by rw [hd]; exact w5, ?_⟩
  · rintro a ⟨s, hs⟩
    rcases hcs a with e | ⟨k, pc, hk, e, -⟩ | ⟨-, k, e⟩
    · exact w3 a ⟨s, e ▸ hs⟩
    · rw [e] at hs
      injection hs with hs
      injection hs with hs _
      exact hk hs
    · rw [e] at hs
      injection hs with hs
      injection hs with _ hs
      cases hs
  · intro j hj
    rcases hcs j with e | ⟨k, pc, hk, e, hne⟩ | ⟨e, -⟩
    · rw [e]
      exact w6 j hj
    · rcases w6 j hj with h | h
      · exact absurd h (hne _)
      · exact absurd h (hne _)
    · rcases w6 j hj with h | h
      · rw [e] at h
        cases h
      · rw [e] at h
        cases h

theorem window_enter {V : Type} (key : String) (v : V) (T : Int) (ws : List Nat) (d : Deck V)
    (i : Nat) (k : String) (pc : Pc V) (hw : Window key v T ws d)
    (hc : d.callers[i]? = some (k, pc)) (hp : pc.idle = true) :
    Window key v T ws (turn d i k) := by
  have hf : SingleFlight (turn d i k) := turn_flight d i k k pc hc hp hw.1
  by_cases hk : k = key
  · subst hk
    obtain ⟨_, w2, w3, w4, w5, w6⟩ := hw
    rw [turn_hit d i k v T w2] at hf ⊢
    refine ⟨hf, w2, ?_, w4, w5, ?_⟩
    · intro a ha
      exact w3 a ((fills_set_idle d.callers i a k k k pc (Pc.returned (some v)) hc hp rfl).1 ha)
    · intro j hj
      show (d.callers.set i (k, Pc.returned (some v)))[j]? = _ ∨
        (d.callers.set i (k, Pc.returned (some v)))[j]? = _
      rw [get_set_of_some _ i j _ _ hc]
      by_cases e : j = i
      · rw [if_pos e]
        exact Or.inr rfl
      · rw [if_neg e]
        exact w6 j hj
  · obtain ⟨t1, t2, t3, t4, t5, t6⟩ := turn_frame d i key k
    refine window_frame key v T ws d _ hw hf (t4 hk) t1 t2 t3 ?_
    intro j
    by_cases e : j = i
    · subst e
      obtain ⟨pc1, h1⟩ := t6 _ hc
      refine Or.inr (Or.inl ⟨k, pc1, hk, h1, ?_⟩)
      intro pc0 h0
      rw [hc] at h0
      injection h0 with h0
      injection h0 with h0 _
      exact hk h0
    · exact Or.inl (t5 j e)

theorem window_step {V : Type} (key : String) (v : V) (T : Int) (ws : List Nat) (d d1 : Deck V)
    (a : Act V) (as : List (Act V)) (hw : Window key v T ws d) (h : step d a = some d1)
    (hq : quiet key T d.now (a :: as)) :
    Window key v T ws d1 ∧ quiet key T d1.now as := by
  have hf : SingleFlight d1 := deck_step_flight d d1 a h hw.1
  cases a with
  | call k =>
    simp only [step, Option.some.injEq] at h
    subst h
    refine ⟨window_frame key v T ws d _ hw hf rfl rfl rfl rfl ?_, hq⟩
    intro j
    show (d.callers ++ [(k, Pc.start)])[j]? = _ ∨ _
    by_cases hj : j < d.callers.length
    · exact Or.inl (List.getElem?_append_left hj)
    · by_cases e : j = d.callers.length
      · refine Or.inr (Or.inr ⟨List.getElem?_eq_none_iff.2 (by omega), k, ?_⟩)
        show (d.callers ++ [(k, Pc.start)])[j]? = _
        rw [List.getElem?_append_right (by omega), e]
        simp
      · left
        rw [List.getElem?_eq_none_iff.2 (by simp; omega), List.getElem?_eq_none_iff.2 (by omega)]
  | enter i =>
    unfold step at h
    cases hc : d.callers[i]? with
    | none => simp [hc] at h
    | some x =>
      obtain ⟨k, pc⟩ := x
      have hq2 : quiet key T (turn d i k).now as := by
        rw [(turn_frame d i key k).1]
        simpa [quiet] using hq
      cases pc <;> simp only [hc, reduceCtorEq, Option.some.injEq] at h
      · subst h
        exact ⟨window_enter key v T ws d i k _ hw hc rfl, hq2⟩
      · subst h
        exact ⟨window_enter key v T ws d i k _ hw hc rfl, hq2⟩
  | filled i value ok =>
    unfold step at h
    cases hc : d.callers[i]? with
    | none => simp [hc] at h
    | some x =>
      obtain ⟨k, pc⟩ := x
      cases pc <;> simp only [hc, reduceCtorEq, Option.some.injEq] at h
      rename_i serial
      have hk : k ≠ key := fun e => hw.2.2.1 i ⟨serial, e ▸ hc⟩
      have hq2 : quiet key T d.now as := by simpa [quiet] using hq
      have hr : (if ok = true ∧ serial = d.c.serial then set d.c d.now k value
          else (d.c, false)).1.cache.get key = d.c.cache.get key ∧
          (if ok = true ∧ serial = d.c.serial then set d.c d.now k value
          else (d.c, false)).1.limit = d.c.limit ∧
          (if ok = true ∧ serial = d.c.serial then set d.c d.now k value
          else (d.c, false)).1.duration = d.c.duration ∧
          (if ok = true ∧ serial = d.c.serial then set d.c d.now k value
          else (d.c, false)).1.waiters = d.c.waiters := by
        split_ifs
        · obtain ⟨s1, s2, s3⟩ := set_frame d.c d.now key k value hw.2.2.2.1 hk
          exact ⟨s1, s2, s3, set_waiters _ _ _ _⟩
        · exact ⟨rfl, rfl, rfl, rfl⟩
      generalize (if ok = true ∧ serial = d.c.serial then set d.c d.now k value
          else (d.c, false)) = r at h hr
      obtain ⟨r1, r2, r3, r4⟩ := hr
      rw [r4] at h
      obtain ⟨f1, f2, f3⟩ := hw.1
      obtain ⟨ws1, hws1⟩ : ∃ ws1, d.c.waiters.get k = some ws1 :=
        Option.isSome_iff_exists.1 ((f2 k).2 ⟨i, serial, hc⟩)
      rw [hws1, Option.getD_some] at h
      have hwk : ∀ j, j ∈ ws1 → d.callers[j]? = some (k, Pc.waiting) :=
        fun j hj => (f3 j k).2 ⟨ws1, hws1, hj⟩
      have hcs1 : ∀ j : Nat, (wakeAll k ws1 d.callers)[j]? = d.callers[j]? ∨
          ((wakeAll k ws1 d.callers)[j]? = some (k, Pc.woken) ∧
            d.callers[j]? = some (k, Pc.waiting)) := by
        intro j
        rw [wakeAll_get]
        by_cases hj : j ∈ ws1 ∧ j < d.callers.length
        · rw [if_pos hj]
          exact Or.inr ⟨rfl, hwk j hj.1⟩
        · rw [if_neg hj]
          exact Or.inl rfl
      have hcs2 : ∀ (cs1 : List (String × Pc V)), (∃ pc1 : Pc V, cs1[i]? = some (k, pc1)) →
          (∀ j, j ≠ i → cs1[j]? = (wakeAll k ws1 d.callers)[j]?) →
          ∀ j : Nat, cs1[j]? = d.callers[j]? ∨
            (∃ (k0 : String) (pc : Pc V), k0 ≠ key ∧ cs1[j]? = some (k0, pc) ∧
              ∀ pc0 : Pc V, d.callers[j]? ≠ some (key, pc0)) ∨
            (d.callers[j]? = none ∧ ∃ k0 : String, cs1[j]? = some (k0, Pc.start)) := by
        intro cs1 hi1 hj1 j
        by_cases e : j = i
        · subst e
          obtain ⟨pc1, h1⟩ := hi1
          refine Or.inr (Or.inl ⟨k, pc1, hk, h1, ?_⟩)
          intro pc0 h0
          rw [hc] at h0
          injection h0 with h0
          injection h0 with h0 _
          exact hk h0
        · rw [hj1 j e]
          rcases hcs1 j with h1 | ⟨h1, h2⟩
          · exact Or.inl h1
          · refine Or.inr (Or.inl ⟨k, Pc.woken, hk, h1, ?_⟩)
            intro pc0 h0
            rw [h2] at h0
            injection h0 with h0
            injection h0 with h0 _
            exact hk h0
      have hi : i < (wakeAll k ws1 d.callers).length := by
        rw [wakeAll_length]
        by_contra hn
        rw [List.getElem?_eq_none_iff.2 (by omega)] at hc
        cases hc
      cases ok with
      | true =>
        simp only [if_true, Option.some.injEq] at h
        subst h
        obtain ⟨t1, t2, t3, t4, t5, t6⟩ := turn_frame
          ⟨⟨r.1.cache, d.c.waiters.delete k, r.1.duration, r.1.limit, r.1.serial, r.1.needgc⟩,
           d.now, (if r.2 = true then d.collectors + 1 else d.collectors),
           wakeAll k ws1 d.callers⟩ i key k
        refine ⟨window_frame key v T ws d _ hw hf ((t4 hk).trans r1) t1 (t2.trans r2)
          (t3.trans r3) (hcs2 _ (t6 _ (List.getElem?_eq_getElem hi)) t5), ?_⟩
        rw [t1]
        exact hq2
      | false =>
        simp only [Bool.false_eq_true, if_false, Option.some.injEq] at h
        subst h
        refine ⟨window_frame key v T ws d _ hw hf r1 rfl r2 r3
          (hcs2 ((wakeAll k ws1 d.callers).set i (k, Pc.returned none))
            ⟨Pc.returned none, ?_⟩ ?_), hq2⟩
        · show ((wakeAll k ws1 d.callers).set i (k, Pc.returned none))[i]? = _
          rw [List.getElem?_set_self hi]
        · intro j hj
          show ((wakeAll k ws1 d.callers).set i (k, Pc.returned none))[j]? = _
          rw [List.getElem?_set, if_neg (fun e => hj e.symm)]
  | tick t =>
    simp only [step, Option.some.injEq] at h
    subst h
    obtain ⟨_, w2, w3, w4, w5, w6⟩ := hw
    exact ⟨⟨hf, ⟨w2.1, hq.1⟩, w3, w4, w5, w6⟩, hq.2⟩
  | collect =>
    unfold step at h
    split_ifs at h
    simp only [Option.some.injEq] at h
    subst h
    obtain ⟨_, w2, w3, w4, w5, w6⟩ := hw
    refine ⟨⟨hf, ⟨?_, w2.2⟩, w3, w4, w5, w6⟩, hq⟩
    refine Map.get_filter_keep _ _ _ _ w2.1 ?_
    simp only [Entry.expired, Bool.not_eq_true', decide_eq_false_iff_not, not_lt]
    exact w2.2
  | Clear k =>
    simp only [step, Option.some.injEq] at h
    subst h
    obtain ⟨_, w2, w3, w4, w5, w6⟩ := hw
    refine ⟨⟨hf, ⟨?_, w2.2⟩, w3, w4, w5, w6⟩, hq.2⟩
    show (d.c.cache.delete k).get key = _
    rw [Map.get_delete, if_neg (fun e => hq.1 e.symm)]
    exact w2.1
  | Flush =>
    exact absurd hq (by simp [quiet])

theorem window_run {V : Type} (key : String) (v : V) (T : Int) (ws : List Nat) :
    ∀ (acts : List (Act V)) (d d1 : Deck V), Window key v T ws d → run acts d = some d1 →
      quiet key T d.now acts → Window key v T ws d1 := by
  intro acts
  induction acts with
  | nil =>
    intro d d1 hw h _
    simp only [run, Option.some.injEq] at h
    exact h ▸ hw
  | cons a as ih =>
    intro d d1 hw h hq
    rw [run] at h
    cases hst : step d a with
    | none => simp [hst] at h
    | some d2 =>
      rw [hst] at h
      obtain ⟨hw2, hq2⟩ := window_step key v T ws d d2 a as hw hst hq
      exact ih d2 d1 hw2 h hq2

theorem window_open {V : Type} (d : Deck V) (i : Nat) (key : String) (v : V)
    (hf : SingleFlight d) (hc : d.callers[i]? = some (key, Pc.filling d.c.serial))
    (hl : d.c.limit ≤ 0) (hd : d.c.duration > 0) :
    ∃ d1, step d (Act.filled i v true) = some d1 ∧
      Window key v (d.now + d.c.duration) ((d.c.waiters.get key).getD []) d1 ∧
      d1.callers[i]? = some (key, Pc.returned (some v)) ∧ d1.now = d.now := by
  have hno : ¬ (d.c.limit > 0 ∧ (d.c.cache.length : Int) ≥ d.c.limit) := fun h => by omega
  obtain ⟨f1, f2, f3⟩ := hf
  obtain ⟨ws, hws⟩ : ∃ ws, d.c.waiters.get key = some ws :=
    Option.isSome_iff_exists.1 ((f2 key).2 ⟨i, _, hc⟩)
  have hi : i < (wakeAll key ws d.callers).length := by
    rw [wakeAll_length]
    by_contra hn
    rw [List.getElem?_eq_none_iff.2 (by omega)] at hc
    cases hc
  have hset : ∃ c1 b, set d.c d.now key v = (c1, b) ∧
      c1.cache.get key = some ⟨v, some (d.now + d.c.duration)⟩ ∧ c1.waiters = d.c.waiters ∧
      c1.limit = d.c.limit ∧ c1.duration = d.c.duration := by
    unfold set
    simp only [hno, if_false, hd, if_true]
    split_ifs
    · exact ⟨_, _, rfl, by show (d.c.cache.put key _).get key = _; rw [Map.get_put, if_pos rfl],
        rfl, rfl, rfl⟩
    · exact ⟨_, _, rfl, by show (d.c.cache.put key _).get key = _; rw [Map.get_put, if_pos rfl],
        rfl, rfl, rfl⟩
  obtain ⟨c1, b, e1, e2, e3, e4, e5⟩ := hset
  have hfresh : Fresh (⟨⟨c1.cache, c1.waiters.delete key, c1.duration, c1.limit, c1.serial,
      c1.needgc⟩, d.now, (if b = true then d.collectors + 1 else d.collectors),
      wakeAll key ((c1.waiters.get key).getD []) d.callers⟩ : Deck V) key v
      (d.now + d.c.duration) := ⟨e2, by show d.now ≤ d.now + d.c.duration; omega⟩
  have hstep : step d (Act.filled i v true) = some
      ⟨⟨c1.cache, c1.waiters.delete key, c1.duration, c1.limit, c1.serial, c1.needgc⟩, d.now,
       (if b = true then d.collectors + 1 else d.collectors),
       (wakeAll key ((c1.waiters.get key).getD []) d.callers).set i
         (key, Pc.returned (some v))⟩ := by
    unfold step
    simp only [hc, and_self, if_true, e1]
    rw [turn_hit _ i key v _ hfresh]
  refine ⟨_, hstep, ?_, ?_, rfl⟩
  · have hf1 := deck_step_flight d _ _ hstep ⟨f1, f2, f3⟩
    refine ⟨hf1, ⟨e2, by show d.now ≤ d.now + d.c.duration; omega⟩, ?_, by rw [← e4] at hl; exact hl,
      by rw [← e5] at hd; exact hd, ?_⟩
    · intro a ha
      have := (hf1.2.1 key).2 ⟨a, ha⟩
      have hdel : (c1.waiters.delete key).get key = none := by
        rw [Map.get_delete, if_pos rfl]
      rw [show (_ : Deck V).c.waiters = c1.waiters.delete key from rfl, hdel] at this
      cases this
    · intro j hj
      rw [hws, Option.getD_some] at hj
      have hjw : d.callers[j]? = some (key, Pc.waiting) := (f3 j key).2 ⟨ws, hws, hj⟩
      have hji : j ≠ i := by
        intro e
        rw [e, hc] at hjw
        injection hjw with hjw
        injection hjw with _ hjw
        cases hjw
      have hjl : j < d.callers.length := by
        by_contra hn
        rw [List.getElem?_eq_none_iff.2 (by omega)] at hjw
        cases hjw
      left
      show ((wakeAll key ((c1.waiters.get key).getD []) d.callers).set i _)[j]? = _
      rw [e3, hws, Option.getD_some, List.getElem?_set, if_neg (fun e => hji e.symm), wakeAll_get,
        if_pos ⟨hj, hjl⟩]
  · show ((wakeAll key ((c1.waiters.get key).getD []) d.callers).set i _)[i]? = _
    rw [e3, hws, Option.getD_some, List.getElem?_set_self hi]

theorem cleanup_const {V : Type} (c : Cache V) (now : Int) :
    (cleanup c now).limit = c.limit ∧ (cleanup c now).duration = c.duration := by
  unfold cleanup
  simp only
  split_ifs <;> exact ⟨rfl, rfl⟩

theorem set_const {V : Type} (c : Cache V) (now : Int) (k : String) (v : V) :
    (set c now k v).1.limit = c.limit ∧ (set c now k v).1.duration = c.duration := by
  unfold set
  simp only
  split_ifs <;> first | exact ⟨rfl, rfl⟩ | exact cleanup_const c now

theorem step_const {V : Type} (d d1 : Deck V) (a : Act V) (h : step d a = some d1) :
    d1.c.limit = d.c.limit ∧ d1.c.duration = d.c.duration := by
  cases a with
  | call k =>
    simp only [step, Option.some.injEq] at h
    subst h
    exact ⟨rfl, rfl⟩
  | enter i =>
    unfold step at h
    cases hc : d.callers[i]? with
    | none => simp [hc] at h
    | some x =>
      obtain ⟨k, pc⟩ := x
      cases pc <;> simp only [hc, reduceCtorEq, Option.some.injEq] at h
      · subst h
        exact ⟨(turn_frame d i k k).2.1, (turn_frame d i k k).2.2.1⟩
      · subst h
        exact ⟨(turn_frame d i k k).2.1, (turn_frame d i k k).2.2.1⟩
  | filled i value ok =>
    unfold step at h
    cases hc : d.callers[i]? with
    | none => simp [hc] at h
    | some x =>
      obtain ⟨k, pc⟩ := x
      cases pc <;> simp only [hc, reduceCtorEq, Option.some.injEq] at h
      rename_i serial
      have hr : (if ok = true ∧ serial = d.c.serial then set d.c d.now k value
          else (d.c, false)).1.limit = d.c.limit ∧
          (if ok = true ∧ serial = d.c.serial then set d.c d.now k value
          else (d.c, false)).1.duration = d.c.duration := by
        split_ifs
        · exact set_const _ _ _ _
        · exact ⟨rfl, rfl⟩
      generalize (if ok = true ∧ serial = d.c.serial then set d.c d.now k value
          else (d.c, false)) = r at h hr
      cases ok with
      | true =>
        simp only [if_true, Option.some.injEq] at h
        subst h
        exact ⟨(turn_frame _ i k k).2.1.trans hr.1, (turn_frame _ i k k).2.2.1.trans hr.2⟩
      | false =>
        simp only [Bool.false_eq_true, if_false, Option.some.injEq] at h
        subst h
        exact hr
  | tick t =>
    simp only [step, Option.some.injEq] at h
    subst h
    exact ⟨rfl, rfl⟩
  | collect =>
    unfold step at h
    split_ifs at h
    simp only [Option.some.injEq] at h
    subst h
    exact ⟨rfl, rfl⟩
  | Clear k =>
    simp only [step, Option.some.injEq] at h
    subst h
    exact ⟨rfl, rfl⟩
  | Flush =>
    simp only [step, Option.some.injEq] at h
    subst h
    exact ⟨rfl, rfl⟩

theorem run_const {V : Type} : ∀ (acts : List (Act V)) (d d1 : Deck V), run acts d = some d1 →
    d1.c.limit = d.c.limit ∧ d1.c.duration = d.c.duration := by
  intro acts
  induction acts with
  | nil =>
    intro d d1 h
    simp only [run, Option.some.injEq] at h
    subst h
    exact ⟨rfl, rfl⟩
  | cons a as ih =>
    intro d d1 h
    rw [run] at h
    cases hst : step d a with
    | none => simp [hst] at h
    | some d2 =>
      rw [hst] at h
      obtain ⟨a1, a2⟩ := ih d2 d1 h
      obtain ⟨b1, b2⟩ := step_const d d2 a hst
      exact ⟨a1.trans b1, a2.trans b2⟩

theorem enter_expired {V : Type} (d : Deck V) (n : Nat) (key : String) (pc : Pc V) (v : V)
    (T : Int) (hc : d.callers[n]? = some (key, pc)) (hp : pc = Pc.start ∨ pc = Pc.woken)
    (he : d.c.cache.get key = some ⟨v, some T⟩) (hT : T < d.now) (hd : d.c.duration > 0)
    (hw : d.c.waiters.get key = none) :
    ∃ d1, step d (Act.enter n) = some d1 ∧ d1.callers[n]? = some (key, Pc.filling d.c.serial) ∧
      d1.c.cache.get key = none := by
  have hpeek : peek d.c d.now key =
      (⟨d.c.cache.delete key, d.c.waiters, d.c.duration, d.c.limit, d.c.serial, d.c.needgc⟩,
       none) := by
    unfold peek
    rw [he]
    simp only
    rw [if_pos ⟨hd, by simp [Entry.expired, hT]⟩]
  have hturn : turn d n key =
      ⟨⟨d.c.cache.delete key, d.c.waiters.put key [], d.c.duration, d.c.limit, d.c.serial,
        d.c.needgc⟩, d.now, d.collectors, d.callers.set n (key, Pc.filling d.c.serial)⟩ := by
    unfold turn
    simp only [hpeek, hw]
  refine ⟨turn d n key, ?_, ?_, ?_⟩
  · unfold step
    rcases hp with e | e <;> subst e <;> simp only [hc]
  · rw [hturn]
    show (d.callers.set n (key, Pc.filling d.c.serial))[n]? = _
    rw [get_set_of_some _ n n _ _ hc, if_pos rfl]
  · rw [hturn]
    show (d.c.cache.delete key).get key = none
    rw [Map.get_delete, if_pos rfl]

theorem enter_fresh {V : Type} (key : String) (v : V) (T : Int) (ws : List Nat) (d : Deck V)
    (n : Nat) (pc : Pc V) (hw : Window key v T ws d) (hc : d.callers[n]? = some (key, pc))
    (hp : pc = Pc.start ∨ pc = Pc.woken) :
    ∃ d1, step d (Act.enter n) = some d1 ∧ d1.callers[n]? = some (key, Pc.returned (some v)) ∧
      Window key v T ws d1 := by
  have hi : pc.idle = true := by rcases hp with e | e <;> subst e <;> rfl
  refine ⟨turn d n key, ?_, ?_, window_enter key v T ws d n key pc hw hc hi⟩
  · unfold step
    rcases hp with e | e <;> subst e <;> simp only [hc]
  · rw [turn_hit d n key v T hw.2.1]
    show (d.callers.set n (key, Pc.returned (some v)))[n]? = _
    rw [get_set_of_some _ n n _ _ hc, if_pos rfl]

theorem window_idle {V : Type} (key : String) (v : V) (T : Int) (ws : List Nat) (d : Deck V)
    (hw : Window key v T ws d) : d.c.waiters.get key = none := by
  cases h : d.c.waiters.get key with
  | none => rfl
  | some x =>
    obtain ⟨a, ha⟩ := (hw.1.2.1 key).1 (by rw [h]; rfl)
    exact absurd ha (hw.2.2.1 a)

end gencache
theorem flightdeck_const (acts : List (gencache.Act Landing)) (d : gencache.Deck Landing)
    (h : gencache.run acts flightdeck = some d) :
    d.c.limit = 0 ∧ d.c.duration = gencache.Second / 4 := by
  obtain ⟨h1, h2⟩ := gencache.run_const acts flightdeck d h
  rw [h1, h2]
  exact ⟨rfl, by decide⟩

theorem gotErr_returned (d : gencache.Deck Landing) (i : Nat) (url : String) (land : Landing)
    (h : d.callers[i]? = some (url, gencache.Pc.returned (some land))) :
    gotErr d i = some land.err := by
  unfold gotErr gencache.got
  rw [h]
  rfl

namespace gencache

/-- Claim C26 as stated fails: of two callers of `flightdeck` for one URL the
second waits for the fetch of the first; when it looks at the cache again more
than a quarter of a second after that fetch has stored its landing, the entry
has expired and the second caller starts a fetch of its own instead of
receiving the result of the first. -/
theorem GetWith_waiter_fills_again :
    filling (deckAfter twoCallers) = [0] ∧
    filling (deckAfter (twoCallers ++ [Act.filled 0 softLanding true])) = [] ∧
    filling (deckAfter (twoCallers ++
      [Act.filled 0 softLanding true, Act.tick 250000001, Act.enter 1])) = [1] ∧
    (got (deckAfter (twoCallers ++
      [Act.filled 0 softLanding true, Act.tick 250000001, Act.enter 1])) 1).isNone = true := by
  decide

theorem window_result {V : Type} (key : String) (v : V) (T : Int) (ws : List Nat)
    (d2 : Deck V) (hw : Window key v T ws d2) :
    (∀ a, ¬ fills d2.callers a key) ∧
    (∀ j ∈ ws, d2.callers[j]? = some (key, Pc.woken) ∨
      d2.callers[j]? = some (key, Pc.returned (some v))) ∧
    (∀ (n : Nat) (pc : Pc V), d2.callers[n]? = some (key, pc) → pc = Pc.start ∨ pc = Pc.woken →
      ∃ d3, step d2 (Act.enter n) = some d3 ∧
        d3.callers[n]? = some (key, Pc.returned (some v)) ∧ ∀ a, ¬ fills d3.callers a key) ∧
    (∀ (n : Nat) (pc : Pc V) (t : Nat), d2.callers[n]? = some (key, pc) →
      pc = Pc.start ∨ pc = Pc.woken → T < d2.now + t →
      ∃ d3, run [Act.tick t, Act.enter n] d2 = some d3 ∧ fills d3.callers n key) := by
  refine ⟨hw.2.2.1, hw.2.2.2.2.2, ?_, ?_⟩
  · intro n pc hc hp
    obtain ⟨d3, h1, h2, h3⟩ := enter_fresh key v T ws d2 n pc hw hc hp
    exact ⟨d3, h1, h2, h3.2.2.1⟩
  · intro n pc t hc hp ht
    obtain ⟨d3, h1, h2, -⟩ := enter_expired ⟨d2.c, d2.now + t, d2.collectors, d2.callers⟩ n key
      pc v T hc hp hw.2.1.1 ht hw.2.2.2.2.1 (window_idle key v T ws d2 hw)
    refine ⟨d3, ?_, _, h2⟩
    have e0 : step d2 (Act.tick t) = some ⟨d2.c, d2.now + t, d2.collectors, d2.callers⟩ := rfl
    rw [run, e0]
    simp only
    rw [run, h1]
    rfl

theorem deck_single_flight (V : Type) (opts : Options) (acts : List (Act V)) (d : Deck V)
    (h : run acts (New V opts) = some d) :
    (∀ i j key, fills d.callers i key → fills d.callers j key → i = j) ∧
    (∀ j key, waits d.callers j key → ∃ i, fills d.callers i key) ∧
    (∀ (i : Nat) (key : String) (v : V), d.callers[i]? = some (key, Pc.filling d.c.serial) →
      d.c.limit ≤ 0 → d.c.duration > 0 →
      ∃ d1, step d (Act.filled i v true) = some d1 ∧
        d1.callers[i]? = some (key, Pc.returned (some v)) ∧
        ∀ (acts2 : List (Act V)) (d2 : Deck V),
          quiet key (d.now + d.c.duration) d.now acts2 → run acts2 d1 = some d2 →
          (∀ a, ¬ fills d2.callers a key) ∧
          (∀ j, waits d.callers j key → d2.callers[j]? = some (key, Pc.woken) ∨
            d2.callers[j]? = some (key, Pc.returned (some v))) ∧
          (∀ (n : Nat) (pc : Pc V), d2.callers[n]? = some (key, pc) →
            pc = Pc.start ∨ pc = Pc.woken →
            ∃ d3, step d2 (Act.enter n) = some d3 ∧
              d3.callers[n]? = some (key, Pc.returned (some v)) ∧
              ∀ a, ¬ fills d3.callers a key) ∧
          (∀ (n : Nat) (pc : Pc V) (t : Nat), d2.callers[n]? = some (key, pc) →
            pc = Pc.start ∨ pc = Pc.woken → d.now + d.c.duration < d2.now + t →
            ∃ d3, run [Act.tick t, Act.enter n] d2 = some d3 ∧ fills d3.callers n key)) := by
  have hf : SingleFlight d := deck_run_flight acts _ d h (New_flight V opts)
  refine ⟨hf.1, ?_, ?_⟩
  · intro j key hj
    obtain ⟨ws, h1, -⟩ := (hf.2.2 j key).1 hj
    exact (hf.2.1 key).1 (by rw [h1]; rfl)
  · intro i key v hc hl hd
    obtain ⟨d1, h1, h2, h3, h4⟩ := window_open d i key v hf hc hl hd
    refine ⟨d1, h1, h3, ?_⟩
    intro acts2 d2 hq hr
    have hw := window_run key v _ _ acts2 d1 d2 h2 hr (by rw [h4]; exact hq)
    obtain ⟨r1, r2, r3, r4⟩ := window_result key v _ _ d2 hw
    refine ⟨r1, ?_, r3, r4⟩
    intro j hj
    obtain ⟨ws, e1, e2⟩ := (hf.2.2 j key).1 hj
    exact r2 j (by rw [e1]; exact e2)

/-- Claim C26, amended: in every state that callers of `GetWith` reach from a
new cache, no two callers run a fill for the same key, and a caller that waits
for a key waits for a fill that is under way. When that fill returns `(v, true)`
with `serial` unchanged, in a cache without size limit and with a positive
duration, the filler returns `v`; as long as the key is not cleared, the cache
not flushed and the duration not over, nobody fills the key again, every caller
that waited is woken or has returned `v`, and every caller for the key that
looks at the cache returns `v`; a caller that looks only after the duration is
over starts a fill of its own. -/
theorem GetWith_single_flight (V : Type) (opts : Options) (acts : List (Act V)) (d : Deck V)
    (h : run acts (New V opts) = some d) :
    (∀ i j key, fills d.callers i key → fills d.callers j key → i = j) ∧
    (∀ j key, waits d.callers j key → ∃ i, fills d.callers i key) ∧
    (∀ (i : Nat) (key : String) (v : V), d.callers[i]? = some (key, Pc.filling d.c.serial) →
      d.c.limit ≤ 0 → d.c.duration > 0 →
      ∃ d1, step d (Act.filled i v true) = some d1 ∧
        d1.callers[i]? = some (key, Pc.returned (some v)) ∧
        ∀ (acts2 : List (Act V)) (d2 : Deck V),
          quiet key (d.now + d.c.duration) d.now acts2 → run acts2 d1 = some d2 →
          (∀ a, ¬ fills d2.callers a key) ∧
          (∀ j, waits d.callers j key → d2.callers[j]? = some (key, Pc.woken) ∨
            d2.callers[j]? = some (key, Pc.returned (some v))) ∧
          (∀ (n : Nat) (pc : Pc V), d2.callers[n]? = some (key, pc) →
            pc = Pc.start ∨ pc = Pc.woken →
            ∃ d3, step d2 (Act.enter n) = some d3 ∧
              d3.callers[n]? = some (key, Pc.returned (some v)) ∧
              ∀ a, ¬ fills d3.callers a key) ∧
          (∀ (n : Nat) (pc : Pc V) (t : Nat), d2.callers[n]? = some (key, pc) →
            pc = Pc.start ∨ pc = Pc.woken → d.now + d.c.duration < d2.now + t →
            ∃ d3, run [Act.tick t, Act.enter n] d2 = some d3 ∧ fills d3.callers n key)) :=
  deck_single_flight V opts acts d h

/-- Claim C26, amended, at `flightdeck` with two callers for one URL: one of
them fills, and after its fill the other one, looking at the cache a
millisecond later, returns the landing of the first. -/
theorem GetWith_single_flight_witness :
    run twoCallers (New Landing ⟨Second / 4, 0⟩) = some (deckAfter twoCallers) ∧
    filling (deckAfter twoCallers) = [0] ∧
    (∀ i j key, fills (deckAfter twoCallers).callers i key →
      fills (deckAfter twoCallers).callers j key → i = j) ∧
    (gotErr (deckAfter (twoCallers ++
      [Act.filled 0 softLanding true, Act.tick 1000000, Act.enter 1])) 1 = some none) :=
  ⟨rfl, by decide,
   (GetWith_single_flight Landing ⟨Second / 4, 0⟩ twoCallers (deckAfter twoCallers) rfl).1,
   by decide⟩

end gencache

/-- Claim C22 as stated fails: a fetch of `noteURL` through `flightdeck` fails
with status 500; a second request for the same URL a millisecond later returns
that error from the cache, and no fetch is under way for it. -/
theorem flightdeck_error_is_cached :
    gotErr (deckAfter (oneCaller ++ [gencache.Act.filled 0 crashLanding true])) 0 =
      some (some "http get status: 500") ∧
    gotErr (deckAfter (oneCaller ++ [gencache.Act.filled 0 crashLanding true,
      gencache.Act.tick 1000000, gencache.Act.call noteURL, gencache.Act.enter 1])) 1 =
      some (some "http get status: 500") ∧
    filling (deckAfter (oneCaller ++ [gencache.Act.filled 0 crashLanding true,
      gencache.Act.tick 1000000, gencache.Act.call noteURL, gencache.Act.enter 1])) = [] := by
  decide

/-- Claim C22, amended: when a fetch through `flightdeck` fails (the fill
function of `GetJunkTimeout`, or the one of `flightdeck.Get`, returns a landing
with an error), the caller gets the error, and the landing is stored like that
of a fetch that succeeded: until a quarter of a second is over (the key not
cleared, the cache not flushed) every request for the same URL returns the
stored error and starts no fetch; a request that looks at the cache after that
time starts a new fetch. -/
theorem flightdeck_stores_error (acts : List (gencache.Act Landing)) (d : gencache.Deck Landing)
    (i : Nat) (url e data : String) (j : Option Junk) (r : Landing × Bool)
    (h : gencache.run acts flightdeck = some d)
    (hc : d.callers[i]? = some (url, gencache.Pc.filling d.c.serial))
    (hr : r = fn j (some e) ∨ r = Fill data (some e)) :
    ∃ d1, gencache.step d (gencache.Act.filled i r.1 r.2) = some d1 ∧
      gotErr d1 i = some (some e) ∧
      ∀ (acts2 : List (gencache.Act Landing)) (d2 : gencache.Deck Landing) (n : Nat)
        (pc : gencache.Pc Landing),
        gencache.quiet url (d.now + gencache.Second / 4) d.now acts2 →
        gencache.run acts2 d1 = some d2 →
        d2.callers[n]? = some (url, pc) → pc = gencache.Pc.start ∨ pc = gencache.Pc.woken →
        (∃ d3, gencache.step d2 (gencache.Act.enter n) = some d3 ∧
          gotErr d3 n = some (some e) ∧ ∀ a, ¬ gencache.fills d3.callers a url) ∧
        (∀ t : Nat, d.now + gencache.Second / 4 < d2.now + t →
          ∃ d3, gencache.run [gencache.Act.tick t, gencache.Act.enter n] d2 = some d3 ∧
            gencache.fills d3.callers n url) := by
  obtain ⟨c1, c2⟩ := flightdeck_const acts d h
  have hok : r.2 = true := by rcases hr with e1 | e1 <;> rw [e1] <;> rfl
  have herr : r.1.err = some e := by rcases hr with e1 | e1 <;> rw [e1] <;> rfl
  obtain ⟨_, _, h3⟩ := gencache.deck_single_flight Landing _ acts d h
  obtain ⟨d1, s1, s2, s3⟩ := h3 i url r.1 hc (by rw [c1]) (by rw [c2]; decide)
  refine ⟨d1, by rw [hok]; exact s1, by rw [gotErr_returned d1 i url r.1 s2, herr], ?_⟩
  intro acts2 d2 n pc hq hrun hn hp
  obtain ⟨_, _, t3, t4⟩ := s3 acts2 d2 (by rw [c2]; exact hq) hrun
  constructor
  · obtain ⟨d3, u1, u2, u3⟩ := t3 n pc hn hp
    exact ⟨d3, u1, by rw [gotErr_returned d3 n url r.1 u2, herr], u3⟩
  · intro t ht
    exact t4 n pc t hn hp (by rw [c2]; exact ht)

/-- Claim C22, amended, at a fetch of `noteURL` through `flightdeck` that fails
with status 500. -/
theorem flightdeck_stores_error_witness :
    gencache.run oneCaller flightdeck = some (deckAfter oneCaller) ∧
    (deckAfter oneCaller).callers[0]? =
      some (noteURL, gencache.Pc.filling (deckAfter oneCaller).c.serial) ∧
    ∃ d1, gencache.step (deckAfter oneCaller)
        (gencache.Act.filled 0 (fn none (some "http get status: 500")).1
          (fn none (some "http get status: 500")).2) = some d1 ∧
      gotErr d1 0 = some (some "http get status: 500") :=
  ⟨rfl, rfl,
   (flightdeck_stores_error oneCaller (deckAfter oneCaller) 0 noteURL "http get status: 500" ""
      none (fn none (some "http get status: 500")) rfl rfl (Or.inl rfl)).imp
     fun _ hd => ⟨hd.1, hd.2.1⟩⟩

/-! ## The thread order -/

theorem threaded_length (H : List HonkPtr) (s : Thread) (h : Threaded H s) :
    s.done.length ≤ H.length := by
  obtain ⟨h1, h2, h3, -⟩ := h
  have hn : s.thread.Nodup := by
    rw [h1] at h2
    exact List.Nodup.of_map _ h2
  rw [h1, List.length_map]
  exact (List.Nodup.subperm hn h3).length_le

theorem threaded_add (H : List HonkPtr) (s : Thread) (x : HonkPtr) (h : Threaded H s)
    (hx : x ∈ H) (hd : x.ptr ∉ s.done) :
    Threaded H (s.add x) ∧ (s.add x).done = s.done ++ [x.ptr] ∧ (s.add x).kids = s.kids := by
  obtain ⟨h1, h2, h3, h4⟩ := h
  refine ⟨⟨?_, ?_, ?_, h4⟩, rfl, rfl⟩
  · show s.done ++ [x.ptr] = (s.thread ++ [x]).map HonkPtr.ptr
    rw [List.map_append, h1]
    rfl
  · show (s.done ++ [x.ptr]).Nodup
    exact List.Nodup.append h2 (List.nodup_singleton _) (by simpa using hd)
  · intro y hy
    rcases List.mem_append.1 hy with hy | hy
    · exact h3 y hy
    · rw [List.mem_singleton.1 hy]
      exact hx

theorem childLoop_threaded (H : List HonkPtr) (rec : HonkPtr → Thread → Option Thread)
    (fuel : Nat) (xid : String)
    (hrec : ∀ p s, Threaded H s → H.length < fuel + s.done.length →
      ∃ s1, rec p s = some s1 ∧ Threaded H s1 ∧ s.done <+: s1.done) :
    ∀ (n i : Nat) (s : Thread), Threaded H s → H.length < fuel + 1 + s.done.length →
      ∃ s1, childLoop rec xid n i s = some s1 ∧ Threaded H s1 ∧ s.done <+: s1.done := by
  intro n
  induction n with
  | zero =>
    intro i s hs _
    exact ⟨s, rfl, hs, List.prefix_refl _⟩
  | succ n ih =>
    intro i s hs hb
    rw [childLoop]
    cases hg : ((s.kids.get xid).getD [])[i]? with
    | none => exact ⟨s, rfl, hs, List.prefix_refl _⟩
    | some x =>
      simp only
      have hxH : x ∈ H := by
        have hm : x ∈ (s.kids.get xid).getD [] := List.getElem?_mem hg
        cases hk : s.kids.get xid with
        | none => rw [hk] at hm; cases hm
        | some l =>
          rw [hk] at hm
          exact hs.2.2.2 xid l hk x hm
      by_cases hd : x.ptr ∈ s.done
      · rw [if_pos hd]
        exact ih (i + 1) s hs hb
      · rw [if_neg hd]
        obtain ⟨ha, hd2, -⟩ := threaded_add H s x hs hxH hd
        obtain ⟨s1, e1, t1, p1⟩ := hrec x (s.add x) ha (by
          rw [hd2, List.length_append, List.length_singleton]
          omega)
        rw [e1]
        simp only
        have hp : s.done <+: s1.done :=
          List.IsPrefix.trans (by rw [hd2]; exact List.prefix_append _ _) p1
        obtain ⟨s2, e2, t2, p2⟩ := ih (i + 1) s1 t1 (by
          have := hp.length_le
          omega)
        exact ⟨s2, e2, t2, hp.trans p2⟩

theorem nextlevel_threaded (H : List HonkPtr) (honkx : gencache.Map HonkPtr) :
    ∀ (fuel : Nat) (p : HonkPtr) (s : Thread), Threaded H s →
      H.length < fuel + s.done.length →
      ∃ s1, nextlevel honkx fuel p s = some s1 ∧ Threaded H s1 ∧ s.done <+: s1.done := by
  intro fuel
  induction fuel with
  | zero =>
    intro p s hs hb
    have := threaded_length H s hs
    omega
  | succ fuel ih =>
    intro p s hs hb
    rw [nextlevel]
    simp only
    generalize hl : (if levelupOf honkx s.kids s.level p = true then s.level + 1
      else s.level) = level
    generalize hs2 : (match s.kids.get p.XID with
      | some childs =>
        ({ kids := s.kids.put p.XID
            (childs.insertionSort fun a b => points s.kids p a ≥ points s.kids p b),
           done := s.done, thread := s.thread, level := level,
           styles := s.styles ++ [(p.ptr, " level" ++ toString level)] } : Thread)
      | none =>
        { kids := s.kids, done := s.done, thread := s.thread, level := level,
          styles := s.styles ++ [(p.ptr, " level" ++ toString level)] }) = s2
    have hs2t : Threaded H s2 ∧ s2.done = s.done := by
      obtain ⟨h1, h2, h3, h4⟩ := hs
      cases hk : s.kids.get p.XID with
      | none =>
        rw [hk] at hs2
        subst hs2
        exact ⟨⟨h1, h2, h3, h4⟩, rfl⟩
      | some childs =>
        rw [hk] at hs2
        subst hs2
        refine ⟨⟨h1, h2, h3, ?_⟩, rfl⟩
        intro xid l hg x hx
        simp only at hg
        rw [gencache.Map.get_put] at hg
        by_cases e : xid = p.XID
        · rw [if_pos e] at hg
          injection hg with hg
          subst hg
          exact h4 p.XID childs hk x ((List.perm_insertionSort _ childs).subset hx)
        · rw [if_neg e] at hg
          exact h4 xid l hg x hx
    obtain ⟨t2, d2⟩ := hs2t
    obtain ⟨s3, e3, t3, p3⟩ := childLoop_threaded H (nextlevel honkx fuel) fuel p.XID ih
      ((s2.kids.get p.XID).getD []).length 0 s2 t2 (by rw [d2]; omega)
    rw [e3]
    refine ⟨_, rfl, ⟨t3.1, t3.2.1, t3.2.2.1, t3.2.2.2⟩, ?_⟩
    rw [← d2]
    exact p3

theorem topLoop_threaded (H : List HonkPtr) (honkx : gencache.Map HonkPtr) (roots : Bool) :
    ∀ (l : List HonkPtr) (s : Thread), (∀ h ∈ l, h ∈ H) → Threaded H s →
      ∃ s1, topLoop honkx (H.length + 1) roots l s = some s1 ∧ Threaded H s1 ∧
        s.done <+: s1.done ∧ (roots = false → ∀ h ∈ l, h.ptr ∈ s1.done) := by
  intro l
  induction l with
  | nil =>
    intro s _ hs
    exact ⟨s, rfl, hs, List.prefix_refl _, fun _ h hh => by cases hh⟩
  | cons x rest ih =>
    intro s hl hs
    rw [topLoop]
    have hrest : ∀ h ∈ rest, h ∈ H := fun h hh => hl h (List.mem_cons_of_mem _ hh)
    by_cases hc : x.ptr ∉ s.done ∧ (roots = true → x.RID = "")
    · rw [if_pos hc]
      obtain ⟨ha, hd2, -⟩ := threaded_add H s x hs (hl x (List.mem_cons_self _ _)) hc.1
      obtain ⟨s1, e1, t1, p1⟩ := nextlevel_threaded H honkx (H.length + 1) x (s.add x) ha
        (by omega)
      rw [e1]
      simp only
      obtain ⟨s2, e2, t2, p2, q2⟩ := ih s1 hrest t1
      have hp : s.done <+: s1.done :=
        List.IsPrefix.trans (by rw [hd2]; exact List.prefix_append _ _) p1
      refine ⟨s2, e2, t2, hp.trans p2, ?_⟩
      intro hr h hh
      rcases List.mem_cons.1 hh with e | hh
      · subst e
        apply p2.subset
        apply p1.subset
        rw [hd2]
        simp
      · exact q2 hr h hh
    · rw [if_neg hc]
      obtain ⟨s2, e2, t2, p2, q2⟩ := ih s hrest hs
      refine ⟨s2, e2, t2, p2, ?_⟩
      intro hr h hh
      rcases List.mem_cons.1 hh with e | hh
      · subst e
        have : h.ptr ∈ s.done := by
          by_contra hn
          exact hc ⟨hn, fun e => by rw [hr] at e; cases e⟩
        exact p2.subset this
      · exact q2 hr h hh

theorem kidsOf_mem (H : List HonkPtr) :
    ∀ (l : List HonkPtr) (m : gencache.Map (List HonkPtr)), (∀ h ∈ l, h ∈ H) →
      (∀ xid ks, m.get xid = some ks → ∀ h ∈ ks, h ∈ H) →
      ∀ xid ks, (l.foldl (fun m h => m.put h.RID ((m.get h.RID).getD [] ++ [h])) m).get xid =
        some ks → ∀ h ∈ ks, h ∈ H := by
  intro l
  induction l with
  | nil =>
    intro m _ hm
    exact hm
  | cons x rest ih =>
    intro m hl hm
    rw [List.foldl_cons]
    apply ih _ (fun h hh => hl h (List.mem_cons_of_mem _ hh))
    intro xid ks hg h hh
    rw [gencache.Map.get_put] at hg
    by_cases e : xid = x.RID
    · rw [if_pos e] at hg
      injection hg with hg
      subst hg
      rcases List.mem_append.1 hh with hh | hh
      · cases hk : m.get x.RID with
        | none => rw [hk] at hh; cases hh
        | some l0 =>
          rw [hk] at hh
          exact hm x.RID l0 hk h hh
      · rw [List.mem_singleton.1 hh]
        exact hl x (List.mem_cons_self _ _)
    · rw [if_neg e] at hg
      exact hm xid ks hg h hh

theorem threadrun_threaded (S : DateSort) (honks : List HonkPtr) :
    ∃ s, threadrun S honks = some s ∧ Threaded (S.sort honks) s ∧
      ∀ h ∈ S.sort honks, h.ptr ∈ s.done := by
  unfold threadrun
  simp only
  have h0 : Threaded (S.sort honks)
      { kids := kidsOf (S.sort honks), done := [], thread := [], level := 0, styles := [] } := by
    refine ⟨rfl, List.nodup_nil, fun h hh => absurd hh (List.not_mem_nil h), ?_⟩
    exact kidsOf_mem (S.sort honks) (S.sort honks) [] (fun h hh => hh)
      (fun xid ks hg => by simp [gencache.Map.get] at hg)
  obtain ⟨s1, e1, t1, -, -⟩ := topLoop_threaded (S.sort honks) (honkxOf (S.sort honks)) true
    (S.sort honks) _ (fun h hh => hh) h0
  rw [e1]
  simp only
  obtain ⟨s2, e2, t2, -, q2⟩ := topLoop_threaded (S.sort honks) (honkxOf (S.sort honks)) false
    (S.sort honks) s1 (fun h hh => hh) t1
  exact ⟨s2, e2, t2, q2 rfl⟩

theorem threadsort_perm (S : DateSort) (honks : List HonkPtr)
    (hd : (honks.map HonkPtr.ptr).Nodup) :
    ∃ thread, threadsort S honks = some thread ∧ thread.Perm honks := by
  obtain ⟨s, e, ⟨h1, h2, h3, -⟩, hall⟩ := threadrun_threaded S honks
  refine ⟨s.thread, by rw [threadsort, e]; rfl, ?_⟩
  refine List.Perm.trans ?_ (S.perm honks)
  have hdH : ((S.sort honks).map HonkPtr.ptr).Nodup :=
    ((S.perm honks).map HonkPtr.ptr).nodup_iff.2 hd
  have hnH : (S.sort honks).Nodup := List.Nodup.of_map _ hdH
  have hnT : s.thread.Nodup := by
    rw [h1] at h2
    exact List.Nodup.of_map _ h2
  refine (List.perm_ext_iff_of_nodup hnT hnH).2 (fun a => ⟨h3 a, fun ha => ?_⟩)
  have hp := hall a ha
  rw [h1, List.mem_map] at hp
  obtain ⟨b, hb, hbe⟩ := hp
  have : b = a := List.inj_on_of_nodup_map hdH (h3 b hb) ha hbe
  exact this ▸ hb

/-- Claim C29: for every list of honks at distinct addresses, whatever order
`sort.Slice` leaves among honks of the same date, `threadsort` returns (the
nested calls of `nextlevel` never number more than there are honks) and the
slice it returns is a permutation of the input: each honk of the input is in
it once, and nothing else is. -/
theorem threadsort_permutation (S : DateSort) (honks : List HonkPtr)
    (hd : (honks.map HonkPtr.ptr).Nodup) :
    ∃ thread, threadsort S honks = some thread ∧ thread.Perm honks ∧ thread.Nodup ∧
      (∀ h, h ∈ thread ↔ h ∈ honks) ∧ thread.length = honks.length := by
  obtain ⟨thread, e, hp⟩ := threadsort_perm S honks hd
  exact ⟨thread, e, hp, hp.nodup_iff.2 (List.Nodup.of_map _ hd), fun h => hp.mem_iff,
    hp.length_eq⟩

/-- Claim C29 at five honks with a cycle of replies, a shared xid and a
missing parent. -/
theorem threadsort_permutation_witness :
    (tangle.map HonkPtr.ptr).Nodup ∧
    (threadsort byDate tangle).map (fun t => t.map HonkPtr.ptr) = some [3, 2, 1, 5, 4] ∧
    ∃ thread, threadsort byDate tangle = some thread ∧ thread.Perm tangle :=
  ⟨by decide, by decide,
   (threadsort_permutation byDate tangle (by decide)).imp fun _ h => ⟨h.1, h.2.1⟩⟩

/-! ## The depth counter -/

theorem Grows.refl (s : XState) : Grows s s :=
  ⟨rfl, [], by simp, fun f hf => by cases hf⟩

theorem Grows.trans {a b c : XState} (h1 : Grows a b) (h2 : Grows b c) : Grows a c := by
  obtain ⟨d1, m1, f1, b1⟩ := h1
  obtain ⟨d2, m2, f2, b2⟩ := h2
  refine ⟨d2.trans d1, m1 ++ m2, by rw [f2, f1, List.append_assoc], ?_⟩
  intro f hf
  rcases List.mem_append.1 hf with hf | hf
  · exact b1 f hf
  · obtain ⟨x1, x2, x3⟩ := b2 f hf
    exact ⟨by omega, x2, x3⟩

theorem Grows.side {s s1 : XState} (s2 : XState) (h : Grows s s1) (hd : s2.depth = s1.depth)
    (hf : s2.fetches = s1.fetches) : Grows s s2 := by
  obtain ⟨d1, m1, f1, b1⟩ := h
  exact ⟨hd.trans d1, m1, hf.trans f1, b1⟩

theorem Grows.from_side {s0 s1 : XState} (s : XState) (h : Grows s0 s1) (hd : s0.depth = s.depth)
    (hf : s0.fetches = s.fetches) : Grows s s1 := by
  obtain ⟨d1, m1, f1, b1⟩ := h
  refine ⟨d1.trans hd, m1, by rw [f1, hf], ?_⟩
  intro f hm
  obtain ⟨x1, x2, x3⟩ := b1 f hm
  exact ⟨by omega, x2, x3⟩

theorem Grows.excursion {s s1 r : XState} (d : Nat) (h1 : Grows s s1)
    (h2 : Grows ⟨d, s1.currenttid, s1.goingup, s1.db, s1.fetches⟩ r) (hle : s.depth ≤ d) :
    Grows s ⟨s1.depth, r.currenttid, r.goingup, r.db, r.fetches⟩ := by
  obtain ⟨d1, m1, f1, b1⟩ := h1
  obtain ⟨d2, m2, f2, b2⟩ := h2
  simp only at d2 f2 b2
  refine ⟨d1, m1 ++ m2, by show r.fetches = _; rw [f2, f1, List.append_assoc], ?_⟩
  intro f hf
  rcases List.mem_append.1 hf with hf | hf
  · exact b1 f hf
  · obtain ⟨x1, x2, x3⟩ := b2 f hf
    exact ⟨by omega, x2, x3⟩

theorem GetJunkTimeout_grows (W : World) (user : WhatAbout) (url : String) (hard : Bool)
    (s : XState) (hd : s.depth ≤ maxdepth + 5) (hh : hard = false → s.depth < maxdepth) :
    Grows s (GetJunkTimeout W user url hard s).2 := by
  unfold GetJunkTimeout
  split_ifs
  · exact Grows.refl s
  · refine ⟨rfl, [⟨url, s.depth, hard⟩], rfl, ?_⟩
    intro f hf
    rw [List.mem_singleton.1 hf]
    exact ⟨Nat.le_refl _, hd, hh⟩

theorem fetched_grows (W : World) (user : WhatAbout) (url : String) (s : XState)
    (r : Option Junk) (s1 : XState) (h : GetJunkHardMode W user url s = (r, s1))
    (hd : s.depth ≤ maxdepth + 5) : Grows s s1 := by
  have := GetJunkTimeout_grows W user url true s hd (fun e => by cases e)
  unfold GetJunkHardMode at h
  rcases hg : GetJunkTimeout W user url true s with ⟨_ | ⟨j, f⟩, s2⟩
  · rw [hg] at h this
    simp only [Prod.mk.injEq] at h
    rw [← h.2]
    exact this
  · rw [hg] at h this
    simp only [Prod.mk.injEq] at h
    rw [← h.2]
    exact this

theorem saveonemore_grows (W : World) (user : WhatAbout) (rec : XonkFn)
    (hrec : ∀ item origin u b m s, Grows s (rec item origin u b m s).2)
    (xid : String) (s : XState) (hd : s.depth ≤ maxdepth + 5) :
    Grows s (saveonemore W user rec xid s) := by
  unfold saveonemore
  split_ifs
  · exact Grows.refl s
  · split
    · next s1 heq => exact fetched_grows W user xid s _ s1 heq hd
    · next obj s1 heq =>
      exact (fetched_grows W user xid s _ s1 heq hd).trans (hrec _ _ _ _ _ _)

theorem qutifyLoop_grows (W : World) (user : WhatAbout) (rec : XonkFn)
    (hrec : ∀ item origin u b m s, Grows s (rec item origin u b m s).2)
    (qurl : String) (ms : List String) :
    ∀ (content : String) (s : XState), s.depth < maxdepth →
      Grows s (qutifyLoop W user rec qurl ms content s).2 := by
  induction ms with
  | nil => intro content s _; exact Grows.refl s
  | cons m ms ih =>
    intro content s hlt
    have hd : s.depth ≤ maxdepth + 5 := by omega
    unfold qutifyLoop
    simp only
    cases hx : getxonk s.db user.ID m with
    | some x => exact ih _ _ hlt
    | none =>
      have hg0 := GetJunkTimeout_grows W user m false s hd (fun _ => hlt)
      rcases hg : GetJunkTimeout W user m false s with ⟨_ | ⟨j, final⟩, s1⟩
      · rw [hg] at hg0
        simp only
        exact hg0.trans (ih _ _ (by rw [hg0.1]; exact hlt))
      · rw [hg] at hg0
        simp only [xonkxonkfn]
        have hx := Grows.excursion maxdepth hg0
          (hrec j (originate final) false "" false
            ⟨maxdepth, s1.currenttid, s1.goingup, s1.db, s1.fetches⟩) (by omega)
        exact hx.trans (ih _ _ (by show s1.depth < maxdepth; rw [hg0.1]; exact hlt))

theorem qutify_grows (W : World) (user : WhatAbout) (rec : XonkFn)
    (hrec : ∀ item origin u b m s, Grows s (rec item origin u b m s).2)
    (qurl content : String) (s : XState) :
    Grows s (qutify W user rec qurl content s).2 := by
  unfold qutify
  split_ifs with h
  · exact Grows.refl s
  · exact qutifyLoop_grows W user rec hrec _ _ _ _ (by omega)

theorem repliesLoop_grows (W : World) (user : WhatAbout) (rec : XonkFn)
    (hrec : ∀ item origin u b m s, Grows s (rec item origin u b m s).2)
    (l : List String) :
    ∀ s : XState, s.depth ≤ maxdepth + 5 → Grows s (repliesLoop W user rec l s) := by
  induction l with
  | nil => intro s _; exact Grows.refl s
  | cons r rest ih =>
    intro s hd
    unfold repliesLoop
    split_ifs
    · have h1 := saveonemore_grows W user rec hrec r s hd
      exact h1.trans (ih _ (by rw [h1.1]; exact hd))
    · exact ih _ hd

theorem parentFetched_grows (W : World) (user : WhatAbout) (rec : XonkFn)
    (hrec : ∀ item origin u b m s, Grows s (rec item origin u b m s).2)
    (xonk : Honk) (s : XState) (hd : s.depth ≤ maxdepth + 5) :
    Grows s (parentFetched W user rec xonk s) := by
  unfold parentFetched
  split_ifs
  · have h1 := saveonemore_grows W user rec hrec xonk.RID
      ⟨s.depth, s.currenttid, s.goingup + 1, s.db, s.fetches⟩ hd
    exact Grows.side _ (Grows.from_side s h1 rfl rfl) rfl rfl
  · exact Grows.refl s
  · exact Grows.refl s

theorem xonkStore_side (W : World) (user : WhatAbout) (rec : XonkFn) (xonk : Honk)
    (s : XState) :
    (xonkStore W user rec xonk s).2.depth = (parentFetched W user rec xonk s).depth ∧
    (xonkStore W user rec xonk s).2.fetches = (parentFetched W user rec xonk s).fetches := by
  unfold xonkStore parentFetched
  simp only
  split_ifs <;> exact ⟨rfl, rfl⟩

theorem xonkStore_grows (W : World) (user : WhatAbout) (rec : XonkFn)
    (hrec : ∀ item origin u b m s, Grows s (rec item origin u b m s).2)
    (xonk : Honk) (s : XState) (hd : s.depth ≤ maxdepth + 5) :
    Grows s (xonkStore W user rec xonk s).2 :=
  Grows.side _ (parentFetched_grows W user rec hrec xonk s hd)
    (xonkStore_side W user rec xonk s).1 (xonkStore_side W user rec xonk s).2

theorem xonkSave_tail_grows (W : World) (user : WhatAbout) (rec : XonkFn)
    (hrec : ∀ item origin u b m s, Grows s (rec item origin u b m s).2)
    (c : Prop) [Decidable c] (x : Honk) (replies : List String) (s0 s : XState)
    (h : Grows s0 s) (hd : s0.depth ≤ maxdepth + 5) (r : Honk × XState)
    (hr : r = if c then xonkStore W user rec x s else (x, s)) :
    Grows s0 (if r.2.goingup = 0 then repliesLoop W user rec replies r.2 else r.2) := by
  have hds : s.depth ≤ maxdepth + 5 := by rw [h.1]; exact hd
  have h1 : Grows s0 r.2 := by
    rw [hr]
    split_ifs
    · exact h.trans (xonkStore_grows W user rec hrec x s hds)
    · exact h
  split_ifs
  · exact h1.trans (repliesLoop_grows W user rec hrec _ _ (by rw [h1.1]; exact hd))
  · exact h1

theorem xonkSave_grows (W : World) (user : WhatAbout) (rec : XonkFn)
    (hrec : ∀ item origin u b m s, Grows s (rec item origin u b m s).2)
    (obj : Junk) (isUpdate myown : Bool) (xonk : Honk) (replies : List String) (s : XState)
    (hd : s.depth ≤ maxdepth + 5) :
    Grows s (xonkSave W user rec obj isUpdate myown xonk replies s).2 := by
  unfold xonkSave
  by_cases hc : xonk.What = "chonk"
  · rw [if_pos hc]
    exact Grows.side _ (Grows.refl s) rfl rfl
  · rw [if_neg hc]
    simp only
    generalize hprev : (if isUpdate = true then getxonk s.db user.ID xonk.XID else none) = prev
    cases prev with
    | none =>
      exact xonkSave_tail_grows W user rec hrec _ xonk replies s s (Grows.refl s) hd _ rfl
    | some p =>
      exact xonkSave_tail_grows W user rec hrec _ _ replies s
        ⟨s.depth, s.currenttid, s.goingup, updatehonk s.db _, s.fetches⟩
        (Grows.side _ (Grows.refl s) rfl rfl) hd _ rfl

theorem xonkRecord_grows (W : World) (user : WhatAbout) (rec : XonkFn)
    (hrec : ∀ item origin u b m s, Grows s (rec item origin u b m s).2)
    (item : Junk) (origin : String) (isUpdate : Bool) (bonker : String) (myown : Bool)
    (what typ : String) (waspage : Bool) (s : XState) (hd : s.depth ≤ maxdepth + 5) :
    Grows s (xonkRecord W user rec item origin isUpdate bonker myown what typ waspage s).2 := by
  unfold xonkRecord
  simp only
  by_cases h1 : (item.GetString "id").1 = ""
  · rw [if_pos h1]
    exact Grows.refl s
  · rw [if_neg h1]
    by_cases h2 : originate (item.GetString "id").1 ≠ origin ∧ ¬ W.develMode = true ∧ origin ≠ ""
    · rw [if_pos h2]
      exact Grows.refl s
    · rw [if_neg h2]
      by_cases h3 : myown = true ∧ honkerOf item ≠ user.URL
      · rw [if_pos h3]
        exact Grows.refl s
      · rw [if_neg h3]
        by_cases h4 : originate (honkerOf item) ≠ origin
        · rw [if_pos h4]
          exact Grows.refl s
        · rw [if_neg h4]
          generalize (if honkerOf item = "" then extractattrto item else honkerOf item) =
            honker1
          generalize (if bonker ≠ "" then bonker else honker1) = honker
          generalize (if bonker ≠ "" then honker1 else "") = oonker0
          generalize (if typ = "Question" ∧ (if bonker ≠ "" then "bonk" else what) = "honk"
            then "qonk" else if bonker ≠ "" then "bonk" else what) = what1
          generalize hq : (if user.InlineQuotes = true then
              qutify W user rec (item.GetString "quoteUrl").1 (W.noise typ waspage item) s
            else (W.noise typ waspage item, s)) = q
          have hq1 : Grows s q.2 := by
            rw [← hq]
            split_ifs
            · exact qutify_grows W user rec hrec _ _ _
            · exact Grows.refl s
          generalize (if oonker0 = honker then "" else oonker0) = oonker
          generalize hs1 : (if q.2.currenttid = "" then
              ({ q.2 with currenttid := convoyOf item } : XState) else q.2) = s1
          have hs2 : Grows s s1 := by
            rw [← hs1]
            split_ifs
            · exact Grows.side _ hq1 rfl rfl
            · exact hq1
          split_ifs
          · exact hq1
          · exact hs2.trans (xonkSave_grows W user rec hrec _ _ _ _ _ _
              (by rw [hs2.1]; exact hd))

theorem xonkAnnounce_grows (W : World) (user : WhatAbout) (rec : XonkFn)
    (hrec : ∀ item origin u b m s, Grows s (rec item origin u b m s).2)
    (item : Junk) (origin : String) (isUpdate : Bool) (s : XState)
    (hd : s.depth ≤ maxdepth + 5) :
    Grows s (xonkAnnounce W user rec item origin isUpdate s).2 := by
  unfold xonkAnnounce
  simp only [xonkxonkfn]
  split_ifs
  · exact Grows.refl s
  · exact Grows.refl s
  · exact hrec _ _ _ _ _ _
  · split
    · next s1 heq => exact fetched_grows W user _ s _ s1 heq hd
    · next obj s1 heq =>
      exact (fetched_grows W user _ s _ s1 heq hd).trans (hrec _ _ _ _ _ _)

theorem xonkCreate_grows (W : World) (user : WhatAbout) (rec : XonkFn)
    (hrec : ∀ item origin u b m s, Grows s (rec item origin u b m s).2)
    (item : Junk) (origin : String) (isUpdate : Bool) (bonker : String) (myown : Bool)
    (s : XState) (hd : s.depth ≤ maxdepth + 5) :
    Grows s (xonkCreate W user rec item origin isUpdate bonker myown s).2 := by
  unfold xonkCreate
  cases item.GetMap "object" with
  | some obj => exact hrec _ _ _ _ _ _
  | none =>
    simp only
    split_ifs
    · exact Grows.refl s
    · split
      · next s1 heq => exact fetched_grows W user _ s _ s1 heq hd
      · next obj s1 heq =>
        exact (fetched_grows W user _ s _ s1 heq hd).trans (hrec _ _ _ _ _ _)

theorem xonkRead_grows (W : World) (user : WhatAbout) (rec : XonkFn)
    (hrec : ∀ item origin u b m s, Grows s (rec item origin u b m s).2)
    (item : Junk) (s : XState) (hd : s.depth ≤ maxdepth + 5) :
    Grows s (xonkRead W user rec item s).2 := by
  unfold xonkRead
  simp only [xonkxonkfn]
  split_ifs
  · split
    · next s1 heq => exact fetched_grows W user _ s _ s1 heq hd
    · next obj s1 heq =>
      exact (fetched_grows W user _ s _ s1 heq hd).trans (hrec _ _ _ _ _ _)
  · exact Grows.refl s
  · exact Grows.refl s

theorem xonkDelete_grows (user : WhatAbout) (origin xid : String) (s : XState) :
    Grows s (xonkDelete user origin xid s).2 := by
  unfold xonkDelete
  split_ifs
  · exact Grows.refl s
  · exact Grows.refl s
  · exact Grows.side _ (Grows.refl s) rfl rfl

theorem xonkSwitch_grows (W : World) (user : WhatAbout) (rec : XonkFn)
    (hrec : ∀ item origin u b m s, Grows s (rec item origin u b m s).2)
    (item : Junk) (origin : String) (isUpdate : Bool) (bonker : String) (myown : Bool)
    (s : XState) (hd : s.depth ≤ maxdepth + 5) :
    Grows s (xonkSwitch W user rec item origin isUpdate bonker myown s).2 := by
  unfold xonkSwitch
  generalize firstofmany item "type" = typ
  by_cases c1 : typ = "Delete"
  · rw [if_pos c1]
    exact xonkDelete_grows _ _ _ _
  rw [if_neg c1]
  by_cases c2 : typ = "Remove"
  · rw [if_pos c2]
    exact Grows.refl s
  rw [if_neg c2]
  by_cases c3 : typ = "Tombstone"
  · rw [if_pos c3]
    exact xonkDelete_grows _ _ _ _
  rw [if_neg c3]
  by_cases c4 : typ = "Announce"
  · rw [if_pos c4]
    exact xonkAnnounce_grows W user rec hrec _ _ _ _ hd
  rw [if_neg c4]
  by_cases c5 : typ = "Update"
  · rw [if_pos c5]
    exact xonkCreate_grows W user rec hrec _ _ _ _ _ _ hd
  rw [if_neg c5]
  by_cases c6 : typ = "Create"
  · rw [if_pos c6]
    exact xonkCreate_grows W user rec hrec _ _ _ _ _ _ hd
  rw [if_neg c6]
  by_cases c7 : typ = "Read" ∨ typ = "Add"
  · rw [if_pos c7]
    exact xonkRead_grows W user rec hrec _ _ hd
  rw [if_neg c7]
  by_cases c8 : typ = "Move"
  · rw [if_pos c8]
    exact xonkRecord_grows W user rec hrec _ _ _ _ _ _ _ _ _ hd
  rw [if_neg c8]
  by_cases c9 : typ = "Page" ∨ typ = "Audio" ∨ typ = "Video" ∨ typ = "Image" ∨
      typ = "Question" ∨ typ = "Commit" ∨ typ = "Article" ∨ typ = "Note"
  · rw [if_pos c9]
    exact xonkRecord_grows W user rec hrec _ _ _ _ _ _ _ _ _ hd
  rw [if_neg c9]
  by_cases c10 : typ = "Event"
  · rw [if_pos c10]
    exact xonkRecord_grows W user rec hrec _ _ _ _ _ _ _ _ _ hd
  rw [if_neg c10]
  by_cases c11 : typ = "ChatMessage"
  · rw [if_pos c11]
    exact xonkRecord_grows W user rec hrec _ _ _ _ _ _ _ _ _ hd
  rw [if_neg c11]
  exact Grows.refl s

theorem xonkBody_grows (W : World) (user : WhatAbout) (rec : XonkFn)
    (hrec : ∀ item origin u b m s, Grows s (rec item origin u b m s).2)
    (item : Junk) (origin : String) (isUpdate : Bool) (bonker : String) (myown : Bool)
    (s : XState) :
    Grows s (xonkBody W user rec item origin isUpdate bonker myown s).2 ∧
    ∀ f ∈ (xonkBody W user rec item origin isUpdate bonker myown s).2.fetches,
      f ∈ s.fetches ∨ s.depth < f.depth := by
  unfold xonkBody
  simp only
  split_ifs with h
  · exact ⟨Grows.refl s, fun f hf => Or.inl hf⟩
  · have hg := xonkSwitch_grows W user rec hrec item origin isUpdate bonker myown
      ⟨s.depth + 1, s.currenttid, s.goingup, s.db, s.fetches⟩ (by show s.depth + 1 ≤ _; omega)
    obtain ⟨d1, m1, f1, b1⟩ := hg
    simp only at d1 f1 b1
    constructor
    · refine ⟨by show _ - 1 = _; rw [d1]; omega, m1, f1, ?_⟩
      intro f hf
      obtain ⟨x1, x2, x3⟩ := b1 f hf
      exact ⟨by omega, x2, x3⟩
    · intro f hf
      have hf2 : f ∈ s.fetches ++ m1 := by rw [← f1]; exact hf
      rcases List.mem_append.1 hf2 with hf2 | hf2
      · exact Or.inl hf2
      · exact Or.inr (by have := (b1 f hf2).1; omega)

theorem xonkxonkfn2_grows (W : World) (user : WhatAbout) (n : Nat) :
    ∀ (item : Junk) (origin : String) (u : Bool) (b : String) (m : Bool) (s : XState),
      Grows s (xonkxonkfn2 W user n item origin u b m s).2 := by
  induction n with
  | zero => intro item origin u b m s; exact Grows.refl s
  | succ n ih =>
    intro item origin u b m s
    exact (xonkBody_grows W user _ ih item origin u b m s).1

/-! ## Nested calls run at a higher depth counter -/

theorem saveonemore_agree (W : World) (user : WhatAbout) (rec1 rec2 : XonkFn) (k : Nat)
    (hag : Agree k rec1 rec2) (xid : String) (s : XState) (hk : k ≤ s.depth)
    (hd : s.depth ≤ maxdepth + 5) :
    saveonemore W user rec1 xid s = saveonemore W user rec2 xid s := by
  unfold saveonemore
  split_ifs
  · rfl
  · rcases hg : GetJunkHardMode W user xid s with ⟨_ | obj, s1⟩
    · rfl
    · simp only [xonkxonkfn]
      rw [hag _ _ _ _ _ s1 (by rw [(fetched_grows W user xid s _ s1 hg hd).1]; exact hk)]

theorem qutifyLoop_agree (W : World) (user : WhatAbout) (rec1 rec2 : XonkFn) (k : Nat)
    (hag : Agree k rec1 rec2) (hk : k ≤ maxdepth) (qurl : String) (ms : List String) :
    ∀ (content : String) (s : XState),
      qutifyLoop W user rec1 qurl ms content s = qutifyLoop W user rec2 qurl ms content s := by
  induction ms with
  | nil => intro content s; rfl
  | cons m ms ih =>
    intro content s
    simp only [qutifyLoop]
    cases hx : getxonk s.db user.ID m with
    | some x => exact ih _ _
    | none =>
      rcases hg : GetJunkTimeout W user m false s with ⟨_ | ⟨j, final⟩, s1⟩
      · exact ih _ _
      · simp only [xonkxonkfn]
        rw [hag j (originate final) false "" false _
          (show k ≤ XState.depth ⟨maxdepth, s1.currenttid, s1.goingup, s1.db, s1.fetches⟩
            from hk)]
        exact ih _ _

theorem qutify_agree (W : World) (user : WhatAbout) (rec1 rec2 : XonkFn) (k : Nat)
    (hag : Agree k rec1 rec2) (qurl content : String) (s : XState) (hk : k ≤ s.depth) :
    qutify W user rec1 qurl content s = qutify W user rec2 qurl content s := by
  unfold qutify
  split_ifs with h
  · rfl
  · exact qutifyLoop_agree W user rec1 rec2 k hag (by omega) _ _ _ _

theorem repliesLoop_agree (W : World) (user : WhatAbout) (rec1 rec2 : XonkFn) (k : Nat)
    (hag : Agree k rec1 rec2)
    (hrec : ∀ item origin u b m s, Grows s (rec1 item origin u b m s).2) (l : List String) :
    ∀ s : XState, k ≤ s.depth → s.depth ≤ maxdepth + 5 →
      repliesLoop W user rec1 l s = repliesLoop W user rec2 l s := by
  induction l with
  | nil => intro s _ _; rfl
  | cons r rest ih =>
    intro s hk hd
    simp only [repliesLoop]
    have h1 := saveonemore_grows W user rec1 hrec r s hd
    rw [← saveonemore_agree W user rec1 rec2 k hag r s hk hd]
    split_ifs
    · exact ih _ (by rw [h1.1]; exact hk) (by rw [h1.1]; exact hd)
    · exact ih _ hk hd

theorem parentFetched_agree (W : World) (user : WhatAbout) (rec1 rec2 : XonkFn) (k : Nat)
    (hag : Agree k rec1 rec2) (xonk : Honk) (s : XState) (hk : k ≤ s.depth)
    (hd : s.depth ≤ maxdepth + 5) :
    parentFetched W user rec1 xonk s = parentFetched W user rec2 xonk s := by
  unfold parentFetched
  simp only
  rw [saveonemore_agree W user rec1 rec2 k hag xonk.RID
    ⟨s.depth, s.currenttid, s.goingup + 1, s.db, s.fetches⟩ hk hd]

theorem xonkStore_agree (W : World) (user : WhatAbout) (rec1 rec2 : XonkFn) (k : Nat)
    (hag : Agree k rec1 rec2) (xonk : Honk) (s : XState) (hk : k ≤ s.depth)
    (hd : s.depth ≤ maxdepth + 5) :
    xonkStore W user rec1 xonk s = xonkStore W user rec2 xonk s := by
  unfold xonkStore
  simp only
  rw [saveonemore_agree W user rec1 rec2 k hag xonk.RID
    ⟨s.depth, s.currenttid, s.goingup + 1, s.db, s.fetches⟩ hk hd]

theorem xonkSave_tail_agree (W : World) (user : WhatAbout) (rec1 rec2 : XonkFn) (k : Nat)
    (hag : Agree k rec1 rec2)
    (hrec : ∀ item origin u b m s, Grows s (rec1 item origin u b m s).2)
    (c : Prop) [Decidable c] (x : Honk) (replies : List String) (s : XState)
    (hk : k ≤ s.depth) (hd : s.depth ≤ maxdepth + 5) (r1 r2 : Honk × XState)
    (hr1 : r1 = if c then xonkStore W user rec1 x s else (x, s))
    (hr2 : r2 = if c then xonkStore W user rec2 x s else (x, s)) :
    ((some r1.1, if r1.2.goingup = 0 then repliesLoop W user rec1 replies r1.2 else r1.2) :
      Option Honk × XState) =
    (some r2.1, if r2.2.goingup = 0 then repliesLoop W user rec2 replies r2.2 else r2.2) := by
  have e : r2 = r1 := by
    rw [hr1, hr2, xonkStore_agree W user rec1 rec2 k hag x s hk hd]
  have h1 : Grows s r1.2 := by
    rw [hr1]
    split_ifs
    · exact xonkStore_grows W user rec1 hrec x s hd
    · exact Grows.refl s
  rw [e, repliesLoop_agree W user rec1 rec2 k hag hrec replies r1.2 (by rw [h1.1]; exact hk)
    (by rw [h1.1]; exact hd)]

theorem xonkSave_agree (W : World) (user : WhatAbout) (rec1 rec2 : XonkFn) (k : Nat)
    (hag : Agree k rec1 rec2)
    (hrec : ∀ item origin u b m s, Grows s (rec1 item origin u b m s).2)
    (obj : Junk) (isUpdate myown : Bool) (xonk : Honk) (replies : List String) (s : XState)
    (hk : k ≤ s.depth) (hd : s.depth ≤ maxdepth + 5) :
    xonkSave W user rec1 obj isUpdate myown xonk replies s =
      xonkSave W user rec2 obj isUpdate myown xonk replies s := by
  unfold xonkSave
  by_cases hc : xonk.What = "chonk"
  · rw [if_pos hc, if_pos hc]
  · rw [if_neg hc, if_neg hc]
    simp only
    generalize hprev : (if isUpdate = true then getxonk s.db user.ID xonk.XID else none) = prev
    cases prev with
    | none =>
      exact xonkSave_tail_agree W user rec1 rec2 k hag hrec _ xonk replies s hk hd _ _ rfl rfl
    | some p =>
      exact xonkSave_tail_agree W user rec1 rec2 k hag hrec _ _ replies
        ⟨s.depth, s.currenttid, s.goingup, updatehonk s.db _, s.fetches⟩ hk hd _ _ rfl rfl

theorem xonkRecord_agree (W : World) (user : WhatAbout) (rec1 rec2 : XonkFn) (k : Nat)
    (hag : Agree k rec1 rec2)
    (hrec : ∀ item origin u b m s, Grows s (rec1 item origin u b m s).2)
    (item : Junk) (origin : String) (isUpdate : Bool) (bonker : String) (myown : Bool)
    (what typ : String) (waspage : Bool) (s : XState) (hk : k ≤ s.depth)
    (hd : s.depth ≤ maxdepth + 5) :
    xonkRecord W user rec1 item origin isUpdate bonker myown what typ waspage s =
      xonkRecord W user rec2 item origin isUpdate bonker myown what typ waspage s := by
  have eq := qutify_agree W user rec1 rec2 k hag (item.GetString "quoteUrl").1
    (W.noise typ waspage item) s hk
  unfold xonkRecord
  simp only
  rw [← eq]
  by_cases h1 : (item.GetString "id").1 = ""
  · rw [if_pos h1, if_pos h1]
  · rw [if_neg h1, if_neg h1]
    by_cases h2 : originate (item.GetString "id").1 ≠ origin ∧ ¬ W.develMode = true ∧ origin ≠ ""
    · rw [if_pos h2, if_pos h2]
    · rw [if_neg h2, if_neg h2]
      by_cases h3 : myown = true ∧ honkerOf item ≠ user.URL
      · rw [if_pos h3, if_pos h3]
      · rw [if_neg h3, if_neg h3]
        by_cases h4 : originate (honkerOf item) ≠ origin
        · rw [if_pos h4, if_pos h4]
        · rw [if_neg h4, if_neg h4]
          generalize (if honkerOf item = "" then extractattrto item else honkerOf item) =
            honker1
          generalize (if bonker ≠ "" then bonker else honker1) = honker
          generalize (if bonker ≠ "" then honker1 else "") = oonker0
          generalize (if typ = "Question" ∧ (if bonker ≠ "" then "bonk" else what) = "honk"
            then "qonk" else if bonker ≠ "" then "bonk" else what) = what1
          generalize hq : (if user.InlineQuotes = true then
              qutify W user rec1 (item.GetString "quoteUrl").1 (W.noise typ waspage item) s
            else (W.noise typ waspage item, s)) = q
          have hq1 : Grows s q.2 := by
            rw [← hq]
            split_ifs
            · exact qutify_grows W user rec1 hrec _ _ _
            · exact Grows.refl s
          generalize (if oonker0 = honker then "" else oonker0) = oonker
          generalize hs1 : (if q.2.currenttid = "" then
              ({ q.2 with currenttid := convoyOf item } : XState) else q.2) = s1
          have hs2 : Grows s s1 := by
            rw [← hs1]
            split_ifs
            · exact Grows.side _ hq1 rfl rfl
            · exact hq1
          split_ifs
          · rfl
          · exact xonkSave_agree W user rec1 rec2 k hag hrec _ _ _ _ _ _
              (by rw [hs2.1]; exact hk) (by rw [hs2.1]; exact hd)

theorem xonkAnnounce_agree (W : World) (user : WhatAbout) (rec1 rec2 : XonkFn) (k : Nat)
    (hag : Agree k rec1 rec2) (item : Junk) (origin : String) (isUpdate : Bool) (s : XState)
    (hk : k ≤ s.depth) (hd : s.depth ≤ maxdepth + 5) :
    xonkAnnounce W user rec1 item origin isUpdate s =
      xonkAnnounce W user rec2 item origin isUpdate s := by
  unfold xonkAnnounce
  simp only [xonkxonkfn]
  split_ifs
  · rfl
  · rfl
  · exact hag _ _ _ _ _ _ hk
  · split
    · next s1 heq => rfl
    · next obj s1 heq =>
      exact hag _ _ _ _ _ _ (by rw [(fetched_grows W user _ s _ s1 heq hd).1]; exact hk)

theorem xonkCreate_agree (W : World) (user : WhatAbout) (rec1 rec2 : XonkFn) (k : Nat)
    (hag : Agree k rec1 rec2) (item : Junk) (origin : String) (isUpdate : Bool)
    (bonker : String) (myown : Bool) (s : XState) (hk : k ≤ s.depth)
    (hd : s.depth ≤ maxdepth + 5) :
    xonkCreate W user rec1 item origin isUpdate bonker myown s =
      xonkCreate W user rec2 item origin isUpdate bonker myown s := by
  unfold xonkCreate
  cases item.GetMap "object" with
  | some obj => exact hag _ _ _ _ _ _ hk
  | none =>
    simp only
    split_ifs
    · rfl
    · rcases hg : GetJunkHardMode W user (item.GetString "object").1 s with ⟨_ | obj, s1⟩
      · rfl
      · exact hag _ _ _ _ _ _ (by rw [(fetched_grows W user _ s _ s1 hg hd).1]; exact hk)

theorem xonkRead_agree (W : World) (user : WhatAbout) (rec1 rec2 : XonkFn) (k : Nat)
    (hag : Agree k rec1 rec2) (item : Junk) (s : XState) (hk : k ≤ s.depth)
    (hd : s.depth ≤ maxdepth + 5) :
    xonkRead W user rec1 item s = xonkRead W user rec2 item s := by
  unfold xonkRead
  simp only [xonkxonkfn]
  split_ifs
  · rcases hg : GetJunkHardMode W user (item.GetString "object").1 s with ⟨_ | obj, s1⟩
    · rfl
    · exact hag _ _ _ _ _ _ (by rw [(fetched_grows W user _ s _ s1 hg hd).1]; exact hk)
  · rfl
  · rfl

theorem xonkSwitch_agree (W : World) (user : WhatAbout) (rec1 rec2 : XonkFn) (k : Nat)
    (hag : Agree k rec1 rec2)
    (hrec : ∀ item origin u b m s, Grows s (rec1 item origin u b m s).2)
    (item : Junk) (origin : String) (isUpdate : Bool) (bonker : String) (myown : Bool)
    (s : XState) (hk : k ≤ s.depth) (hd : s.depth ≤ maxdepth + 5) :
    xonkSwitch W user rec1 item origin isUpdate bonker myown s =
      xonkSwitch W user rec2 item origin isUpdate bonker myown s := by
  unfold xonkSwitch
  generalize firstofmany item "type" = typ
  by_cases c1 : typ = "Delete"
  · rw [if_pos c1, if_pos c1]
  rw [if_neg c1, if_neg c1]
  by_cases c2 : typ = "Remove"
  · rw [if_pos c2, if_pos c2]
  rw [if_neg c2, if_neg c2]
  by_cases c3 : typ = "Tombstone"
  · rw [if_pos c3, if_pos c3]
  rw [if_neg c3, if_neg c3]
  by_cases c4 : typ = "Announce"
  · rw [if_pos c4, if_pos c4]
    exact xonkAnnounce_agree W user rec1 rec2 k hag _ _ _ _ hk hd
  rw [if_neg c4, if_neg c4]
  by_cases c5 : typ = "Update"
  · rw [if_pos c5, if_pos c5]
    exact xonkCreate_agree W user rec1 rec2 k hag _ _ _ _ _ _ hk hd
  rw [if_neg c5, if_neg c5]
  by_cases c6 : typ = "Create"
  · rw [if_pos c6, if_pos c6]
    exact xonkCreate_agree W user rec1 rec2 k hag _ _ _ _ _ _ hk hd
  rw [if_neg c6, if_neg c6]
  by_cases c7 : typ = "Read" ∨ typ = "Add"
  · rw [if_pos c7, if_pos c7]
    exact xonkRead_agree W user rec1 rec2 k hag _ _ hk hd
  rw [if_neg c7, if_neg c7]
  by_cases c8 : typ = "Move"
  · rw [if_pos c8, if_pos c8]
    exact xonkRecord_agree W user rec1 rec2 k hag hrec _ _ _ _ _ _ _ _ _ hk hd
  rw [if_neg c8, if_neg c8]
  by_cases c9 : typ = "Page" ∨ typ = "Audio" ∨ typ = "Video" ∨ typ = "Image" ∨
      typ = "Question" ∨ typ = "Commit" ∨ typ = "Article" ∨ typ = "Note"
  · rw [if_pos c9, if_pos c9]
    exact xonkRecord_agree W user rec1 rec2 k hag hrec _ _ _ _ _ _ _ _ _ hk hd
  rw [if_neg c9, if_neg c9]
  by_cases c10 : typ = "Event"
  · rw [if_pos c10, if_pos c10]
    exact xonkRecord_agree W user rec1 rec2 k hag hrec _ _ _ _ _ _ _ _ _ hk hd
  rw [if_neg c10, if_neg c10]
  by_cases c11 : typ = "ChatMessage"
  · rw [if_pos c11, if_pos c11]
    exact xonkRecord_agree W user rec1 rec2 k hag hrec _ _ _ _ _ _ _ _ _ hk hd
  rw [if_neg c11, if_neg c11]

theorem xonkBody_agree (W : World) (user : WhatAbout) (rec1 rec2 : XonkFn)
    (hrec : ∀ item origin u b m s, Grows s (rec1 item origin u b m s).2)
    (item : Junk) (origin : String) (isUpdate : Bool) (bonker : String) (myown : Bool)
    (s : XState) (hag : Agree (s.depth + 1) rec1 rec2) :
    xonkBody W user rec1 item origin isUpdate bonker myown s =
      xonkBody W user rec2 item origin isUpdate bonker myown s := by
  unfold xonkBody
  simp only
  split_ifs with h
  · rfl
  · rw [xonkSwitch_agree W user rec1 rec2 (s.depth + 1) hag hrec item origin isUpdate bonker
      myown ⟨s.depth + 1, s.currenttid, s.goingup, s.db, s.fetches⟩ (Nat.le_refl _)
      (by show s.depth + 1 ≤ _; omega)]

theorem xonkxonkfn2_fuel (W : World) (user : WhatAbout) (n : Nat) :
    ∀ (m : Nat) (item : Junk) (origin : String) (u : Bool) (b : String) (o : Bool)
      (s : XState), maxdepth + 5 ≤ s.depth + n → maxdepth + 5 ≤ s.depth + m →
      xonkxonkfn2 W user n item origin u b o s = xonkxonkfn2 W user m item origin u b o s := by
  have stop : ∀ (m : Nat) (item : Junk) (origin : String) (u : Bool) (b : String) (o : Bool)
      (s : XState), maxdepth + 5 ≤ s.depth →
      xonkxonkfn2 W user m item origin u b o s = (none, s) := by
    intro m item origin u b o s hs
    cases m with
    | zero => rfl
    | succ m =>
      show xonkBody W user _ item origin u b o s = _
      unfold xonkBody
      simp only
      rw [if_pos hs]
  induction n with
  | zero =>
    intro m item origin u b o s hn _
    rw [stop 0 item origin u b o s (by omega), stop m item origin u b o s (by omega)]
  | succ n ih =>
    intro m item origin u b o s hn hm
    cases m with
    | zero =>
      rw [stop _ item origin u b o s (by omega), stop 0 item origin u b o s (by omega)]
    | succ m =>
      exact xonkBody_agree W user _ _ (xonkxonkfn2_grows W user n) item origin u b o s
        (fun item1 origin1 u1 b1 o1 s1 h1 =>
          ih m item1 origin1 u1 b1 o1 s1 (by omega) (by omega))

theorem xonkxonkfn2_stop (W : World) (user : WhatAbout) (n : Nat) (item : Junk)
    (origin : String) (u : Bool) (b : String) (m : Bool) (s : XState)
    (hs : maxdepth + 5 ≤ s.depth) : xonkxonkfn2 W user n item origin u b m s = (none, s) := by
  cases n with
  | zero => rfl
  | succ n =>
    show xonkBody W user _ item origin u b m s = _
    unfold xonkBody
    simp only
    rw [if_pos hs]

theorem xonksaver2_fuel (W : World) (user : WhatAbout) (n : Nat) (item : Junk) (origin : String)
    (myown : Bool) (db : Store) (hn : maxdepth + 5 ≤ n) :
    ((xonkxonkfn2 W user n item origin false "" myown ⟨0, "", 0, db, []⟩).1,
     (xonkxonkfn2 W user n item origin false "" myown ⟨0, "", 0, db, []⟩).2.db,
     (xonkxonkfn2 W user n item origin false "" myown ⟨0, "", 0, db, []⟩).2.fetches) =
      xonksaver2 W user item origin myown db := by
  unfold xonksaver2
  simp only
  rw [xonkxonkfn2_fuel W user n 16 item origin false "" myown ⟨0, "", 0, db, []⟩
    (by show maxdepth + 5 ≤ 0 + n; omega) (by show maxdepth + 5 ≤ 0 + 16; decide)]

theorem xonksaver2_fetch_depth (W : World) (user : WhatAbout) (item : Junk) (origin : String)
    (myown : Bool) (db : Store) (f : Fetch)
    (hf : f ∈ (xonksaver2 W user item origin myown db).2.2) :
    1 ≤ f.depth ∧ f.depth ≤ maxdepth + 5 ∧ (f.hard = false → f.depth < maxdepth) := by
  have hg := xonkBody_grows W user (xonkxonkfn2 W user 15) (xonkxonkfn2_grows W user 15)
    item origin false "" myown ⟨0, "", 0, db, []⟩
  have hf1 : f ∈ (xonkBody W user (xonkxonkfn2 W user 15) item origin false "" myown
      ⟨0, "", 0, db, []⟩).2.fetches := hf
  obtain ⟨⟨-, more, hm, hb⟩, hpos⟩ := hg
  have h1 : 1 ≤ f.depth := by
    rcases hpos f hf1 with h | h
    · cases h
    · exact h
  rw [hm] at hf1
  have h2 := hb f (by simpa using hf1)
  exact ⟨h1, h2.2.1, h2.2.2⟩

theorem loopWorld_depths :
    depthsOf (xonksaver2 loopWorld alice annLoop "a.example" false emptyStore).2.2 =
      [1, 2, 3, 4, 5, 6, 7, 8, 9, 10, 11, 12, 13, 14, 15] := by
  decide!

theorem cycleWorld_depths :
    depthsOf (xonksaver2 cycleWorld alice
      (replyNote "https://a.example/n/a" "https://a.example/n/b") "a.example" false
      emptyStore).2.2 = [1, 2, 3, 4, 5, 6, 7, 8, 9] := by
  decide!

/-- Claim C27: `xonksaver` terminates on every input, whatever documents the
network answers with. The closure `xonkxonkfn2` is modelled with a bound on the
number of nested calls, and the bound is never what ends a run: from a state
with depth counter `d`, any two bounds of at least `15 - d` give the same
result, so with any bound of at least 15 the run from the initial state gives
the result of `xonksaver2`. This is due to the depth counter: every call returns
with the counter at the value it had when the call was made, and a call made at
a counter of 15 (`maxdepth + 5`) or more returns `nil` at once and changes
nothing, so that no more than 15 calls are nested. -/
theorem xonksaver_terminates (W : World) (user : WhatAbout) :
    (∀ (n m : Nat) (item : Junk) (origin : String) (u : Bool) (b : String) (o : Bool)
      (s : XState), maxdepth + 5 ≤ s.depth + n → maxdepth + 5 ≤ s.depth + m →
      xonkxonkfn2 W user n item origin u b o s = xonkxonkfn2 W user m item origin u b o s) ∧
    (∀ (n : Nat) (item : Junk) (origin : String) (myown : Bool) (db : Store), maxdepth + 5 ≤ n →
      ((xonkxonkfn2 W user n item origin false "" myown ⟨0, "", 0, db, []⟩).1,
       (xonkxonkfn2 W user n item origin false "" myown ⟨0, "", 0, db, []⟩).2.db,
       (xonkxonkfn2 W user n item origin false "" myown ⟨0, "", 0, db, []⟩).2.fetches) =
        xonksaver2 W user item origin myown db) ∧
    (∀ (n : Nat) (item : Junk) (origin : String) (u : Bool) (b : String) (o : Bool)
      (s : XState), (xonkxonkfn2 W user n item origin u b o s).2.depth = s.depth) ∧
    (∀ (n : Nat) (item : Junk) (origin : String) (u : Bool) (b : String) (o : Bool)
      (s : XState), maxdepth + 5 ≤ s.depth →
      xonkxonkfn2 W user n item origin u b o s = (none, s)) ∧
    (∀ (rec : XonkFn) (item : Junk) (origin : String) (u : Bool) (b : String) (o : Bool)
      (s : XState), s.depth < maxdepth + 5 →
      (∀ item1 origin1 u1 b1 o1 s1, Grows s1 (rec item1 origin1 u1 b1 o1 s1).2) →
      xonkBody W user rec item origin u b o s =
        ((xonkSwitch W user rec item origin u b o
            ⟨s.depth + 1, s.currenttid, s.goingup, s.db, s.fetches⟩).1,
         ⟨s.depth,
          (xonkSwitch W user rec item origin u b o
            ⟨s.depth + 1, s.currenttid, s.goingup, s.db, s.fetches⟩).2.currenttid,
          (xonkSwitch W user rec item origin u b o
            ⟨s.depth + 1, s.currenttid, s.goingup, s.db, s.fetches⟩).2.goingup,
          (xonkSwitch W user rec item origin u b o
            ⟨s.depth + 1, s.currenttid, s.goingup, s.db, s.fetches⟩).2.db,
          (xonkSwitch W user rec item origin u b o
            ⟨s.depth + 1, s.currenttid, s.goingup, s.db, s.fetches⟩).2.fetches⟩)) := by
  refine ⟨fun n m item origin u b o s hn hm =>
      xonkxonkfn2_fuel W user n m item origin u b o s hn hm,
    fun n item origin myown db hn => xonksaver2_fuel W user n item origin myown db hn,
    fun n item origin u b o s => (xonkxonkfn2_grows W user n item origin u b o s).1,
    fun n item origin u b o s hs => xonkxonkfn2_stop W user n item origin u b o s hs, ?_⟩
  intro rec item origin u b o s hs hrec
  have hg := xonkSwitch_grows W user rec hrec item origin u b o
    ⟨s.depth + 1, s.currenttid, s.goingup, s.db, s.fetches⟩ (by show s.depth + 1 ≤ _; omega)
  have hd : (xonkSwitch W user rec item origin u b o
      ⟨s.depth + 1, s.currenttid, s.goingup, s.db, s.fetches⟩).2.depth = s.depth + 1 := hg.1
  unfold xonkBody
  simp only
  rw [if_neg (by omega), hd]
  rfl

/-- Claim C27 at a cyclic graph: in the network `loopWorld` every fetch is
answered with an `Announce` of itself; the run with a bound of 40 nested calls
is the run of `xonksaver2`, which makes fifteen fetches, at the depth counters
1 to 15, and returns `nil`. -/
theorem xonksaver_terminates_witness :
    ((xonkxonkfn2 loopWorld alice 40 annLoop "a.example" false "" false
        ⟨0, "", 0, emptyStore, []⟩).1,
     (xonkxonkfn2 loopWorld alice 40 annLoop "a.example" false "" false
        ⟨0, "", 0, emptyStore, []⟩).2.db,
     (xonkxonkfn2 loopWorld alice 40 annLoop "a.example" false "" false
        ⟨0, "", 0, emptyStore, []⟩).2.fetches) =
      xonksaver2 loopWorld alice annLoop "a.example" false emptyStore ∧
    depthsOf (xonksaver2 loopWorld alice annLoop "a.example" false emptyStore).2.2 =
      [1, 2, 3, 4, 5, 6, 7, 8, 9, 10, 11, 12, 13, 14, 15] :=
  ⟨(xonksaver_terminates loopWorld alice).2.1 40 annLoop "a.example" false emptyStore
    (by decide), loopWorld_depths⟩

/-- Claim C28 as stated fails: the `Announce` `annLoop` names itself as its
object and the network answers every fetch with it. `xonksaver` fetches the
announced object once at each depth counter from 1 to 15, six times while the
counter is 10 or more. -/
theorem xonksaver_fetches_past_maxdepth :
    depthsOf (xonksaver loopWorld alice annLoop "a.example" emptyStore).2.2 =
      [1, 2, 3, 4, 5, 6, 7, 8, 9, 10, 11, 12, 13, 14, 15] ∧
    ∃ f ∈ (xonksaver loopWorld alice annLoop "a.example" emptyStore).2.2, maxdepth ≤ f.depth := by
  have h := loopWorld_depths
  refine ⟨h, ?_⟩
  have hm : 10 ∈ depthsOf (xonksaver2 loopWorld alice annLoop "a.example" false emptyStore).2.2 := by
    rw [h]
    decide
  obtain ⟨f, hf, hd⟩ := List.mem_map.1 hm
  exact ⟨f, hf, by rw [hd]; decide⟩

/-- Claim C28, amended: during `xonksaver` every object fetch is started at a
depth counter between 1 and 15 (`maxdepth + 5`). The fetches of `qutify` (the
quoted objects, the only ones not made through `GetJunkHardMode`) are started
at a counter below 10, and `saveonemore`, through which parents and replies are
fetched, and `qutify` fetch nothing and call nothing once the counter is 10 or
more. The fetches of the cases `Announce`, `Create`, `Update`, `Read` and `Add`
are made without a look at the counter. -/
theorem xonksaver_fetch_depth (W : World) (user : WhatAbout) (item : Junk) (origin : String)
    (myown : Bool) (db : Store) :
    (∀ f ∈ (xonksaver2 W user item origin myown db).2.2,
      1 ≤ f.depth ∧ f.depth ≤ maxdepth + 5 ∧ (f.hard = false → f.depth < maxdepth)) ∧
    (∀ (rec : XonkFn) (xid : String) (s : XState), maxdepth ≤ s.depth →
      saveonemore W user rec xid s = s) ∧
    (∀ (rec : XonkFn) (qurl content : String) (s : XState), maxdepth ≤ s.depth →
      qutify W user rec qurl content s = (content, s)) := by
  refine ⟨fun f hf => xonksaver2_fetch_depth W user item origin myown db f hf, ?_, ?_⟩
  · intro rec xid s hs
    unfold saveonemore
    rw [if_pos hs]
  · intro rec qurl content s hs
    unfold qutify
    rw [if_pos hs]

/-- Claim C28, amended, at a cycle of replies: in the network `cycleWorld` two
notes are each in reply to the other; `xonksaver` fetches a parent at each depth
counter from 1 to 9 and none at 10. -/
theorem xonksaver_fetch_depth_witness :
    depthsOf (xonksaver2 cycleWorld alice
      (replyNote "https://a.example/n/a" "https://a.example/n/b") "a.example" false
      emptyStore).2.2 = [1, 2, 3, 4, 5, 6, 7, 8, 9] ∧
    ∀ f ∈ (xonksaver2 cycleWorld alice
      (replyNote "https://a.example/n/a" "https://a.example/n/b") "a.example" false
      emptyStore).2.2,
      1 ≤ f.depth ∧ f.depth ≤ maxdepth + 5 ∧ (f.hard = false → f.depth < maxdepth) :=
  ⟨cycleWorld_depths, (xonksaver_fetch_depth cycleWorld alice
    (replyNote "https://a.example/n/a" "https://a.example/n/b") "a.example" false
    emptyStore).1⟩

end HonkCore
